import Mathlib

/-! Resource caching, work queue, record lists and spell casting of OpenMW:
embedding and verification.

Sources embedded here:

* `components/sceneutil/workqueue.cpp`  (namespace `SceneUtil`)
* `components/resource/scenemanager.cpp` and
  `components/resource/bulletshapemanager.cpp`  (namespace `Resource`)
* `components/esm_store/reclists.hpp`  (namespace `ESMS`)
* `apps/openmw/mwmechanics/spellcasting.cpp`  (namespace `MWMechanics`)

Heap objects (`osg::ref_ptr` targets) are named by a natural number, their
address; two handles denote the same object exactly when the numbers agree.
The C type `float` is IEEE-754 binary32: a finite float is the rational
number it denotes, and every conversion and arithmetic operation rounds to
the nearest number of the format, ties to even.
-/

set_option autoImplicit false

/-! # Part I: the embedding (definitions) -/
namespace SceneUtil

/-! ## workqueue.cpp -/

/-- A `WorkItem` as far as the queue is concerned: the atomic `mDone` counter,
zero on construction. -/
structure WorkItem where
  mDone : Nat
deriving DecidableEq, Repr

/-- `WorkItem::isDone`: `return (mDone > 0);` -/
def WorkItem.isDone (w : WorkItem) : Bool :=
  decide (w.mDone > 0)

/-- `WorkItem::signalDone`: `mDone.exchange(1)` under the item mutex (the
broadcast that follows changes no data). -/
def WorkItem.signalDone (_w : WorkItem) : WorkItem :=
  { mDone := 1 }

/-- The work items that exist, by address. -/
abbrev Items := Nat → WorkItem

/-- Every item as its constructor leaves it. -/
def Items.fresh : Items :=
  fun _ => { mDone := 0 }

/-- Replace the item stored at address `p`. -/
def Items.set (items : Items) (p : Nat) (w : WorkItem) : Items :=
  fun x => if x = p then w else items x

/-- The data members of `WorkQueue` that its mutex protects: `mQueue`
(front of the `std::queue` first, entries are item addresses) and
`mIsReleased`. -/
structure WorkQueue where
  mQueue : List Nat
  mIsReleased : Bool
deriving DecidableEq, Repr

/-- The queue part of the constructor `WorkQueue::WorkQueue`: nothing queued,
`mIsReleased(false)`. -/
def WorkQueue.new : WorkQueue :=
  { mQueue := [], mIsReleased := false }

/-- The line written to `std::cerr` by `addWorkItem` for a completed item. -/
def addWorkItemWarning : String :=
  "warning, trying to add a work item that is already completed"

/-- `WorkQueue::addWorkItem`.  Returns the queue and what was written to
`std::cerr`. -/
def WorkQueue.addWorkItem (items : Items) (item : Nat) (q : WorkQueue) :
    WorkQueue × List String :=
  if (items item).isDone then
    (q, [addWorkItemWarning])
  else
    ({ q with mQueue := q.mQueue ++ [item] }, [])

/-- What a call of `removeWorkItem` does for its caller: it stays inside
`mCondition.wait`, or returns an item, or returns `NULL`. -/
inductive Removed where
  | wait
  | item (p : Nat)
  | null
deriving DecidableEq, Repr

/-- `WorkQueue::removeWorkItem`, one pass with the mutex held: while the
queue is empty and not released the caller waits; otherwise the front item
is popped and returned if there is one, and `NULL` is returned if not. -/
def WorkQueue.removeWorkItem (q : WorkQueue) : Removed × WorkQueue :=
  if q.mQueue.isEmpty && !q.mIsReleased then
    (Removed.wait, q)
  else
    match q.mQueue with
    | item :: rest => (Removed.item item, { q with mQueue := rest })
    | [] => (Removed.null, q)

/-- The critical section of `WorkQueue::~WorkQueue`: pop until empty, set
`mIsReleased`, broadcast. -/
def WorkQueue.release (_q : WorkQueue) : WorkQueue :=
  { mQueue := [], mIsReleased := true }

/-- Program points of `WorkThread::run`: about to call `removeWorkItem`,
about to call `doWork` on the item obtained, about to call `signalDone` on
it, returned. -/
inductive Phase where
  | WAIT_FOR_ITEM
  | EXECUTE (item : Nat)
  | SIGNAL_DONE (item : Nat)
  | EXIT
deriving DecidableEq, Repr

/-- A queue together with its worker threads and the work items.  `workLog`
records every `doWork` call in the order made and `dequeueLog` every item
returned by `removeWorkItem` with the thread that received it; neither is
read by the code. -/
structure System where
  queue : WorkQueue
  items : Items
  mThreads : List Phase
  workLog : List Nat
  dequeueLog : List (Nat × Nat)

/-- State after `WorkQueue::WorkQueue(workerThreads)`: that many threads
started, no item done. -/
def System.new (workerThreads : Nat) : System :=
  { queue := WorkQueue.new
    items := Items.fresh
    mThreads := List.replicate workerThreads Phase.WAIT_FOR_ITEM
    workLog := []
    dequeueLog := [] }

/-- One atomic move of the whole system: a producer calls `addWorkItem`,
worker thread number `thread` advances to its next program point, or the
owner runs the critical section of the destructor. -/
inductive Action where
  | addWorkItem (item : Nat)
  | step (thread : Nat)
  | destroy
deriving DecidableEq, Repr

/-- Worker thread `t` advances by one program point of `WorkThread::run`. -/
def WorkThread.run (t : Nat) (s : System) : System :=
  match s.mThreads[t]? with
  | none => s
  | some Phase.WAIT_FOR_ITEM =>
    match s.queue.removeWorkItem with
    | (Removed.wait, _) => s
    | (Removed.item p, q) =>
      { s with queue := q
               mThreads := s.mThreads.set t (Phase.EXECUTE p)
               dequeueLog := s.dequeueLog ++ [(t, p)] }
    | (Removed.null, q) =>
      { s with queue := q, mThreads := s.mThreads.set t Phase.EXIT }
  | some (Phase.EXECUTE p) =>
    { s with workLog := s.workLog ++ [p]
             mThreads := s.mThreads.set t (Phase.SIGNAL_DONE p) }
  | some (Phase.SIGNAL_DONE p) =>
    { s with items := s.items.set p (s.items p).signalDone
             mThreads := s.mThreads.set t Phase.WAIT_FOR_ITEM }
  | some Phase.EXIT => s

/-- Effect of one action. -/
def System.step (s : System) : Action → System
  | Action.addWorkItem item => { s with queue := (s.queue.addWorkItem s.items item).1 }
  | Action.step t => WorkThread.run t s
  | Action.destroy => { s with queue := s.queue.release }

/-- Effect of a sequence of actions, first action first. -/
def System.run (s : System) (acts : List Action) : System :=
  acts.foldl System.step s

/-- The items passed to `addWorkItem` in a sequence of actions, in order. -/
def submitted (acts : List Action) : List Nat :=
  acts.filterMap fun a =>
    match a with
    | Action.addWorkItem p => some p
    | _ => none

/-- Is the action a call of `addWorkItem`? -/
def Action.isAdd : Action → Bool
  | Action.addWorkItem _ => true
  | _ => false

/-- Submit the items one after the other with `addWorkItem`. -/
def WorkQueue.addAll (items : Items) (ps : List Nat) (q : WorkQueue) : WorkQueue :=
  ps.foldl (fun q p => (q.addWorkItem items p).1) q

/-- Call `removeWorkItem` `n` times in a row, collecting what each call
gives. -/
def WorkQueue.removeN : Nat → WorkQueue → List Removed × WorkQueue
  | 0, q => ([], q)
  | n + 1, q =>
    let r := q.removeWorkItem
    let rest := WorkQueue.removeN n r.2
    (r.1 :: rest.1, rest.2)

/-- What holds in every state reached when no item is submitted twice;
`subs` are the items submitted so far. -/
structure Inv (subs : List Nat) (s : System) : Prop where
  fresh : (s.queue.mQueue ++ s.dequeueLog.map Prod.snd).Nodup
  sub : ∀ p ∈ s.queue.mQueue ++ s.dequeueLog.map Prod.snd, p ∈ subs
  exec : ∀ t p, s.mThreads[t]? = some (Phase.EXECUTE p) →
    (t, p) ∈ s.dequeueLog ∧ p ∉ s.workLog
  sig : ∀ t p, s.mThreads[t]? = some (Phase.SIGNAL_DONE p) →
    (t, p) ∈ s.dequeueLog ∧ p ∈ s.workLog ∧ (s.items p).isDone = false
  logNodup : s.workLog.Nodup
  logDeq : ∀ p ∈ s.workLog, p ∈ s.dequeueLog.map Prod.snd
  done : ∀ p, (s.items p).isDone = true → p ∈ s.workLog
  owner : ∀ t p, (t, p) ∈ s.dequeueLog →
    (s.items p).isDone = true ∨ s.mThreads[t]? = some (Phase.EXECUTE p) ∨
      s.mThreads[t]? = some (Phase.SIGNAL_DONE p)

end SceneUtil

namespace SceneUtil

/-! ## workqueue.cpp: the completion signal of a work item -/

/-- `WorkItem::waitTillDone` for a caller that runs alone: with `mDone > 0`
it returns at once and the item is as before; otherwise the caller locks
and, the loop test `mDone == 0` holding, waits, and since nobody else runs
it does not return (`none`). -/
def WorkItem.waitTillDone (w : WorkItem) : Option WorkItem :=
  if w.mDone > 0 then some w
  else if w.mDone = 0 then none
  else some w

/-- The three public operations on a work item. -/
inductive ItemCall where
  | isDone
  | waitTillDone
  | signalDone
deriving DecidableEq, Repr

/-- The item after one call made by a caller that runs alone, `none` when the
call does not return. -/
def WorkItem.call (w : WorkItem) : ItemCall → Option WorkItem
  | ItemCall.isDone => some w
  | ItemCall.waitTillDone => w.waitTillDone
  | ItemCall.signalDone => some w.signalDone

/-- The item after a sequence of calls, first call first, `none` when one of
them does not return. -/
def WorkItem.calls (w : WorkItem) : List ItemCall → Option WorkItem
  | [] => some w
  | c :: cs =>
    match w.call c with
    | some w1 => WorkItem.calls w1 cs
    | none => none

/-- Program points of a thread inside `waitTillDone`: about to test
`mDone > 0`; about to take the mutex; holding the mutex and about to test
the loop condition `mDone == 0`; asleep inside `mCondition.wait`, the mutex
given up; woken inside `mCondition.wait` and about to take the mutex back;
returned. -/
inductive WaitPhase where
  | ENTRY
  | LOCK
  | LOOP
  | WAIT
  | WOKEN
  | RETURNED
deriving DecidableEq, Repr

/-- Program points of a thread inside `signalDone`: about to take the mutex;
holding it and about to do `mDone.exchange(1)`; about to give the mutex up
at the end of the block; about to call `mCondition.broadcast`; returned. -/
inductive SignalPhase where
  | LOCK
  | EXCHANGE
  | UNLOCK
  | BROADCAST
  | RETURNED
deriving DecidableEq, Repr

/-- One work item with the threads that are inside `waitTillDone` and
`signalDone` on it. -/
structure ItemSystem where
  item : WorkItem
  waiters : List WaitPhase
  signallers : List SignalPhase
deriving DecidableEq, Repr

/-- A newly constructed item on which no call has been made. -/
def ItemSystem.new : ItemSystem :=
  { item := { mDone := 0 }, waiters := [], signallers := [] }

/-- Whether `mMutex` is held: some waiter is at the loop test, or some
signaller is between taking the mutex and giving it up. -/
def ItemSystem.locked (s : ItemSystem) : Bool :=
  s.waiters.any (fun p => p = WaitPhase.LOOP) ||
    s.signallers.any (fun p => p = SignalPhase.EXCHANGE || p = SignalPhase.UNLOCK)

/-- One atomic move: a new thread calls `waitTillDone` or `signalDone`, a
thread inside one of them advances to its next program point, or a sleeping
waiter wakes up without a broadcast, as condition variables allow. -/
inductive ItemAction where
  | callWaitTillDone
  | callSignalDone
  | waiter (i : Nat)
  | signaller (j : Nat)
  | spuriousWake (i : Nat)
deriving DecidableEq, Repr

/-- Waiter `i` advances by one program point of `waitTillDone`. -/
def ItemSystem.stepWaiter (i : Nat) (s : ItemSystem) : ItemSystem :=
  match s.waiters[i]? with
  | none => s
  | some WaitPhase.ENTRY =>
    if s.item.mDone > 0 then { s with waiters := s.waiters.set i WaitPhase.RETURNED }
    else { s with waiters := s.waiters.set i WaitPhase.LOCK }
  | some WaitPhase.LOCK =>
    if s.locked then s else { s with waiters := s.waiters.set i WaitPhase.LOOP }
  | some WaitPhase.LOOP =>
    if s.item.mDone = 0 then { s with waiters := s.waiters.set i WaitPhase.WAIT }
    else { s with waiters := s.waiters.set i WaitPhase.RETURNED }
  | some WaitPhase.WAIT => s
  | some WaitPhase.WOKEN =>
    if s.locked then s else { s with waiters := s.waiters.set i WaitPhase.LOOP }
  | some WaitPhase.RETURNED => s

/-- `mCondition.broadcast()`: every sleeping waiter is woken. -/
def broadcast (waiters : List WaitPhase) : List WaitPhase :=
  waiters.map fun p => if p = WaitPhase.WAIT then WaitPhase.WOKEN else p

/-- Signaller `j` advances by one program point of `signalDone`. -/
def ItemSystem.stepSignaller (j : Nat) (s : ItemSystem) : ItemSystem :=
  match s.signallers[j]? with
  | none => s
  | some SignalPhase.LOCK =>
    if s.locked then s else { s with signallers := s.signallers.set j SignalPhase.EXCHANGE }
  | some SignalPhase.EXCHANGE =>
    { s with item := s.item.signalDone, signallers := s.signallers.set j SignalPhase.UNLOCK }
  | some SignalPhase.UNLOCK =>
    { s with signallers := s.signallers.set j SignalPhase.BROADCAST }
  | some SignalPhase.BROADCAST =>
    { s with waiters := broadcast s.waiters
             signallers := s.signallers.set j SignalPhase.RETURNED }
  | some SignalPhase.RETURNED => s

/-- Effect of one action. -/
def ItemSystem.step (s : ItemSystem) : ItemAction → ItemSystem
  | ItemAction.callWaitTillDone => { s with waiters := s.waiters ++ [WaitPhase.ENTRY] }
  | ItemAction.callSignalDone => { s with signallers := s.signallers ++ [SignalPhase.LOCK] }
  | ItemAction.waiter i => s.stepWaiter i
  | ItemAction.signaller j => s.stepSignaller j
  | ItemAction.spuriousWake i =>
    match s.waiters[i]? with
    | some WaitPhase.WAIT => { s with waiters := s.waiters.set i WaitPhase.WOKEN }
    | _ => s

/-- Effect of a sequence of actions, first action first. -/
def ItemSystem.run (s : ItemSystem) (acts : List ItemAction) : ItemSystem :=
  acts.foldl ItemSystem.step s

/-- The wait loop as the claim describes it, for comparison with
`stepWaiter`: where a waiter that finds the flag unset is after its next
move.  From the entry test it goes to the lock; from the lock, and from a
wake-up, to the loop test as soon as the mutex is free; from the loop test
to sleep; asleep it stays. -/
def waitLoopNext (locked : Bool) : WaitPhase → WaitPhase
  | WaitPhase.ENTRY => WaitPhase.LOCK
  | WaitPhase.LOCK => if locked then WaitPhase.LOCK else WaitPhase.LOOP
  | WaitPhase.LOOP => WaitPhase.WAIT
  | WaitPhase.WAIT => WaitPhase.WAIT
  | WaitPhase.WOKEN => if locked then WaitPhase.WOKEN else WaitPhase.LOOP
  | WaitPhase.RETURNED => WaitPhase.RETURNED

/-- What holds in every state reached from a new item: a waiter has returned
only if the flag is set; and if the flag is set while a waiter still sleeps,
some signaller has set the flag and not yet broadcast. -/
structure ItemInv (s : ItemSystem) : Prop where
  returned : ∀ i : Nat, s.waiters[i]? = some WaitPhase.RETURNED → s.item.isDone = true
  setBy : s.item.isDone = true →
    ∃ j : Nat, s.signallers[j]? = some SignalPhase.UNLOCK ∨
      s.signallers[j]? = some SignalPhase.BROADCAST ∨
      s.signallers[j]? = some SignalPhase.RETURNED
  wake : s.item.isDone = true → (∃ i : Nat, s.waiters[i]? = some WaitPhase.WAIT) →
    ∃ j : Nat, s.signallers[j]? = some SignalPhase.UNLOCK ∨
      s.signallers[j]? = some SignalPhase.BROADCAST

end SceneUtil

namespace Resource

/-! ## Scene graph objects

`osg` is an external library.  A node is described by what the managers and
`NodeToShapeVisitor` look at: its address, the shape of the graph below it
(groups, geodes with their drawables, drawables placed directly in the
graph), the visitors it has accepted, and the user objects in its
`UserDataContainer`. -/

/-- The values of `osg::Texture::FilterMode`. -/
inductive FilterMode where
  | LINEAR
  | LINEAR_MIPMAP_LINEAR
  | LINEAR_MIPMAP_NEAREST
  | NEAREST
  | NEAREST_MIPMAP_LINEAR
  | NEAREST_MIPMAP_NEAREST
deriving DecidableEq, Repr

/-- An `osg::Drawable`: the triangles its `accept(functor)` reports, each
named by a number. -/
structure Drawable where
  triangles : List Nat
deriving DecidableEq, Repr

/-- The graph below a node. -/
inductive SceneGraph where
  | group (children : List SceneGraph)
  | geode (drawables : List Drawable)
  | drawable (d : Drawable)
deriving Repr

mutual
/-- Equality of scene graphs is decidable. -/
def SceneGraph.decEq : (a b : SceneGraph) → Decidable (a = b)
  | .group as, .group bs =>
    match SceneGraph.decEqList as bs with
    | isTrue h => isTrue (by rw [h])
    | isFalse h => isFalse (by intro e; cases e; exact h rfl)
  | .geode as, .geode bs =>
    if h : as = bs then isTrue (by rw [h]) else isFalse (by intro e; cases e; exact h rfl)
  | .drawable a, .drawable b =>
    if h : a = b then isTrue (by rw [h]) else isFalse (by intro e; cases e; exact h rfl)
  | .group _, .geode _ => isFalse (by intro e; cases e)
  | .group _, .drawable _ => isFalse (by intro e; cases e)
  | .geode _, .group _ => isFalse (by intro e; cases e)
  | .geode _, .drawable _ => isFalse (by intro e; cases e)
  | .drawable _, .group _ => isFalse (by intro e; cases e)
  | .drawable _, .geode _ => isFalse (by intro e; cases e)
/-- Equality of lists of scene graphs is decidable. -/
def SceneGraph.decEqList : (a b : List SceneGraph) → Decidable (a = b)
  | [], [] => isTrue rfl
  | [], _ :: _ => isFalse (by intro e; cases e)
  | _ :: _, [] => isFalse (by intro e; cases e)
  | a :: as, b :: bs =>
    match SceneGraph.decEq a b, SceneGraph.decEqList as bs with
    | isTrue h, isTrue k => isTrue (by rw [h, k])
    | isFalse h, _ => isFalse (by intro e; cases e; exact h rfl)
    | _, isFalse k => isFalse (by intro e; cases e; exact k rfl)
end

instance : DecidableEq SceneGraph := SceneGraph.decEq

/-- A visitor pass a node has accepted.  What the pass does to the textures
below the node is not modelled; the node records the pass and its
parameters. -/
inductive Pass where
  | SetFilterSettingsVisitor (minFilter magFilter : FilterMode) (maxAnisotropy : Int)
  | SetFilterSettingsControllerVisitor (minFilter magFilter : FilterMode) (maxAnisotropy : Int)
  | share
deriving DecidableEq, Repr

/-- An `osg::Node` on the heap. -/
structure Node where
  id : Nat
  graph : SceneGraph
  passes : List Pass
  userData : List Nat
deriving DecidableEq, Repr

/-- `node->accept(visitor)` for the passes that are recorded. -/
def Node.accept (n : Node) (p : Pass) : Node :=
  { n with passes := n.passes ++ [p] }

/-! ## ObjectCache and MultiObjectCache -/

/-- Modelled from the spec: `ObjectCache` (objectcache.hpp and objectcache.cpp
are not among the sources), section 4.3.  A mapping from key to one shared
handle; the handle may be the null sentinel, written `none`.  The
last-used timestamp of the spec is left out: by section 4.3 eviction is
reference-driven and the timestamp decides nothing. -/
structure ObjectCache (α : Type) where
  entries : List (String × Option α)

/-- Modelled from the spec: the empty cache, also what `clear()` leaves
(section 4.3, "unconditionally empties the cache"). -/
def ObjectCache.clear {α : Type} (_c : ObjectCache α) : ObjectCache α :=
  { entries := [] }

/-- Modelled from the spec: `getRefFromObjectCache(key)`, section 4.3: on a
hit the stored handle, on a miss empty.  The callers in the sources receive
the result as an `osg::ref_ptr<osg::Object>`, so a stored null sentinel and
a miss both arrive as the null handle `none`. -/
def ObjectCache.getRefFromObjectCache {α : Type} (c : ObjectCache α) (key : String) :
    Option α :=
  match c.entries.lookup key with
  | some handle => handle
  | none => none

/-- Modelled from the spec: `addEntryToObjectCache(key, object)`, section 4.3
and section 3: insert, replacing an entry already stored under the key. -/
def ObjectCache.addEntryToObjectCache {α : Type} (c : ObjectCache α) (key : String)
    (object : Option α) : ObjectCache α :=
  { entries := (key, object) :: c.entries.filter (fun e => e.1 != key) }

/-- Modelled from the spec: `removeUnreferencedObjectsInCache()` of
`ObjectCache`, section 4.3: an entry is removed when the shared-ownership
count of its object is exactly 1, that is when only the cache holds it.  A
null sentinel has no object to count and stays. -/
def ObjectCache.removeUnreferencedObjectsInCache {α : Type} (c : ObjectCache α)
    (referenceCount : α → Nat) : ObjectCache α :=
  { entries := c.entries.filter fun e =>
      match e.2 with
      | some obj => referenceCount obj != 1
      | none => true }

/-- Modelled from the spec: `MultiObjectCache` (multiobjectcache.hpp and
multiobjectcache.cpp are not among the sources), section 4.4 and section 3:
for each key an ordered collection of instances, kept here as one list of
(key, handle) pairs in insertion order. -/
structure MultiObjectCache (α : Type) where
  entries : List (String × Option α)

/-- Modelled from the spec: `addEntryToObjectCache(key, instance)` of
`MultiObjectCache`, section 4.4: append to the key's pool. -/
def MultiObjectCache.addEntryToObjectCache {α : Type} (c : MultiObjectCache α)
    (key : String) (instance_ : Option α) : MultiObjectCache α :=
  { entries := c.entries ++ [(key, instance_)] }

/-- Remove the first entry stored under `key`, returning its handle. -/
def MultiObjectCache.takeFirst {α : Type} (key : String) :
    List (String × Option α) → Option (Option α × List (String × Option α))
  | [] => none
  | e :: rest =>
    if e.1 = key then some (e.2, rest)
    else
      match MultiObjectCache.takeFirst key rest with
      | some (h, rest2) => some (h, e :: rest2)
      | none => none

/-- Modelled from the spec: `takeFromObjectCache(key)`, section 4.4: pop and
return one instance of the key's pool, empty when the key has none.  The
spec leaves open which one; the oldest is taken. -/
def MultiObjectCache.takeFromObjectCache {α : Type} (c : MultiObjectCache α)
    (key : String) : Option α × MultiObjectCache α :=
  match MultiObjectCache.takeFirst key c.entries with
  | some (handle, rest) => (handle, { entries := rest })
  | none => (none, c)

/-- Modelled from the spec: `removeUnreferencedObjectsInCache()` of
`MultiObjectCache`, section 4.4: drop the pool members whose reference count
is 1, held by the pool alone. -/
def MultiObjectCache.removeUnreferencedObjectsInCache {α : Type} (c : MultiObjectCache α)
    (referenceCount : α → Nat) : MultiObjectCache α :=
  { entries := c.entries.filter fun e =>
      match e.2 with
      | some obj => referenceCount obj != 1
      | none => true }

/-- The objects a list of handles refers to, null handles skipped. -/
def objectsOf {α : Type} (entries : List (String × Option α)) : List α :=
  entries.filterMap fun e => e.2

end Resource

namespace Resource

/-! ## scenemanager.cpp -/

/-- A stream opened by the virtual file system: the bytes of the file. -/
abbrev IStream := List Nat

/-- A parsed NIF file as `NifFileManager::get` hands it out. -/
abbrev NifFile := List Nat

/-- An `osgDB::ReaderWriter::ReadResult` of `readNode`: loaded with the node
read (`success()` holds, `getNode()` is the node), or not loaded with
`message()` and `status()`. -/
inductive ReadResult where
  | loaded (node : SceneGraph)
  | failed (message : String) (status : Int)
deriving Repr

deriving instance DecidableEq for Except

/-- The collaborators the managers call: the virtual file system
(`normalizeFilename`, `exists`, `get`, the last throwing for a file it
cannot open), the NIF file manager, the NIF loaders for scene graphs and
for collision shapes, and the registry of `osgDB` readers by extension. -/
structure Env where
  normalizeFilename : String → String
  vfsExists : String → Bool
  vfsGet : String → Except String IStream
  nifFileGet : String → Except String NifFile
  nifLoad : NifFile → Except String SceneGraph
  bulletNifLoad : NifFile → Except String (List Nat)
  getReaderWriterForExtension : String → Option (IStream → ReadResult)

/-- `std::string::find_last_of(c)`: position of the last occurrence of `c`,
`none` for `npos`. -/
def find_last_of : List Char → Char → Option Nat
  | [], _ => none
  | x :: xs, c =>
    match find_last_of xs c with
    | some i => some (i + 1)
    | none => if x = c then some 0 else none

/-- `getFileExtension`. -/
def getFileExtension (file : String) : String :=
  match find_last_of file.data '.' with
  | some extPos =>
    if extPos + 1 < file.data.length then String.mk (file.data.drop (extPos + 1))
    else ""
  | none => ""

/-- The part of the heap the model tracks: the next unused address, and a
record of every call of `load` by the file name passed (not read by the
code). -/
structure Heap where
  nextAddress : Nat
  loadLog : List String
deriving DecidableEq, Repr

/-- A node newly built by a loader, at the next unused address. -/
def Heap.newNode (h : Heap) (graph : SceneGraph) : Node × Heap :=
  ({ id := h.nextAddress, graph := graph, passes := [], userData := [] },
    { h with nextAddress := h.nextAddress + 1 })

/-- The free function `load` of scenemanager.cpp.  On success the node is a
new object. -/
def load (env : Env) (file : IStream) (normalizedFilename : String) (h : Heap) :
    Except String Node × Heap :=
  let h1 : Heap := { h with loadLog := h.loadLog ++ [normalizedFilename] }
  let ext := getFileExtension normalizedFilename
  if ext = "nif" then
    match env.nifFileGet normalizedFilename with
    | Except.error e => (Except.error e, h1)
    | Except.ok nif =>
      match env.nifLoad nif with
      | Except.error e => (Except.error e, h1)
      | Except.ok graph => ((Except.ok (h1.newNode graph).1), (h1.newNode graph).2)
  else
    match env.getReaderWriterForExtension ext with
    | none =>
      (Except.error
        ("Error loading " ++ normalizedFilename ++ ": no readerwriter for '" ++ ext ++
          "' found\n"), h1)
    | some reader =>
      match reader file with
      | ReadResult.failed message status =>
        (Except.error
          ("Error loading " ++ normalizedFilename ++ ": " ++ message ++ " code " ++
            toString status ++ "\n"), h1)
      | ReadResult.loaded graph => ((Except.ok (h1.newNode graph).1), (h1.newNode graph).2)

/-- The data members of `SceneManager` the modelled functions use.
`mIncrementalCompileOperation`, when set, is shown by the addresses of the
nodes added to it. -/
structure SceneManager where
  mCache : ObjectCache Node
  mInstanceCache : MultiObjectCache Node
  mMinFilter : FilterMode
  mMagFilter : FilterMode
  mMaxAnisotropy : Int
  mIncrementalCompileOperation : Option (List Nat)
  heap : Heap

/-- The constructor `SceneManager::SceneManager`, on a heap with nothing
allocated. -/
def SceneManager.new : SceneManager :=
  { mCache := { entries := [] }
    mInstanceCache := { entries := [] }
    mMinFilter := FilterMode.LINEAR_MIPMAP_LINEAR
    mMagFilter := FilterMode.LINEAR
    mMaxAnisotropy := 1
    mIncrementalCompileOperation := none
    heap := { nextAddress := 0, loadLog := [] } }

/-- The array `sMeshTypes` in the catch block of `getTemplate`. -/
def sMeshTypes : List String :=
  ["nif", "osg", "osgt", "osgb", "osgx", "osg2"]

/-- The `for` loop in the catch block of `getTemplate`, run over the mesh
types still to try.  Gives the values of `normalized` and `loaded` after the
loop, or the exception that `mVFS->get` or `load` threw inside it. -/
def markerLoop (env : Env) : List String → String → Heap →
    Except String (String × Option Node) × Heap
  | [], normalized, h => (Except.ok (normalized, none), h)
  | meshType :: rest, _, h =>
    let normalized := "meshes/marker_error." ++ meshType
    if env.vfsExists normalized then
      match env.vfsGet normalized with
      | Except.error e => (Except.error e, h)
      | Except.ok file =>
        match load env file normalized h with
        | (Except.error e, h2) => (Except.error e, h2)
        | (Except.ok loaded, h2) => (Except.ok (normalized, some loaded), h2)
    else markerLoop env rest normalized h

/-- The `try` block of `getTemplate`: `mVFS->get(normalized)` then `load`. -/
def tryLoad (env : Env) (normalized : String) (h : Heap) : Except String Node × Heap :=
  match env.vfsGet normalized with
  | Except.error e => (Except.error e, h)
  | Except.ok file => load env file normalized h

/-- The `try`/`catch` statement of `getTemplate`: the values of `normalized`
and `loaded` with which control leaves it, or the exception that leaves
it. -/
def loadOrMarker (env : Env) (normalized : String) (h : Heap) :
    Except String (String × Node) × Heap :=
  match tryLoad env normalized h with
  | (Except.ok loaded, h1) => (Except.ok (normalized, loaded), h1)
  | (Except.error e, h1) =>
    match markerLoop env sMeshTypes normalized h1 with
    | (Except.error e2, h2) => (Except.error e2, h2)
    | (Except.ok (normalized2, some loaded), h2) => (Except.ok (normalized2, loaded), h2)
    | (Except.ok (_, none), h2) => (Except.error e, h2)

/-- The three passes `getTemplate` runs on a node just loaded: the two
filter-settings visitors with the manager's current settings, then the
shared-state manager. -/
def SceneManager.postLoad (s : SceneManager) (loaded : Node) : Node :=
  ((loaded.accept
      (Pass.SetFilterSettingsVisitor s.mMinFilter s.mMagFilter s.mMaxAnisotropy)).accept
      (Pass.SetFilterSettingsControllerVisitor s.mMinFilter s.mMagFilter
        s.mMaxAnisotropy)).accept
    Pass.share

/-- `SceneManager::getTemplate`. -/
def SceneManager.getTemplate (env : Env) (name : String) (s : SceneManager) :
    Except String Node × SceneManager :=
  let normalized := env.normalizeFilename name
  match s.mCache.getRefFromObjectCache normalized with
  | some obj => (Except.ok obj, s)
  | none =>
    match loadOrMarker env normalized s.heap with
    | (Except.error e, h) => (Except.error e, { s with heap := h })
    | (Except.ok (normalized2, loaded), h) =>
      (Except.ok (s.postLoad loaded),
        { s with
          heap := h
          mIncrementalCompileOperation :=
            s.mIncrementalCompileOperation.map (fun q => q ++ [loaded.id])
          mCache := s.mCache.addEntryToObjectCache normalized2 (some (s.postLoad loaded)) })

/-- `SceneManager::createInstance`: the clone is a new object with the
template's content, and the template is added to its user objects. -/
def SceneManager.createInstance (env : Env) (name : String) (s : SceneManager) :
    Except String Node × SceneManager :=
  match s.getTemplate env name with
  | (Except.error e, s1) => (Except.error e, s1)
  | (Except.ok scene, s1) =>
    (Except.ok
      { id := s1.heap.nextAddress
        graph := scene.graph
        passes := scene.passes
        userData := scene.userData ++ [scene.id] },
      { s1 with heap := { s1.heap with nextAddress := s1.heap.nextAddress + 1 } })

/-- `SceneManager::cacheInstance`. -/
def SceneManager.cacheInstance (env : Env) (name : String) (s : SceneManager) :
    Except String Node × SceneManager :=
  let normalized := env.normalizeFilename name
  match s.createInstance env normalized with
  | (Except.error e, s1) => (Except.error e, s1)
  | (Except.ok node, s1) =>
    (Except.ok node,
      { s1 with
        mInstanceCache := s1.mInstanceCache.addEntryToObjectCache normalized (some node) })

/-- `SceneManager::getInstance(const std::string&)`. -/
def SceneManager.getInstance (env : Env) (name : String) (s : SceneManager) :
    Except String Node × SceneManager :=
  let normalized := env.normalizeFilename name
  match s.mInstanceCache.takeFromObjectCache normalized with
  | (some obj, pool) => (Except.ok obj, { s with mInstanceCache := pool })
  | (none, pool) => SceneManager.createInstance env normalized { s with mInstanceCache := pool }

/-- An `osgViewer::Viewer` as `setFilterSettings` uses it: whether its
threads run, and its scene data. -/
structure Viewer where
  threading : Bool
  sceneData : Option Node
deriving DecidableEq, Repr

/-- The filter modes `setFilterSettings` computes from its string
arguments: `(min, mag)`. -/
def filterModes (magfilter minfilter mipmap : String) : FilterMode × FilterMode :=
  let mag := if magfilter = "nearest" then FilterMode.NEAREST else FilterMode.LINEAR
  let min := if minfilter = "nearest" then FilterMode.NEAREST else FilterMode.LINEAR
  let min :=
    if mipmap = "nearest" then
      if min = FilterMode.NEAREST then FilterMode.NEAREST_MIPMAP_NEAREST
      else if min = FilterMode.LINEAR then FilterMode.LINEAR_MIPMAP_NEAREST
      else min
    else if mipmap ≠ "none" then
      if min = FilterMode.NEAREST then FilterMode.NEAREST_MIPMAP_LINEAR
      else if min = FilterMode.LINEAR then FilterMode.LINEAR_MIPMAP_LINEAR
      else min
    else min
  (min, mag)

/-- `SceneManager::setFilterSettings`.  Returns the manager and the viewer
(if one was passed) after the call. -/
def SceneManager.setFilterSettings (magfilter minfilter mipmap : String)
    (maxAnisotropy : Int) (viewer : Option Viewer) (s : SceneManager) :
    SceneManager × Option Viewer :=
  let min := (filterModes magfilter minfilter mipmap).1
  let mag := (filterModes magfilter minfilter mipmap).2
  let s1 : SceneManager :=
    { s with
      mMinFilter := min
      mMagFilter := mag
      mMaxAnisotropy := max 1 maxAnisotropy
      mCache := s.mCache.clear }
  let viewer1 := viewer.map fun v =>
    { threading := true
      sceneData := v.sceneData.map fun root =>
        (root.accept
          (Pass.SetFilterSettingsControllerVisitor s1.mMinFilter s1.mMagFilter
            s1.mMaxAnisotropy)).accept
          (Pass.SetFilterSettingsVisitor s1.mMinFilter s1.mMagFilter s1.mMaxAnisotropy) :
      Viewer }
  (s1, viewer1)

/-- Modelled from the spec: the reference count of a node, which the sweeps
of section 4.3 and 4.4 read (`osg::Referenced` is outside the sources).  One
for every handle in the template cache, in the instance pool and among
`held`, the handles kept outside the manager; and one for every mention as
a user object of a node that is alive because the pool or an outside
holder refers to it. -/
def SceneManager.referenceCount (held : List Node) (s : SceneManager) (obj : Node) : Nat :=
  ((objectsOf s.mCache.entries).filter (fun n => n.id = obj.id)).length +
  ((objectsOf s.mInstanceCache.entries).filter (fun n => n.id = obj.id)).length +
  (held.filter (fun n => n.id = obj.id)).length +
  (((objectsOf s.mInstanceCache.entries ++ held).dedup.map
      (fun n => n.userData.count obj.id)).sum)

/-- Modelled from the spec: `ResourceManager::updateCache` (resourcemanager.hpp
is not among the sources), section 4.3: the sweep of the template cache. -/
def SceneManager.resourceManagerUpdateCache (held : List Node) (s : SceneManager) :
    SceneManager :=
  { s with mCache := s.mCache.removeUnreferencedObjectsInCache (s.referenceCount held) }

/-- `SceneManager::updateCache`: the sweep of the template cache, then the
sweep of the instance pool.  `held` are the handles kept outside the
manager at the time; `referenceTime` plays no part in the sweeps and is
left out. -/
def SceneManager.updateCache (held : List Node) (s : SceneManager) : SceneManager :=
  let s1 := s.resourceManagerUpdateCache held
  { s1 with
    mInstanceCache :=
      s1.mInstanceCache.removeUnreferencedObjectsInCache (s1.referenceCount held) }

end Resource

namespace Resource

/-! ## bulletshapemanager.cpp -/

/-- A `BulletShape` on the heap: its address and the triangles of its
collision shape. -/
structure BulletShape where
  id : Nat
  mCollisionShape : List Nat
deriving DecidableEq, Repr

/-- A `BulletShapeInstance` on the heap, made by `BulletShape::makeInstance`:
its address and the address of the shape it was made from. -/
structure BulletShapeInstance where
  id : Nat
  source : Nat
deriving DecidableEq, Repr

/-- `NodeToShapeVisitor`: `mTriangleMesh` is `NULL` (`none`) until a
drawable is applied. -/
structure NodeToShapeVisitor where
  mTriangleMesh : Option (List Nat)
deriving DecidableEq, Repr

/-- The constructor of `NodeToShapeVisitor`: `mTriangleMesh(NULL)`. -/
def NodeToShapeVisitor.new : NodeToShapeVisitor :=
  { mTriangleMesh := none }

/-- `NodeToShapeVisitor::apply(osg::Drawable&)`: create the mesh if there is
none yet, then add the drawable's triangles to it. -/
def NodeToShapeVisitor.applyDrawable (v : NodeToShapeVisitor) (drawable : Drawable) :
    NodeToShapeVisitor :=
  let mesh :=
    match v.mTriangleMesh with
    | none => []
    | some m => m
  { mTriangleMesh := some (mesh ++ drawable.triangles) }

/-- `NodeToShapeVisitor::apply(osg::Geode&)`: apply every drawable of the
geode. -/
def NodeToShapeVisitor.applyGeode (v : NodeToShapeVisitor) (drawables : List Drawable) :
    NodeToShapeVisitor :=
  drawables.foldl NodeToShapeVisitor.applyDrawable v

mutual
/-- `node->accept(visitor)` for a `NodeToShapeVisitor`, which traverses all
children: a geode and a drawable go to the two `apply` overrides, any other
node has its children traversed. -/
def NodeToShapeVisitor.accept : SceneGraph → NodeToShapeVisitor → NodeToShapeVisitor
  | SceneGraph.group children, v => NodeToShapeVisitor.traverse children v
  | SceneGraph.geode drawables, v => v.applyGeode drawables
  | SceneGraph.drawable d, v => v.applyDrawable d
/-- The children of a group, visited in order. -/
def NodeToShapeVisitor.traverse : List SceneGraph → NodeToShapeVisitor → NodeToShapeVisitor
  | [], v => v
  | c :: cs, v => NodeToShapeVisitor.traverse cs (NodeToShapeVisitor.accept c v)
end

/-- `NodeToShapeVisitor::getShape`: `NULL` when no mesh was created,
otherwise a new shape around the mesh, which the visitor gives up. -/
def NodeToShapeVisitor.getShape (v : NodeToShapeVisitor) (address : Nat) :
    Option BulletShape × NodeToShapeVisitor :=
  match v.mTriangleMesh with
  | none => (none, v)
  | some mesh => (some { id := address, mCollisionShape := mesh }, { mTriangleMesh := none })

/-- The data members of `BulletShapeManager` the modelled functions use, the
scene manager it points to, the next unused address for shapes and their
copies, and two records not read by the code: the names passed to
`mSceneManager->getTemplate` and the number of `NodeToShapeVisitor`
traversals made. -/
structure BulletShapeManager where
  mCache : ObjectCache BulletShape
  mInstanceCache : MultiObjectCache BulletShapeInstance
  mSceneManager : SceneManager
  nextAddress : Nat
  getTemplateLog : List String
  visitorRuns : Nat

/-- The constructor `BulletShapeManager::BulletShapeManager`. -/
def BulletShapeManager.new (sceneMgr : SceneManager) : BulletShapeManager :=
  { mCache := { entries := [] }
    mInstanceCache := { entries := [] }
    mSceneManager := sceneMgr
    nextAddress := 0
    getTemplateLog := []
    visitorRuns := 0 }

/-- The extension as `BulletShapeManager::getShape` computes it inline. -/
def getShapeExtension (normalized : String) : String :=
  match find_last_of normalized.data '.' with
  | some extPos =>
    if extPos + 1 < normalized.data.length then String.mk (normalized.data.drop (extPos + 1))
    else ""
  | none => ""

/-- `BulletShapeManager::getShape`.  The result is the handle returned, `none`
for the null handle. -/
def BulletShapeManager.getShape (env : Env) (name : String) (m : BulletShapeManager) :
    Except String (Option BulletShape) × BulletShapeManager :=
  let normalized := env.normalizeFilename name
  match m.mCache.getRefFromObjectCache normalized with
  | some obj => (Except.ok (some obj), m)
  | none =>
    let ext := getShapeExtension normalized
    if ext = "nif" then
      match env.nifFileGet normalized with
      | Except.error e => (Except.error e, m)
      | Except.ok nif =>
        match env.bulletNifLoad nif with
        | Except.error e => (Except.error e, m)
        | Except.ok mesh =>
          (Except.ok (some { id := m.nextAddress, mCollisionShape := mesh }),
            { m with
              nextAddress := m.nextAddress + 1
              mCache := m.mCache.addEntryToObjectCache normalized
                (some { id := m.nextAddress, mCollisionShape := mesh }) })
    else
      match m.mSceneManager.getTemplate env normalized with
      | (Except.error e, sm) =>
        (Except.error e,
          { m with mSceneManager := sm, getTemplateLog := m.getTemplateLog ++ [normalized] })
      | (Except.ok node, sm) =>
        let visitor := NodeToShapeVisitor.accept node.graph NodeToShapeVisitor.new
        match (visitor.getShape m.nextAddress).1 with
        | none =>
          (Except.ok none,
            { m with
              mSceneManager := sm
              getTemplateLog := m.getTemplateLog ++ [normalized]
              visitorRuns := m.visitorRuns + 1
              mCache := m.mCache.addEntryToObjectCache normalized none })
        | some shape =>
          (Except.ok (some shape),
            { m with
              mSceneManager := sm
              getTemplateLog := m.getTemplateLog ++ [normalized]
              visitorRuns := m.visitorRuns + 1
              nextAddress := m.nextAddress + 1
              mCache := m.mCache.addEntryToObjectCache normalized (some shape) })

/-- `BulletShapeManager::createInstance`: `shape->makeInstance()` when there
is a shape, the null handle otherwise. -/
def BulletShapeManager.createInstance (env : Env) (name : String) (m : BulletShapeManager) :
    Except String (Option BulletShapeInstance) × BulletShapeManager :=
  match m.getShape env name with
  | (Except.error e, m1) => (Except.error e, m1)
  | (Except.ok none, m1) => (Except.ok none, m1)
  | (Except.ok (some shape), m1) =>
    (Except.ok (some { id := m1.nextAddress, source := shape.id }),
      { m1 with nextAddress := m1.nextAddress + 1 })

/-- `BulletShapeManager::cacheInstance`. -/
def BulletShapeManager.cacheInstance (env : Env) (name : String) (m : BulletShapeManager) :
    Except String (Option BulletShapeInstance) × BulletShapeManager :=
  let normalized := env.normalizeFilename name
  match m.createInstance env normalized with
  | (Except.error e, m1) => (Except.error e, m1)
  | (Except.ok instance_, m1) =>
    (Except.ok instance_,
      { m1 with
        mInstanceCache := m1.mInstanceCache.addEntryToObjectCache normalized instance_ })

/-- `BulletShapeManager::getInstance`. -/
def BulletShapeManager.getInstance (env : Env) (name : String) (m : BulletShapeManager) :
    Except String (Option BulletShapeInstance) × BulletShapeManager :=
  let normalized := env.normalizeFilename name
  match m.mInstanceCache.takeFromObjectCache normalized with
  | (some obj, pool) => (Except.ok (some obj), { m with mInstanceCache := pool })
  | (none, pool) =>
    BulletShapeManager.createInstance env normalized { m with mInstanceCache := pool }

end Resource

namespace Resource

/-- Modelled from the spec: the reference count of a shape, which the sweep
of section 4.3 reads.  One for every handle in the shape cache and among
`heldShapes`, the handles kept outside the manager, and one for every
live instance made from the shape, live because the pool or an outside
holder refers to it. -/
def BulletShapeManager.shapeReferenceCount (heldShapes : List BulletShape)
    (heldInstances : List BulletShapeInstance) (m : BulletShapeManager) (obj : BulletShape) :
    Nat :=
  ((objectsOf m.mCache.entries).filter (fun x => x.id = obj.id)).length +
  (heldShapes.filter (fun x => x.id = obj.id)).length +
  (((objectsOf m.mInstanceCache.entries ++ heldInstances).dedup.filter
      (fun i => i.source = obj.id)).length)

/-- Modelled from the spec: the reference count of a shape instance, which the
sweep of section 4.4 reads: one for every handle in the pool and among
`heldInstances`. -/
def BulletShapeManager.instanceReferenceCount (heldInstances : List BulletShapeInstance)
    (m : BulletShapeManager) (obj : BulletShapeInstance) : Nat :=
  ((objectsOf m.mInstanceCache.entries).filter (fun x => x.id = obj.id)).length +
  (heldInstances.filter (fun x => x.id = obj.id)).length

/-- Modelled from the spec: `ResourceManager::updateCache` (resourcemanager.hpp
is not among the sources), section 4.3, for the shape manager: the sweep of
the shape cache. -/
def BulletShapeManager.resourceManagerUpdateCache (heldShapes : List BulletShape)
    (heldInstances : List BulletShapeInstance) (m : BulletShapeManager) : BulletShapeManager :=
  { m with
    mCache := m.mCache.removeUnreferencedObjectsInCache
      (m.shapeReferenceCount heldShapes heldInstances) }

/-- `BulletShapeManager::updateCache`: the sweep of the shape cache, then the
sweep of the instance pool.  `heldShapes` and `heldInstances` are the
handles kept outside the manager at the time; `referenceTime` plays no part
in the sweeps and is left out. -/
def BulletShapeManager.updateCache (heldShapes : List BulletShape)
    (heldInstances : List BulletShapeInstance) (m : BulletShapeManager) : BulletShapeManager :=
  let m1 := m.resourceManagerUpdateCache heldShapes heldInstances
  { m1 with
    mInstanceCache :=
      m1.mInstanceCache.removeUnreferencedObjectsInCache
        (m1.instanceReferenceCount heldInstances) }

end Resource

namespace Resource

/-! ## A small world for concrete runs -/

/-- File name normalisation for the concrete runs: lower case, and `/` for
the backslash. -/
def exampleNormalize (name : String) : String :=
  String.mk (name.data.map fun c => if c = Char.ofNat 92 then '/' else c.toLower)

/-- The files of the example world. -/
def exampleFiles : List String :=
  ["meshes/a.nif", "meshes/broken.nif", "meshes/marker_error.nif", "meshes/empty.osg"]

/-- The example world.  Every listed file can be opened.  `meshes/broken.nif`
does not parse; the other NIF files load as a group with one geode.  A reader
is registered for `osg` only, and what it reads is a group without any
drawable. -/
def exampleEnv : Env :=
  { normalizeFilename := exampleNormalize
    vfsExists := fun name => decide (name ∈ exampleFiles)
    vfsGet := fun name =>
      if name ∈ exampleFiles then Except.ok [name.length]
      else Except.error ("Resource '" ++ name ++ "' not found")
    nifFileGet := fun name =>
      if name = "meshes/broken.nif" then Except.error "NIF file is malformed"
      else Except.ok [name.length]
    nifLoad := fun _ =>
      Except.ok (SceneGraph.group [SceneGraph.geode [{ triangles := [1, 2] }]])
    bulletNifLoad := fun _ => Except.ok [1, 2]
    getReaderWriterForExtension := fun ext =>
      if ext = "osg" then some (fun _ => ReadResult.loaded (SceneGraph.group [SceneGraph.group []]))
      else none }

/-- The example world without the error marker file. -/
def exampleEnvNoMarker : Env :=
  { exampleEnv with
    vfsExists := fun name => decide (name ∈ exampleFiles ∧ name ≠ "meshes/marker_error.nif") }

end Resource

namespace Resource

/-- The template the example world gives for `meshes/a.nif` on a new manager:
the object at address 0 with the three post-load passes of a new manager on
it. -/
def exampleTemplate : Node :=
  { id := 0
    graph := SceneGraph.group [SceneGraph.geode [{ triangles := [1, 2] }]]
    passes :=
      [Pass.SetFilterSettingsVisitor FilterMode.LINEAR_MIPMAP_LINEAR FilterMode.LINEAR 1,
        Pass.SetFilterSettingsControllerVisitor FilterMode.LINEAR_MIPMAP_LINEAR
          FilterMode.LINEAR 1,
        Pass.share]
    userData := [] }

/-- The first instance made from `exampleTemplate`: its clone at address 1,
with the template as user object. -/
def exampleInstance : Node :=
  { exampleTemplate with id := 1, userData := [0] }

end Resource

namespace Resource

/-! ## Well-formed managers and sequences of calls -/

/-- The addresses of a list of nodes. -/
def addresses (nodes : List Node) : List Nat :=
  nodes.map fun n => n.id

/-- A manager is well formed when every object in its template cache and in
its instance pool lies below the next unused address, and neither the cache
nor the pool refers to one object twice. -/
def SceneManager.WellFormed (s : SceneManager) : Prop :=
  (∀ n ∈ objectsOf s.mCache.entries ++ objectsOf s.mInstanceCache.entries,
    n.id < s.heap.nextAddress) ∧
  (addresses (objectsOf s.mCache.entries)).Nodup ∧
  (addresses (objectsOf s.mInstanceCache.entries)).Nodup

instance (s : SceneManager) : Decidable s.WellFormed :=
  inferInstanceAs (Decidable (_ ∧ _ ∧ _))

/-- A call of one of the public functions of `SceneManager`. -/
inductive Call where
  | getTemplate (name : String)
  | createInstance (name : String)
  | cacheInstance (name : String)
  | getInstance (name : String)
  | setFilterSettings (magfilter minfilter mipmap : String) (maxAnisotropy : Int)
      (viewer : Option Viewer)
  | updateCache (held : List Node)

/-- A manager with a record of the instances it has returned: `handedOut`
those returned by `createInstance` and `getInstance`, `deposited` those
returned by `cacheInstance`, oldest first. -/
structure Session where
  manager : SceneManager
  handedOut : List Node
  deposited : List Node

/-- A new manager that has returned nothing yet. -/
def Session.new : Session :=
  { manager := SceneManager.new, handedOut := [], deposited := [] }

/-- The node a call returned, if it returned one. -/
def returned (r : Except String Node) : List Node :=
  match r with
  | Except.ok n => [n]
  | Except.error _ => []

/-- Make one call and record what it returned. -/
def Session.call (env : Env) (t : Session) : Call → Session
  | Call.getTemplate name => { t with manager := (t.manager.getTemplate env name).2 }
  | Call.createInstance name =>
    { t with
      manager := (t.manager.createInstance env name).2
      handedOut := t.handedOut ++ returned (t.manager.createInstance env name).1 }
  | Call.cacheInstance name =>
    { t with
      manager := (t.manager.cacheInstance env name).2
      deposited := t.deposited ++ returned (t.manager.cacheInstance env name).1 }
  | Call.getInstance name =>
    { t with
      manager := (t.manager.getInstance env name).2
      handedOut := t.handedOut ++ returned (t.manager.getInstance env name).1 }
  | Call.setFilterSettings magfilter minfilter mipmap maxAnisotropy viewer =>
    { t with
      manager :=
        (t.manager.setFilterSettings magfilter minfilter mipmap maxAnisotropy viewer).1 }
  | Call.updateCache held => { t with manager := t.manager.updateCache held }

/-- Make the calls one after the other, first call first. -/
def Session.run (env : Env) (t : Session) (calls : List Call) : Session :=
  calls.foldl (Session.call env) t

end Resource

namespace Resource

/-- The addresses of a list of shape instances. -/
def instanceAddresses (instances : List BulletShapeInstance) : List Nat :=
  instances.map fun i => i.id

/-- A shape manager is well formed when every instance in its pool lies
below the next unused address and the pool refers to no instance twice. -/
def BulletShapeManager.WellFormed (m : BulletShapeManager) : Prop :=
  (∀ i ∈ objectsOf m.mInstanceCache.entries, i.id < m.nextAddress) ∧
  (instanceAddresses (objectsOf m.mInstanceCache.entries)).Nodup

instance (m : BulletShapeManager) : Decidable m.WellFormed :=
  inferInstanceAs (Decidable (_ ∧ _))

/-- A call of one of the public functions of `BulletShapeManager`. -/
inductive ShapeCall where
  | getShape (name : String)
  | createInstance (name : String)
  | cacheInstance (name : String)
  | getInstance (name : String)
  | updateCache (heldShapes : List BulletShape) (heldInstances : List BulletShapeInstance)

/-- A shape manager with a record of the instances it has returned:
`handedOut` those returned by `createInstance` and `getInstance`,
`deposited` those returned by `cacheInstance`, oldest first; null handles
are not recorded. -/
structure ShapeSession where
  manager : BulletShapeManager
  handedOut : List BulletShapeInstance
  deposited : List BulletShapeInstance

/-- A new shape manager, on a new scene manager, that has returned nothing
yet. -/
def ShapeSession.new : ShapeSession :=
  { manager := BulletShapeManager.new SceneManager.new, handedOut := [], deposited := [] }

/-- The instance a call returned, if it returned one. -/
def returnedInstance (r : Except String (Option BulletShapeInstance)) :
    List BulletShapeInstance :=
  match r with
  | Except.ok (some i) => [i]
  | _ => []

/-- Make one call and record what it returned. -/
def ShapeSession.call (env : Env) (t : ShapeSession) : ShapeCall → ShapeSession
  | ShapeCall.getShape name => { t with manager := (t.manager.getShape env name).2 }
  | ShapeCall.createInstance name =>
    { t with
      manager := (t.manager.createInstance env name).2
      handedOut := t.handedOut ++ returnedInstance (t.manager.createInstance env name).1 }
  | ShapeCall.cacheInstance name =>
    { t with
      manager := (t.manager.cacheInstance env name).2
      deposited := t.deposited ++ returnedInstance (t.manager.cacheInstance env name).1 }
  | ShapeCall.getInstance name =>
    { t with
      manager := (t.manager.getInstance env name).2
      handedOut := t.handedOut ++ returnedInstance (t.manager.getInstance env name).1 }
  | ShapeCall.updateCache heldShapes heldInstances =>
    { t with manager := t.manager.updateCache heldShapes heldInstances }

/-- Make the calls one after the other, first call first. -/
def ShapeSession.run (env : Env) (t : ShapeSession) (calls : List ShapeCall) : ShapeSession :=
  calls.foldl (ShapeSession.call env) t

/-- What holds of a manager and the record of what it has returned, after
any sequence of calls on a new manager. -/
structure SessionInv (t : Session) : Prop where
  wf : t.manager.WellFormed
  below : ∀ n ∈ t.handedOut ++ t.deposited, n.id < t.manager.heap.nextAddress
  handedNodup : (addresses t.handedOut).Nodup
  depositedNodup : (addresses t.deposited).Nodup
  apart : ∀ n ∈ t.handedOut, n.id ∉ addresses (objectsOf t.manager.mInstanceCache.entries)

/-- What holds of a shape manager and the record of what it has returned,
after any sequence of calls on a new one. -/
structure ShapeSessionInv (t : ShapeSession) : Prop where
  wf : t.manager.WellFormed
  below : ∀ i ∈ t.handedOut ++ t.deposited, i.id < t.manager.nextAddress
  handedNodup : (instanceAddresses t.handedOut).Nodup
  depositedNodup : (instanceAddresses t.deposited).Nodup
  apart : ∀ i ∈ t.handedOut,
    i.id ∉ instanceAddresses (objectsOf t.manager.mInstanceCache.entries)

end Resource

namespace Resource

/-- A scene manager of the example world with one instance of `meshes/a.nif`
in its pool: a new manager after `cacheInstance("meshes/a.nif")`. -/
def examplePooled : SceneManager :=
  (SceneManager.new.cacheInstance exampleEnv "meshes/a.nif").2

/-- A shape manager of the example world with one instance of `meshes/a.nif`
in its pool: a new manager after `cacheInstance("meshes/a.nif")`. -/
def examplePooledShapes : BulletShapeManager :=
  ((BulletShapeManager.new SceneManager.new).cacheInstance exampleEnv "meshes/a.nif").2

/-- The passes `getTemplate` runs on a node just loaded, once each and in its
order, for given filter settings: what `postLoad` adds to the record of a
node. -/
def postLoadPasses (minFilter magFilter : FilterMode) (maxAnisotropy : Int) : List Pass :=
  [Pass.SetFilterSettingsVisitor minFilter magFilter maxAnisotropy,
    Pass.SetFilterSettingsControllerVisitor minFilter magFilter maxAnisotropy,
    Pass.share]

/-- Every template in the cache has had the post-load passes exactly once. -/
def PassedOnce (c : ObjectCache Node) : Prop :=
  ∀ e ∈ c.entries, ∀ n, e.2 = some n →
    ∃ minFilter magFilter maxAnisotropy,
      n.passes = postLoadPasses minFilter magFilter maxAnisotropy

end Resource

namespace Resource

/-! ## Several threads inside `getTemplate` -/

/-- Where a thread stands in a call of `SceneManager::getTemplate`.  The
points between which another thread can act on the cache are the two calls
on `mCache`, each made under the mutex of the cache (section 4.3): at
`LOOKUP` the thread is about to call `getRefFromObjectCache`; at `LOAD`
it has missed and is about to load the file and run the post-load passes
on the node, which no other thread can reach yet; at `INSERT` it is about to
call `addEntryToObjectCache(normalized, loaded)` with the values shown and
to return the node; `THROWN` and `RETURNED` are the two ways the call
ends. -/
inductive TemplateCall where
  | LOOKUP
  | LOAD
  | INSERT (normalized : String) (loaded : Node)
  | THROWN (e : String)
  | RETURNED (node : Node)
deriving DecidableEq, Repr

/-- A scene manager with the threads that are inside `getTemplate`, each
with the point it has reached. -/
structure Concurrent where
  manager : SceneManager
  calls : List TemplateCall

/-- The manager `s` at the moment `n` threads have each called
`getTemplate`. -/
def Concurrent.new (s : SceneManager) (n : Nat) : Concurrent :=
  { manager := s, calls := List.replicate n TemplateCall.LOOKUP }

/-- Thread `t` runs `getTemplate(name)` up to its next point.  The statements
are those of `SceneManager.getTemplate`, cut at the two calls on `mCache`. -/
def Concurrent.step (env : Env) (name : String) (c : Concurrent) (t : Nat) : Concurrent :=
  match c.calls[t]? with
  | none => c
  | some TemplateCall.LOOKUP =>
    match c.manager.mCache.getRefFromObjectCache (env.normalizeFilename name) with
    | some obj => { c with calls := c.calls.set t (TemplateCall.RETURNED obj) }
    | none => { c with calls := c.calls.set t TemplateCall.LOAD }
  | some TemplateCall.LOAD =>
    match loadOrMarker env (env.normalizeFilename name) c.manager.heap with
    | (Except.error e, h) =>
      { manager := { c.manager with heap := h }
        calls := c.calls.set t (TemplateCall.THROWN e) }
    | (Except.ok (normalized2, loaded), h) =>
      { manager :=
          { c.manager with
            heap := h
            mIncrementalCompileOperation :=
              c.manager.mIncrementalCompileOperation.map (fun q => q ++ [loaded.id]) }
        calls := c.calls.set t (TemplateCall.INSERT normalized2 (c.manager.postLoad loaded)) }
  | some (TemplateCall.INSERT normalized loaded) =>
    { manager :=
        { c.manager with
          mCache := c.manager.mCache.addEntryToObjectCache normalized (some loaded) }
      calls := c.calls.set t (TemplateCall.RETURNED loaded) }
  | some (TemplateCall.THROWN _) => c
  | some (TemplateCall.RETURNED _) => c

/-- The threads run as the schedule says: its members are the threads that
move, first move first. -/
def Concurrent.run (env : Env) (name : String) (c : Concurrent) (schedule : List Nat) :
    Concurrent :=
  schedule.foldl (Concurrent.step env name) c

/-- What a call of `getTemplate` that has ended gave: the node returned or
the exception thrown; `none` while the call is under way. -/
def TemplateCall.result : TemplateCall → Option (Except String Node)
  | TemplateCall.RETURNED node => some (Except.ok node)
  | TemplateCall.THROWN e => some (Except.error e)
  | _ => none

/-- How far a call has got: the number of points behind it, `3` when it has
ended. -/
def TemplateCall.rank : TemplateCall → Nat
  | TemplateCall.LOOKUP => 0
  | TemplateCall.LOAD => 1
  | TemplateCall.INSERT _ _ => 2
  | TemplateCall.THROWN _ => 3
  | TemplateCall.RETURNED _ => 3

/-- What holds at every moment while threads are inside `getTemplate` for a
name with normalized form `key` that was not in the cache of `s` and
loads, without the error marker, as the scene graph `graph`: no call has
thrown, and every insert pending is under `key`; the cache holds no entry
under `key` while no call has returned, and afterwards exactly one, with a
node that one of the calls has returned; the entries under other keys are
those of `s`, and so are the filter settings; every node about to be
inserted or returned has the scene graph `graph` and has had the post-load
passes once, with the settings of `s`. -/
structure RaceInv (key : String) (s : SceneManager) (graph : SceneGraph) (c : Concurrent) :
    Prop where
  calls : ∀ (t : Nat) (x : TemplateCall), c.calls[t]? = some x →
    x = TemplateCall.LOOKUP ∨ x = TemplateCall.LOAD ∨
      (∃ n, x = TemplateCall.INSERT key n) ∨ ∃ n, x = TemplateCall.RETURNED n
  entry :
    (c.manager.mCache.entries.filter (fun e => decide (e.1 = key)) = [] ∧
      ∀ (t : Nat) (n : Node), c.calls[t]? ≠ some (TemplateCall.RETURNED n)) ∨
    (∃ n, c.manager.mCache.entries.filter (fun e => decide (e.1 = key)) = [(key, some n)] ∧
      ∃ t : Nat, c.calls[t]? = some (TemplateCall.RETURNED n))
  others :
    c.manager.mCache.entries.filter (fun e => decide (e.1 ≠ key)) =
      s.mCache.entries.filter (fun e => decide (e.1 ≠ key))
  settings :
    c.manager.mMinFilter = s.mMinFilter ∧ c.manager.mMagFilter = s.mMagFilter ∧
      c.manager.mMaxAnisotropy = s.mMaxAnisotropy
  content : ∀ (t : Nat) (n : Node),
    (c.calls[t]? = some (TemplateCall.INSERT key n) ∨
      c.calls[t]? = some (TemplateCall.RETURNED n)) →
    n.graph = graph ∧
      n.passes = postLoadPasses s.mMinFilter s.mMagFilter s.mMaxAnisotropy

end Resource

namespace Resource

/-! ## What the caches hold is what the files give -/

/-- Every template in the cache has the scene graph that its key loads as,
on whatever heap. -/
def SceneManager.Faithful (env : Env) (s : SceneManager) : Prop :=
  ∀ e ∈ s.mCache.entries, ∀ n, e.2 = some n →
    ∀ h, ∃ b h2, tryLoad env e.1 h = (Except.ok b, h2) ∧ b.graph = n.graph

/-- The normalized name `key` has a collision shape: for a name with that
normalized form, `getShape` of a new manager returns a shape. -/
def Shaped (env : Env) (key : String) : Prop :=
  ∃ name shape, env.normalizeFilename name = key ∧
    ((BulletShapeManager.new SceneManager.new).getShape env name).1 =
      Except.ok (some shape)

/-- The normalized name `key` has no collision shape: for a name with that
normalized form, `getShape` of a new manager returns the null handle. -/
def Shapeless (env : Env) (key : String) : Prop :=
  ∃ name, env.normalizeFilename name = key ∧
    ((BulletShapeManager.new SceneManager.new).getShape env name).1 = Except.ok none

/-- What the caches and the pool of a shape manager hold agrees with the
files: the templates of its scene manager are what their keys load as, a
shape is cached only under a name that has a shape, an instance is pooled
only under a name that has a shape and a null handle only under a name that
has none. -/
structure ShapeKinds (env : Env) (m : BulletShapeManager) : Prop where
  templates : m.mSceneManager.Faithful env
  shapes : ∀ e ∈ m.mCache.entries, ∀ shape, e.2 = some shape → Shaped env e.1
  instances : ∀ e ∈ m.mInstanceCache.entries, ∀ i, e.2 = some i →
    Shaped env (env.normalizeFilename e.1)
  nulls : ∀ e ∈ m.mInstanceCache.entries, e.2 = none →
    Shapeless env (env.normalizeFilename e.1)

end Resource

namespace ESMS

/-! ## reclists.hpp -/

/-- `RecList::toLower`: `std::tolower` applied to every character of the name.
As in the C locale, the letters `A` to `Z` are the only characters changed. -/
def toLower (name : String) : String :=
  String.mk (name.data.map Char.toLower)

/-- A `std::map`, by its elements, each key at most once.  For the maps the
code iterates over (the exterior cells) the elements are in the order of
iteration; the record lists never iterate, and `operator[]` here puts a
new element last. -/
structure Map (K X : Type) where
  elements : List (K × X)
deriving DecidableEq, Repr

/-- `m.find(key)`: the value of the element with that key, `none` for
`m.end()`. -/
def Map.find {K X : Type} [DecidableEq K] (m : Map K X) (key : K) : Option X :=
  m.elements.lookup key

/-- The elements after `f(m[key])`, where `f` changes the element referred to
in place: `operator[]` refers to the element with that key, inserting one
with a default-constructed value `new` when there is none. -/
def Map.indexElements {K X : Type} [DecidableEq K] (key : K) (new : X) (f : X → X) :
    List (K × X) → List (K × X)
  | [] => [(key, f new)]
  | e :: rest =>
    if e.1 = key then (e.1, f e.2) :: rest
    else e :: Map.indexElements key new f rest

/-- The map after `f(m[key])`. -/
def Map.index {K X : Type} [DecidableEq K] (m : Map K X) (key : K) (new : X) (f : X → X) :
    Map K X :=
  { elements := Map.indexElements key new f m.elements }

/-- `typedef std::map<std::string,X> MapType`. -/
abbrev MapType (X : Type) := Map String X

/-- What the record lists use of a record type `X` and of `ESMReader` (here
`E`), both declared outside the sources: the default constructor `X()`,
`x.load(esm)`, `x.load(esm, id)`, the assignment `x.id = id`, and
`x.data.name.toString()`. -/
structure Record (E X : Type) where
  new : X
  load : E → X → X
  loadWithId : E → String → X → X
  setId : String → X → X
  name : X → String

/-- `RecListT<X>`. -/
structure RecListT (X : Type) where
  list : MapType X

/-- `RecListT::load`. -/
def RecListT.load {E X : Type} (r : Record E X) (l : RecListT X) (esm : E) (id : String) :
    RecListT X :=
  let id2 := toLower id
  { list := l.list.index id2 r.new (r.load esm) }

/-- `RecListT::search`: the object found, `none` for `NULL`. -/
def RecListT.search {X : Type} (l : RecListT X) (id : String) : Option X :=
  let id2 := toLower id
  match l.list.find id2 with
  | none => none
  | some object => some object

/-- `RecListT::find`. -/
def RecListT.find {X : Type} (l : RecListT X) (id : String) : Except String X :=
  match l.search id with
  | none => Except.error ("object " ++ id ++ " not found")
  | some object => Except.ok object

/-- `RecListT::getSize`. -/
def RecListT.getSize {X : Type} (l : RecListT X) : Nat :=
  l.list.elements.length

/-- `RecListWithIDT<X>`. -/
structure RecListWithIDT (X : Type) where
  list : MapType X

/-- `RecListWithIDT::load`. -/
def RecListWithIDT.load {E X : Type} (r : Record E X) (l : RecListWithIDT X) (esm : E)
    (id : String) : RecListWithIDT X :=
  let id2 := toLower id
  { list := l.list.index id2 r.new (r.loadWithId esm id2) }

/-- `RecListWithIDT::search`. -/
def RecListWithIDT.search {X : Type} (l : RecListWithIDT X) (id : String) : Option X :=
  let id2 := toLower id
  match l.list.find id2 with
  | none => none
  | some object => some object

/-- `RecListWithIDT::find`. -/
def RecListWithIDT.find {X : Type} (l : RecListWithIDT X) (id : String) : Except String X :=
  match l.search id with
  | none => Except.error ("object " ++ id ++ " not found")
  | some object => Except.ok object

/-- `RecListWithIDT::getSize`. -/
def RecListWithIDT.getSize {X : Type} (l : RecListWithIDT X) : Nat :=
  l.list.elements.length

/-- `RecIDListT<X>`. -/
structure RecIDListT (X : Type) where
  list : MapType X

/-- `RecIDListT::load`: the record keeps the id as it was given. -/
def RecIDListT.load {E X : Type} (r : Record E X) (l : RecIDListT X) (esm : E) (id : String) :
    RecIDListT X :=
  let id2 := toLower id
  { list := l.list.index id2 r.new (fun ref => r.load esm (r.setId id ref)) }

/-- `RecIDListT::search`. -/
def RecIDListT.search {X : Type} (l : RecIDListT X) (id : String) : Option X :=
  let id2 := toLower id
  match l.list.find id2 with
  | none => none
  | some object => some object

/-- `RecIDListT::find`. -/
def RecIDListT.find {X : Type} (l : RecIDListT X) (id : String) : Except String X :=
  match l.search id with
  | none => Except.error ("object " ++ id ++ " not found")
  | some object => Except.ok object

/-- `RecIDListT::getSize`. -/
def RecIDListT.getSize {X : Type} (l : RecIDListT X) : Nat :=
  l.list.elements.length

/-- `ScriptListT<X>`. -/
structure ScriptListT (X : Type) where
  list : MapType X

/-- `ScriptListT::load`: the record is loaded first and stored under the
lower-cased name found in it; the `id` passed is not used. -/
def ScriptListT.load {E X : Type} (r : Record E X) (l : ScriptListT X) (esm : E)
    (_id : String) : ScriptListT X :=
  let ref := r.load esm r.new
  let realId := toLower (r.name ref)
  { list := l.list.index realId r.new (fun _ => ref) }

/-- `ScriptListT::search`. -/
def ScriptListT.search {X : Type} (l : ScriptListT X) (id : String) : Option X :=
  let id2 := toLower id
  match l.list.find id2 with
  | none => none
  | some object => some object

/-- `ScriptListT::find`. -/
def ScriptListT.find {X : Type} (l : ScriptListT X) (id : String) : Except String X :=
  match l.search id with
  | none => Except.error ("object " ++ id ++ " not found")
  | some object => Except.ok object

/-- `ScriptListT::getSize`. -/
def ScriptListT.getSize {X : Type} (l : ScriptListT X) : Nat :=
  l.list.elements.length

/-- The `data` member of an `ESM::Cell` as far as `CellList` reads it. -/
structure CellData where
  flags : Int
  gridX : Int
  gridY : Int
deriving DecidableEq, Repr

/-- An `ESM::Cell` as far as `CellList` reads it. -/
structure Cell where
  name : String
  region : String
  data : CellData
deriving DecidableEq, Repr

/-- `typedef std::map<int, Cell*> ExtCellsCol`. -/
abbrev ExtCellsCol := Map Int Cell

/-- `typedef std::map<int, ExtCellsCol> ExtCells`. -/
abbrev ExtCells := Map Int ExtCellsCol

/-- `CellList`. -/
structure CellList where
  count : Int
  intCells : Map String Cell
  extCells : ExtCells
deriving DecidableEq, Repr

/-- The inner loop of `CellList::searchExtByRegion` over the cells of one
column still to visit: the cell returned, or `none` when the loop ends.
The comparison is with `id`, as in the source. -/
def CellList.searchColumnByRegion (id : String) : List (Int × Cell) → Option Cell
  | [] => none
  | e :: rest =>
    if toLower e.2.region = id then some e.2
    else CellList.searchColumnByRegion id rest

/-- The outer loop of `CellList::searchExtByRegion` over the columns still to
visit. -/
def CellList.searchColumnsByRegion (id : String) : List (Int × ExtCellsCol) → Option Cell
  | [] => none
  | column :: rest =>
    match CellList.searchColumnByRegion id column.2.elements with
    | some cell => some cell
    | none => CellList.searchColumnsByRegion id rest

/-- `CellList::searchExtByRegion`: the cell returned, `none` for the null
pointer.  `id2` is computed and not used. -/
def CellList.searchExtByRegion (c : CellList) (id : String) : Option Cell :=
  let _id2 := toLower id
  CellList.searchColumnsByRegion id c.extCells.elements

/-- A cell list with one exterior cell, at grid position (2, -3), in the
region `Ascadian Isles Region`. -/
def exampleCells : CellList :=
  { count := 1
    intCells := { elements := [] }
    extCells :=
      { elements :=
          [(2, { elements :=
            [(-3, { name := "", region := "Ascadian Isles Region",
                    data := { flags := 0, gridX := 2, gridY := -3 } })] })] } }

/-- A record type for concrete runs: a record holds its id and the values
read, most recent last. -/
structure ExampleRecord where
  id : String
  values : List Nat
deriving DecidableEq, Repr

/-- The operations on `ExampleRecord`: the reader is the value read, and the
name of a record is its id. -/
def exampleRecord : Record Nat ExampleRecord :=
  { new := { id := "", values := [] }
    load := fun esm x => { x with values := x.values ++ [esm] }
    loadWithId := fun esm id x => { id := id, values := x.values ++ [esm] }
    setId := fun id x => { x with id := id }
    name := fun x => x.id }

/-- The operations on `ExampleRecord` as a script record: the reader is the
name the script has in the file, and loading reads that name. -/
def exampleScript : Record String ExampleRecord :=
  { new := { id := "", values := [] }
    load := fun esm x => { id := esm, values := x.values }
    loadWithId := fun esm _ x => { id := esm, values := x.values }
    setId := fun id x => { x with id := id }
    name := fun x => x.id }

/-- Two characters are the same letter up to case: they are equal, or one of
them is a capital letter `A` to `Z` (the characters 65 to 90) and the
other is the small letter for it, 32 places further on. -/
def sameLetter (a b : Char) : Bool :=
  a = b ∨ (65 ≤ a.toNat ∧ a.toNat ≤ 90 ∧ b.toNat = a.toNat + 32) ∨
    (65 ≤ b.toNat ∧ b.toNat ≤ 90 ∧ a.toNat = b.toNat + 32)

/-- Two lists of characters of the same length that hold the same letters up
to case, place by place. -/
def sameLetters : List Char → List Char → Bool
  | [], [] => true
  | a :: as, b :: bs => sameLetter a b && sameLetters as bs
  | _, _ => false

/-- In the words of the claim, not of the code: `a` is a case variant of `b`,
the two differ in the case of letters only.  It says what `ignores the
case` means without `toLower`; that `toLower` makes exactly the case
variants equal is proved of the code. -/
def CaseVariant (a b : String) : Prop :=
  sameLetters a.data b.data = true

instance (a b : String) : Decidable (CaseVariant a b) :=
  inferInstanceAs (Decidable (sameLetters a.data b.data = true))

/-- What is said of `search` and `find` of a record list with the map `list`:
`search(id)` is the record stored under `toLower(id)`, and `NULL` if there
is none; it gives the same for two ids that are case variants of each
other; `find(id)` returns the record `search(id)` returns, and throws
`object <id> not found` exactly when `search(id)` is `NULL`. -/
def SearchesByLowerCase {X : Type} (list : MapType X) (search : String → Option X)
    (find : String → Except String X) : Prop :=
  ∀ id : String,
    search id = list.find (toLower id) ∧
    (∀ id2 : String, CaseVariant id id2 → search id = search id2) ∧
    (∀ x, find id = Except.ok x ↔ search id = some x) ∧
    (∀ e, find id = Except.error e ↔
      search id = none ∧ e = "object " ++ id ++ " not found")

end ESMS

namespace Resource

/-! ## The filter settings as the specification states them -/

/-- The magnification filter as stated: `NEAREST` if and only if `magfilter`
is `nearest`, `LINEAR` otherwise. -/
def referenceMagFilter (magfilter : String) : FilterMode :=
  if magfilter = "nearest" then FilterMode.NEAREST else FilterMode.LINEAR

/-- The minification filter as stated: with the base `NEAREST` if and only if
`minfilter` is `nearest` and `LINEAR` otherwise, the base itself when
`mipmap` is `none`, the base with `_MIPMAP_NEAREST` when `mipmap` is
`nearest`, and the base with `_MIPMAP_LINEAR` for every other `mipmap`. -/
def referenceMinFilter (minfilter mipmap : String) : FilterMode :=
  if minfilter = "nearest" then
    if mipmap = "none" then FilterMode.NEAREST
    else if mipmap = "nearest" then FilterMode.NEAREST_MIPMAP_NEAREST
    else FilterMode.NEAREST_MIPMAP_LINEAR
  else
    if mipmap = "none" then FilterMode.LINEAR
    else if mipmap = "nearest" then FilterMode.LINEAR_MIPMAP_NEAREST
    else FilterMode.LINEAR_MIPMAP_LINEAR

/-- The maximum anisotropy as stated: `max(1, maxAnisotropy)`. -/
def referenceMaxAnisotropy (maxAnisotropy : Int) : Int :=
  max 1 maxAnisotropy

end Resource

namespace MWMechanics

/-! ## The C type `float` -/

/-- The number of times `n` can be halved before it falls below 2, in at most
`fuel` halvings. -/
def log2Fuel : Nat → Nat → Nat
  | 0, _ => 0
  | fuel + 1, n => if n < 2 then 0 else log2Fuel fuel (n / 2) + 1

/-- The position of the leading binary digit of `n`: for `n > 0` the `k` with
`2 ^ k ≤ n < 2 ^ (k + 1)`. -/
def log2 (n : Nat) : Nat :=
  log2Fuel n n

/-- The power `2 ^ e` for an integer `e`. -/
def pow2 (e : Int) : ℚ :=
  if 0 ≤ e then ((2 ^ e.toNat : Nat) : ℚ) else 1 / ((2 ^ (-e).toNat : Nat) : ℚ)

/-- The binary exponent of `x ≠ 0`: the `e` with `2 ^ e ≤ |x| < 2 ^ (e + 1)`.
The difference of the leading digits of numerator and denominator is `e`
or `e + 1`; the comparison tells which. -/
def ilog2 (x : ℚ) : Int :=
  if pow2 ((log2 x.num.natAbs : Int) - (log2 x.den : Int)) ≤ |x| then
    (log2 x.num.natAbs : Int) - (log2 x.den : Int)
  else (log2 x.num.natAbs : Int) - (log2 x.den : Int) - 1

/-- The integer nearest to `y`; of two equally near integers the even one. -/
def roundHalfEven (y : ℚ) : Int :=
  if y - ⌊y⌋ < 1 / 2 then ⌊y⌋
  else if 1 / 2 < y - ⌊y⌋ then ⌊y⌋ + 1
  else if ⌊y⌋ % 2 = 0 then ⌊y⌋ else ⌊y⌋ + 1

/-- The spacing of the binary32 numbers around `x`: with 24 significant binary
digits it is `2 ^ (e - 23)` for numbers of binary exponent `e`; below the
exponent -126 (the subnormal numbers) the spacing stays `2 ^ -149`. -/
def ulp (x : ℚ) : ℚ :=
  pow2 (max (ilog2 x) (-126) - 23)

/-- Rounding to binary32 in the mode round-to-nearest, ties to even, the mode
C++ programs run in: the multiple of the spacing around `x` nearest to
`x`, of two equally near ones the one with the even multiplier.  The
exponent is not bounded above here; `float.round` looks after the
overflow. -/
def round32 (x : ℚ) : ℚ :=
  roundHalfEven (x / ulp x) * ulp x

/-- A C `float`, an IEEE-754 binary32 number: a finite number, by the rational
number it denotes, an infinity, or a NaN.  The finite numbers of the format
are the rationals that `round32` leaves as they are, below `2 ^ 128` in
absolute value (`float.isBinary32`).  The sign of a zero is not kept: the
code embedded here compares floats, converts them from and to `int` and
subtracts, multiplies and divides them by a number that is not zero, and
none of that tells `-0.0` from `0.0`. -/
inductive float where
  | finite (value : ℚ)
  | inf (negative : Bool)
  | nan
deriving DecidableEq, Repr

/-- The float that an operation with the exact result `x` delivers: `x`
rounded to binary32, and an infinity of the sign of `x` when the rounded
number is beyond the largest finite float. -/
def float.round (x : ℚ) : float :=
  if pow2 128 ≤ |round32 x| then float.inf (decide (x < 0)) else float.finite (round32 x)

/-- The float is a number of the binary32 format. -/
def float.isBinary32 : float → Prop
  | float.finite x => round32 x = x ∧ |x| < pow2 128
  | _ => True

/-- The conversion of an `int` to `float`, written `static_cast<float>(n)` or
left to the compiler where an `int` meets a `float` in a comparison or an
arithmetic operation: `n` rounded to binary32. -/
def ofInt (n : Int) : float :=
  float.round n

/-- `a < b` on floats; false when one of them is a NaN. -/
def float.lt : float → float → Bool
  | float.finite a, float.finite b => decide (a < b)
  | float.finite _, float.inf negative => !negative
  | float.inf negative, float.finite _ => negative
  | float.inf a, float.inf b => a && !b
  | _, _ => false

/-- `a == b` on floats; false when one of them is a NaN. -/
def float.eq : float → float → Bool
  | float.finite a, float.finite b => decide (a = b)
  | float.inf a, float.inf b => decide (a = b)
  | _, _ => false

/-- `a - b` on floats. -/
def float.sub : float → float → float
  | float.finite a, float.finite b => float.round (a - b)
  | float.finite _, float.inf negative => float.inf (!negative)
  | float.inf negative, float.finite _ => float.inf negative
  | float.inf a, float.inf b => if a = b then float.nan else float.inf a
  | _, _ => float.nan

/-- `a * b` on floats. -/
def float.mul : float → float → float
  | float.finite a, float.finite b => float.round (a * b)
  | float.finite a, float.inf negative =>
    if a = 0 then float.nan else float.inf (decide (a < 0) != negative)
  | float.inf negative, float.finite b =>
    if b = 0 then float.nan else float.inf (negative != decide (b < 0))
  | float.inf a, float.inf b => float.inf (a != b)
  | _, _ => float.nan

/-- `a / b` on floats.  A divisor zero is taken as `0.0`; the code embedded
here divides by 100 only. -/
def float.div : float → float → float
  | float.finite a, float.finite b =>
    if b = 0 then
      if a = 0 then float.nan else float.inf (decide (a < 0))
    else float.round (a / b)
  | float.finite _, float.inf _ => float.finite 0
  | float.inf negative, float.finite b => float.inf (negative != decide (b < 0))
  | _, _ => float.nan

/-- The integer part of a number, rounding towards zero. -/
def trunc (x : ℚ) : Int :=
  if 0 ≤ x then ⌊x⌋ else ⌈x⌉

/-- `static_cast<int>(x)`: the integer part of `x`; the behaviour is undefined
(`none`) when that is not an `int`, as for an infinity and a NaN. -/
def toInt : float → Option Int
  | float.finite x =>
    if -2147483648 ≤ trunc x ∧ trunc x ≤ 2147483647 then some (trunc x) else none
  | _ => none

end MWMechanics

namespace MWMechanics

/-! ## spellcasting.cpp -/

/-- How a call ends: it returns a value, it throws, or the behaviour of the
C++ code is undefined (an array read outside its bounds, a float with no
`int` to convert to). -/
inductive Result (α : Type) where
  | value (a : α)
  | thrown (what : String)
  | undefined
deriving DecidableEq, Repr

/-- `ESM::RangeType`, the type of `mRange`; `other` stands for a value that is
none of the enumerators. -/
inductive RangeType where
  | RT_Self
  | RT_Touch
  | RT_Target
  | other (value : Int)
deriving DecidableEq, Repr

/-- `ESM::Enchantment::Type`, the type of `mData.mType`; `other` stands for a
value that is none of the enumerators. -/
inductive EnchantmentType where
  | CastOnce
  | WhenStrikes
  | WhenUsed
  | ConstantEffect
  | other (value : Int)
deriving DecidableEq, Repr

/-- The enumerators of `ESM::MagicEffect::Effects` that `applyInstantEffect`
names; `other` stands for any other effect id. -/
inductive Effects where
  | Lock
  | Open
  | CurePoison
  | CureParalyzation
  | CureCommonDisease
  | CureBlightDisease
  | CureCorprusDisease
  | Dispel
  | RemoveCurse
  | DivineIntervention
  | AlmsiviIntervention
  | Mark
  | Recall
  | Poison
  | Paralyze
  | other (id : Int)
deriving DecidableEq, Repr

/-- An `ESM::ENAMstruct` as far as it is read: the effect and its range. -/
structure ENAMstruct where
  mEffectID : Int
  mRange : RangeType
deriving DecidableEq, Repr

/-- An `ESM::EffectList`. -/
structure EffectList where
  mList : List ENAMstruct
deriving DecidableEq, Repr

/-- The `mData` of an `ESM::MagicEffect` as far as it is read. -/
structure MEDTstruct where
  mSchool : Int
  mSpeed : float
deriving DecidableEq, Repr

/-- An `ESM::MagicEffect` as far as it is read. -/
structure MagicEffect where
  mData : MEDTstruct
  mBolt : String
  mBoltSound : String
deriving DecidableEq, Repr

/-- The `mData` of an `ESM::Enchantment`. -/
structure ENDTstruct where
  mType : EnchantmentType
  mCost : Int
  mCharge : Int
deriving DecidableEq, Repr

/-- An `ESM::Enchantment` as far as it is read. -/
structure Enchantment where
  mData : ENDTstruct
  mEffects : EffectList
deriving DecidableEq, Repr

/-- The array `schools` that `getProjectileInfo` and `CastSpell::cast`
declare. -/
def schools : List String :=
  ["alteration", "conjuration", "destruction", "illusion", "mysticism", "restoration"]

/-- `schools[school]`: `none` when the index is outside the array, where the
behaviour is undefined. -/
def schoolsAt (school : Int) : Option String :=
  if 0 ≤ school then schools[school.toNat]? else none

/-- The loop of `getProjectileInfo` over the effects still to visit.  `find`
is `getStore().get<ESM::MagicEffect>().find`, which throws for an effect it
does not have.  Returns `model`, `sound` and `speed` as they are after the
call. -/
def getProjectileInfoLoop (find : Int → Except String MagicEffect) :
    List ENAMstruct → String → String → float → Result (String × String × float)
  | [], model, sound, speed => Result.value (model, sound, speed)
  | iter :: rest, model, sound, speed =>
    if iter.mRange ≠ RangeType.RT_Target then
      getProjectileInfoLoop find rest model sound speed
    else
      match find iter.mEffectID with
      | Except.error what => Result.thrown what
      | Except.ok magicEffect =>
        let model := magicEffect.mBolt
        let model := if model = "" then "VFX_DefaultBolt" else model
        if magicEffect.mBoltSound ≠ "" then
          Result.value (model, magicEffect.mBoltSound, magicEffect.mData.mSpeed)
        else
          match schoolsAt magicEffect.mData.mSchool with
          | none => Result.undefined
          | some school => Result.value (model, school ++ " bolt", magicEffect.mData.mSpeed)

/-- `getProjectileInfo`. -/
def getProjectileInfo (find : Int → Except String MagicEffect) (effects : EffectList)
    (model sound : String) (speed : float) : Result (String × String × float) :=
  getProjectileInfoLoop find effects.mList model sound speed

/-- An `MWWorld::Ptr` with what is read through it: the object it points to
(`none` for an empty `Ptr`; two `Ptr`s are equal when they point to the
same object), `getClass().isActor()`, `getClass().canLock(ptr)`,
`getCellRef().getLockLevel()`, `getClass().getEnchantment(ptr)`,
`getClass().getName(ptr)`, `getCellRef().getRefId()` and
`getCellRef().getEnchantmentCharge()`. -/
structure Ptr where
  object : Option Nat
  isActor : Bool
  canLock : Bool
  lockLevel : Int
  enchantment : String
  name : String
  refId : String
  enchantmentCharge : float
deriving DecidableEq, Repr

/-- `ptr.isEmpty()`. -/
def Ptr.isEmpty (p : Ptr) : Bool :=
  p.object.isNone

/-- A call made on the world, the window manager, the sound manager or the
mechanics manager, or of a member function of `CastSpell` that is not
embedded.  The calls are recorded in order; what they do is not
modelled. -/
inductive Call where
  | messageBox (message : String)
  | playSound3D (ptr : Option Nat) (soundId : String)
  | skillUsageSucceeded (actor : Option Nat) (skill : String) (usageType : Int)
  | remove (item : Option Nat) (count : Int) (actor : Option Nat)
  | inflict (target caster : Option Nat) (effects : EffectList) (range : RangeType)
  | launchMagicBolt (model sound id : String) (speed : float) (effects : EffectList)
      (caster : Option Nat) (sourceName : String)
  | objectOpened (caster target : Option Nat)
  | purgeEffect (target : Option Nat) (effect : Effects)
  | purgeCommonDisease (target : Option Nat)
  | purgeBlightDisease (target : Option Nat)
  | purgeCorprusDisease (target : Option Nat)
  | purgeAll (target : Option Nat) (chance : float)
  | purgeCurses (target : Option Nat)
  | teleportToClosestMarker (target : Option Nat) (id : String)
  | markPosition (target : Option Nat)
  | teleport (target : Option Nat) (cellName : String)
deriving DecidableEq, Repr

/-- What `CastSpell` reads of the game outside the sources: the player,
the two stores' `find` (throwing for an id they do not have),
`actor.getClass().getSkill(actor, ESM::Skill::Enchant)`, `Class::unlock` by
the target it leaves, and the cell of the player's mark with whether it is
an exterior and its name (`none` when there is no mark). -/
structure World where
  getPlayer : Ptr
  findMagicEffect : Int → Except String MagicEffect
  findEnchantment : String → Except String Enchantment
  getEnchantSkill : Ptr → Int
  unlock : Ptr → Ptr
  markedCell : Option (Bool × String)

/-- `getEffectiveEnchantmentCastCost`.  `eSkill - 10` is a subtraction of
`int`s, undefined when it overflows.  The other operations are operations
on floats, the `int`s 100 and `eSkill - 10` being converted to `float`
first: each of the division, the multiplication and the subtraction rounds
its result to binary32, as compilers for machines with binary32 arithmetic
evaluate a `float` expression that they do not fuse or widen.  In
`(result < 1) ? 1 : result` the `1` is
converted to `float`, and the conversion of the float chosen to `int` is
undefined when its integer part is not an `int`. -/
def getEffectiveEnchantmentCastCost (w : World) (castCost : float) (actor : Ptr) :
    Result Int :=
  let eSkill := w.getEnchantSkill actor
  if eSkill - 10 < -2147483648 ∨ 2147483647 < eSkill - 10 then Result.undefined
  else
    let result := castCost.sub ((castCost.div (ofInt 100)).mul (ofInt (eSkill - 10)))
    match toInt (if result.lt (ofInt 1) then ofInt 1 else result) with
    | none => Result.undefined
    | some cost => Result.value cost

/-- The members of `CastSpell` that `cast` and `applyInstantEffect` use. -/
structure CastSpell where
  mCaster : Ptr
  mTarget : Ptr
  mStack : Bool
  mId : String
  mSourceName : String
deriving DecidableEq, Repr

/-- The part of `CastSpell::cast(const MWWorld::Ptr&)` under the comment
`Failure sound`, up to `return false`: the result and the calls made. -/
def CastSpell.failureSound (w : World) (c : CastSpell) (enchantment : Enchantment)
    (calls : List Call) : Result Bool × List Call :=
  let school : Result Int :=
    match enchantment.mEffects.mList with
    | [] => Result.value 0
    | front :: _ =>
      match w.findMagicEffect front.mEffectID with
      | Except.error what => Result.thrown what
      | Except.ok magicEffect => Result.value magicEffect.mData.mSchool
  match school with
  | Result.thrown what => (Result.thrown what, calls)
  | Result.undefined => (Result.undefined, calls)
  | Result.value school =>
    match schoolsAt school with
    | none => (Result.undefined, calls)
    | some name =>
      (Result.value false,
        calls ++ [Call.playSound3D c.mCaster.object ("Spell Failure " ++ name)])

/-- The part of `CastSpell::cast(const MWWorld::Ptr&)` under the comment
`Check if there's enough charge left`: how the call ends if it ends there
(`none` when it goes on), the item and the calls made.  The charge is a
`float`; the `int`s it is compared with and the cast cost subtracted from
it are converted to `float` first, and the difference is rounded to
binary32. -/
def CastSpell.checkCharge (w : World) (c : CastSpell) (enchantment : Enchantment)
    (item : Ptr) (calls : List Call) : Option (Result Bool) × Ptr × List Call :=
  if enchantment.mData.mType = EnchantmentType.WhenUsed ∨
      enchantment.mData.mType = EnchantmentType.WhenStrikes then
    match getEffectiveEnchantmentCastCost w (ofInt enchantment.mData.mCost) c.mCaster with
    | Result.thrown what => (some (Result.thrown what), item, calls)
    | Result.undefined => (some Result.undefined, item, calls)
    | Result.value castCost =>
      let item1 :=
        if item.enchantmentCharge.eq (ofInt (-1)) then
          { item with enchantmentCharge := ofInt enchantment.mData.mCharge }
        else item
      if item1.enchantmentCharge.lt (ofInt castCost) then
        let calls1 :=
          if c.mCaster.object = w.getPlayer.object then
            calls ++ [Call.messageBox "#{sMagicInsufficientCharge}"]
          else calls
        (some (c.failureSound w enchantment calls1).1, item1,
          (c.failureSound w enchantment calls1).2)
      else
        (none,
          { item1 with enchantmentCharge := item1.enchantmentCharge.sub (ofInt castCost) },
          calls)
  else (none, item, calls)

/-- The part of `CastSpell::cast(const MWWorld::Ptr&)` after the check of the
charge: the result and the calls made. -/
def CastSpell.castEffects (w : World) (c : CastSpell) (enchantment : Enchantment)
    (item : Ptr) (calls : List Call) : Result Bool × List Call :=
  let calls1 :=
    if enchantment.mData.mType = EnchantmentType.WhenUsed then
      if c.mCaster.object = w.getPlayer.object then
        calls ++ [Call.skillUsageSucceeded c.mCaster.object "Enchant" 1]
      else calls
    else calls
  let calls2 :=
    if enchantment.mData.mType = EnchantmentType.CastOnce then
      calls1 ++ [Call.remove item.object 1 c.mCaster.object]
    else if enchantment.mData.mType ≠ EnchantmentType.WhenStrikes then
      if c.mCaster.object = w.getPlayer.object then
        calls1 ++ [Call.skillUsageSucceeded c.mCaster.object "Enchant" 3]
      else calls1
    else calls1
  let calls3 :=
    calls2 ++
      [Call.inflict c.mCaster.object c.mCaster.object enchantment.mEffects RangeType.RT_Self]
  let calls4 :=
    if !c.mTarget.isEmpty then
      calls3 ++
        [Call.inflict c.mTarget.object c.mCaster.object enchantment.mEffects
          RangeType.RT_Touch]
    else calls3
  match getProjectileInfo w.findMagicEffect enchantment.mEffects "" "" (float.finite 0) with
  | Result.thrown what => (Result.thrown what, calls4)
  | Result.undefined => (Result.undefined, calls4)
  | Result.value (projectileModel, sound, speed) =>
    if projectileModel ≠ "" then
      (Result.value true,
        calls4 ++
          [Call.launchMagicBolt projectileModel sound c.mId speed enchantment.mEffects
            c.mCaster.object c.mSourceName])
    else (Result.value true, calls4)

/-- `CastSpell::cast(const MWWorld::Ptr &item)`: the result, the `CastSpell`
object and the item after the call, and the calls made, after those in
`calls`. -/
def CastSpell.cast (w : World) (c : CastSpell) (item : Ptr) (calls : List Call) :
    Result Bool × CastSpell × Ptr × List Call :=
  let enchantmentName := item.enchantment
  if enchantmentName = "" then
    (Result.thrown "can't cast an item without an enchantment", c, item, calls)
  else
    let c1 := { c with mSourceName := item.name, mId := item.refId }
    match w.findEnchantment enchantmentName with
    | Except.error what => (Result.thrown what, c1, item, calls)
    | Except.ok enchantment =>
      let c2 :=
        { c1 with mStack := decide (enchantment.mData.mType = EnchantmentType.CastOnce) }
      match c2.checkCharge w enchantment item calls with
      | (some result, item1, calls1) => (result, c2, item1, calls1)
      | (none, item1, calls1) =>
        ((c2.castEffects w enchantment item1 calls1).1, c2, item1,
          (c2.castEffects w enchantment item1 calls1).2)

/-- Whether a call is one of `inflict` or `launchMagicBolt`, the calls by
which `cast` brings effects about. -/
def Call.isEffect : Call → Bool
  | Call.inflict _ _ _ _ => true
  | Call.launchMagicBolt _ _ _ _ _ _ _ => true
  | _ => false

/-- The charge of the item as `cast` reads it at the check: the full charge
of the enchantment, converted to `float`, when the charge of the item was
unset (-1), the charge of the item otherwise. -/
def initialCharge (enchantment : Enchantment) (item : Ptr) : float :=
  if item.enchantmentCharge.eq (ofInt (-1)) then ofInt enchantment.mData.mCharge
  else item.enchantmentCharge

/-- The effective cast cost as `cast` computes it for the caster. -/
def effectiveCastCost (w : World) (c : CastSpell) (enchantment : Enchantment) : Result Int :=
  getEffectiveEnchantmentCastCost w (ofInt enchantment.mData.mCost) c.mCaster

/-- The failure sound of `cast` can be played: the enchantment has no effect,
or its first effect is known to the store and has a school of the array
`schools`. -/
def FailureSoundPlayable (w : World) (enchantment : Enchantment) : Prop :=
  enchantment.mEffects.mList = [] ∨
  ∃ front rest magicEffect name,
    enchantment.mEffects.mList = front :: rest ∧
    w.findMagicEffect front.mEffectID = Except.ok magicEffect ∧
    schoolsAt magicEffect.mData.mSchool = some name

end MWMechanics

namespace MWMechanics

/-! ## A small world for concrete casts -/

/-- The player of the example world: the object at address 1, an actor. -/
def examplePlayer : Ptr :=
  { object := some 1, isActor := true, canLock := false, lockLevel := 0, enchantment := "",
    name := "player", refId := "player", enchantmentCharge := float.finite 0 }

/-- The magic effects of the example world: effect 14 has a bolt model and a
bolt sound of its own, effect 23, of the school at index 2, has neither;
no other effect is known. -/
def exampleMagicEffects (id : Int) : Except String MagicEffect :=
  if id = 14 then
    Except.ok { mData := { mSchool := 2, mSpeed := float.finite (3 / 2) }, mBolt := "VFX_FireBolt",
                mBoltSound := "fire bolt sound" }
  else if id = 23 then
    Except.ok { mData := { mSchool := 2, mSpeed := float.finite 1 }, mBolt := "", mBoltSound := "" }
  else Except.error "magic effect not found"

/-- The one enchantment of the example world, `ring of fire`: cast when used,
cost 5, full charge 20, with effect 23 on the caster and effect 14 on a
target at range. -/
def exampleEnchantment : Enchantment :=
  { mData := { mType := EnchantmentType.WhenUsed, mCost := 5, mCharge := 20 }
    mEffects :=
      { mList :=
          [{ mEffectID := 23, mRange := RangeType.RT_Self },
            { mEffectID := 14, mRange := RangeType.RT_Target }] } }

/-- A second enchantment of the example world, `staff of ages`: cast when
used, cost 5, full charge 134217728, which is `2 ^ 27`, with effect 23 on
the caster. -/
def exampleLargeEnchantment : Enchantment :=
  { mData := { mType := EnchantmentType.WhenUsed, mCost := 5, mCharge := 134217728 }
    mEffects := { mList := [{ mEffectID := 23, mRange := RangeType.RT_Self }] } }

/-- The example world.  The Enchant skill of the enchanter is 60, that of
everybody else 10; `unlock` sets the lock level to zero. -/
def exampleWorld : World :=
  { getPlayer := examplePlayer
    findMagicEffect := exampleMagicEffects
    findEnchantment := fun name =>
      if name = "ring of fire" then Except.ok exampleEnchantment
      else if name = "staff of ages" then Except.ok exampleLargeEnchantment
      else Except.error ("object " ++ name ++ " not found")
    getEnchantSkill := fun actor => if actor.object = some 2 then 60 else 10
    unlock := fun p => { p with lockLevel := 0 }
    markedCell := none }

/-- A ring with the enchantment `ring of fire` and the charge given. -/
def exampleRing (charge : float) : Ptr :=
  { object := some 9, isActor := false, canLock := false, lockLevel := 0,
    enchantment := "ring of fire", name := "Ring of Fire", refId := "ring_fire",
    enchantmentCharge := charge }

/-- A staff with the enchantment `staff of ages` and its charge unset. -/
def exampleStaff : Ptr :=
  { object := some 10, isActor := false, canLock := false, lockLevel := 0,
    enchantment := "staff of ages", name := "Staff of Ages", refId := "staff_ages",
    enchantmentCharge := float.finite (-1) }

/-- The player casting, with no target. -/
def exampleCast : CastSpell :=
  { mCaster := examplePlayer
    mTarget := { examplePlayer with object := none }
    mStack := false
    mId := ""
    mSourceName := "" }

end MWMechanics

/-! # Part II: theorems -/
namespace SceneUtil

/-! ## Work queue: basic facts -/

theorem addWorkItem_of_not_done (items : Items) (item : Nat) (q : WorkQueue)
    (h : (items item).isDone = false) :
    q.addWorkItem items item = ({ q with mQueue := q.mQueue ++ [item] }, []) := by
  simp [WorkQueue.addWorkItem, h]

theorem addWorkItem_of_done (items : Items) (item : Nat) (q : WorkQueue)
    (h : (items item).isDone = true) :
    q.addWorkItem items item = (q, [addWorkItemWarning]) := by
  simp [WorkQueue.addWorkItem, h]

theorem addAll_of_not_done (items : Items) (ps : List Nat) (q : WorkQueue)
    (h : ∀ p ∈ ps, (items p).isDone = false) :
    q.addAll items ps = { q with mQueue := q.mQueue ++ ps } := by
  induction ps generalizing q with
  | nil => simp [WorkQueue.addAll]
  | cons p ps ih =>
    have hp : (items p).isDone = false := h p (List.mem_cons_self _ _)
    have hps : ∀ x ∈ ps, (items x).isDone = false :=
      fun x hx => h x (List.mem_cons_of_mem _ hx)
    have := ih (q.addWorkItem items p).1 hps
    simp only [WorkQueue.addAll, List.foldl_cons] at this ⊢
    rw [this, addWorkItem_of_not_done items p q hp]
    simp

theorem removeN_prefix (l r : List Nat) (rel : Bool) :
    WorkQueue.removeN l.length { mQueue := l ++ r, mIsReleased := rel } =
      (l.map Removed.item, { mQueue := r, mIsReleased := rel }) := by
  induction l with
  | nil => simp [WorkQueue.removeN]
  | cons p l ih =>
    simp [WorkQueue.removeN, WorkQueue.removeWorkItem, ih]

theorem run_append (s : System) (a b : List Action) :
    s.run (a ++ b) = (s.run a).run b := by
  simp [System.run, List.foldl_append]

theorem run_adds (s : System) (ps : List Nat) :
    s.run (ps.map Action.addWorkItem) = { s with queue := s.queue.addAll s.items ps } := by
  induction ps generalizing s with
  | nil => simp [System.run, WorkQueue.addAll]
  | cons p ps ih =>
    have := ih (s.step (Action.addWorkItem p))
    simp only [System.run, List.map_cons, List.foldl_cons] at this ⊢
    rw [this]
    simp [System.step, WorkQueue.addAll]

/-- A lone worker that finds `ps` queued works through it front to back. -/
theorem lone_worker_drains (ps : List Nat) (rel : Bool) (items : Items) (log : List Nat)
    (dq : List (Nat × Nat)) :
    (System.run
        { queue := { mQueue := ps, mIsReleased := rel }
          items := items
          mThreads := [Phase.WAIT_FOR_ITEM]
          workLog := log
          dequeueLog := dq }
        (List.replicate (3 * ps.length) (Action.step 0))).workLog = log ++ ps := by
  induction ps generalizing items log dq with
  | nil => simp [System.run]
  | cons p ps ih =>
    have h3 : 3 * (p :: ps).length = (3 * ps.length) + 1 + 1 + 1 := by
      simp [List.length_cons]; ring
    rw [h3]
    simp only [List.replicate_succ, System.run, List.foldl_cons]
    have := ih (items.set p (items p).signalDone) (log ++ [p]) (dq ++ [(0, p)])
    simp only [System.run] at this
    simp [System.step, WorkThread.run, WorkQueue.removeWorkItem, this]

/-! ## Work queue: the invariant of the step relation -/

/-- The items returned by `removeWorkItem` so far. -/
theorem mem_dequeued_of_mem {t p : Nat} {l : List (Nat × Nat)} (h : (t, p) ∈ l) :
    p ∈ l.map Prod.snd :=
  List.mem_map.mpr ⟨(t, p), h, rfl⟩

theorem inv_new (n : Nat) : Inv [] (System.new n) := by
  refine ⟨by simp [System.new, WorkQueue.new], by simp [System.new, WorkQueue.new],
    ?_, ?_, by simp [System.new], by simp [System.new], ?_, by simp [System.new]⟩
  · intro t p h
    simp only [System.new, List.getElem?_eq_some] at h
    obtain ⟨_, h⟩ := h
    simp at h
  · intro t p h
    simp only [System.new, List.getElem?_eq_some] at h
    obtain ⟨_, h⟩ := h
    simp at h
  · intro p h
    simp [System.new, Items.fresh, WorkItem.isDone] at h

theorem inv_mono {subs subs2 : List Nat} {s : System} (h : Inv subs s)
    (hs : ∀ p ∈ subs, p ∈ subs2) : Inv subs2 s :=
  { h with sub := fun p hp => hs p (h.sub p hp) }

theorem inv_add {subs : List Nat} {s : System} (h : Inv subs s) (p : Nat) (hp : p ∉ subs) :
    Inv (subs ++ [p]) (s.step (Action.addWorkItem p)) := by
  by_cases hd : (s.items p).isDone = true
  · have : s.step (Action.addWorkItem p) = s := by
      simp [System.step, WorkQueue.addWorkItem, hd]
    rw [this]
    exact inv_mono h (fun x hx => List.mem_append_left _ hx)
  · have hd2 : (s.items p).isDone = false := by simpa using hd
    have hq : (s.step (Action.addWorkItem p)) =
        { s with queue := { s.queue with mQueue := s.queue.mQueue ++ [p] } } := by
      simp [System.step, WorkQueue.addWorkItem, hd2]
    rw [hq]
    have hnot : p ∉ s.queue.mQueue ++ s.dequeueLog.map Prod.snd := fun hm => hp (h.sub p hm)
    refine ⟨?_, ?_, h.exec, h.sig, h.logNodup, h.logDeq, h.done, h.owner⟩
    · have hperm : (s.queue.mQueue ++ [p] ++ s.dequeueLog.map Prod.snd).Perm
          (p :: (s.queue.mQueue ++ s.dequeueLog.map Prod.snd)) := by
        simp only [List.append_assoc, List.singleton_append]
        exact List.perm_middle
      exact hperm.nodup_iff.mpr (List.nodup_cons.mpr ⟨hnot, h.fresh⟩)
    · intro x hx
      simp only [List.append_assoc, List.mem_append, List.mem_singleton, List.mem_cons,
        List.mem_map] at hx ⊢
      rcases hx with hx | hx | hx
      · exact Or.inl (h.sub x (List.mem_append_left _ hx))
      · exact Or.inr hx
      · exact Or.inl (h.sub x (List.mem_append_right _ (List.mem_map.mpr hx)))

theorem inv_destroy {subs : List Nat} {s : System} (h : Inv subs s) :
    Inv subs (s.step Action.destroy) := by
  refine ⟨?_, ?_, h.exec, h.sig, h.logNodup, h.logDeq, h.done, h.owner⟩
  · simpa [System.step, WorkQueue.release] using (List.nodup_append.mp h.fresh).2.1
  · intro x hx
    simp only [System.step, WorkQueue.release, List.nil_append] at hx
    exact h.sub x (List.mem_append_right _ hx)

theorem getElem?_set_some {l : List Phase} {t u : Nat} {a b : Phase}
    (h : (l.set t a)[u]? = some b) : (u = t ∧ b = a) ∨ (u ≠ t ∧ l[u]? = some b) := by
  rw [List.getElem?_set] at h
  by_cases htu : t = u
  · subst htu
    simp only [if_true] at h
    split at h
    · left; exact ⟨rfl, by simpa using h.symm⟩
    · cases h
  · rw [if_neg htu] at h
    right; exact ⟨fun e => htu e.symm, h⟩

theorem getElem?_set_same {l : List Phase} {t : Nat} {a b : Phase}
    (h : l[t]? = some b) : (l.set t a)[t]? = some a := by
  have : t < l.length := (List.getElem?_eq_some.mp h).1
  exact List.getElem?_set_self this

theorem getElem?_set_other {l : List Phase} {t u : Nat} {a : Phase} (h : u ≠ t) :
    (l.set t a)[u]? = l[u]? :=
  List.getElem?_set_ne (fun e => h e.symm)

theorem run_none {s : System} {t : Nat} (h : s.mThreads[t]? = none) :
    WorkThread.run t s = s := by
  simp [WorkThread.run, h]

theorem run_exit {s : System} {t : Nat} (h : s.mThreads[t]? = some Phase.EXIT) :
    WorkThread.run t s = s := by
  simp [WorkThread.run, h]

theorem run_wait_blocked {s : System} {t : Nat}
    (h : s.mThreads[t]? = some Phase.WAIT_FOR_ITEM)
    (hq : s.queue.mQueue = []) (hr : s.queue.mIsReleased = false) :
    WorkThread.run t s = s := by
  simp [WorkThread.run, h, WorkQueue.removeWorkItem, hq, hr]

theorem run_wait_null {s : System} {t : Nat}
    (h : s.mThreads[t]? = some Phase.WAIT_FOR_ITEM)
    (hq : s.queue.mQueue = []) (hr : s.queue.mIsReleased = true) :
    WorkThread.run t s = { s with mThreads := s.mThreads.set t Phase.EXIT } := by
  simp [WorkThread.run, h, WorkQueue.removeWorkItem, hq, hr]

theorem run_wait_item {s : System} {t p : Nat} {rest : List Nat}
    (h : s.mThreads[t]? = some Phase.WAIT_FOR_ITEM)
    (hq : s.queue.mQueue = p :: rest) :
    WorkThread.run t s =
      { s with queue := { s.queue with mQueue := rest }
               mThreads := s.mThreads.set t (Phase.EXECUTE p)
               dequeueLog := s.dequeueLog ++ [(t, p)] } := by
  simp [WorkThread.run, h, WorkQueue.removeWorkItem, hq]

theorem run_execute {s : System} {t p : Nat}
    (h : s.mThreads[t]? = some (Phase.EXECUTE p)) :
    WorkThread.run t s =
      { s with workLog := s.workLog ++ [p]
               mThreads := s.mThreads.set t (Phase.SIGNAL_DONE p) } := by
  simp [WorkThread.run, h]

theorem run_signal {s : System} {t p : Nat}
    (h : s.mThreads[t]? = some (Phase.SIGNAL_DONE p)) :
    WorkThread.run t s =
      { s with items := s.items.set p (s.items p).signalDone
               mThreads := s.mThreads.set t Phase.WAIT_FOR_ITEM } := by
  simp [WorkThread.run, h]

/-- Two threads recorded as receivers of one item are the same thread. -/
theorem Inv.receiver_unique {subs : List Nat} {s : System} (h : Inv subs s) {t u p : Nat}
    (ht : (t, p) ∈ s.dequeueLog) (hu : (u, p) ∈ s.dequeueLog) : t = u := by
  have hn : (s.dequeueLog.map Prod.snd).Nodup := (List.nodup_append.mp h.fresh).2.1
  have := List.inj_on_of_nodup_map hn ht hu rfl
  exact congrArg Prod.fst this

theorem inv_wait_null {subs : List Nat} {s : System} (h : Inv subs s) {t : Nat}
    (ht : s.mThreads[t]? = some Phase.WAIT_FOR_ITEM) :
    Inv subs { s with mThreads := s.mThreads.set t Phase.EXIT } := by
  refine ⟨h.fresh, h.sub, ?_, ?_, h.logNodup, h.logDeq, h.done, ?_⟩
  · intro u p hu
    rcases getElem?_set_some hu with ⟨_, hc⟩ | ⟨_, hu2⟩
    · cases hc
    · exact h.exec u p hu2
  · intro u p hu
    rcases getElem?_set_some hu with ⟨_, hc⟩ | ⟨_, hu2⟩
    · cases hc
    · exact h.sig u p hu2
  · intro u p hu
    by_cases hut : u = t
    · subst hut
      rcases h.owner u p hu with hd | he | he
      · exact Or.inl hd
      · rw [ht] at he; cases he
      · rw [ht] at he; cases he
    · rcases h.owner u p hu with hd | he | he
      · exact Or.inl hd
      · exact Or.inr (Or.inl (by rw [getElem?_set_other hut]; exact he))
      · exact Or.inr (Or.inr (by rw [getElem?_set_other hut]; exact he))

theorem inv_wait_item {subs : List Nat} {s : System} (h : Inv subs s) {t p : Nat}
    {rest : List Nat} (ht : s.mThreads[t]? = some Phase.WAIT_FOR_ITEM)
    (hq : s.queue.mQueue = p :: rest) :
    Inv subs { s with queue := { s.queue with mQueue := rest }
                      mThreads := s.mThreads.set t (Phase.EXECUTE p)
                      dequeueLog := s.dequeueLog ++ [(t, p)] } := by
  have hfresh := h.fresh
  rw [hq] at hfresh
  have hfresh2 : (p :: (rest ++ s.dequeueLog.map Prod.snd)).Nodup := by
    simpa only [List.cons_append] using hfresh
  have hpnot : p ∉ s.dequeueLog.map Prod.snd :=
    fun hm => (List.nodup_cons.mp hfresh2).1 (List.mem_append_right _ hm)
  refine ⟨?_, ?_, ?_, ?_, h.logNodup, ?_, h.done, ?_⟩
  · have hperm : (rest ++ (s.dequeueLog ++ [(t, p)]).map Prod.snd).Perm
        (p :: (rest ++ s.dequeueLog.map Prod.snd)) := by
      simp only [List.map_append, List.map_cons, List.map_nil]
      rw [← List.append_assoc]
      exact List.perm_append_singleton _ _
    exact hperm.nodup_iff.mpr hfresh2
  · intro x hx
    apply h.sub x
    rw [hq]
    simp only [List.map_append, List.map_cons, List.map_nil, List.mem_append,
      List.mem_singleton, List.cons_append, List.mem_cons, List.not_mem_nil,
      or_false] at hx ⊢
    rcases hx with hx | hx | hx
    · exact Or.inr (Or.inl hx)
    · exact Or.inr (Or.inr hx)
    · exact Or.inl hx
  · intro u q hu
    rcases getElem?_set_some hu with ⟨hut, hc⟩ | ⟨_, hu2⟩
    · cases hc
      subst hut
      exact ⟨by simp, fun hm => hpnot (h.logDeq _ hm)⟩
    · exact ⟨List.mem_append_left _ (h.exec u q hu2).1, (h.exec u q hu2).2⟩
  · intro u q hu
    rcases getElem?_set_some hu with ⟨_, hc⟩ | ⟨_, hu2⟩
    · cases hc
    · exact ⟨List.mem_append_left _ (h.sig u q hu2).1, (h.sig u q hu2).2⟩
  · intro x hx
    simp only [List.map_append, List.mem_append]
    exact Or.inl (h.logDeq x hx)
  · intro u q hu0
    have hu1 : (u, q) ∈ s.dequeueLog ++ [(t, p)] := hu0
    rcases List.mem_append.mp hu1 with hu | hu
    · by_cases hut : u = t
      · subst hut
        rcases h.owner u q hu with hd | he | he
        · exact Or.inl hd
        · rw [ht] at he; cases he
        · rw [ht] at he; cases he
      · rcases h.owner u q hu with hd | he | he
        · exact Or.inl hd
        · exact Or.inr (Or.inl (by rw [getElem?_set_other hut]; exact he))
        · exact Or.inr (Or.inr (by rw [getElem?_set_other hut]; exact he))
    · simp only [List.mem_singleton, Prod.mk.injEq] at hu
      obtain ⟨rfl, rfl⟩ := hu
      exact Or.inr (Or.inl (getElem?_set_same ht))

theorem inv_execute {subs : List Nat} {s : System} (h : Inv subs s) {t p : Nat}
    (ht : s.mThreads[t]? = some (Phase.EXECUTE p)) :
    Inv subs { s with workLog := s.workLog ++ [p]
                      mThreads := s.mThreads.set t (Phase.SIGNAL_DONE p) } := by
  obtain ⟨htp, hpw⟩ := h.exec t p ht
  refine ⟨h.fresh, h.sub, ?_, ?_, ?_, ?_, ?_, ?_⟩
  · intro u q hu
    rcases getElem?_set_some hu with ⟨_, hc⟩ | ⟨hut, hu2⟩
    · cases hc
    · obtain ⟨huq, hqw⟩ := h.exec u q hu2
      refine ⟨huq, ?_⟩
      intro hm
      rcases List.mem_append.mp hm with hm | hm
      · exact hqw hm
      · simp only [List.mem_singleton] at hm
        subst hm
        exact hut (h.receiver_unique huq htp)
  · intro u q hu
    rcases getElem?_set_some hu with ⟨hut, hc⟩ | ⟨_, hu2⟩
    · cases hc
      subst hut
      refine ⟨htp, by simp, ?_⟩
      by_contra hd
      exact hpw (h.done _ (by simpa using hd))
    · obtain ⟨a, b, c⟩ := h.sig u q hu2
      exact ⟨a, List.mem_append_left _ b, c⟩
  · exact List.nodup_append.mpr ⟨h.logNodup, List.nodup_singleton p, by
      intro x hx hx2
      simp only [List.mem_singleton] at hx2
      subst hx2
      exact hpw hx⟩
  · intro x hx
    rcases List.mem_append.mp hx with hx | hx
    · exact h.logDeq x hx
    · simp only [List.mem_singleton] at hx
      subst hx
      exact mem_dequeued_of_mem htp
  · intro x hx
    exact List.mem_append_left _ (h.done x hx)
  · intro u q hu
    by_cases hut : u = t
    · subst hut
      rcases h.owner u q hu with hd | he | he
      · exact Or.inl hd
      · rw [ht] at he
        cases he
        exact Or.inr (Or.inr (getElem?_set_same ht))
      · rw [ht] at he; cases he
    · rcases h.owner u q hu with hd | he | he
      · exact Or.inl hd
      · exact Or.inr (Or.inl (by rw [getElem?_set_other hut]; exact he))
      · exact Or.inr (Or.inr (by rw [getElem?_set_other hut]; exact he))

theorem isDone_set (items : Items) (p q : Nat) :
    ((items.set p (items p).signalDone) q).isDone =
      if q = p then true else (items q).isDone := by
  unfold Items.set
  split <;> simp [WorkItem.signalDone, WorkItem.isDone]

theorem inv_signal {subs : List Nat} {s : System} (h : Inv subs s) {t p : Nat}
    (ht : s.mThreads[t]? = some (Phase.SIGNAL_DONE p)) :
    Inv subs { s with items := s.items.set p (s.items p).signalDone
                      mThreads := s.mThreads.set t Phase.WAIT_FOR_ITEM } := by
  obtain ⟨htp, hpw, _⟩ := h.sig t p ht
  refine ⟨h.fresh, h.sub, ?_, ?_, h.logNodup, h.logDeq, ?_, ?_⟩
  · intro u q hu
    rcases getElem?_set_some hu with ⟨_, hc⟩ | ⟨_, hu2⟩
    · cases hc
    · exact h.exec u q hu2
  · intro u q hu
    rcases getElem?_set_some hu with ⟨_, hc⟩ | ⟨hut, hu2⟩
    · cases hc
    · obtain ⟨a, b, c⟩ := h.sig u q hu2
      refine ⟨a, b, ?_⟩
      show ((s.items.set p (s.items p).signalDone) q).isDone = false
      rw [isDone_set]
      by_cases hqp : q = p
      · subst hqp
        exact absurd (h.receiver_unique a htp) hut
      · simpa [hqp] using c
  · intro q hq
    change ((s.items.set p (s.items p).signalDone) q).isDone = true at hq
    rw [isDone_set] at hq
    by_cases hqp : q = p
    · subst hqp; exact hpw
    · exact h.done q (by simpa [hqp] using hq)
  · intro u q hu
    show ((s.items.set p (s.items p).signalDone) q).isDone = true ∨ _
    rw [isDone_set]
    by_cases hqp : q = p
    · exact Or.inl (by simp [hqp])
    · simp only [hqp, if_false]
      by_cases hut : u = t
      · subst hut
        rcases h.owner u q hu with hd | he | he
        · exact Or.inl hd
        · rw [ht] at he; cases he
        · rw [ht] at he
          cases he
          exact absurd rfl hqp
      · rcases h.owner u q hu with hd | he | he
        · exact Or.inl hd
        · exact Or.inr (Or.inl (by rw [getElem?_set_other hut]; exact he))
        · exact Or.inr (Or.inr (by rw [getElem?_set_other hut]; exact he))

theorem inv_thread {subs : List Nat} {s : System} (h : Inv subs s) (t : Nat) :
    Inv subs (s.step (Action.step t)) := by
  show Inv subs (WorkThread.run t s)
  cases ht : s.mThreads[t]? with
  | none => rw [run_none ht]; exact h
  | some ph =>
    cases ph with
    | WAIT_FOR_ITEM =>
      cases hq : s.queue.mQueue with
      | nil =>
        cases hr : s.queue.mIsReleased with
        | false => rw [run_wait_blocked ht hq hr]; exact h
        | true => rw [run_wait_null ht hq hr]; exact inv_wait_null h ht
      | cons p rest => rw [run_wait_item ht hq]; exact inv_wait_item h ht hq
    | EXECUTE p => rw [run_execute ht]; exact inv_execute h ht
    | SIGNAL_DONE p => rw [run_signal ht]; exact inv_signal h ht
    | EXIT => rw [run_exit ht]; exact h

theorem submitted_append (a b : List Action) :
    submitted (a ++ b) = submitted a ++ submitted b := by
  simp [submitted, List.filterMap_append]

theorem inv_run (n : Nat) (acts : List Action) (h : (submitted acts).Nodup) :
    Inv (submitted acts) ((System.new n).run acts) := by
  induction acts using List.reverseRecOn with
  | nil => simpa [System.run, submitted] using inv_new n
  | append_singleton acts a ih =>
    rw [submitted_append] at h ⊢
    have ih2 := ih (List.nodup_append.mp h).1
    rw [run_append]
    cases a with
    | addWorkItem p =>
      have hp : p ∉ submitted acts := by
        intro hm
        exact (List.nodup_append.mp h).2.2 hm (by simp [submitted])
      simpa [System.run, submitted] using inv_add ih2 p hp
    | step t => simpa [System.run, submitted] using inv_thread ih2 t
    | destroy => simpa [System.run, submitted] using inv_destroy ih2

end SceneUtil

namespace SceneUtil

/-! ## Work queue: the claims -/

/-- After the destructor's critical section, with no further `addWorkItem`:
the queue stays empty and released, nothing more is dequeued, and `doWork`
runs only for items a thread already held. -/
theorem after_destroy (s : System) (acts : List Action)
    (h : ∀ a ∈ acts, a.isAdd = false) :
    ((s.step Action.destroy).run acts).queue = { mQueue := [], mIsReleased := true } ∧
    ((s.step Action.destroy).run acts).dequeueLog = s.dequeueLog ∧
    (∃ extra, ((s.step Action.destroy).run acts).workLog = s.workLog ++ extra ∧
      ∀ p ∈ extra, ∃ t : Nat, s.mThreads[t]? = some (Phase.EXECUTE p)) ∧
    (∀ (t p : Nat), ((s.step Action.destroy).run acts).mThreads[t]? = some (Phase.EXECUTE p) →
      s.mThreads[t]? = some (Phase.EXECUTE p)) := by
  induction acts using List.reverseRecOn with
  | nil =>
    refine ⟨by simp [System.run, System.step, WorkQueue.release], by simp [System.run, System.step],
      ⟨[], by simp [System.run, System.step], by simp⟩, ?_⟩
    intro t p ht
    simpa [System.run, System.step] using ht
  | append_singleton acts a ih =>
    have ih2 := ih (fun x hx => h x (List.mem_append_left _ hx))
    have ha : a.isAdd = false := h a (by simp)
    rw [run_append]
    generalize (s.step Action.destroy).run acts = m at ih2 ⊢
    obtain ⟨hq, hd, ⟨extra, hw, hex⟩, hth⟩ := ih2
    have hq1 : m.queue.mQueue = [] := by rw [hq]
    have hq2 : m.queue.mIsReleased = true := by rw [hq]
    cases a with
    | addWorkItem p => simp [Action.isAdd] at ha
    | destroy =>
      refine ⟨by simp [System.run, System.step, WorkQueue.release], by simpa [System.run, System.step] using hd,
        ⟨extra, by simpa [System.run, System.step] using hw, hex⟩, ?_⟩
      intro t p ht
      exact hth t p (by simpa [System.run, System.step] using ht)
    | step t =>
      have hrun : m.run [Action.step t] = WorkThread.run t m := by simp [System.run, System.step]
      rw [hrun]
      cases ht : m.mThreads[t]? with
      | none => rw [run_none ht]; exact ⟨hq, hd, ⟨extra, hw, hex⟩, hth⟩
      | some ph =>
        cases ph with
        | WAIT_FOR_ITEM =>
          rw [run_wait_null ht hq1 hq2]
          refine ⟨hq, hd, ⟨extra, hw, hex⟩, ?_⟩
          intro u p hu
          rcases getElem?_set_some hu with ⟨_, hc⟩ | ⟨_, hu2⟩
          · cases hc
          · exact hth u p hu2
        | EXECUTE p =>
          rw [run_execute ht]
          refine ⟨hq, hd, ⟨extra ++ [p], ?_, ?_⟩, ?_⟩
          · show m.workLog ++ [p] = s.workLog ++ (extra ++ [p])
            rw [hw, List.append_assoc]
          · intro x hx
            rcases List.mem_append.mp hx with hx | hx
            · exact hex x hx
            · simp only [List.mem_singleton] at hx
              subst hx
              exact ⟨t, hth t _ ht⟩
          · intro u x hu
            rcases getElem?_set_some hu with ⟨_, hc⟩ | ⟨_, hu2⟩
            · cases hc
            · exact hth u x hu2
        | SIGNAL_DONE p =>
          rw [run_signal ht]
          refine ⟨hq, hd, ⟨extra, hw, hex⟩, ?_⟩
          intro u x hu
          rcases getElem?_set_some hu with ⟨_, hc⟩ | ⟨_, hu2⟩
          · cases hc
          · exact hth u x hu2
        | EXIT => rw [run_exit ht]; exact ⟨hq, hd, ⟨extra, hw, hex⟩, hth⟩

/-- Claim C2. Items that are not yet done and are submitted with
`addWorkItem` are appended to the queue in submission order; as many
`removeWorkItem` calls as there are queued items return them front to back,
the submitted ones in the order submitted; and a single worker thread that
finds them submitted to its empty queue calls `doWork` on them in exactly
that order. -/
theorem C2_fifo_submission_order (items : Items) (ps : List Nat) (q : WorkQueue)
    (h : ∀ p ∈ ps, (items p).isDone = false) :
    (q.addAll items ps).mQueue = q.mQueue ++ ps ∧
    (WorkQueue.removeN (q.mQueue.length + ps.length) (q.addAll items ps)).1 =
      (q.mQueue ++ ps).map Removed.item ∧
    ∀ (rel : Bool) (log : List Nat) (dq : List (Nat × Nat)),
      (System.run
          { queue := { mQueue := [], mIsReleased := rel }
            items := items
            mThreads := [Phase.WAIT_FOR_ITEM]
            workLog := log
            dequeueLog := dq }
          (ps.map Action.addWorkItem ++
            List.replicate (3 * ps.length) (Action.step 0))).workLog = log ++ ps := by
  refine ⟨by rw [addAll_of_not_done items ps q h], ?_, ?_⟩
  · rw [addAll_of_not_done items ps q h]
    have := removeN_prefix (q.mQueue ++ ps) [] q.mIsReleased
    simp only [List.length_append, List.append_nil] at this
    rw [this]
  · intro rel log dq
    rw [run_append, run_adds]
    have hq := addAll_of_not_done items ps { mQueue := [], mIsReleased := rel } h
    simp only [List.nil_append] at hq
    simp only [hq]
    exact lone_worker_drains ps rel items log dq

/-- Claim C2 at three fresh items 4, 9, 6 submitted to a new queue. -/
theorem C2_fifo_submission_order_witness :
    (∀ p ∈ [4, 9, 6], (Items.fresh p).isDone = false) ∧
    (WorkQueue.removeN 3 (WorkQueue.new.addAll Items.fresh [4, 9, 6])).1 =
      [Removed.item 4, Removed.item 9, Removed.item 6] ∧
    (System.run (System.new 1)
      ([Action.addWorkItem 4, Action.addWorkItem 9, Action.addWorkItem 6] ++
        List.replicate 9 (Action.step 0))).workLog = [4, 9, 6] :=
  have h : ∀ p ∈ [4, 9, 6], (Items.fresh p).isDone = false := by
    intro p _; rfl
  ⟨h, (C2_fifo_submission_order Items.fresh [4, 9, 6] WorkQueue.new h).2.1,
    (C2_fifo_submission_order Items.fresh [4, 9, 6] WorkQueue.new h).2.2 false [] []⟩

/-- The same item submitted twice before it is done is executed twice; an
item submitted and still queued when the queue is destroyed is never
executed, the worker having exited. -/
theorem C3_double_submission_runs_twice :
    ((System.new 1).run
        [Action.addWorkItem 7, Action.addWorkItem 7, Action.step 0, Action.step 0,
          Action.step 0, Action.step 0, Action.step 0]).workLog = [7, 7] ∧
    ((System.new 1).run
        [Action.addWorkItem 7, Action.destroy, Action.step 0, Action.step 0]).workLog = [] ∧
    ((System.new 1).run
        [Action.addWorkItem 7, Action.destroy, Action.step 0, Action.step 0]).mThreads =
      [Phase.EXIT] := by
  decide

/-- Claim C3, amended. When no item is passed to `addWorkItem` twice, every
state reached from a new queue with any number of workers satisfies: no item
has been executed twice; no item has been returned by `removeWorkItem` twice
(so to at most one worker), and only submitted items are returned; an item
marked done has been executed, and an executed item had been dequeued; an
item a worker obtained is done unless that same worker still holds it (so a
worker about to fetch has finished all it obtained); and a worker holding an
item executes it with its next move and marks it done with the one after,
returning to the fetch. -/
theorem C3_executed_at_most_once (n : Nat) (acts : List Action)
    (h : (submitted acts).Nodup) :
    ((System.new n).run acts).workLog.Nodup ∧
    (((System.new n).run acts).dequeueLog.map Prod.snd).Nodup ∧
    (∀ p ∈ ((System.new n).run acts).dequeueLog.map Prod.snd, p ∈ submitted acts) ∧
    (∀ p, (((System.new n).run acts).items p).isDone = true →
      p ∈ ((System.new n).run acts).workLog) ∧
    (∀ p ∈ ((System.new n).run acts).workLog,
      p ∈ ((System.new n).run acts).dequeueLog.map Prod.snd) ∧
    (∀ (t p : Nat), (t, p) ∈ ((System.new n).run acts).dequeueLog →
      (((System.new n).run acts).items p).isDone = true ∨
      ((System.new n).run acts).mThreads[t]? = some (Phase.EXECUTE p) ∨
      ((System.new n).run acts).mThreads[t]? = some (Phase.SIGNAL_DONE p)) ∧
    (∀ (t p : Nat), ((System.new n).run acts).mThreads[t]? = some (Phase.EXECUTE p) →
      p ∉ ((System.new n).run acts).workLog ∧
      (((System.new n).run acts).run [Action.step t]).workLog =
        ((System.new n).run acts).workLog ++ [p] ∧
      (((System.new n).run acts).run [Action.step t]).mThreads[t]? =
        some (Phase.SIGNAL_DONE p) ∧
      ((((System.new n).run acts).run [Action.step t, Action.step t]).items p).isDone = true ∧
      (((System.new n).run acts).run [Action.step t, Action.step t]).mThreads[t]? =
        some Phase.WAIT_FOR_ITEM ∧
      (((System.new n).run acts).run [Action.step t, Action.step t]).workLog =
        ((System.new n).run acts).workLog ++ [p]) := by
  have hinv := inv_run n acts h
  generalize (System.new n).run acts = s at hinv ⊢
  refine ⟨hinv.logNodup, (List.nodup_append.mp hinv.fresh).2.1,
    fun p hp => hinv.sub p (List.mem_append_right _ hp), hinv.done, hinv.logDeq,
    hinv.owner, ?_⟩
  intro t p ht
  have h1 : s.run [Action.step t] = WorkThread.run t s := by simp [System.run, System.step]
  have h2 : s.run [Action.step t, Action.step t] =
      WorkThread.run t (WorkThread.run t s) := by simp [System.run, System.step]
  have ht1 : (WorkThread.run t s).mThreads[t]? = some (Phase.SIGNAL_DONE p) := by
    rw [run_execute ht]; exact getElem?_set_same ht
  refine ⟨(hinv.exec t p ht).2, ?_, ?_, ?_, ?_, ?_⟩
  · rw [h1, run_execute ht]
  · rw [h1]; exact ht1
  · rw [h2, run_signal ht1]
    show ((Items.set _ p _) p).isDone = true
    simp [Items.set, WorkItem.signalDone, WorkItem.isDone]
  · rw [h2, run_signal ht1]; exact getElem?_set_same ht1
  · rw [h2, run_signal ht1, run_execute ht]

/-- Claim C3 (amended) at two workers and the items 1 and 2, each submitted
once, with the workers interleaved. -/
theorem C3_executed_at_most_once_witness :
    (submitted [Action.addWorkItem 1, Action.addWorkItem 2, Action.step 0, Action.step 1,
      Action.step 1, Action.step 0, Action.step 1]).Nodup ∧
    ((System.new 2).run [Action.addWorkItem 1, Action.addWorkItem 2, Action.step 0,
      Action.step 1, Action.step 1, Action.step 0, Action.step 1]).workLog.Nodup ∧
    ((System.new 2).run [Action.addWorkItem 1, Action.addWorkItem 2, Action.step 0,
      Action.step 1, Action.step 1, Action.step 0, Action.step 1]).workLog = [2, 1] :=
  ⟨by decide,
    (C3_executed_at_most_once 2 [Action.addWorkItem 1, Action.addWorkItem 2, Action.step 0,
      Action.step 1, Action.step 1, Action.step 0, Action.step 1] (by decide)).1,
    by decide⟩

/-- Claim C9. The critical section of the destructor leaves the queue empty
with the released flag set.  From then on, as long as no producer calls
`addWorkItem` again, whatever the workers do: the queue stays empty and
released, `removeWorkItem` returns `NULL` at once instead of waiting, no item
is dequeued any more (so none that was pending at destruction is ever
returned), and `doWork` is called only on items a worker had already
dequeued and not yet executed when the queue was destroyed. -/
theorem C9_destruction_discards_pending (s : System) (acts : List Action)
    (h : ∀ a ∈ acts, a.isAdd = false) :
    (s.step Action.destroy).queue.mQueue = [] ∧
    (s.step Action.destroy).queue.mIsReleased = true ∧
    ((s.step Action.destroy).run acts).queue.mQueue = [] ∧
    ((s.step Action.destroy).run acts).queue.mIsReleased = true ∧
    ((s.step Action.destroy).run acts).queue.removeWorkItem =
      (Removed.null, ((s.step Action.destroy).run acts).queue) ∧
    ((s.step Action.destroy).run acts).dequeueLog = s.dequeueLog ∧
    ∃ extra, ((s.step Action.destroy).run acts).workLog = s.workLog ++ extra ∧
      ∀ p ∈ extra, ∃ t : Nat, s.mThreads[t]? = some (Phase.EXECUTE p) := by
  obtain ⟨hq, hd, hw, _⟩ := after_destroy s acts h
  refine ⟨by simp [System.step, WorkQueue.release], by simp [System.step, WorkQueue.release],
    by rw [hq], by rw [hq], ?_, hd, hw⟩
  rw [hq]
  simp [WorkQueue.removeWorkItem]

/-- Claim C9 at a queue destroyed while item 5 is being executed by the only
worker and items 6 and 7 are pending: the worker finishes 5 and exits, 6 and
7 are never executed. -/
theorem C9_destruction_discards_pending_witness :
    (∀ a ∈ [Action.step 0, Action.step 0, Action.step 0, Action.step 0], a.isAdd = false) ∧
    ((System.new 1).run [Action.addWorkItem 5, Action.addWorkItem 6, Action.addWorkItem 7,
      Action.step 0]).queue.mQueue = [6, 7] ∧
    ((((System.new 1).run [Action.addWorkItem 5, Action.addWorkItem 6, Action.addWorkItem 7,
      Action.step 0]).step Action.destroy).run
        [Action.step 0, Action.step 0, Action.step 0, Action.step 0]).queue.removeWorkItem =
      (Removed.null,
        ((((System.new 1).run [Action.addWorkItem 5, Action.addWorkItem 6,
          Action.addWorkItem 7, Action.step 0]).step Action.destroy).run
            [Action.step 0, Action.step 0, Action.step 0, Action.step 0]).queue) ∧
    ((((System.new 1).run [Action.addWorkItem 5, Action.addWorkItem 6, Action.addWorkItem 7,
      Action.step 0]).step Action.destroy).run
        [Action.step 0, Action.step 0, Action.step 0, Action.step 0]).workLog = [5] ∧
    ((((System.new 1).run [Action.addWorkItem 5, Action.addWorkItem 6, Action.addWorkItem 7,
      Action.step 0]).step Action.destroy).run
        [Action.step 0, Action.step 0, Action.step 0, Action.step 0]).mThreads =
      [Phase.EXIT] :=
  have h : ∀ a ∈ [Action.step 0, Action.step 0, Action.step 0, Action.step 0],
      a.isAdd = false := by decide
  have k := C9_destruction_discards_pending
    ((System.new 1).run [Action.addWorkItem 5, Action.addWorkItem 6, Action.addWorkItem 7,
      Action.step 0])
    [Action.step 0, Action.step 0, Action.step 0, Action.step 0] h
  ⟨h, by decide, k.2.2.2.2.1, by decide, by decide⟩

/-- Claim C10. `addWorkItem` on an item whose done flag is set returns the
queue unchanged and writes the warning; on an item not yet done it appends
that item at the back of `mQueue`, leaves `mIsReleased` as it was and writes
nothing.  In both cases nothing outside the queue changes: the items, the
threads and the logs are as before. -/
theorem C10_addWorkItem_effect (items : Items) (item : Nat) (q : WorkQueue) (s : System) :
    ((items item).isDone = true →
      q.addWorkItem items item = (q, [addWorkItemWarning])) ∧
    ((items item).isDone = false →
      q.addWorkItem items item =
        ({ mQueue := q.mQueue ++ [item], mIsReleased := q.mIsReleased }, [])) ∧
    (s.step (Action.addWorkItem item)).items = s.items ∧
    (s.step (Action.addWorkItem item)).mThreads = s.mThreads ∧
    (s.step (Action.addWorkItem item)).workLog = s.workLog ∧
    (s.step (Action.addWorkItem item)).dequeueLog = s.dequeueLog ∧
    (s.step (Action.addWorkItem item)).queue = (s.queue.addWorkItem s.items item).1 :=
  ⟨addWorkItem_of_done items item q, addWorkItem_of_not_done items item q,
    rfl, rfl, rfl, rfl, rfl⟩

/-- Claim C10 at a queue holding 1 and 2: item 3, already done, is refused;
item 4, not done, goes to the back. -/
theorem C10_addWorkItem_effect_witness :
    WorkQueue.addWorkItem (Items.fresh.set 3 { mDone := 1 }) 3
        { mQueue := [1, 2], mIsReleased := false } =
      ({ mQueue := [1, 2], mIsReleased := false }, [addWorkItemWarning]) ∧
    WorkQueue.addWorkItem (Items.fresh.set 3 { mDone := 1 }) 4
        { mQueue := [1, 2], mIsReleased := false } =
      ({ mQueue := [1, 2, 4], mIsReleased := false }, []) :=
  ⟨(C10_addWorkItem_effect (Items.fresh.set 3 { mDone := 1 }) 3
      { mQueue := [1, 2], mIsReleased := false } (System.new 0)).1 rfl,
    (C10_addWorkItem_effect (Items.fresh.set 3 { mDone := 1 }) 4
      { mQueue := [1, 2], mIsReleased := false } (System.new 0)).2.1 rfl⟩

end SceneUtil

namespace Resource

/-! ## Loading: what a call leaves on the heap -/

theorem load_ok {env : Env} {file : IStream} {n : String} {h h2 : Heap} {node : Node}
    (hl : load env file n h = (Except.ok node, h2)) :
    node.id = h.nextAddress ∧ node.passes = [] ∧ node.userData = [] ∧
      h2.nextAddress = h.nextAddress + 1 ∧ h2.loadLog = h.loadLog ++ [n] := by
  unfold load at hl
  simp only at hl
  split at hl
  · split at hl
    · simp at hl
    · split at hl
      · simp at hl
      · simp only [Prod.mk.injEq, Except.ok.injEq] at hl
        obtain ⟨h1, h2'⟩ := hl
        subst h1; subst h2'
        simp [Heap.newNode]
  · split at hl
    · simp at hl
    · split at hl
      · simp at hl
      · simp only [Prod.mk.injEq, Except.ok.injEq] at hl
        obtain ⟨h1, h2'⟩ := hl
        subst h1; subst h2'
        simp [Heap.newNode]

theorem load_error {env : Env} {file : IStream} {n : String} {h h2 : Heap} {e : String}
    (hl : load env file n h = (Except.error e, h2)) :
    h2.nextAddress = h.nextAddress ∧ h2.loadLog = h.loadLog ++ [n] := by
  unfold load at hl
  simp only at hl
  split at hl
  · split at hl
    · simp only [Prod.mk.injEq] at hl; rw [← hl.2]; simp
    · split at hl
      · simp only [Prod.mk.injEq] at hl; rw [← hl.2]; simp
      · simp at hl
  · split at hl
    · simp only [Prod.mk.injEq] at hl; rw [← hl.2]; simp
    · split at hl
      · simp only [Prod.mk.injEq] at hl; rw [← hl.2]; simp
      · simp at hl

theorem tryLoad_ok {env : Env} {n : String} {h h2 : Heap} {node : Node}
    (hl : tryLoad env n h = (Except.ok node, h2)) :
    node.id = h.nextAddress ∧ node.passes = [] ∧ node.userData = [] ∧
      h2.nextAddress = h.nextAddress + 1 ∧ h2.loadLog = h.loadLog ++ [n] := by
  unfold tryLoad at hl
  split at hl
  · simp at hl
  · exact load_ok hl

theorem tryLoad_error {env : Env} {n : String} {h h2 : Heap} {e : String}
    (hl : tryLoad env n h = (Except.error e, h2)) :
    h2.nextAddress = h.nextAddress ∧ ∃ l, h2.loadLog = h.loadLog ++ l := by
  unfold tryLoad at hl
  split at hl
  · simp only [Prod.mk.injEq] at hl
    rw [← hl.2]
    exact ⟨rfl, [], by simp⟩
  · exact ⟨(load_error hl).1, [n], (load_error hl).2⟩

/-- Inside the loop of the catch block, opening the marker and loading it is
the same `get` then `load` as in the `try` block. -/
theorem markerLoop_cons_exists {env : Env} {meshType : String} {rest : List String}
    {normalized : String} {h : Heap}
    (hex : env.vfsExists ("meshes/marker_error." ++ meshType) = true) :
    markerLoop env (meshType :: rest) normalized h =
      match tryLoad env ("meshes/marker_error." ++ meshType) h with
      | (Except.error e, h2) => (Except.error e, h2)
      | (Except.ok loaded, h2) =>
        (Except.ok ("meshes/marker_error." ++ meshType, some loaded), h2) := by
  simp only [markerLoop, hex, if_true, tryLoad]
  cases env.vfsGet ("meshes/marker_error." ++ meshType) with
  | error e => rfl
  | ok file => rfl

theorem markerLoop_cons_missing {env : Env} {meshType : String} {rest : List String}
    {normalized : String} {h : Heap}
    (hex : env.vfsExists ("meshes/marker_error." ++ meshType) = false) :
    markerLoop env (meshType :: rest) normalized h =
      markerLoop env rest ("meshes/marker_error." ++ meshType) h := by
  simp [markerLoop, hex]

theorem markerLoop_skip {env : Env} (pre : List String) (r : String) (rs : List String)
    (normalized : String) (h : Heap)
    (hpre : ∀ x ∈ pre, env.vfsExists ("meshes/marker_error." ++ x) = false)
    (hr : env.vfsExists ("meshes/marker_error." ++ r) = true) :
    markerLoop env (pre ++ r :: rs) normalized h = markerLoop env (r :: rs) normalized h := by
  induction pre generalizing normalized with
  | nil => simp
  | cons x pre ih =>
    have hx := hpre x (List.mem_cons_self _ _)
    have hrest : ∀ y ∈ pre, env.vfsExists ("meshes/marker_error." ++ y) = false :=
      fun y hy => hpre y (List.mem_cons_of_mem _ hy)
    rw [List.cons_append, markerLoop_cons_missing hx, ih _ hrest,
      markerLoop_cons_exists hr, markerLoop_cons_exists hr]

theorem markerLoop_none {env : Env} (types : List String) (normalized : String) (h : Heap)
    (hall : ∀ x ∈ types, env.vfsExists ("meshes/marker_error." ++ x) = false) :
    ∃ n2, markerLoop env types normalized h = (Except.ok (n2, none), h) := by
  induction types generalizing normalized with
  | nil => exact ⟨normalized, rfl⟩
  | cons x xs ih =>
    rw [markerLoop_cons_missing (hall x (List.mem_cons_self _ _))]
    exact ih _ (fun y hy => hall y (List.mem_cons_of_mem _ hy))

/-- What the loop of the catch block leaves behind. -/
theorem markerLoop_result {env : Env} (types : List String) (normalized : String) (h : Heap) :
    (∀ n2 node h2, markerLoop env types normalized h = (Except.ok (n2, some node), h2) →
      node.id = h.nextAddress ∧ node.passes = [] ∧ node.userData = [] ∧
        h2.nextAddress = h.nextAddress + 1 ∧ h2.loadLog = h.loadLog ++ [n2]) ∧
    (∀ n2 h2, markerLoop env types normalized h = (Except.ok (n2, none), h2) → h2 = h) ∧
    (∀ e h2, markerLoop env types normalized h = (Except.error e, h2) →
      h2.nextAddress = h.nextAddress ∧ ∃ l, h2.loadLog = h.loadLog ++ l) := by
  induction types generalizing normalized with
  | nil =>
    refine ⟨?_, ?_, ?_⟩
    · intro n2 node h2 hm; simp [markerLoop] at hm
    · intro n2 h2 hm; simp only [markerLoop, Prod.mk.injEq] at hm; exact hm.2.symm
    · intro e h2 hm; simp [markerLoop] at hm
  | cons x xs ih =>
    by_cases hx : env.vfsExists ("meshes/marker_error." ++ x) = true
    · rw [markerLoop_cons_exists hx]
      cases ht : tryLoad env ("meshes/marker_error." ++ x) h with
      | mk r h3 =>
        cases r with
        | error e =>
          refine ⟨?_, ?_, ?_⟩
          · intro n2 node h2 hm; simp at hm
          · intro n2 h2 hm; simp at hm
          · intro e2 h2 hm
            simp only [Prod.mk.injEq, Except.error.injEq] at hm
            rw [← hm.2]
            exact tryLoad_error ht
        | ok loaded =>
          refine ⟨?_, ?_, ?_⟩
          · intro n2 node h2 hm
            simp only [Prod.mk.injEq, Except.ok.injEq, Option.some.injEq] at hm
            obtain ⟨⟨hn, hnode⟩, hh⟩ := hm
            subst hn; subst hnode; subst hh
            exact tryLoad_ok ht
          · intro n2 h2 hm; simp at hm
          · intro e2 h2 hm; simp at hm
    · have hx2 : env.vfsExists ("meshes/marker_error." ++ x) = false := by simpa using hx
      rw [markerLoop_cons_missing hx2]
      exact ih _

theorem loadOrMarker_ok {env : Env} {n n2 : String} {h h2 : Heap} {node : Node}
    (hl : loadOrMarker env n h = (Except.ok (n2, node), h2)) :
    node.id = h.nextAddress ∧ node.passes = [] ∧ node.userData = [] ∧
      h2.nextAddress = h.nextAddress + 1 ∧ ∃ l, h2.loadLog = h.loadLog ++ l ++ [n2] := by
  unfold loadOrMarker at hl
  cases ht : tryLoad env n h with
  | mk r h1 =>
    rw [ht] at hl
    cases r with
    | ok loaded =>
      simp only [Prod.mk.injEq, Except.ok.injEq] at hl
      obtain ⟨⟨hn, hnode⟩, hh⟩ := hl
      subst hn; subst hnode; subst hh
      obtain ⟨a, b, c, d, e⟩ := tryLoad_ok ht
      exact ⟨a, b, c, d, [], by simpa using e⟩
    | error e =>
      simp only at hl
      obtain ⟨hadr, l, hlog⟩ := tryLoad_error ht
      cases hm : markerLoop env sMeshTypes n h1 with
      | mk r2 h3 =>
        rw [hm] at hl
        cases r2 with
        | error e2 => simp at hl
        | ok pr =>
          obtain ⟨n3, o⟩ := pr
          cases o with
          | none => simp at hl
          | some loaded =>
            simp only [Prod.mk.injEq, Except.ok.injEq] at hl
            obtain ⟨⟨hn, hnode⟩, hh⟩ := hl
            subst hn; subst hnode; subst hh
            obtain ⟨a, b, c, d, e⟩ := (markerLoop_result sMeshTypes n h1).1 _ _ _ hm
            exact ⟨by rw [a, hadr], b, c, by rw [d, hadr], l, by rw [e, hlog]⟩

theorem loadOrMarker_error {env : Env} {n : String} {h h2 : Heap} {e : String}
    (hl : loadOrMarker env n h = (Except.error e, h2)) :
    h2.nextAddress = h.nextAddress := by
  unfold loadOrMarker at hl
  cases ht : tryLoad env n h with
  | mk r h1 =>
    rw [ht] at hl
    cases r with
    | ok loaded => simp at hl
    | error e1 =>
      simp only at hl
      obtain ⟨hadr, _⟩ := tryLoad_error ht
      cases hm : markerLoop env sMeshTypes n h1 with
      | mk r2 h3 =>
        rw [hm] at hl
        cases r2 with
        | error e2 =>
          simp only [Prod.mk.injEq] at hl
          rw [← hl.2, ((markerLoop_result sMeshTypes n h1).2.2 _ _ hm).1, hadr]
        | ok pr =>
          obtain ⟨n3, o⟩ := pr
          cases o with
          | none =>
            simp only [Prod.mk.injEq] at hl
            rw [← hl.2, (markerLoop_result sMeshTypes n h1).2.1 _ _ hm, hadr]
          | some loaded => simp at hl

/-! ## getTemplate: hit and miss -/

theorem getTemplate_hit {env : Env} {name : String} {s : SceneManager} {obj : Node}
    (h : s.mCache.getRefFromObjectCache (env.normalizeFilename name) = some obj) :
    s.getTemplate env name = (Except.ok obj, s) := by
  simp [SceneManager.getTemplate, h]

theorem getTemplate_miss {env : Env} {name : String} {s : SceneManager}
    (h : s.mCache.getRefFromObjectCache (env.normalizeFilename name) = none) :
    s.getTemplate env name =
      match loadOrMarker env (env.normalizeFilename name) s.heap with
      | (Except.error e, h) => (Except.error e, { s with heap := h })
      | (Except.ok (normalized2, loaded), h) =>
        (Except.ok (s.postLoad loaded),
          { s with
            heap := h
            mIncrementalCompileOperation :=
              s.mIncrementalCompileOperation.map (fun q => q ++ [loaded.id])
            mCache := s.mCache.addEntryToObjectCache normalized2 (some (s.postLoad loaded)) }) := by
  simp [SceneManager.getTemplate, h]

theorem postLoad_id (s : SceneManager) (n : Node) : (s.postLoad n).id = n.id := rfl

theorem postLoad_userData (s : SceneManager) (n : Node) : (s.postLoad n).userData = n.userData :=
  rfl

theorem postLoad_passes (s : SceneManager) (n : Node) :
    (s.postLoad n).passes = n.passes ++
      [Pass.SetFilterSettingsVisitor s.mMinFilter s.mMagFilter s.mMaxAnisotropy,
        Pass.SetFilterSettingsControllerVisitor s.mMinFilter s.mMagFilter s.mMaxAnisotropy,
        Pass.share] := by
  simp [SceneManager.postLoad, Node.accept]

/-- Everything `getTemplate` can do, by cases: a hit returns the cached object
and changes nothing; a miss that ends in an exception changes the heap
records only, allocating nothing; a miss that returns a node returns a new
object, with exactly the three post-load passes on it, and stores it in the
cache under the name last loaded. -/
theorem getTemplate_cases (env : Env) (name : String) (s : SceneManager) :
    (∃ obj, s.mCache.getRefFromObjectCache (env.normalizeFilename name) = some obj ∧
      s.getTemplate env name = (Except.ok obj, s)) ∨
    (s.mCache.getRefFromObjectCache (env.normalizeFilename name) = none ∧
      ∃ e h, s.getTemplate env name = (Except.error e, { s with heap := h }) ∧
        h.nextAddress = s.heap.nextAddress) ∨
    (s.mCache.getRefFromObjectCache (env.normalizeFilename name) = none ∧
      ∃ key node h l, s.getTemplate env name =
        (Except.ok node,
          { s with
            heap := h
            mIncrementalCompileOperation :=
              s.mIncrementalCompileOperation.map (fun q => q ++ [node.id])
            mCache := s.mCache.addEntryToObjectCache key (some node) }) ∧
        node.id = s.heap.nextAddress ∧ node.userData = [] ∧
        node.passes =
          [Pass.SetFilterSettingsVisitor s.mMinFilter s.mMagFilter s.mMaxAnisotropy,
            Pass.SetFilterSettingsControllerVisitor s.mMinFilter s.mMagFilter s.mMaxAnisotropy,
            Pass.share] ∧
        h.nextAddress = s.heap.nextAddress + 1 ∧
        h.loadLog = s.heap.loadLog ++ l ++ [key]) := by
  cases hc : s.mCache.getRefFromObjectCache (env.normalizeFilename name) with
  | some obj => exact Or.inl ⟨obj, rfl, getTemplate_hit hc⟩
  | none =>
    right
    rw [getTemplate_miss hc]
    cases hl : loadOrMarker env (env.normalizeFilename name) s.heap with
    | mk r h =>
      cases r with
      | error e => exact Or.inl ⟨rfl, e, h, rfl, loadOrMarker_error hl⟩
      | ok pr =>
        obtain ⟨key, loaded⟩ := pr
        obtain ⟨a, b, c, d, l, e⟩ := loadOrMarker_ok hl
        refine Or.inr ⟨rfl, key, s.postLoad loaded, h, l, rfl, a, c, ?_, d, e⟩
        rw [postLoad_passes, b]
        rfl

end Resource

namespace Resource

/-! ## Caches: list facts -/

theorem objectsOf_cons_some {α : Type} (k : String) (x : α) (l : List (String × Option α)) :
    objectsOf ((k, some x) :: l) = x :: objectsOf l := by
  simp [objectsOf]

theorem objectsOf_cons_none {α : Type} (k : String) (l : List (String × Option α)) :
    objectsOf ((k, (none : Option α)) :: l) = objectsOf l := by
  simp [objectsOf]

theorem objectsOf_append {α : Type} (a b : List (String × Option α)) :
    objectsOf (a ++ b) = objectsOf a ++ objectsOf b := by
  simp [objectsOf, List.filterMap_append]

theorem objectsOf_filter_sublist {α : Type} (p : String × Option α → Bool)
    (l : List (String × Option α)) : (objectsOf (l.filter p)).Sublist (objectsOf l) :=
  (List.filter_sublist l).filterMap _

theorem mem_objectsOf {α : Type} {k : String} {x : α} {l : List (String × Option α)}
    (h : (k, some x) ∈ l) : x ∈ objectsOf l := by
  simp only [objectsOf, List.mem_filterMap]
  exact ⟨(k, some x), h, rfl⟩

theorem lookup_mem {α : Type} {key : String} {v : α} {l : List (String × α)}
    (h : l.lookup key = some v) : (key, v) ∈ l := by
  induction l with
  | nil => simp at h
  | cons e l ih =>
    obtain ⟨k, w⟩ := e
    rw [List.lookup_cons] at h
    by_cases hk : (key == k) = true
    · rw [hk] at h
      simp only [Option.some.injEq] at h
      have : key = k := by simpa using hk
      subst this; subst h
      exact List.mem_cons_self _ _
    · have hk2 : (key == k) = false := by simpa using hk
      rw [hk2] at h
      exact List.mem_cons_of_mem _ (ih h)

theorem getRef_mem {α : Type} {c : ObjectCache α} {key : String} {obj : α}
    (h : c.getRefFromObjectCache key = some obj) : (key, some obj) ∈ c.entries := by
  unfold ObjectCache.getRefFromObjectCache at h
  split at h
  · rename_i handle hl
    subst h
    exact lookup_mem hl
  · cases h

theorem getRef_add_same {α : Type} (c : ObjectCache α) (key : String) (o : Option α) :
    (c.addEntryToObjectCache key o).getRefFromObjectCache key = o := by
  simp [ObjectCache.getRefFromObjectCache, ObjectCache.addEntryToObjectCache, List.lookup_cons]

theorem takeFirst_split {α : Type} {key : String} {l rest : List (String × Option α)}
    {h : Option α} (ht : MultiObjectCache.takeFirst key l = some (h, rest)) :
    ∃ a b, l = a ++ (key, h) :: b ∧ rest = a ++ b := by
  induction l generalizing rest with
  | nil => simp [MultiObjectCache.takeFirst] at ht
  | cons e l ih =>
    unfold MultiObjectCache.takeFirst at ht
    split at ht
    · rename_i hk
      simp only [Option.some.injEq, Prod.mk.injEq] at ht
      obtain ⟨h1, h2⟩ := ht
      refine ⟨[], l, ?_, by simpa using h2.symm⟩
      obtain ⟨k, w⟩ := e
      simp only at hk h1
      subst hk; subst h1
      rfl
    · split at ht
      · rename_i h' rest2 hrec
        simp only [Option.some.injEq, Prod.mk.injEq] at ht
        obtain ⟨h1, h2⟩ := ht
        subst h1
        obtain ⟨a, b, hl, hr⟩ := ih hrec
        exact ⟨e :: a, b, by rw [hl]; rfl, by rw [← h2, hr]; rfl⟩
      · cases ht

theorem addresses_sublist {a b : List Node} (h : a.Sublist b) :
    (addresses a).Sublist (addresses b) :=
  h.map _

theorem mem_addresses {n : Node} {l : List Node} (h : n ∈ l) : n.id ∈ addresses l :=
  List.mem_map.mpr ⟨n, h, rfl⟩

theorem addresses_lt {l : List Node} {b : Nat} (h : ∀ n ∈ l, n.id < b) :
    ∀ a ∈ addresses l, a < b := by
  intro a ha
  obtain ⟨n, hn, rfl⟩ := List.mem_map.mp ha
  exact h n hn

/-- A pooled object taken out of a pool without repetitions is no longer in
what remains, and what remains is a sub-pool. -/
theorem take_some_map {α : Type} (f : α → Nat) {key : String} {c pool : MultiObjectCache α}
    {obj : α} (ht : c.takeFromObjectCache key = (some obj, pool))
    (hn : ((objectsOf c.entries).map f).Nodup) :
    obj ∈ objectsOf c.entries ∧ f obj ∉ (objectsOf pool.entries).map f ∧
      (objectsOf pool.entries).Sublist (objectsOf c.entries) ∧
      (key, some obj) ∈ c.entries := by
  unfold MultiObjectCache.takeFromObjectCache at ht
  split at ht
  · rename_i handle rest hf
    simp only [Prod.mk.injEq] at ht
    obtain ⟨h1, h2⟩ := ht
    subst h1; subst h2
    obtain ⟨a, b, hl, hr⟩ := takeFirst_split hf
    have hobjs : objectsOf c.entries = objectsOf a ++ obj :: objectsOf b := by
      rw [hl, objectsOf_append, objectsOf_cons_some]
    have hrest : objectsOf rest = objectsOf a ++ objectsOf b := by
      rw [hr, objectsOf_append]
    rw [hobjs] at hn ⊢
    simp only [hrest]
    refine ⟨by simp, ?_, ?_, by rw [hl]; simp⟩
    · have hn2 : (f obj :: ((objectsOf a).map f ++ (objectsOf b).map f)).Nodup := by
        have : (objectsOf a ++ obj :: objectsOf b).map f =
            (objectsOf a).map f ++ f obj :: (objectsOf b).map f := by
          simp
        rw [this] at hn
        exact List.nodup_middle.mp hn
      have := (List.nodup_cons.mp hn2).1
      simpa using this
    · exact List.Sublist.append (List.Sublist.refl _) (List.sublist_cons_self _ _)
  · simp at ht

theorem take_some {key : String} {c pool : MultiObjectCache Node} {obj : Node}
    (ht : c.takeFromObjectCache key = (some obj, pool))
    (hn : (addresses (objectsOf c.entries)).Nodup) :
    obj ∈ objectsOf c.entries ∧ obj.id ∉ addresses (objectsOf pool.entries) ∧
      (objectsOf pool.entries).Sublist (objectsOf c.entries) ∧
      (key, some obj) ∈ c.entries :=
  take_some_map (fun n : Node => n.id) ht hn

theorem take_none {α : Type} {key : String} {c pool : MultiObjectCache α}
    (ht : c.takeFromObjectCache key = (none, pool)) :
    objectsOf pool.entries = objectsOf c.entries := by
  unfold MultiObjectCache.takeFromObjectCache at ht
  split at ht
  · rename_i handle rest hf
    simp only [Prod.mk.injEq] at ht
    obtain ⟨h1, h2⟩ := ht
    subst h1; subst h2
    obtain ⟨a, b, hl, hr⟩ := takeFirst_split hf
    rw [hl, hr, objectsOf_append, objectsOf_append, objectsOf_cons_none]
  · simp only [Prod.mk.injEq] at ht
    rw [ht.2]

/-! ## Well-formedness is kept by every call -/

theorem wf_store {s : SceneManager} (hwf : s.WellFormed) (key : String) (node : Node)
    (h : Heap) (ico : Option (List Nat)) (hid : node.id = s.heap.nextAddress)
    (hh : h.nextAddress = s.heap.nextAddress + 1) :
    SceneManager.WellFormed
      { s with
        heap := h
        mIncrementalCompileOperation := ico
        mCache := s.mCache.addEntryToObjectCache key (some node) } := by
  obtain ⟨hlt, hc, hp⟩ := hwf
  have hsub := objectsOf_filter_sublist (fun e : String × Option Node => e.1 != key)
    s.mCache.entries
  refine ⟨?_, ?_, hp⟩
  · intro n hn
    simp only [ObjectCache.addEntryToObjectCache, objectsOf_cons_some, List.cons_append,
      List.mem_cons, List.mem_append] at hn
    show n.id < h.nextAddress
    rw [hh]
    rcases hn with hn | hn | hn
    · rw [hn, hid]; exact Nat.lt_succ_self _
    · exact Nat.lt_succ_of_lt (hlt n (List.mem_append_left _ (hsub.subset hn)))
    · exact Nat.lt_succ_of_lt (hlt n (List.mem_append_right _ hn))
  · simp only [ObjectCache.addEntryToObjectCache, objectsOf_cons_some, addresses, List.map_cons]
    refine List.nodup_cons.mpr ⟨?_, (addresses_sublist hsub).nodup hc⟩
    intro hm
    obtain ⟨n, hn, hnid⟩ := List.mem_map.mp hm
    have := hlt n (List.mem_append_left _ (hsub.subset hn))
    rw [hnid, hid] at this
    exact Nat.lt_irrefl _ this

/-- `getTemplate` keeps the manager well formed, never lowers the next unused
address, leaves the instance pool alone, and returns an object below the
next unused address. -/
theorem wf_getTemplate (env : Env) (name : String) {s : SceneManager} (hwf : s.WellFormed) :
    (s.getTemplate env name).2.WellFormed ∧
    s.heap.nextAddress ≤ (s.getTemplate env name).2.heap.nextAddress ∧
    (s.getTemplate env name).2.mInstanceCache = s.mInstanceCache ∧
    ∀ node, (s.getTemplate env name).1 = Except.ok node →
      node.id < (s.getTemplate env name).2.heap.nextAddress := by
  rcases getTemplate_cases env name s with ⟨obj, hc, hg⟩ | ⟨_, e, h, hg, hh⟩ |
    ⟨_, key, node, h, l, hg, hid, _, _, hh, _⟩
  · rw [hg]
    refine ⟨hwf, Nat.le_refl _, rfl, ?_⟩
    intro node hn
    simp only [Except.ok.injEq] at hn
    subst hn
    exact hwf.1 obj (List.mem_append_left _ (mem_objectsOf (getRef_mem hc)))
  · rw [hg]
    refine ⟨?_, by simp [hh], rfl, ?_⟩
    · obtain ⟨hlt, hc, hp⟩ := hwf
      exact ⟨fun n hn => by show n.id < h.nextAddress; rw [hh]; exact hlt n hn, hc, hp⟩
    · intro node hn
      simp at hn
  · rw [hg]
    refine ⟨wf_store hwf key node h _ hid hh, by simp [hh], rfl, ?_⟩
    intro node2 hn
    simp only [Except.ok.injEq] at hn
    subst hn
    show node.id < h.nextAddress
    rw [hh, hid]
    exact Nat.lt_succ_self _

/-- `createInstance` keeps the manager well formed and leaves the pool alone;
the instance it returns is a new object: its address was unused before the
call. -/
theorem wf_createInstance (env : Env) (name : String) {s : SceneManager}
    (hwf : s.WellFormed) :
    (s.createInstance env name).2.WellFormed ∧
    s.heap.nextAddress ≤ (s.createInstance env name).2.heap.nextAddress ∧
    (s.createInstance env name).2.mInstanceCache = s.mInstanceCache ∧
    ∀ inst, (s.createInstance env name).1 = Except.ok inst →
      s.heap.nextAddress ≤ inst.id ∧
      inst.id < (s.createInstance env name).2.heap.nextAddress := by
  obtain ⟨hwf1, hle, hpool, _⟩ := wf_getTemplate env name hwf
  unfold SceneManager.createInstance
  cases hg : s.getTemplate env name with
  | mk r s1 =>
    rw [hg] at hwf1 hle hpool
    simp only at hwf1 hle hpool
    cases r with
    | error e =>
      refine ⟨hwf1, hle, hpool, ?_⟩
      intro inst hi
      simp at hi
    | ok scene =>
      refine ⟨?_, Nat.le_succ_of_le hle, hpool, ?_⟩
      · obtain ⟨hlt, hc, hp⟩ := hwf1
        exact ⟨fun n hn => Nat.lt_succ_of_lt (hlt n hn), hc, hp⟩
      · intro inst hi
        simp only [Except.ok.injEq] at hi
        subst hi
        exact ⟨hle, Nat.lt_succ_self _⟩

/-- `cacheInstance` keeps the manager well formed; the instance it returns is
a new object and is the one it has appended to the pool. -/
theorem wf_cacheInstance (env : Env) (name : String) {s : SceneManager}
    (hwf : s.WellFormed) :
    (s.cacheInstance env name).2.WellFormed ∧
    s.heap.nextAddress ≤ (s.cacheInstance env name).2.heap.nextAddress ∧
    (∀ e, (s.cacheInstance env name).1 = Except.error e →
      (s.cacheInstance env name).2.mInstanceCache = s.mInstanceCache) ∧
    ∀ inst, (s.cacheInstance env name).1 = Except.ok inst →
      s.heap.nextAddress ≤ inst.id ∧
      inst.id < (s.cacheInstance env name).2.heap.nextAddress ∧
      (s.cacheInstance env name).2.mInstanceCache.entries =
        s.mInstanceCache.entries ++ [(env.normalizeFilename name, some inst)] := by
  obtain ⟨hwf1, hle, hpool, hinst⟩ := wf_createInstance env (env.normalizeFilename name) hwf
  unfold SceneManager.cacheInstance
  simp only
  cases hg : s.createInstance env (env.normalizeFilename name) with
  | mk r s1 =>
    rw [hg] at hwf1 hle hpool hinst
    simp only at hwf1 hle hpool hinst
    cases r with
    | error e =>
      refine ⟨hwf1, hle, fun _ _ => hpool, ?_⟩
      intro inst hi
      simp at hi
    | ok node =>
      obtain ⟨hge, hlt⟩ := hinst node rfl
      refine ⟨?_, hle, ?_, ?_⟩
      · obtain ⟨hlt1, hc, hp⟩ := hwf1
        have hobjs : objectsOf (s1.mInstanceCache.addEntryToObjectCache
            (env.normalizeFilename name) (some node)).entries =
            objectsOf s.mInstanceCache.entries ++ [node] := by
          simp [MultiObjectCache.addEntryToObjectCache, objectsOf_append, hpool, objectsOf]
        refine ⟨?_, hc, ?_⟩
        · intro n hn
          show n.id < s1.heap.nextAddress
          simp only [hobjs, List.mem_append, List.mem_singleton] at hn
          rcases hn with hn | hn | hn
          · exact hlt1 n (List.mem_append_left _ hn)
          · exact hlt1 n (List.mem_append_right _ (by rw [hpool]; exact hn))
          · rw [hn]; exact hlt
        · show (addresses (objectsOf (s1.mInstanceCache.addEntryToObjectCache
            (env.normalizeFilename name) (some node)).entries)).Nodup
          rw [hobjs]
          simp only [addresses, List.map_append, List.map_cons, List.map_nil]
          refine List.nodup_append.mpr ⟨hwf.2.2, List.nodup_singleton _, ?_⟩
          intro a ha ha2
          simp only [List.mem_singleton] at ha2
          subst ha2
          have := addresses_lt (fun n hn => hwf.1 n (List.mem_append_right _ hn)) _ ha
          exact Nat.lt_irrefl _ (Nat.lt_of_lt_of_le this hge)
      · intro e he
        simp at he
      · intro inst hi
        simp only [Except.ok.injEq] at hi
        subst hi
        refine ⟨hge, hlt, ?_⟩
        simp [MultiObjectCache.addEntryToObjectCache, hpool]

/-- `getInstance` keeps the manager well formed.  The instance it returns is
not in the pool after the call; it was in the pool before the call or is a
new object; and the pool after the call is a sub-pool of the pool before. -/
theorem wf_getInstance (env : Env) (name : String) {s : SceneManager}
    (hwf : s.WellFormed) :
    (s.getInstance env name).2.WellFormed ∧
    s.heap.nextAddress ≤ (s.getInstance env name).2.heap.nextAddress ∧
    (objectsOf (s.getInstance env name).2.mInstanceCache.entries).Sublist
      (objectsOf s.mInstanceCache.entries) ∧
    ∀ inst, (s.getInstance env name).1 = Except.ok inst →
      inst.id < (s.getInstance env name).2.heap.nextAddress ∧
      inst.id ∉ addresses (objectsOf (s.getInstance env name).2.mInstanceCache.entries) ∧
      (inst ∈ objectsOf s.mInstanceCache.entries ∨ s.heap.nextAddress ≤ inst.id) := by
  unfold SceneManager.getInstance
  simp only
  cases ht : s.mInstanceCache.takeFromObjectCache (env.normalizeFilename name) with
  | mk o pool =>
    cases o with
    | some obj =>
      obtain ⟨hmem, hnot, hsub, _⟩ := take_some ht hwf.2.2
      refine ⟨⟨?_, hwf.2.1, (addresses_sublist hsub).nodup hwf.2.2⟩, Nat.le_refl _, hsub, ?_⟩
      · intro n hn
        rcases List.mem_append.mp hn with hn | hn
        · exact hwf.1 n (List.mem_append_left _ hn)
        · exact hwf.1 n (List.mem_append_right _ (hsub.subset hn))
      · intro inst hi
        simp only [Except.ok.injEq] at hi
        subst hi
        exact ⟨hwf.1 _ (List.mem_append_right _ hmem), hnot, Or.inl hmem⟩
    | none =>
      have hobjs := take_none ht
      have hwf0 : SceneManager.WellFormed { s with mInstanceCache := pool } := by
        refine ⟨?_, hwf.2.1, ?_⟩
        · intro n hn
          show n.id < s.heap.nextAddress
          simp only [hobjs] at hn
          exact hwf.1 n hn
        · show (addresses (objectsOf pool.entries)).Nodup
          rw [hobjs]; exact hwf.2.2
      obtain ⟨hwf1, hle, hpool, hinst⟩ :=
        wf_createInstance env (env.normalizeFilename name) hwf0
      refine ⟨hwf1, hle, ?_, ?_⟩
      · simp only
        rw [hpool]
        show (objectsOf pool.entries).Sublist _
        rw [hobjs]
      · intro inst hi
        obtain ⟨hge, hlt⟩ := hinst inst hi
        refine ⟨hlt, ?_, Or.inr hge⟩
        simp only
        rw [hpool]
        show inst.id ∉ addresses (objectsOf pool.entries)
        rw [hobjs]
        intro hm
        have := addresses_lt (fun n hn => hwf.1 n (List.mem_append_right _ hn)) _ hm
        exact Nat.lt_irrefl _ (Nat.lt_of_lt_of_le this hge)

theorem wf_updateCache (held : List Node) {s : SceneManager} (hwf : s.WellFormed) :
    (s.updateCache held).WellFormed ∧
    (s.updateCache held).heap = s.heap ∧
    (objectsOf (s.updateCache held).mInstanceCache.entries).Sublist
      (objectsOf s.mInstanceCache.entries) := by
  have hc : (objectsOf (s.updateCache held).mCache.entries).Sublist
      (objectsOf s.mCache.entries) := objectsOf_filter_sublist _ _
  have hp : (objectsOf (s.updateCache held).mInstanceCache.entries).Sublist
      (objectsOf s.mInstanceCache.entries) := objectsOf_filter_sublist _ _
  refine ⟨⟨?_, (addresses_sublist hc).nodup hwf.2.1, (addresses_sublist hp).nodup hwf.2.2⟩,
    rfl, hp⟩
  intro n hn
  rcases List.mem_append.mp hn with hn | hn
  · exact hwf.1 n (List.mem_append_left _ (hc.subset hn))
  · exact hwf.1 n (List.mem_append_right _ (hp.subset hn))

theorem wf_setFilterSettings (magfilter minfilter mipmap : String) (maxAnisotropy : Int)
    (viewer : Option Viewer) {s : SceneManager} (hwf : s.WellFormed) :
    (s.setFilterSettings magfilter minfilter mipmap maxAnisotropy viewer).1.WellFormed ∧
    (s.setFilterSettings magfilter minfilter mipmap maxAnisotropy viewer).1.heap = s.heap ∧
    (s.setFilterSettings magfilter minfilter mipmap maxAnisotropy viewer).1.mInstanceCache =
      s.mInstanceCache := by
  refine ⟨⟨?_, by simp [SceneManager.setFilterSettings, ObjectCache.clear, objectsOf, addresses],
    hwf.2.2⟩, rfl, rfl⟩
  intro n hn
  simp only [SceneManager.setFilterSettings, ObjectCache.clear, objectsOf, List.filterMap_nil,
    List.nil_append] at hn
  exact hwf.1 n (List.mem_append_right _ hn)

theorem wf_new : SceneManager.new.WellFormed := by
  decide

end Resource

namespace Resource

/-! ## Scene manager: the claims about getTemplate -/

/-- A template that loads directly is cached under the requested name: the
next `getTemplate` of that name returns the same object and changes
nothing, the load record included. -/
theorem getTemplate_direct_load_is_cached (env : Env) (name : String) (s : SceneManager)
    (loaded : Node) (h1 : Heap)
    (hmiss : s.mCache.getRefFromObjectCache (env.normalizeFilename name) = none)
    (hload : tryLoad env (env.normalizeFilename name) s.heap = (Except.ok loaded, h1)) :
    (s.getTemplate env name).1 = Except.ok (s.postLoad loaded) ∧
    (s.getTemplate env name).2.getTemplate env name =
      (Except.ok (s.postLoad loaded), (s.getTemplate env name).2) := by
  have hg : s.getTemplate env name =
      (Except.ok (s.postLoad loaded),
        { s with
          heap := h1
          mIncrementalCompileOperation :=
            s.mIncrementalCompileOperation.map (fun q => q ++ [loaded.id])
          mCache := s.mCache.addEntryToObjectCache (env.normalizeFilename name)
            (some (s.postLoad loaded)) }) := by
    rw [getTemplate_miss hmiss]
    simp [loadOrMarker, hload]
  rw [hg]
  exact ⟨rfl, getTemplate_hit (getRef_add_same _ _ _)⟩

/-- Claim C1, evaluated where it fails.  In the example world
`meshes/broken.nif` does not load and `meshes/marker_error.nif` does.  The
first `getTemplate("meshes/broken.nif")` returns the marker, the object at
address 0, after two calls of `load`, and stores it under the marker's
name: the lookup of `meshes/broken.nif` still finds nothing.  The second
call therefore calls `load` twice more and returns another object, the one
at address 1. -/
theorem C1_fallback_template_not_served_from_cache :
    ((SceneManager.new.getTemplate exampleEnv "meshes/broken.nif").1.toOption.map
        fun n => n.id) = some 0 ∧
    (SceneManager.new.getTemplate exampleEnv "meshes/broken.nif").2.heap.loadLog =
      ["meshes/broken.nif", "meshes/marker_error.nif"] ∧
    (SceneManager.new.getTemplate exampleEnv "meshes/broken.nif").2.mCache.entries.map
        Prod.fst = ["meshes/marker_error.nif"] ∧
    (SceneManager.new.getTemplate exampleEnv "meshes/broken.nif").2.mCache.getRefFromObjectCache
        (exampleEnv.normalizeFilename "meshes/broken.nif") = none ∧
    (((SceneManager.new.getTemplate exampleEnv "meshes/broken.nif").2.getTemplate exampleEnv
        "meshes/broken.nif").1.toOption.map fun n => n.id) = some 1 ∧
    ((SceneManager.new.getTemplate exampleEnv "meshes/broken.nif").2.getTemplate exampleEnv
        "meshes/broken.nif").2.heap.loadLog =
      ["meshes/broken.nif", "meshes/marker_error.nif", "meshes/broken.nif",
        "meshes/marker_error.nif"] := by
  decide

/-- Claim C4. Let the requested name miss the cache and let opening or loading
the normalized name fail with `e`.  If `ext` is the first of nif, osg, osgt,
osgb, osgx, osg2 for which the file system reports that
`meshes/marker_error.ext` exists, and that file loads, `getTemplate` returns
the node loaded from it (with the post-load passes run on it) and stores it in
the cache.  If the file system reports none of the six, `getTemplate` throws
the original `e` and the template cache is as before. -/
theorem C4_error_marker_fallback (env : Env) (name : String) (s : SceneManager)
    (e : String) (h1 : Heap)
    (hmiss : s.mCache.getRefFromObjectCache (env.normalizeFilename name) = none)
    (hfail : tryLoad env (env.normalizeFilename name) s.heap = (Except.error e, h1)) :
    (∀ (pre post : List String) (ext : String) (loaded : Node) (h2 : Heap),
      sMeshTypes = pre ++ ext :: post →
      (∀ x ∈ pre, env.vfsExists ("meshes/marker_error." ++ x) = false) →
      env.vfsExists ("meshes/marker_error." ++ ext) = true →
      tryLoad env ("meshes/marker_error." ++ ext) h1 = (Except.ok loaded, h2) →
      (s.getTemplate env name).1 = Except.ok (s.postLoad loaded) ∧
      (s.postLoad loaded).id = loaded.id ∧
      (s.getTemplate env name).2.mCache =
        s.mCache.addEntryToObjectCache ("meshes/marker_error." ++ ext)
          (some (s.postLoad loaded))) ∧
    ((∀ x ∈ sMeshTypes, env.vfsExists ("meshes/marker_error." ++ x) = false) →
      (s.getTemplate env name).1 = Except.error e ∧
      (s.getTemplate env name).2.mCache = s.mCache) := by
  refine ⟨?_, ?_⟩
  · intro pre post ext loaded h2 hsplit hpre hext hload
    have hm : markerLoop env sMeshTypes (env.normalizeFilename name) h1 =
        (Except.ok ("meshes/marker_error." ++ ext, some loaded), h2) := by
      rw [hsplit, markerLoop_skip pre ext post _ h1 hpre hext, markerLoop_cons_exists hext,
        hload]
    rw [getTemplate_miss hmiss]
    simp [loadOrMarker, hfail, hm, postLoad_id]
  · intro hall
    obtain ⟨n2, hm⟩ := markerLoop_none sMeshTypes (env.normalizeFilename name) h1 hall
    rw [getTemplate_miss hmiss]
    simp [loadOrMarker, hfail, hm]

/-- Claim C4 in the example world, for `meshes/broken.nif`, which opens but
does not parse: with the marker file present its node is returned, without
it the parse error comes back and the cache stays empty. -/
theorem C4_error_marker_fallback_witness :
    (SceneManager.new.getTemplate exampleEnv "meshes/broken.nif").1 =
      Except.ok (SceneManager.new.postLoad
        { id := 0
          graph := SceneGraph.group [SceneGraph.geode [{ triangles := [1, 2] }]]
          passes := []
          userData := [] }) ∧
    (SceneManager.new.getTemplate exampleEnvNoMarker "meshes/broken.nif").1 =
      Except.error "NIF file is malformed" ∧
    (SceneManager.new.getTemplate exampleEnvNoMarker "meshes/broken.nif").2.mCache =
      SceneManager.new.mCache :=
  ⟨((C4_error_marker_fallback exampleEnv "meshes/broken.nif" SceneManager.new
        "NIF file is malformed" { nextAddress := 0, loadLog := ["meshes/broken.nif"] }
        (by decide) (by decide)).1 [] ["osg", "osgt", "osgb", "osgx", "osg2"] "nif"
        { id := 0
          graph := SceneGraph.group [SceneGraph.geode [{ triangles := [1, 2] }]]
          passes := []
          userData := [] }
        { nextAddress := 1, loadLog := ["meshes/broken.nif", "meshes/marker_error.nif"] }
        (by decide) (by decide) (by decide) (by decide)).1,
    ((C4_error_marker_fallback exampleEnvNoMarker "meshes/broken.nif" SceneManager.new
        "NIF file is malformed" { nextAddress := 0, loadLog := ["meshes/broken.nif"] }
        (by decide) (by decide)).2 (by decide)).1,
    ((C4_error_marker_fallback exampleEnvNoMarker "meshes/broken.nif" SceneManager.new
        "NIF file is malformed" { nextAddress := 0, loadLog := ["meshes/broken.nif"] }
        (by decide) (by decide)).2 (by decide)).2⟩

end Resource

namespace Resource

/-! ## Sequences of calls: what has been returned -/

theorem sessionInv_new : SessionInv Session.new :=
  { wf := wf_new
    below := by simp [Session.new]
    handedNodup := by simp [Session.new, addresses]
    depositedNodup := by simp [Session.new, addresses]
    apart := by simp [Session.new] }

theorem nodup_append_fresh {l : List Node} {inst : Node} {b : Nat}
    (hn : (addresses l).Nodup) (hb : ∀ n ∈ l, n.id < b) (hi : b ≤ inst.id) :
    (addresses (l ++ [inst])).Nodup := by
  simp only [addresses, List.map_append, List.map_cons, List.map_nil]
  refine List.nodup_append.mpr ⟨hn, List.nodup_singleton _, ?_⟩
  intro a ha ha2
  simp only [List.mem_singleton] at ha2
  subst ha2
  have := addresses_lt hb _ ha
  exact Nat.lt_irrefl _ (Nat.lt_of_lt_of_le this hi)

theorem sessionInv_getTemplate (env : Env) (name : String) {t : Session} (h : SessionInv t) :
    SessionInv (t.call env (Call.getTemplate name)) := by
  obtain ⟨hwf1, hle, hpool, _⟩ := wf_getTemplate env name h.wf
  refine ⟨hwf1, ?_, h.handedNodup, h.depositedNodup, ?_⟩
  · intro n hn
    exact Nat.lt_of_lt_of_le (h.below n hn) hle
  · intro n hn
    show n.id ∉ addresses (objectsOf (t.manager.getTemplate env name).2.mInstanceCache.entries)
    rw [hpool]
    exact h.apart n hn

theorem sessionInv_createInstance (env : Env) (name : String) {t : Session}
    (h : SessionInv t) : SessionInv (t.call env (Call.createInstance name)) := by
  obtain ⟨hwf1, hle, hpool, hinst⟩ := wf_createInstance env name h.wf
  have hpoolLt : ∀ a ∈ addresses (objectsOf t.manager.mInstanceCache.entries),
      a < t.manager.heap.nextAddress :=
    addresses_lt (fun n hn => h.wf.1 n (List.mem_append_right _ hn))
  cases hr : (t.manager.createInstance env name).1 with
  | error e =>
    refine ⟨hwf1, ?_, ?_, h.depositedNodup, ?_⟩
    · intro n hn
      have hn2 : n ∈ t.handedOut ++ t.deposited := by
        simpa [Session.call, hr, returned] using hn
      exact Nat.lt_of_lt_of_le (h.below n hn2) hle
    · simpa [Session.call, hr, returned] using h.handedNodup
    · intro n hn
      have hn2 : n ∈ t.handedOut := by simpa [Session.call, hr, returned] using hn
      show n.id ∉ addresses (objectsOf (t.manager.createInstance env name).2.mInstanceCache.entries)
      rw [hpool]
      exact h.apart n hn2
  | ok inst =>
    obtain ⟨hge, hlt⟩ := hinst inst hr
    refine ⟨hwf1, ?_, ?_, h.depositedNodup, ?_⟩
    · intro n hn
      have hn2 : n ∈ t.handedOut ∨ n = inst ∨ n ∈ t.deposited := by
        simpa [Session.call, hr, returned, or_assoc] using hn
      rcases hn2 with hn2 | hn2 | hn2
      · exact Nat.lt_of_lt_of_le (h.below n (List.mem_append_left _ hn2)) hle
      · rw [hn2]; exact hlt
      · exact Nat.lt_of_lt_of_le (h.below n (List.mem_append_right _ hn2)) hle
    · show (addresses (t.handedOut ++ returned (t.manager.createInstance env name).1)).Nodup
      rw [hr]
      exact nodup_append_fresh h.handedNodup
        (fun n hn => h.below n (List.mem_append_left _ hn)) hge
    · intro n hn
      have hn2 : n ∈ t.handedOut ∨ n = inst := by
        simpa [Session.call, hr, returned] using hn
      show n.id ∉ addresses (objectsOf (t.manager.createInstance env name).2.mInstanceCache.entries)
      rw [hpool]
      rcases hn2 with hn2 | hn2
      · exact h.apart n hn2
      · rw [hn2]
        intro hm
        exact Nat.lt_irrefl _ (Nat.lt_of_lt_of_le (hpoolLt _ hm) hge)

theorem sessionInv_cacheInstance (env : Env) (name : String) {t : Session}
    (h : SessionInv t) : SessionInv (t.call env (Call.cacheInstance name)) := by
  obtain ⟨hwf1, hle, herr, hinst⟩ := wf_cacheInstance env name h.wf
  cases hr : (t.manager.cacheInstance env name).1 with
  | error e =>
    refine ⟨hwf1, ?_, h.handedNodup, ?_, ?_⟩
    · intro n hn
      have hn2 : n ∈ t.handedOut ++ t.deposited := by
        simpa [Session.call, hr, returned] using hn
      exact Nat.lt_of_lt_of_le (h.below n hn2) hle
    · simpa [Session.call, hr, returned] using h.depositedNodup
    · intro n hn
      show n.id ∉ addresses (objectsOf (t.manager.cacheInstance env name).2.mInstanceCache.entries)
      rw [herr e hr]
      exact h.apart n hn
  | ok inst =>
    obtain ⟨hge, hlt, hpool⟩ := hinst inst hr
    refine ⟨hwf1, ?_, h.handedNodup, ?_, ?_⟩
    · intro n hn
      have hn2 : n ∈ t.handedOut ∨ n ∈ t.deposited ∨ n = inst := by
        simpa [Session.call, hr, returned] using hn
      rcases hn2 with hn2 | hn2 | hn2
      · exact Nat.lt_of_lt_of_le (h.below n (List.mem_append_left _ hn2)) hle
      · exact Nat.lt_of_lt_of_le (h.below n (List.mem_append_right _ hn2)) hle
      · rw [hn2]; exact hlt
    · show (addresses (t.deposited ++ returned (t.manager.cacheInstance env name).1)).Nodup
      rw [hr]
      exact nodup_append_fresh h.depositedNodup
        (fun n hn => h.below n (List.mem_append_right _ hn)) hge
    · intro n hn
      show n.id ∉ addresses (objectsOf (t.manager.cacheInstance env name).2.mInstanceCache.entries)
      rw [hpool, objectsOf_append]
      simp only [addresses, List.map_append, List.mem_append, not_or]
      refine ⟨h.apart n hn, ?_⟩
      simp only [objectsOf, List.filterMap_cons, List.filterMap_nil, List.map_cons,
        List.map_nil, List.mem_singleton]
      intro he
      have := h.below n (List.mem_append_left _ hn)
      rw [he] at this
      exact Nat.lt_irrefl _ (Nat.lt_of_lt_of_le this hge)

theorem sessionInv_getInstance (env : Env) (name : String) {t : Session}
    (h : SessionInv t) : SessionInv (t.call env (Call.getInstance name)) := by
  obtain ⟨hwf1, hle, hsub, hinst⟩ := wf_getInstance env name h.wf
  have hapart : ∀ n ∈ t.handedOut,
      n.id ∉ addresses (objectsOf (t.manager.getInstance env name).2.mInstanceCache.entries) :=
    fun n hn hm => h.apart n hn ((addresses_sublist hsub).subset hm)
  cases hr : (t.manager.getInstance env name).1 with
  | error e =>
    refine ⟨hwf1, ?_, ?_, h.depositedNodup, ?_⟩
    · intro n hn
      have hn2 : n ∈ t.handedOut ++ t.deposited := by
        simpa [Session.call, hr, returned] using hn
      exact Nat.lt_of_lt_of_le (h.below n hn2) hle
    · simpa [Session.call, hr, returned] using h.handedNodup
    · intro n hn
      have hn2 : n ∈ t.handedOut := by simpa [Session.call, hr, returned] using hn
      exact hapart n hn2
  | ok inst =>
    obtain ⟨hlt, hnot, hfrom⟩ := hinst inst hr
    refine ⟨hwf1, ?_, ?_, h.depositedNodup, ?_⟩
    · intro n hn
      have hn2 : n ∈ t.handedOut ∨ n = inst ∨ n ∈ t.deposited := by
        simpa [Session.call, hr, returned, or_assoc] using hn
      rcases hn2 with hn2 | hn2 | hn2
      · exact Nat.lt_of_lt_of_le (h.below n (List.mem_append_left _ hn2)) hle
      · rw [hn2]; exact hlt
      · exact Nat.lt_of_lt_of_le (h.below n (List.mem_append_right _ hn2)) hle
    · show (addresses (t.handedOut ++ returned (t.manager.getInstance env name).1)).Nodup
      rw [hr]
      simp only [returned, addresses, List.map_append, List.map_cons, List.map_nil]
      refine List.nodup_append.mpr ⟨h.handedNodup, List.nodup_singleton _, ?_⟩
      intro a ha ha2
      simp only [List.mem_singleton] at ha2
      subst ha2
      obtain ⟨n, hn, hnid⟩ := List.mem_map.mp ha
      rcases hfrom with hfrom | hfrom
      · exact h.apart n hn (by rw [hnid]; exact mem_addresses hfrom)
      · have := h.below n (List.mem_append_left _ hn)
        rw [hnid] at this
        exact Nat.lt_irrefl _ (Nat.lt_of_lt_of_le this hfrom)
    · intro n hn
      have hn2 : n ∈ t.handedOut ∨ n = inst := by
        simpa [Session.call, hr, returned] using hn
      rcases hn2 with hn2 | hn2
      · exact hapart n hn2
      · rw [hn2]; exact hnot

theorem sessionInv_call (env : Env) (c : Call) {t : Session} (h : SessionInv t) :
    SessionInv (t.call env c) := by
  cases c with
  | getTemplate name => exact sessionInv_getTemplate env name h
  | createInstance name => exact sessionInv_createInstance env name h
  | cacheInstance name => exact sessionInv_cacheInstance env name h
  | getInstance name => exact sessionInv_getInstance env name h
  | setFilterSettings magfilter minfilter mipmap maxAnisotropy viewer =>
    obtain ⟨hwf1, hheap, hpool⟩ :=
      wf_setFilterSettings magfilter minfilter mipmap maxAnisotropy viewer h.wf
    refine ⟨hwf1, ?_, h.handedNodup, h.depositedNodup, ?_⟩
    · intro n hn
      show n.id < (t.manager.setFilterSettings magfilter minfilter mipmap maxAnisotropy
        viewer).1.heap.nextAddress
      rw [hheap]
      exact h.below n hn
    · intro n hn
      show n.id ∉ addresses (objectsOf (t.manager.setFilterSettings magfilter minfilter
        mipmap maxAnisotropy viewer).1.mInstanceCache.entries)
      rw [hpool]
      exact h.apart n hn
  | updateCache held =>
    obtain ⟨hwf1, hheap, hsub⟩ := wf_updateCache held h.wf
    refine ⟨hwf1, ?_, h.handedNodup, h.depositedNodup, ?_⟩
    · intro n hn
      show n.id < (t.manager.updateCache held).heap.nextAddress
      rw [hheap]
      exact h.below n hn
    · intro n hn hm
      exact h.apart n hn ((addresses_sublist hsub).subset hm)

theorem sessionInv_run (env : Env) (calls : List Call) {t : Session} (h : SessionInv t) :
    SessionInv (t.run env calls) := by
  induction calls generalizing t with
  | nil => exact h
  | cons c cs ih => exact ih (sessionInv_call env c h)

end Resource

namespace Resource

/-! ## Shape manager: what a call leaves behind -/

/-- `getShape` leaves the instance pool alone and never lowers the next
unused address. -/
theorem getShape_facts (env : Env) (name : String) (m : BulletShapeManager) :
    (m.getShape env name).2.mInstanceCache = m.mInstanceCache ∧
    m.nextAddress ≤ (m.getShape env name).2.nextAddress := by
  unfold BulletShapeManager.getShape
  simp only
  split
  · exact ⟨rfl, Nat.le_refl _⟩
  · split
    · split
      · exact ⟨rfl, Nat.le_refl _⟩
      · split
        · exact ⟨rfl, Nat.le_refl _⟩
        · exact ⟨rfl, Nat.le_succ _⟩
    · split
      · exact ⟨rfl, Nat.le_refl _⟩
      · split
        · exact ⟨rfl, Nat.le_refl _⟩
        · exact ⟨rfl, Nat.le_succ _⟩

theorem shape_createInstance_facts (env : Env) (name : String) (m : BulletShapeManager) :
    (m.createInstance env name).2.mInstanceCache = m.mInstanceCache ∧
    m.nextAddress ≤ (m.createInstance env name).2.nextAddress ∧
    ∀ inst, (m.createInstance env name).1 = Except.ok (some inst) →
      m.nextAddress ≤ inst.id ∧ inst.id < (m.createInstance env name).2.nextAddress := by
  obtain ⟨hpool, hle⟩ := getShape_facts env name m
  unfold BulletShapeManager.createInstance
  cases hg : m.getShape env name with
  | mk r m1 =>
    rw [hg] at hpool hle
    simp only at hpool hle
    cases r with
    | error e => exact ⟨hpool, hle, fun inst hi => by simp at hi⟩
    | ok o =>
      cases o with
      | none => exact ⟨hpool, hle, fun inst hi => by simp at hi⟩
      | some shape =>
        refine ⟨hpool, Nat.le_succ_of_le hle, ?_⟩
        intro inst hi
        simp only [Except.ok.injEq, Option.some.injEq] at hi
        subst hi
        exact ⟨hle, Nat.lt_succ_self _⟩

theorem shape_wf_of_pool {m m1 : BulletShapeManager} (hwf : m.WellFormed)
    (hsub : (objectsOf m1.mInstanceCache.entries).Sublist (objectsOf m.mInstanceCache.entries))
    (hle : m.nextAddress ≤ m1.nextAddress) : m1.WellFormed :=
  ⟨fun i hi => Nat.lt_of_lt_of_le (hwf.1 i (hsub.subset hi)) hle, (hsub.map _).nodup hwf.2⟩

theorem shape_instanceAddresses_lt {l : List BulletShapeInstance} {b : Nat}
    (h : ∀ i ∈ l, i.id < b) : ∀ a ∈ instanceAddresses l, a < b := by
  intro a ha
  obtain ⟨n, hn, rfl⟩ := List.mem_map.mp ha
  exact h n hn

/-- `cacheInstance` of the shape manager: what it returns, null handle
included, is what it has appended to the pool; an instance it returns is a
new object. -/
theorem shape_cacheInstance_facts (env : Env) (name : String) {m : BulletShapeManager}
    (hwf : m.WellFormed) :
    (m.cacheInstance env name).2.WellFormed ∧
    m.nextAddress ≤ (m.cacheInstance env name).2.nextAddress ∧
    (∀ e, (m.cacheInstance env name).1 = Except.error e →
      (m.cacheInstance env name).2.mInstanceCache = m.mInstanceCache) ∧
    (∀ r, (m.cacheInstance env name).1 = Except.ok r →
      (m.cacheInstance env name).2.mInstanceCache.entries =
        m.mInstanceCache.entries ++ [(env.normalizeFilename name, r)]) ∧
    ∀ inst, (m.cacheInstance env name).1 = Except.ok (some inst) →
      m.nextAddress ≤ inst.id ∧ inst.id < (m.cacheInstance env name).2.nextAddress := by
  obtain ⟨hpool, hle, hinst⟩ := shape_createInstance_facts env (env.normalizeFilename name) m
  unfold BulletShapeManager.cacheInstance
  simp only
  cases hg : m.createInstance env (env.normalizeFilename name) with
  | mk r m1 =>
    rw [hg] at hpool hle hinst
    simp only at hpool hle hinst
    cases r with
    | error e =>
      refine ⟨shape_wf_of_pool hwf (by rw [hpool]) hle, hle, fun _ _ => hpool,
        fun r hr => by simp at hr, fun inst hi => by simp at hi⟩
    | ok o =>
      have hentries : (m1.mInstanceCache.addEntryToObjectCache (env.normalizeFilename name)
          o).entries = m.mInstanceCache.entries ++ [(env.normalizeFilename name, o)] := by
        simp [MultiObjectCache.addEntryToObjectCache, hpool]
      refine ⟨?_, hle, fun e he => by simp at he, ?_, ?_⟩
      · cases o with
        | none =>
          refine ⟨?_, ?_⟩
          · intro i hi
            have hi2 : i ∈ objectsOf m.mInstanceCache.entries := by
              simpa [hentries, objectsOf_append, objectsOf] using hi
            exact Nat.lt_of_lt_of_le (hwf.1 i hi2) hle
          · show (instanceAddresses (objectsOf (m1.mInstanceCache.addEntryToObjectCache
              (env.normalizeFilename name) none).entries)).Nodup
            rw [hentries, objectsOf_append]
            simpa [objectsOf] using hwf.2
        | some inst =>
          obtain ⟨hge, hlt⟩ := hinst inst rfl
          refine ⟨?_, ?_⟩
          · intro i hi
            have hi2 : i ∈ objectsOf m.mInstanceCache.entries ∨ i = inst := by
              simpa [hentries, objectsOf_append, objectsOf] using hi
            rcases hi2 with hi2 | hi2
            · exact Nat.lt_of_lt_of_le (hwf.1 i hi2) hle
            · rw [hi2]; exact hlt
          · show (instanceAddresses (objectsOf (m1.mInstanceCache.addEntryToObjectCache
              (env.normalizeFilename name) (some inst)).entries)).Nodup
            rw [hentries, objectsOf_append, objectsOf_cons_some]
            simp only [instanceAddresses, List.map_append, List.map_cons]
            refine List.nodup_append.mpr ⟨hwf.2, by simp [objectsOf], ?_⟩
            intro a ha ha2
            have ha3 : a = inst.id := by simpa [objectsOf] using ha2
            subst ha3
            exact Nat.lt_irrefl _ (Nat.lt_of_lt_of_le (shape_instanceAddresses_lt hwf.1 _ ha) hge)
      · intro r hr
        simp only [Except.ok.injEq] at hr
        subst hr
        exact hentries
      · intro inst hi
        simp only [Except.ok.injEq] at hi
        subst hi
        exact hinst inst rfl

/-- `getInstance` of the shape manager: an instance it returns is not in the
pool after the call; it was in the pool before or is a new object. -/
theorem shape_getInstance_facts (env : Env) (name : String) {m : BulletShapeManager}
    (hwf : m.WellFormed) :
    (m.getInstance env name).2.WellFormed ∧
    m.nextAddress ≤ (m.getInstance env name).2.nextAddress ∧
    (objectsOf (m.getInstance env name).2.mInstanceCache.entries).Sublist
      (objectsOf m.mInstanceCache.entries) ∧
    ∀ inst, (m.getInstance env name).1 = Except.ok (some inst) →
      inst.id < (m.getInstance env name).2.nextAddress ∧
      inst.id ∉ instanceAddresses (objectsOf (m.getInstance env name).2.mInstanceCache.entries) ∧
      (inst ∈ objectsOf m.mInstanceCache.entries ∨ m.nextAddress ≤ inst.id) := by
  unfold BulletShapeManager.getInstance
  simp only
  cases ht : m.mInstanceCache.takeFromObjectCache (env.normalizeFilename name) with
  | mk o pool =>
    cases o with
    | some obj =>
      obtain ⟨hmem, hnot, hsub, _⟩ :=
        take_some_map (fun i : BulletShapeInstance => i.id) ht hwf.2
      refine ⟨⟨fun i hi => hwf.1 i (hsub.subset hi), (hsub.map _).nodup hwf.2⟩,
        Nat.le_refl _, hsub, ?_⟩
      intro inst hi
      simp only [Except.ok.injEq, Option.some.injEq] at hi
      subst hi
      exact ⟨hwf.1 _ hmem, hnot, Or.inl hmem⟩
    | none =>
      have hobjs := take_none ht
      obtain ⟨hpool, hle, hinst⟩ :=
        shape_createInstance_facts env (env.normalizeFilename name)
          { m with mInstanceCache := pool }
      simp only at hpool
      refine ⟨?_, hle, ?_, ?_⟩
      · refine ⟨?_, ?_⟩
        · intro i hi
          rw [hpool, hobjs] at hi
          exact Nat.lt_of_lt_of_le (hwf.1 i hi) hle
        · rw [hpool, hobjs]
          exact hwf.2
      · rw [hpool, hobjs]
      · intro inst hi
        obtain ⟨hge, hlt⟩ := hinst inst hi
        refine ⟨hlt, ?_, Or.inr hge⟩
        rw [hpool, hobjs]
        intro hm
        exact Nat.lt_irrefl _ (Nat.lt_of_lt_of_le (shape_instanceAddresses_lt hwf.1 _ hm) hge)

theorem shape_updateCache_facts (heldShapes : List BulletShape)
    (heldInstances : List BulletShapeInstance) (m : BulletShapeManager) :
    (m.updateCache heldShapes heldInstances).nextAddress = m.nextAddress ∧
    (objectsOf (m.updateCache heldShapes heldInstances).mInstanceCache.entries).Sublist
      (objectsOf m.mInstanceCache.entries) :=
  ⟨rfl, objectsOf_filter_sublist _ _⟩

theorem shapeSessionInv_new : ShapeSessionInv ShapeSession.new :=
  { wf := by decide
    below := by simp [ShapeSession.new]
    handedNodup := by simp [ShapeSession.new, instanceAddresses]
    depositedNodup := by simp [ShapeSession.new, instanceAddresses]
    apart := by simp [ShapeSession.new] }

theorem shape_nodup_append_fresh {l : List BulletShapeInstance} {inst : BulletShapeInstance}
    {b : Nat} (hn : (instanceAddresses l).Nodup) (hb : ∀ n ∈ l, n.id < b) (hi : b ≤ inst.id) :
    (instanceAddresses (l ++ [inst])).Nodup := by
  simp only [instanceAddresses, List.map_append, List.map_cons, List.map_nil]
  refine List.nodup_append.mpr ⟨hn, List.nodup_singleton _, ?_⟩
  intro a ha ha2
  simp only [List.mem_singleton] at ha2
  subst ha2
  exact Nat.lt_irrefl _ (Nat.lt_of_lt_of_le (shape_instanceAddresses_lt hb _ ha) hi)

/-- A call that hands out at most one instance, new or taken from the pool,
and leaves a sub-pool without it, keeps the invariant. -/
theorem shapeSessionInv_handOut {t : ShapeSession} (h : ShapeSessionInv t)
    (m1 : BulletShapeManager) (r : Except String (Option BulletShapeInstance))
    (hwf1 : m1.WellFormed) (hle : t.manager.nextAddress ≤ m1.nextAddress)
    (hsub : (objectsOf m1.mInstanceCache.entries).Sublist
      (objectsOf t.manager.mInstanceCache.entries))
    (hinst : ∀ inst, r = Except.ok (some inst) →
      inst.id < m1.nextAddress ∧
      inst.id ∉ instanceAddresses (objectsOf m1.mInstanceCache.entries) ∧
      (inst ∈ objectsOf t.manager.mInstanceCache.entries ∨ t.manager.nextAddress ≤ inst.id)) :
    ShapeSessionInv
      { t with manager := m1, handedOut := t.handedOut ++ returnedInstance r } := by
  have hapart : ∀ i ∈ t.handedOut,
      i.id ∉ instanceAddresses (objectsOf m1.mInstanceCache.entries) :=
    fun i hi hm => h.apart i hi ((hsub.map _).subset hm)
  by_cases hr : ∃ inst, r = Except.ok (some inst)
  · obtain ⟨inst, hr⟩ := hr
    obtain ⟨hlt, hnot, hfrom⟩ := hinst inst hr
    have hret : returnedInstance r = [inst] := by rw [hr]; rfl
    refine ⟨hwf1, ?_, ?_, h.depositedNodup, ?_⟩
    · intro i hi
      have hi2 : i ∈ t.handedOut ∨ i = inst ∨ i ∈ t.deposited := by
        simpa [hret, or_assoc] using hi
      rcases hi2 with hi2 | hi2 | hi2
      · exact Nat.lt_of_lt_of_le (h.below i (List.mem_append_left _ hi2)) hle
      · rw [hi2]; exact hlt
      · exact Nat.lt_of_lt_of_le (h.below i (List.mem_append_right _ hi2)) hle
    · show (instanceAddresses (t.handedOut ++ returnedInstance r)).Nodup
      rw [hret]
      simp only [instanceAddresses, List.map_append, List.map_cons, List.map_nil]
      refine List.nodup_append.mpr ⟨h.handedNodup, List.nodup_singleton _, ?_⟩
      intro a ha ha2
      simp only [List.mem_singleton] at ha2
      subst ha2
      obtain ⟨n, hn, hnid⟩ := List.mem_map.mp ha
      rcases hfrom with hfrom | hfrom
      · exact h.apart n hn (by rw [hnid]; exact List.mem_map.mpr ⟨inst, hfrom, rfl⟩)
      · have := h.below n (List.mem_append_left _ hn)
        rw [hnid] at this
        exact Nat.lt_irrefl _ (Nat.lt_of_lt_of_le this hfrom)
    · intro i hi
      have hi2 : i ∈ t.handedOut ∨ i = inst := by simpa [hret] using hi
      rcases hi2 with hi2 | hi2
      · exact hapart i hi2
      · rw [hi2]; exact hnot
  · have hret : returnedInstance r = [] := by
      unfold returnedInstance
      split
      · rename_i i
        exact absurd ⟨i, rfl⟩ hr
      · rfl
    refine ⟨hwf1, ?_, ?_, h.depositedNodup, ?_⟩
    · intro i hi
      have hi2 : i ∈ t.handedOut ++ t.deposited := by simpa [hret] using hi
      exact Nat.lt_of_lt_of_le (h.below i hi2) hle
    · simpa [hret] using h.handedNodup
    · intro i hi
      have hi2 : i ∈ t.handedOut := by simpa [hret] using hi
      exact hapart i hi2

theorem shapeSessionInv_call (env : Env) (c : ShapeCall) {t : ShapeSession}
    (h : ShapeSessionInv t) : ShapeSessionInv (t.call env c) := by
  have hpoolLt : ∀ a ∈ instanceAddresses (objectsOf t.manager.mInstanceCache.entries),
      a < t.manager.nextAddress := shape_instanceAddresses_lt h.wf.1
  cases c with
  | getShape name =>
    obtain ⟨hpool, hle⟩ := getShape_facts env name t.manager
    have hsub : (objectsOf (t.manager.getShape env name).2.mInstanceCache.entries).Sublist
        (objectsOf t.manager.mInstanceCache.entries) := by rw [hpool]
    refine ⟨shape_wf_of_pool h.wf hsub hle,
      fun i hi => Nat.lt_of_lt_of_le (h.below i hi) hle, h.handedNodup, h.depositedNodup, ?_⟩
    intro i hi
    show i.id ∉ instanceAddresses (objectsOf (t.manager.getShape env name).2.mInstanceCache.entries)
    rw [hpool]
    exact h.apart i hi
  | createInstance name =>
    obtain ⟨hpool, hle, hinst⟩ := shape_createInstance_facts env name t.manager
    have hsub : (objectsOf (t.manager.createInstance env name).2.mInstanceCache.entries).Sublist
        (objectsOf t.manager.mInstanceCache.entries) := by rw [hpool]
    refine shapeSessionInv_handOut h (t.manager.createInstance env name).2
      (t.manager.createInstance env name).1 (shape_wf_of_pool h.wf hsub hle) hle hsub ?_
    intro inst hi
    obtain ⟨hge, hlt⟩ := hinst inst hi
    refine ⟨hlt, ?_, Or.inr hge⟩
    rw [hpool]
    intro hm
    exact Nat.lt_irrefl _ (Nat.lt_of_lt_of_le (hpoolLt _ hm) hge)
  | getInstance name =>
    obtain ⟨hwf1, hle, hsub, hinst⟩ := shape_getInstance_facts env name h.wf
    exact shapeSessionInv_handOut h (t.manager.getInstance env name).2
      (t.manager.getInstance env name).1 hwf1 hle hsub hinst
  | updateCache heldShapes heldInstances =>
    obtain ⟨hnext, hsub⟩ := shape_updateCache_facts heldShapes heldInstances t.manager
    refine ⟨shape_wf_of_pool h.wf hsub (Nat.le_of_eq hnext.symm), ?_, h.handedNodup,
      h.depositedNodup, ?_⟩
    · intro i hi
      show i.id < (t.manager.updateCache heldShapes heldInstances).nextAddress
      rw [hnext]
      exact h.below i hi
    · intro i hi hm
      exact h.apart i hi ((hsub.map _).subset hm)
  | cacheInstance name =>
    obtain ⟨hwf1, hle, herr, hok, hinst⟩ := shape_cacheInstance_facts env name h.wf
    cases hr : (t.manager.cacheInstance env name).1 with
    | error e =>
      refine ⟨hwf1, ?_, h.handedNodup, ?_, ?_⟩
      · intro i hi
        have hi2 : i ∈ t.handedOut ++ t.deposited := by
          simpa [ShapeSession.call, hr, returnedInstance] using hi
        exact Nat.lt_of_lt_of_le (h.below i hi2) hle
      · simpa [ShapeSession.call, hr, returnedInstance] using h.depositedNodup
      · intro i hi
        show i.id ∉ instanceAddresses
          (objectsOf (t.manager.cacheInstance env name).2.mInstanceCache.entries)
        rw [herr e hr]
        exact h.apart i hi
    | ok o =>
      have hentries := hok o hr
      cases o with
      | none =>
        refine ⟨hwf1, ?_, h.handedNodup, ?_, ?_⟩
        · intro i hi
          have hi2 : i ∈ t.handedOut ++ t.deposited := by
            simpa [ShapeSession.call, hr, returnedInstance] using hi
          exact Nat.lt_of_lt_of_le (h.below i hi2) hle
        · simpa [ShapeSession.call, hr, returnedInstance] using h.depositedNodup
        · intro i hi
          show i.id ∉ instanceAddresses
            (objectsOf (t.manager.cacheInstance env name).2.mInstanceCache.entries)
          rw [hentries, objectsOf_append]
          simpa [objectsOf] using h.apart i hi
      | some inst =>
        obtain ⟨hge, hlt⟩ := hinst inst hr
        refine ⟨hwf1, ?_, h.handedNodup, ?_, ?_⟩
        · intro i hi
          have hi2 : i ∈ t.handedOut ∨ i ∈ t.deposited ∨ i = inst := by
            simpa [ShapeSession.call, hr, returnedInstance] using hi
          rcases hi2 with hi2 | hi2 | hi2
          · exact Nat.lt_of_lt_of_le (h.below i (List.mem_append_left _ hi2)) hle
          · exact Nat.lt_of_lt_of_le (h.below i (List.mem_append_right _ hi2)) hle
          · rw [hi2]; exact hlt
        · show (instanceAddresses
            (t.deposited ++ returnedInstance (t.manager.cacheInstance env name).1)).Nodup
          rw [hr]
          exact shape_nodup_append_fresh h.depositedNodup
            (fun n hn => h.below n (List.mem_append_right _ hn)) hge
        · intro i hi
          show i.id ∉ instanceAddresses
            (objectsOf (t.manager.cacheInstance env name).2.mInstanceCache.entries)
          rw [hentries, objectsOf_append, objectsOf_cons_some]
          simp only [instanceAddresses, List.map_append, List.map_cons, List.mem_append,
            List.mem_cons, not_or]
          refine ⟨h.apart i hi, ?_, by simp [objectsOf]⟩
          intro he
          have := h.below i (List.mem_append_left _ hi)
          rw [he] at this
          exact Nat.lt_irrefl _ (Nat.lt_of_lt_of_le this hge)

theorem shapeSessionInv_run (env : Env) (calls : List ShapeCall) {t : ShapeSession}
    (h : ShapeSessionInv t) : ShapeSessionInv (t.run env calls) := by
  induction calls generalizing t with
  | nil => exact h
  | cons c cs ih => exact ih (shapeSessionInv_call env c h)

end Resource

namespace Resource

/-! ## Scene manager: instances, sweeps and settings -/

/-- In the example world `cacheInstance("meshes/a.nif")` on a new scene
manager returns the instance at address 1, which is at that moment a member
of the instance pool; the `getInstance("meshes/a.nif")` that follows returns
that same object.  The shape manager does the same with the shape instance
at address 1. -/
theorem C6_cacheInstance_result_is_pooled :
    (SceneManager.new.cacheInstance exampleEnv "meshes/a.nif").1 = Except.ok exampleInstance ∧
    exampleInstance ∈
      objectsOf (SceneManager.new.cacheInstance exampleEnv "meshes/a.nif").2.mInstanceCache.entries ∧
    ((SceneManager.new.cacheInstance exampleEnv "meshes/a.nif").2.getInstance exampleEnv
      "meshes/a.nif").1 = Except.ok exampleInstance ∧
    ((BulletShapeManager.new SceneManager.new).cacheInstance exampleEnv "meshes/a.nif").1 =
      Except.ok (some { id := 1, source := 0 }) ∧
    ({ id := 1, source := 0 } : BulletShapeInstance) ∈
      objectsOf ((BulletShapeManager.new SceneManager.new).cacheInstance exampleEnv
        "meshes/a.nif").2.mInstanceCache.entries ∧
    (((BulletShapeManager.new SceneManager.new).cacheInstance exampleEnv
      "meshes/a.nif").2.getInstance exampleEnv "meshes/a.nif").1 =
      Except.ok (some { id := 1, source := 0 }) := by
  decide

/-- Claim C6, amended. After any sequence of calls on a new `SceneManager`:
the instances returned so far by `createInstance` and `getInstance` are
pairwise different objects and none of them is a member of the instance
pool; the instances returned by `cacheInstance` are pairwise different
objects; and a further `cacheInstance` that returns an instance has put that
very instance into the pool under the normalized name.  The same holds of
the shape instances returned by a new `BulletShapeManager` after any
sequence of calls on it. -/
theorem C6_handed_out_instances_not_pooled (env : Env) (calls : List Call)
    (shapeCalls : List ShapeCall) :
    ((addresses (Session.new.run env calls).handedOut).Nodup ∧
    (∀ n ∈ (Session.new.run env calls).handedOut,
      n.id ∉ addresses (objectsOf (Session.new.run env calls).manager.mInstanceCache.entries)) ∧
    (addresses (Session.new.run env calls).deposited).Nodup ∧
    (∀ name inst,
      ((Session.new.run env calls).manager.cacheInstance env name).1 = Except.ok inst →
      (env.normalizeFilename name, some inst) ∈
        ((Session.new.run env calls).manager.cacheInstance env name).2.mInstanceCache.entries)) ∧
    ((instanceAddresses (ShapeSession.new.run env shapeCalls).handedOut).Nodup ∧
    (∀ i ∈ (ShapeSession.new.run env shapeCalls).handedOut,
      i.id ∉ instanceAddresses
        (objectsOf (ShapeSession.new.run env shapeCalls).manager.mInstanceCache.entries)) ∧
    (instanceAddresses (ShapeSession.new.run env shapeCalls).deposited).Nodup ∧
    (∀ name inst,
      ((ShapeSession.new.run env shapeCalls).manager.cacheInstance env name).1 =
        Except.ok (some inst) →
      (env.normalizeFilename name, some inst) ∈
        ((ShapeSession.new.run env shapeCalls).manager.cacheInstance env
          name).2.mInstanceCache.entries)) := by
  have h := sessionInv_run env calls sessionInv_new
  have k := shapeSessionInv_run env shapeCalls shapeSessionInv_new
  refine ⟨⟨h.handedNodup, h.apart, h.depositedNodup, ?_⟩,
    ⟨k.handedNodup, k.apart, k.depositedNodup, ?_⟩⟩
  · intro name inst hi
    obtain ⟨_, _, hpool⟩ := (wf_cacheInstance env name h.wf).2.2.2 inst hi
    rw [hpool]
    simp
  · intro name inst hi
    rw [(shape_cacheInstance_facts env name k.wf).2.2.2.1 (some inst) hi]
    simp

/-- Claim C6 (amended) in the example world: an instance is created, another
cached and then taken with `getInstance`, a third taken from the empty pool.
The three handed out are at addresses 1, 2 and 3; the one deposited is the
one at address 2. -/
theorem C6_handed_out_instances_not_pooled_witness :
    addresses (Session.new.run exampleEnv
      [Call.createInstance "meshes/a.nif", Call.cacheInstance "meshes/a.nif",
        Call.getInstance "meshes/a.nif", Call.getInstance "meshes/a.nif"]).handedOut =
      [1, 2, 3] ∧
    (addresses (Session.new.run exampleEnv
      [Call.createInstance "meshes/a.nif", Call.cacheInstance "meshes/a.nif",
        Call.getInstance "meshes/a.nif", Call.getInstance "meshes/a.nif"]).handedOut).Nodup ∧
    addresses (Session.new.run exampleEnv
      [Call.createInstance "meshes/a.nif", Call.cacheInstance "meshes/a.nif",
        Call.getInstance "meshes/a.nif", Call.getInstance "meshes/a.nif"]).deposited = [2] ∧
    instanceAddresses (ShapeSession.new.run exampleEnv
      [ShapeCall.cacheInstance "meshes/a.nif", ShapeCall.getInstance "meshes/a.nif",
        ShapeCall.getInstance "meshes/a.nif"]).handedOut = [1, 2] ∧
    (instanceAddresses (ShapeSession.new.run exampleEnv
      [ShapeCall.cacheInstance "meshes/a.nif", ShapeCall.getInstance "meshes/a.nif",
        ShapeCall.getInstance "meshes/a.nif"]).handedOut).Nodup :=
  ⟨by decide,
    (C6_handed_out_instances_not_pooled exampleEnv
      [Call.createInstance "meshes/a.nif", Call.cacheInstance "meshes/a.nif",
        Call.getInstance "meshes/a.nif", Call.getInstance "meshes/a.nif"]
      [ShapeCall.cacheInstance "meshes/a.nif", ShapeCall.getInstance "meshes/a.nif",
        ShapeCall.getInstance "meshes/a.nif"]).1.1,
    by decide, by decide,
    (C6_handed_out_instances_not_pooled exampleEnv
      [Call.createInstance "meshes/a.nif", Call.cacheInstance "meshes/a.nif",
        Call.getInstance "meshes/a.nif", Call.getInstance "meshes/a.nif"]
      [ShapeCall.cacheInstance "meshes/a.nif", ShapeCall.getInstance "meshes/a.nif",
        ShapeCall.getInstance "meshes/a.nif"]).2.1⟩

theorem updateCache_mCache (held : List Node) (s : SceneManager) :
    (s.updateCache held).mCache =
      s.mCache.removeUnreferencedObjectsInCache (s.referenceCount held) :=
  rfl

theorem mem_sweep_iff (held : List Node) (s : SceneManager) (key : String) (template : Node) :
    (key, some template) ∈ (s.updateCache held).mCache.entries ↔
      (key, some template) ∈ s.mCache.entries ∧ s.referenceCount held template ≠ 1 := by
  rw [updateCache_mCache]
  simp [ObjectCache.removeUnreferencedObjectsInCache, List.mem_filter]

theorem filter_length_pos {l : List Node} {t : Node} (h : t ∈ l) :
    1 ≤ (l.filter (fun n => n.id = t.id)).length := by
  have : t ∈ l.filter (fun n => n.id = t.id) := List.mem_filter.mpr ⟨h, by simp⟩
  exact List.length_pos_of_mem this

theorem filter_length_one {l : List Node} {t : Node} (h : t ∈ l)
    (hn : (addresses l).Nodup) : (l.filter (fun n => n.id = t.id)).length = 1 := by
  induction l with
  | nil => cases h
  | cons x l ih =>
    simp only [addresses, List.map_cons, List.nodup_cons] at hn
    obtain ⟨hx, hl⟩ := hn
    by_cases hxt : x.id = t.id
    · have hnone : l.filter (fun n => n.id = t.id) = [] := by
        rw [List.filter_eq_nil_iff]
        intro a ha hp
        have : a.id = t.id := by simpa using hp
        exact hx (List.mem_map.mpr ⟨a, ha, by rw [this, hxt]⟩)
      simp [List.filter_cons, hxt, hnone]
    · have ht : t ∈ l := by
        rcases List.mem_cons.mp h with h | h
        · exact absurd (by rw [h]) hxt
        · exact h
      simp only [List.filter_cons, hxt, decide_False, Bool.false_eq_true, if_false]
      exact ih ht hl

theorem filter_length_zero {l : List Node} {t : Node} (h : ∀ n ∈ l, n.id ≠ t.id) :
    (l.filter (fun n => n.id = t.id)).length = 0 := by
  have : l.filter (fun n => n.id = t.id) = [] := by
    rw [List.filter_eq_nil_iff]
    intro a ha hp
    exact h a ha (by simpa using hp)
  rw [this]
  rfl

theorem userObject_count_pos (live : List Node) (n t : Node) (hn : n ∈ live)
    (hu : t.id ∈ n.userData) :
    1 ≤ ((live.dedup.map (fun m => m.userData.count t.id)).sum) := by
  have h1 : n.userData.count t.id ∈ live.dedup.map (fun m => m.userData.count t.id) :=
    List.mem_map.mpr ⟨n, List.mem_dedup.mpr hn, rfl⟩
  have h2 : 1 ≤ n.userData.count t.id := List.count_pos_iff.mpr hu
  exact Nat.le_trans h2 (List.le_sum_of_mem h1)

theorem userObject_count_zero (live : List Node) (t : Node)
    (h : ∀ n ∈ live, t.id ∉ n.userData) :
    ((live.dedup.map (fun m => m.userData.count t.id)).sum) = 0 := by
  apply List.sum_eq_zero
  intro x hx
  obtain ⟨n, hn, rfl⟩ := List.mem_map.mp hx
  exact List.count_eq_zero_of_not_mem (h n (List.mem_dedup.mp hn))

/-- A cached template that an outside holder refers to, or that is a user
object of a node held outside or pooled, survives the sweep. -/
theorem sweep_keeps (held : List Node) (s : SceneManager) (key : String) (template : Node)
    (hc : (key, some template) ∈ s.mCache.entries)
    (hh : template ∈ held ∨
      ∃ n ∈ objectsOf s.mInstanceCache.entries ++ held, template.id ∈ n.userData) :
    (key, some template) ∈ (s.updateCache held).mCache.entries := by
  rw [mem_sweep_iff]
  refine ⟨hc, ?_⟩
  have h1 := filter_length_pos (mem_objectsOf hc)
  unfold SceneManager.referenceCount
  rcases hh with hh | ⟨n, hn, hu⟩
  · have h2 := filter_length_pos hh
    omega
  · have h2 := userObject_count_pos (objectsOf s.mInstanceCache.entries ++ held) n template
      hn hu
    omega

/-- The template an instance was cloned from is in the cache after
`createInstance`, and is among the instance's user objects. -/
theorem createInstance_template (env : Env) (name : String) (s : SceneManager) (inst : Node)
    (h : (s.createInstance env name).1 = Except.ok inst) :
    ∃ key template, template.id ∈ inst.userData ∧
      (key, some template) ∈ (s.createInstance env name).2.mCache.entries := by
  unfold SceneManager.createInstance at h ⊢
  rcases getTemplate_cases env name s with ⟨obj, hc, hg⟩ | ⟨_, e, hp, hg, _⟩ |
    ⟨_, key, node, hp, l, hg, _⟩
  · rw [hg] at h ⊢
    simp only [Except.ok.injEq] at h
    subst h
    exact ⟨_, obj, by simp, getRef_mem hc⟩
  · rw [hg] at h
    simp at h
  · rw [hg] at h ⊢
    simp only [Except.ok.injEq] at h
    subst h
    exact ⟨key, node, by simp, by simp [ObjectCache.addEntryToObjectCache]⟩

/-- Claim C7. For a well-formed manager: the template that an instance
returned by `createInstance` refers back to is in the template cache, and
stays there through `updateCache` as long as the instance is held outside;
so does any cached template that an outside holder refers to directly, or
that is a user object of a live node (one held outside, or pooled).  A
cached template that no held node and no pooled node is or refers to is
removed by `updateCache`. -/
theorem C7_sweep_safety (env : Env) (s : SceneManager) (hwf : s.WellFormed) :
    (∀ name inst held, (s.createInstance env name).1 = Except.ok inst → inst ∈ held →
      ∃ key template, template.id ∈ inst.userData ∧
        (key, some template) ∈ (s.createInstance env name).2.mCache.entries ∧
        (key, some template) ∈
          ((s.createInstance env name).2.updateCache held).mCache.entries) ∧
    (∀ held key template, (key, some template) ∈ s.mCache.entries →
      (template ∈ held ∨
        ∃ n ∈ objectsOf s.mInstanceCache.entries ++ held, template.id ∈ n.userData) →
      (key, some template) ∈ (s.updateCache held).mCache.entries) ∧
    (∀ held key template, (key, some template) ∈ s.mCache.entries →
      (∀ n ∈ held, n.id ≠ template.id ∧ template.id ∉ n.userData) →
      (∀ n ∈ objectsOf s.mInstanceCache.entries,
        n.id ≠ template.id ∧ template.id ∉ n.userData) →
      (key, some template) ∉ (s.updateCache held).mCache.entries) := by
  refine ⟨?_, ?_, ?_⟩
  · intro name inst held hi hheld
    obtain ⟨key, template, hu, hc⟩ := createInstance_template env name s inst hi
    exact ⟨key, template, hu, hc,
      sweep_keeps held _ key template hc (Or.inr ⟨inst, List.mem_append_right _ hheld, hu⟩)⟩
  · intro held key template hc hh
    exact sweep_keeps held s key template hc hh
  · intro held key template hc hheld hpool
    rw [mem_sweep_iff]
    intro hcon
    apply hcon.2
    unfold SceneManager.referenceCount
    rw [filter_length_one (mem_objectsOf hc) hwf.2.1,
      filter_length_zero (fun n hn => (hpool n hn).1),
      filter_length_zero (fun n hn => (hheld n hn).1),
      userObject_count_zero _ template (fun n hn => by
        rcases List.mem_append.mp hn with hn | hn
        · exact (hpool n hn).2
        · exact (hheld n hn).2)]

/-- Claim C7 in the example world: after `createInstance("meshes/a.nif")` on a
new manager the sweep keeps the template while the instance is held, and
removes it when nothing is held. -/
theorem C7_sweep_safety_witness :
    SceneManager.new.WellFormed ∧
    (∃ key template, template.id ∈ exampleInstance.userData ∧
      (key, some template) ∈
        (SceneManager.new.createInstance exampleEnv "meshes/a.nif").2.mCache.entries ∧
      (key, some template) ∈
        ((SceneManager.new.createInstance exampleEnv "meshes/a.nif").2.updateCache
          [exampleInstance]).mCache.entries) ∧
    ((SceneManager.new.createInstance exampleEnv "meshes/a.nif").2.updateCache
      [exampleInstance]).mCache.entries = [("meshes/a.nif", some exampleTemplate)] ∧
    ((SceneManager.new.createInstance exampleEnv "meshes/a.nif").2.updateCache
      []).mCache.entries = [] :=
  ⟨wf_new,
    (C7_sweep_safety exampleEnv SceneManager.new wf_new).1 "meshes/a.nif" exampleInstance
      [exampleInstance] (by decide) (by decide),
    by decide, by decide⟩

/-- Claim C8. For any argument strings, anisotropy and viewer, after
`setFilterSettings` the template cache is empty and every lookup misses.  If
the manager was well formed and held `old` under the normalized name, a
following `getTemplate` of that name that returns a node has called `load`
again (the load record has grown, ending with the name loaded) and returns
an object at an address that was unused before, hence not `old`; the passes
on it are exactly the two filter visitors with the new min filter, mag
filter and anisotropy `max 1 maxAnisotropy`, then the sharing pass; and it
is the only entry of the cache. -/
theorem C8_setFilterSettings_invalidates_templates (env : Env)
    (magfilter minfilter mipmap : String) (maxAnisotropy : Int) (viewer : Option Viewer)
    (s : SceneManager) :
    (s.setFilterSettings magfilter minfilter mipmap maxAnisotropy viewer).1.mCache.entries = [] ∧
    (∀ key, (s.setFilterSettings magfilter minfilter mipmap maxAnisotropy
      viewer).1.mCache.getRefFromObjectCache key = none) ∧
    ∀ (name : String) (old node : Node),
      s.WellFormed →
      s.mCache.getRefFromObjectCache (env.normalizeFilename name) = some old →
      ((s.setFilterSettings magfilter minfilter mipmap maxAnisotropy viewer).1.getTemplate
        env name).1 = Except.ok node →
      node.id ≠ old.id ∧ s.heap.nextAddress ≤ node.id ∧
      node.passes =
        [Pass.SetFilterSettingsVisitor (filterModes magfilter minfilter mipmap).1
            (filterModes magfilter minfilter mipmap).2 (max 1 maxAnisotropy),
          Pass.SetFilterSettingsControllerVisitor (filterModes magfilter minfilter mipmap).1
            (filterModes magfilter minfilter mipmap).2 (max 1 maxAnisotropy),
          Pass.share] ∧
      ∃ l key,
        ((s.setFilterSettings magfilter minfilter mipmap maxAnisotropy viewer).1.getTemplate
          env name).2.heap.loadLog = s.heap.loadLog ++ l ++ [key] ∧
        ((s.setFilterSettings magfilter minfilter mipmap maxAnisotropy viewer).1.getTemplate
          env name).2.mCache.entries = [(key, some node)] := by
  have hempty : (s.setFilterSettings magfilter minfilter mipmap maxAnisotropy
      viewer).1.mCache.entries = [] := rfl
  have hmissAll : ∀ key, (s.setFilterSettings magfilter minfilter mipmap maxAnisotropy
      viewer).1.mCache.getRefFromObjectCache key = none := by
    intro key
    simp [ObjectCache.getRefFromObjectCache, hempty]
  refine ⟨hempty, hmissAll, ?_⟩
  intro name old node hwf hold hret
  have holdLt : old.id < s.heap.nextAddress :=
    hwf.1 old (List.mem_append_left _ (mem_objectsOf (getRef_mem hold)))
  rcases getTemplate_cases env name
      (s.setFilterSettings magfilter minfilter mipmap maxAnisotropy viewer).1 with
    ⟨obj, hc, _⟩ | ⟨_, e, h, hg, _⟩ | ⟨_, key, node2, h, l, hg, hid, _, hpasses, _, hlog⟩
  · rw [hmissAll] at hc
    cases hc
  · rw [hg] at hret
    simp at hret
  · rw [hg] at hret ⊢
    simp only [Except.ok.injEq] at hret
    subst hret
    have hid2 : node2.id = s.heap.nextAddress := hid
    refine ⟨?_, by rw [hid2], hpasses, l, key, hlog, ?_⟩
    · rw [hid2]
      exact Nat.ne_of_gt holdLt
    · simp [ObjectCache.addEntryToObjectCache, hempty]

/-- Claim C8 in the example world: `meshes/a.nif` is cached at address 0, the
filters are set to nearest/nearest without mipmaps and anisotropy 4, and the
next `getTemplate` loads the file again into the object at address 1, with
the new settings on it. -/
theorem C8_setFilterSettings_invalidates_templates_witness :
    (SceneManager.new.getTemplate exampleEnv "meshes/a.nif").2.WellFormed ∧
    (SceneManager.new.getTemplate exampleEnv "meshes/a.nif").2.mCache.getRefFromObjectCache
      (exampleEnv.normalizeFilename "meshes/a.nif") = some exampleTemplate ∧
    ((((SceneManager.new.getTemplate exampleEnv "meshes/a.nif").2.setFilterSettings "nearest"
      "nearest" "none" 4 none).1.getTemplate exampleEnv "meshes/a.nif").1.toOption.map
        fun n => (n.id, n.passes)) =
      some (1, [Pass.SetFilterSettingsVisitor FilterMode.NEAREST FilterMode.NEAREST 4,
        Pass.SetFilterSettingsControllerVisitor FilterMode.NEAREST FilterMode.NEAREST 4,
        Pass.share]) ∧
    ({ exampleTemplate with
        id := 1
        passes := [Pass.SetFilterSettingsVisitor FilterMode.NEAREST FilterMode.NEAREST 4,
          Pass.SetFilterSettingsControllerVisitor FilterMode.NEAREST FilterMode.NEAREST 4,
          Pass.share] } : Node).id ≠ exampleTemplate.id :=
  ⟨by decide, by decide, by decide,
    ((C8_setFilterSettings_invalidates_templates exampleEnv "nearest" "nearest" "none" 4 none
      (SceneManager.new.getTemplate exampleEnv "meshes/a.nif").2).2.2 "meshes/a.nif"
      exampleTemplate
      { exampleTemplate with
        id := 1
        passes := [Pass.SetFilterSettingsVisitor FilterMode.NEAREST FilterMode.NEAREST 4,
          Pass.SetFilterSettingsControllerVisitor FilterMode.NEAREST FilterMode.NEAREST 4,
          Pass.share] }
      (by decide) (by decide) (by decide)).1⟩

/-! ## Bullet shape manager -/

/-- Claim C5, evaluated where it fails.  In the example world
`meshes/empty.osg` loads as a graph without any drawable.  The first
`getShape("meshes/empty.osg")` calls `getTemplate` once, runs the visitor
once, returns the null handle and stores the null sentinel under the name.
The second call, with nothing in between, finds that sentinel as a null
handle, takes the miss branch, and calls `getTemplate` and runs the visitor
a second time before returning the null handle again. -/
theorem C5_null_sentinel_is_looked_up_as_a_miss :
    ((BulletShapeManager.new SceneManager.new).getShape exampleEnv "meshes/empty.osg").1 =
      Except.ok none ∧
    ((BulletShapeManager.new SceneManager.new).getShape exampleEnv
      "meshes/empty.osg").2.mCache.entries = [("meshes/empty.osg", none)] ∧
    ((BulletShapeManager.new SceneManager.new).getShape exampleEnv
      "meshes/empty.osg").2.getTemplateLog = ["meshes/empty.osg"] ∧
    ((BulletShapeManager.new SceneManager.new).getShape exampleEnv
      "meshes/empty.osg").2.visitorRuns = 1 ∧
    ((BulletShapeManager.new SceneManager.new).getShape exampleEnv
      "meshes/empty.osg").2.mCache.getRefFromObjectCache "meshes/empty.osg" = none ∧
    (((BulletShapeManager.new SceneManager.new).getShape exampleEnv
      "meshes/empty.osg").2.getShape exampleEnv "meshes/empty.osg").1 = Except.ok none ∧
    (((BulletShapeManager.new SceneManager.new).getShape exampleEnv
      "meshes/empty.osg").2.getShape exampleEnv "meshes/empty.osg").2.getTemplateLog =
      ["meshes/empty.osg", "meshes/empty.osg"] ∧
    (((BulletShapeManager.new SceneManager.new).getShape exampleEnv
      "meshes/empty.osg").2.getShape exampleEnv "meshes/empty.osg").2.visitorRuns = 2 := by
  decide

end Resource

namespace SceneUtil

/-! ## Work queue: leaving the wait for an item -/

theorem list_set_same {α : Type} {l : List α} {i : Nat} {a b : α} (h : l[i]? = some b) :
    (l.set i a)[i]? = some a :=
  List.getElem?_set_self (List.getElem?_eq_some.mp h).1

theorem list_set_other {α : Type} {l : List α} {i u : Nat} {a : α} (h : u ≠ i) :
    (l.set i a)[u]? = l[u]? :=
  List.getElem?_set_ne (fun e => h e.symm)

theorem list_set_cases {α : Type} {l : List α} {i u : Nat} {a b : α}
    (h : (l.set i a)[u]? = some b) : (u = i ∧ b = a) ∨ (u ≠ i ∧ l[u]? = some b) := by
  by_cases hu : u = i
  · subst hu
    rw [List.getElem?_set] at h
    simp only [if_true] at h
    split at h
    · left; exact ⟨rfl, by simpa using h.symm⟩
    · cases h
  · right
    rw [list_set_other hu] at h
    exact ⟨hu, h⟩

/-- Claim C11. `removeWorkItem` returns the front item, popped, whenever the
queue is not empty; it returns `NULL` exactly when the queue is empty and
released, and waits exactly when the queue is empty and not released.  So a
worker at `WAIT_FOR_ITEM` goes to `EXIT` exactly when the queue is empty and
released; it goes on to `EXECUTE` with an item exactly when that item is at
the front of the queue, and there its next move is the `doWork` of that
item; and it stays at `WAIT_FOR_ITEM` exactly when the queue is empty and
not released. -/
theorem C11_removeWorkItem_front_or_null (q : WorkQueue) (s : System) (t : Nat) :
    (∀ p rest, q.mQueue = p :: rest →
      q.removeWorkItem = (Removed.item p, { q with mQueue := rest })) ∧
    (q.removeWorkItem.1 = Removed.null ↔ q.mQueue = [] ∧ q.mIsReleased = true) ∧
    (q.removeWorkItem.1 = Removed.wait ↔ q.mQueue = [] ∧ q.mIsReleased = false) ∧
    (s.mThreads[t]? = some Phase.WAIT_FOR_ITEM →
      ((WorkThread.run t s).mThreads[t]? = some Phase.EXIT ↔
        s.queue.mQueue = [] ∧ s.queue.mIsReleased = true) ∧
      (∀ p, (WorkThread.run t s).mThreads[t]? = some (Phase.EXECUTE p) ↔
        s.queue.mQueue.head? = some p) ∧
      ((WorkThread.run t s).mThreads[t]? = some Phase.WAIT_FOR_ITEM ↔
        s.queue.mQueue = [] ∧ s.queue.mIsReleased = false)) ∧
    (∀ p, s.mThreads[t]? = some (Phase.EXECUTE p) →
      (WorkThread.run t s).workLog = s.workLog ++ [p]) := by
  refine ⟨?_, ?_, ?_, ?_, ?_⟩
  · intro p rest hq
    simp [WorkQueue.removeWorkItem, hq]
  · cases hq : q.mQueue <;> cases hr : q.mIsReleased <;>
      simp [WorkQueue.removeWorkItem, hq, hr]
  · cases hq : q.mQueue <;> cases hr : q.mIsReleased <;>
      simp [WorkQueue.removeWorkItem, hq, hr]
  · intro ht
    cases hq : s.queue.mQueue with
    | nil =>
      cases hr : s.queue.mIsReleased with
      | false =>
        rw [run_wait_blocked ht hq hr, ht]
        simp
      | true =>
        rw [run_wait_null ht hq hr]
        have := list_set_same (a := Phase.EXIT) ht
        simp only at this ⊢
        rw [this]
        simp
    | cons p rest =>
      rw [run_wait_item ht hq]
      have := list_set_same (a := Phase.EXECUTE p) ht
      simp only at this ⊢
      rw [this]
      simp
  · intro p ht
    rw [run_execute ht]

/-- Claim C11 on a worker that finds 4 at the front of the queue, and on one
that finds the queue empty and released. -/
theorem C11_removeWorkItem_front_or_null_witness :
    (WorkThread.run 0
      { queue := { mQueue := [4, 5], mIsReleased := true }
        items := Items.fresh
        mThreads := [Phase.WAIT_FOR_ITEM]
        workLog := []
        dequeueLog := [] }).mThreads[0]? = some (Phase.EXECUTE 4) ∧
    (WorkThread.run 0
      { queue := { mQueue := [], mIsReleased := true }
        items := Items.fresh
        mThreads := [Phase.WAIT_FOR_ITEM]
        workLog := []
        dequeueLog := [] }).mThreads[0]? = some Phase.EXIT :=
  ⟨((C11_removeWorkItem_front_or_null WorkQueue.new
      { queue := { mQueue := [4, 5], mIsReleased := true }
        items := Items.fresh
        mThreads := [Phase.WAIT_FOR_ITEM]
        workLog := []
        dequeueLog := [] } 0).2.2.2.1 rfl).2.1 4 |>.mpr rfl,
    ((C11_removeWorkItem_front_or_null WorkQueue.new
      { queue := { mQueue := [], mIsReleased := true }
        items := Items.fresh
        mThreads := [Phase.WAIT_FOR_ITEM]
        workLog := []
        dequeueLog := [] } 0).2.2.2.1 rfl).1.mpr ⟨rfl, rfl⟩⟩

/-! ## The completion signal -/

theorem signalDone_isDone (w : WorkItem) : w.signalDone.isDone = true := by
  simp [WorkItem.signalDone, WorkItem.isDone]

theorem calls_of_signalled (w : WorkItem) (cs : List ItemCall) :
    w.signalDone.calls cs = some w.signalDone := by
  induction cs with
  | nil => rfl
  | cons c cs ih =>
    cases c with
    | isDone => simpa [WorkItem.calls, WorkItem.call] using ih
    | waitTillDone =>
      simpa [WorkItem.calls, WorkItem.call, WorkItem.waitTillDone, WorkItem.signalDone] using ih
    | signalDone => simpa [WorkItem.calls, WorkItem.call, WorkItem.signalDone] using ih

theorem stepWaiter_item (i : Nat) (s : ItemSystem) : (s.stepWaiter i).item = s.item := by
  unfold ItemSystem.stepWaiter
  split <;> (try split) <;> rfl

theorem stepWaiter_signallers (i : Nat) (s : ItemSystem) :
    (s.stepWaiter i).signallers = s.signallers := by
  unfold ItemSystem.stepWaiter
  split <;> (try split) <;> rfl

theorem stepSignaller_item (j : Nat) (s : ItemSystem) :
    (s.stepSignaller j).item = s.item ∨ (s.stepSignaller j).item = s.item.signalDone := by
  unfold ItemSystem.stepSignaller
  split <;> (try split) <;> simp

theorem step_item (s : ItemSystem) (a : ItemAction) :
    (s.step a).item = s.item ∨ (s.step a).item = s.item.signalDone := by
  cases a with
  | callWaitTillDone => exact Or.inl rfl
  | callSignalDone => exact Or.inl rfl
  | waiter i => exact Or.inl (stepWaiter_item i s)
  | signaller j => exact stepSignaller_item j s
  | spuriousWake i =>
    left
    simp only [ItemSystem.step]
    split <;> rfl

/-- Once the flag is set it stays set, whatever the threads do; and an item
that `signalDone` has left is not changed any more. -/
theorem run_keeps_done (s : ItemSystem) (acts : List ItemAction) :
    (s.item.isDone = true → (s.run acts).item.isDone = true) ∧
    (∀ w : WorkItem, s.item = w.signalDone → (s.run acts).item = s.item) := by
  induction acts generalizing s with
  | nil => exact ⟨fun h => h, fun _ _ => rfl⟩
  | cons a acts ih =>
    have hstep := step_item s a
    refine ⟨?_, ?_⟩
    · intro h
      apply (ih (s.step a)).1
      rcases hstep with h1 | h1
      · rw [h1]; exact h
      · rw [h1]; exact signalDone_isDone _
    · intro w hw
      have h2 : (s.step a).item = s.item := by
        rcases hstep with h1 | h1
        · exact h1
        · rw [h1, hw]; rfl
      have := (ih (s.step a)).2 w (by rw [h2, hw])
      simp only [ItemSystem.run, List.foldl_cons] at this ⊢
      rw [this, h2]

/-- Claim C12. After `signalDone`, every sequence of `isDone`, `waitTillDone`
and `signalDone` calls returns and leaves the item done, in the very state
the first `signalDone` left; `signalDone` twice gives the same item as
`signalDone` once.  With threads running concurrently the same holds: from
a state in which the flag is set, every sequence of moves leads to a state
in which it is set, and an item left by `signalDone` is never changed. -/
theorem C12_done_is_terminal (w : WorkItem) (cs : List ItemCall) (s : ItemSystem)
    (acts : List ItemAction) :
    w.signalDone.calls cs = some w.signalDone ∧
    w.signalDone.isDone = true ∧
    w.signalDone.signalDone = w.signalDone ∧
    (s.item.isDone = true → (s.run acts).item.isDone = true) ∧
    (s.item = w.signalDone → (s.run acts).item = s.item) :=
  ⟨calls_of_signalled w cs, signalDone_isDone w, rfl, (run_keeps_done s acts).1,
    (run_keeps_done s acts).2 w⟩

/-- Claim C12 on a new item: signalled, then asked, waited for and signalled
again. -/
theorem C12_done_is_terminal_witness :
    (WorkItem.signalDone { mDone := 0 }).calls
      [ItemCall.isDone, ItemCall.waitTillDone, ItemCall.signalDone, ItemCall.isDone] =
      some { mDone := 1 } ∧
    (ItemSystem.run { item := { mDone := 1 }, waiters := [], signallers := [] }
      [ItemAction.callWaitTillDone, ItemAction.callSignalDone, ItemAction.waiter 0,
        ItemAction.signaller 0, ItemAction.signaller 0]).item.isDone = true :=
  ⟨(C12_done_is_terminal { mDone := 0 }
      [ItemCall.isDone, ItemCall.waitTillDone, ItemCall.signalDone, ItemCall.isDone]
      ItemSystem.new []).1,
    (C12_done_is_terminal { mDone := 0 } []
      { item := { mDone := 1 }, waiters := [], signallers := [] }
      [ItemAction.callWaitTillDone, ItemAction.callSignalDone, ItemAction.waiter 0,
        ItemAction.signaller 0, ItemAction.signaller 0]).2.2.2.1 rfl⟩

theorem append_get_keep {α : Type} {l : List α} {i : Nat} {a b : α} (h : l[i]? = some b) :
    (l ++ [a])[i]? = some b := by
  rw [List.getElem?_append_left (List.getElem?_eq_some.mp h).1]
  exact h

theorem append_get_cases {α : Type} {l : List α} {i : Nat} {a b : α}
    (h : (l ++ [a])[i]? = some b) : l[i]? = some b ∨ b = a := by
  by_cases hi : i < l.length
  · rw [List.getElem?_append_left hi] at h
    exact Or.inl h
  · right
    rw [List.getElem?_append_right (Nat.le_of_not_lt hi)] at h
    cases hk : i - l.length with
    | zero => rw [hk] at h; simpa using h.symm
    | succ k => rw [hk] at h; simp at h

theorem broadcast_get {w : List WaitPhase} {i : Nat} {p : WaitPhase}
    (h : (broadcast w)[i]? = some p) :
    p ≠ WaitPhase.WAIT ∧
      (w[i]? = some p ∨ (p = WaitPhase.WOKEN ∧ w[i]? = some WaitPhase.WAIT)) := by
  simp only [broadcast, List.getElem?_map, Option.map_eq_some'] at h
  obtain ⟨x, hx, hp⟩ := h
  by_cases hw : x = WaitPhase.WAIT
  · rw [if_pos hw] at hp
    subst hp
    exact ⟨by decide, Or.inr ⟨rfl, by rw [hx, hw]⟩⟩
  · rw [if_neg hw] at hp
    subst hp
    exact ⟨hw, Or.inl hx⟩

theorem itemInv_new : ItemInv ItemSystem.new :=
  { returned := by intro i h; simp [ItemSystem.new] at h
    setBy := by intro h; simp [ItemSystem.new, WorkItem.isDone] at h
    wake := by intro h; simp [ItemSystem.new, WorkItem.isDone] at h }

/-- After a waiter's move: the item and the signallers are as before; a
waiter found returned had returned before or the flag is set; with the flag
set, a waiter found asleep was asleep before. -/
theorem stepWaiter_facts (i : Nat) (s : ItemSystem) :
    (∀ u : Nat, (s.stepWaiter i).waiters[u]? = some WaitPhase.RETURNED →
      s.waiters[u]? = some WaitPhase.RETURNED ∨ s.item.isDone = true) ∧
    (s.item.isDone = true → ∀ u : Nat, (s.stepWaiter i).waiters[u]? = some WaitPhase.WAIT →
      s.waiters[u]? = some WaitPhase.WAIT) := by
  unfold ItemSystem.stepWaiter
  cases hp : s.waiters[i]? with
  | none => exact ⟨fun u h => Or.inl h, fun _ u h => h⟩
  | some ph =>
    cases ph with
    | ENTRY =>
      by_cases hd : s.item.mDone > 0
      · simp only [hd, if_true]
        refine ⟨fun u h => Or.inr (by simp [WorkItem.isDone, hd]), ?_⟩
        intro _ u h
        rcases list_set_cases h with ⟨_, hc⟩ | ⟨_, h2⟩
        · cases hc
        · exact h2
      · simp only [hd, if_false]
        refine ⟨?_, ?_⟩
        · intro u h
          rcases list_set_cases h with ⟨_, hc⟩ | ⟨_, h2⟩
          · cases hc
          · exact Or.inl h2
        · intro _ u h
          rcases list_set_cases h with ⟨_, hc⟩ | ⟨_, h2⟩
          · cases hc
          · exact h2
    | LOCK =>
      by_cases hl : s.locked = true
      · simp only [hl, if_true]
        exact ⟨fun u h => Or.inl h, fun _ u h => h⟩
      · simp only [hl]
        refine ⟨?_, ?_⟩
        · intro u h
          rcases list_set_cases h with ⟨_, hc⟩ | ⟨_, h2⟩
          · cases hc
          · exact Or.inl h2
        · intro _ u h
          rcases list_set_cases h with ⟨_, hc⟩ | ⟨_, h2⟩
          · cases hc
          · exact h2
    | LOOP =>
      by_cases hd : s.item.mDone = 0
      · simp only [hd, if_true]
        refine ⟨?_, ?_⟩
        · intro u h
          rcases list_set_cases h with ⟨_, hc⟩ | ⟨_, h2⟩
          · cases hc
          · exact Or.inl h2
        · intro hdone
          simp [WorkItem.isDone, hd] at hdone
      · simp only [hd, if_false]
        refine ⟨fun u h => Or.inr (by simp [WorkItem.isDone]; omega), ?_⟩
        intro _ u h
        rcases list_set_cases h with ⟨_, hc⟩ | ⟨_, h2⟩
        · cases hc
        · exact h2
    | WAIT => exact ⟨fun u h => Or.inl h, fun _ u h => h⟩
    | WOKEN =>
      by_cases hl : s.locked = true
      · simp only [hl, if_true]
        exact ⟨fun u h => Or.inl h, fun _ u h => h⟩
      · simp only [hl]
        refine ⟨?_, ?_⟩
        · intro u h
          rcases list_set_cases h with ⟨_, hc⟩ | ⟨_, h2⟩
          · cases hc
          · exact Or.inl h2
        · intro _ u h
          rcases list_set_cases h with ⟨_, hc⟩ | ⟨_, h2⟩
          · cases hc
          · exact h2
    | RETURNED => exact ⟨fun u h => Or.inl h, fun _ u h => h⟩

theorem itemInv_waiter (i : Nat) {s : ItemSystem} (h : ItemInv s) :
    ItemInv (s.stepWaiter i) := by
  obtain ⟨hret, hwait⟩ := stepWaiter_facts i s
  refine ⟨?_, ?_, ?_⟩
  · intro u hu
    rw [stepWaiter_item]
    rcases hret u hu with h1 | h1
    · exact h.returned u h1
    · exact h1
  · rw [stepWaiter_item, stepWaiter_signallers]
    exact h.setBy
  · rw [stepWaiter_item, stepWaiter_signallers]
    intro hd ⟨u, hu⟩
    exact h.wake hd ⟨u, hwait hd u hu⟩

theorem list_set_keep {α : Type} {l : List α} {j u : Nat} {a b : α} (h : l[u]? = some b) :
    (l.set j a)[u]? = some b ∨ (u = j ∧ (l.set j a)[u]? = some a) := by
  by_cases hu : u = j
  · right
    subst hu
    exact ⟨rfl, list_set_same h⟩
  · left
    rw [list_set_other hu]
    exact h

theorem itemInv_signaller (j : Nat) {s : ItemSystem} (h : ItemInv s) :
    ItemInv (s.stepSignaller j) := by
  unfold ItemSystem.stepSignaller
  cases hp : s.signallers[j]? with
  | none => exact h
  | some ph =>
    cases ph with
    | LOCK =>
      by_cases hl : s.locked = true
      · simp only [hl, if_true]
        exact h
      · have hl2 : s.locked = false := by simpa using hl
        simp only [hl2, Bool.false_eq_true, if_false]
        refine ⟨h.returned, ?_, ?_⟩
        · intro hd
          obtain ⟨k, hk⟩ := h.setBy hd
          refine ⟨k, ?_⟩
          have hkj : k ≠ j := by
            intro e
            subst e
            rw [hp] at hk
            rcases hk with hk | hk | hk <;> cases hk
          simp only [list_set_other hkj]
          exact hk
        · intro hd hw
          obtain ⟨k, hk⟩ := h.wake hd hw
          refine ⟨k, ?_⟩
          have hkj : k ≠ j := by
            intro e
            subst e
            rw [hp] at hk
            rcases hk with hk | hk <;> cases hk
          simp only [list_set_other hkj]
          exact hk
    | EXCHANGE =>
      refine ⟨fun _ _ => signalDone_isDone s.item, fun _ => ⟨j, Or.inl (list_set_same hp)⟩,
        fun _ _ => ⟨j, Or.inl (list_set_same hp)⟩⟩
    | UNLOCK =>
      refine ⟨h.returned, ?_, ?_⟩
      · intro hd
        obtain ⟨k, hk⟩ := h.setBy hd
        by_cases hkj : k = j
        · exact ⟨j, Or.inr (Or.inl (list_set_same hp))⟩
        · refine ⟨k, ?_⟩
          simp only [list_set_other hkj]
          exact hk
      · intro hd hw
        obtain ⟨k, hk⟩ := h.wake hd hw
        by_cases hkj : k = j
        · exact ⟨j, Or.inr (list_set_same hp)⟩
        · refine ⟨k, ?_⟩
          simp only [list_set_other hkj]
          exact hk
    | BROADCAST =>
      refine ⟨?_, ?_, ?_⟩
      · intro u hu
        rcases (broadcast_get hu).2 with h1 | ⟨hc, _⟩
        · exact h.returned u h1
        · cases hc
      · intro hd
        obtain ⟨k, hk⟩ := h.setBy hd
        by_cases hkj : k = j
        · exact ⟨j, Or.inr (Or.inr (list_set_same hp))⟩
        · refine ⟨k, ?_⟩
          simp only [list_set_other hkj]
          exact hk
      · intro _ ⟨u, hu⟩
        exact absurd rfl (broadcast_get hu).1
    | RETURNED => exact h

theorem itemInv_step (a : ItemAction) {s : ItemSystem} (h : ItemInv s) :
    ItemInv (s.step a) := by
  cases a with
  | waiter i => exact itemInv_waiter i h
  | signaller j => exact itemInv_signaller j h
  | callWaitTillDone =>
    refine ⟨?_, h.setBy, ?_⟩
    · intro u hu
      rcases append_get_cases hu with h1 | h1
      · exact h.returned u h1
      · cases h1
    · intro hd ⟨u, hu⟩
      rcases append_get_cases hu with h1 | h1
      · exact h.wake hd ⟨u, h1⟩
      · cases h1
  | callSignalDone =>
    refine ⟨h.returned, ?_, ?_⟩
    · intro hd
      obtain ⟨k, hk⟩ := h.setBy hd
      refine ⟨k, ?_⟩
      rcases hk with hk | hk | hk
      · exact Or.inl (append_get_keep hk)
      · exact Or.inr (Or.inl (append_get_keep hk))
      · exact Or.inr (Or.inr (append_get_keep hk))
    · intro hd hw
      obtain ⟨k, hk⟩ := h.wake hd hw
      refine ⟨k, ?_⟩
      rcases hk with hk | hk
      · exact Or.inl (append_get_keep hk)
      · exact Or.inr (append_get_keep hk)
  | spuriousWake i =>
    simp only [ItemSystem.step]
    split
    · refine ⟨?_, h.setBy, ?_⟩
      · intro u hu
        rcases list_set_cases hu with ⟨_, hc⟩ | ⟨_, h2⟩
        · cases hc
        · exact h.returned u h2
      · intro hd ⟨u, hu⟩
        rcases list_set_cases hu with ⟨_, hc⟩ | ⟨_, h2⟩
        · cases hc
        · exact h.wake hd ⟨u, h2⟩
    · exact h

theorem itemInv_run (acts : List ItemAction) {s : ItemSystem} (h : ItemInv s) :
    ItemInv (s.run acts) := by
  induction acts generalizing s with
  | nil => exact h
  | cons a acts ih => exact ih (itemInv_step a h)

/-- The program point a waiter reaches with its next move while the flag is
unset: from the entry test to the lock, from the lock and from a wake-up to
the loop test once the mutex is free, from the loop test to sleep. -/
theorem stepWaiter_unset (i : Nat) (s : ItemSystem) (ph : WaitPhase)
    (hd : s.item.isDone = false) (hp : s.waiters[i]? = some ph) :
    (s.stepWaiter i).waiters[i]? = some
      (waitLoopNext s.locked ph) := by
  have hz : s.item.mDone = 0 := by
    simpa [WorkItem.isDone] using hd
  cases ph with
  | ENTRY =>
    simp only [ItemSystem.stepWaiter, hp, hz, Nat.lt_irrefl, if_false, waitLoopNext]
    exact list_set_same hp
  | LOCK =>
    by_cases hl : s.locked = true
    · simp only [ItemSystem.stepWaiter, hp, hl, if_true, waitLoopNext]
    · have hl2 : s.locked = false := by simpa using hl
      simp only [ItemSystem.stepWaiter, hp, hl2, Bool.false_eq_true, if_false, waitLoopNext]
      exact list_set_same hp
  | LOOP =>
    simp only [ItemSystem.stepWaiter, hp, hz, if_true, waitLoopNext]
    exact list_set_same hp
  | WAIT => simp only [ItemSystem.stepWaiter, hp, waitLoopNext]
  | WOKEN =>
    by_cases hl : s.locked = true
    · simp only [ItemSystem.stepWaiter, hp, hl, if_true, waitLoopNext]
    · have hl2 : s.locked = false := by simpa using hl
      simp only [ItemSystem.stepWaiter, hp, hl2, Bool.false_eq_true, if_false, waitLoopNext]
      exact list_set_same hp
  | RETURNED => simp only [ItemSystem.stepWaiter, hp, waitLoopNext]

/-- Claim C13. In every state reached from a new item by calls of
`waitTillDone` and `signalDone` from any number of threads, moves of those
threads in any order and wake-ups without broadcast: a waiter that has
returned finds the flag set; the flag is set only if a `signalDone` has done
its exchange; and if the flag is set while a waiter sleeps, a `signalDone`
that has set it has its broadcast still to come.  In any state, a waiter at
the entry test with the flag set returns with that one move, nothing else
changing, so without the mutex and without waiting.  With the flag unset a
waiter that has not returned does not return with its next move: it goes
from the entry test to the lock, from the lock to the loop test, from there
to sleep, and from a wake-up back to the loop test under the mutex. -/
theorem C13_waitTillDone_returns_only_when_done (acts : List ItemAction) (s : ItemSystem)
    (i : Nat) :
    (∀ u : Nat, (ItemSystem.new.run acts).waiters[u]? = some WaitPhase.RETURNED →
      (ItemSystem.new.run acts).item.isDone = true) ∧
    ((ItemSystem.new.run acts).item.isDone = true →
      ∃ j : Nat, (ItemSystem.new.run acts).signallers[j]? = some SignalPhase.UNLOCK ∨
        (ItemSystem.new.run acts).signallers[j]? = some SignalPhase.BROADCAST ∨
        (ItemSystem.new.run acts).signallers[j]? = some SignalPhase.RETURNED) ∧
    ((ItemSystem.new.run acts).item.isDone = true →
      (∃ u : Nat, (ItemSystem.new.run acts).waiters[u]? = some WaitPhase.WAIT) →
      ∃ j : Nat, (ItemSystem.new.run acts).signallers[j]? = some SignalPhase.UNLOCK ∨
        (ItemSystem.new.run acts).signallers[j]? = some SignalPhase.BROADCAST) ∧
    (s.waiters[i]? = some WaitPhase.ENTRY → s.item.isDone = true →
      s.stepWaiter i = { s with waiters := s.waiters.set i WaitPhase.RETURNED }) ∧
    (s.item.isDone = false → ∀ ph, s.waiters[i]? = some ph → ph ≠ WaitPhase.RETURNED →
      (s.stepWaiter i).waiters[i]? ≠ some WaitPhase.RETURNED ∧
      (s.stepWaiter i).waiters[i]? = some
        (waitLoopNext s.locked ph)) := by
  have h := itemInv_run acts itemInv_new
  refine ⟨h.returned, h.setBy, h.wake, ?_, ?_⟩
  · intro hp hd
    have hpos : s.item.mDone > 0 := by simpa [WorkItem.isDone] using hd
    simp [ItemSystem.stepWaiter, hp, hpos]
  · intro hd ph hp hne
    have hstep := stepWaiter_unset i s ph hd hp
    refine ⟨?_, hstep⟩
    rw [hstep]
    cases ph with
    | ENTRY => simp [waitLoopNext]
    | LOCK => by_cases hl : s.locked = true <;> simp [hl, waitLoopNext]
    | LOOP => simp [waitLoopNext]
    | WAIT => simp [waitLoopNext]
    | WOKEN => by_cases hl : s.locked = true <;> simp [hl, waitLoopNext]
    | RETURNED => exact absurd rfl hne

/-- Claim C13 on one run: a first waiter goes to sleep on the new item, the
signaller sets the flag and broadcasts, the waiter re-checks under the mutex
and returns; a second waiter, calling afterwards, returns with its first
move. -/
theorem C13_waitTillDone_returns_only_when_done_witness :
    (ItemSystem.new.run
      [ItemAction.callWaitTillDone, ItemAction.waiter 0, ItemAction.waiter 0,
        ItemAction.waiter 0]).waiters = [WaitPhase.WAIT] ∧
    (ItemSystem.new.run
      [ItemAction.callWaitTillDone, ItemAction.waiter 0, ItemAction.waiter 0,
        ItemAction.waiter 0, ItemAction.callSignalDone, ItemAction.signaller 0,
        ItemAction.signaller 0, ItemAction.signaller 0, ItemAction.signaller 0,
        ItemAction.waiter 0, ItemAction.waiter 0, ItemAction.callWaitTillDone,
        ItemAction.waiter 1]).waiters = [WaitPhase.RETURNED, WaitPhase.RETURNED] ∧
    (ItemSystem.new.run
      [ItemAction.callWaitTillDone, ItemAction.waiter 0, ItemAction.waiter 0,
        ItemAction.waiter 0, ItemAction.callSignalDone, ItemAction.signaller 0,
        ItemAction.signaller 0, ItemAction.signaller 0, ItemAction.signaller 0,
        ItemAction.waiter 0, ItemAction.waiter 0, ItemAction.callWaitTillDone,
        ItemAction.waiter 1]).item.isDone = true :=
  ⟨by decide, by decide,
    (C13_waitTillDone_returns_only_when_done
      [ItemAction.callWaitTillDone, ItemAction.waiter 0, ItemAction.waiter 0,
        ItemAction.waiter 0, ItemAction.callSignalDone, ItemAction.signaller 0,
        ItemAction.signaller 0, ItemAction.signaller 0, ItemAction.signaller 0,
        ItemAction.waiter 0, ItemAction.waiter 0, ItemAction.callWaitTillDone,
        ItemAction.waiter 1] ItemSystem.new 0).1 0 (by decide)⟩

end SceneUtil

namespace Resource

/-! ## Taking from and adding to the instance pool -/

theorem takeFirst_none {α : Type} {key : String} {l : List (String × Option α)}
    (h : ∀ e ∈ l, e.1 ≠ key) : MultiObjectCache.takeFirst key l = none := by
  induction l with
  | nil => rfl
  | cons e l ih =>
    have he : e.1 ≠ key := h e (List.mem_cons_self _ _)
    have hl := ih (fun x hx => h x (List.mem_cons_of_mem _ hx))
    simp [MultiObjectCache.takeFirst, he, hl]

theorem takeFirst_some {α : Type} {key : String} {l : List (String × Option α)}
    (h : ∃ e ∈ l, e.1 = key) :
    ∃ handle rest, MultiObjectCache.takeFirst key l = some (handle, rest) := by
  induction l with
  | nil =>
    obtain ⟨e, he, _⟩ := h
    cases he
  | cons x l ih =>
    by_cases hx : x.1 = key
    · exact ⟨x.2, l, by simp [MultiObjectCache.takeFirst, hx]⟩
    · have hl : ∃ e ∈ l, e.1 = key := by
        obtain ⟨e, he, hk⟩ := h
        rcases List.mem_cons.mp he with he | he
        · exact absurd (by rw [← he]; exact hk) hx
        · exact ⟨e, he, hk⟩
      obtain ⟨handle, rest, hr⟩ := ih hl
      exact ⟨handle, x :: rest, by simp [MultiObjectCache.takeFirst, hx, hr]⟩

/-- Removing one entry stored under `key` makes that key's pool one smaller
and leaves the pools of the other keys as they were. -/
theorem removed_counts {α : Type} (key : String) (handle : Option α)
    (a b : List (String × Option α)) :
    ((a ++ b).filter (fun e => decide (e.1 = key))).length + 1 =
      ((a ++ (key, handle) :: b).filter (fun e => decide (e.1 = key))).length ∧
    (a ++ b).filter (fun e => decide (e.1 ≠ key)) =
      (a ++ (key, handle) :: b).filter (fun e => decide (e.1 ≠ key)) := by
  refine ⟨?_, ?_⟩
  · simp [List.filter_append, List.filter_cons]
    omega
  · simp [List.filter_append, List.filter_cons]

/-- Appending one entry under `key` makes that key's pool one larger and
leaves the pools of the other keys as they were. -/
theorem appended_counts {α : Type} (key : String) (handle : Option α)
    (l : List (String × Option α)) :
    ((l ++ [(key, handle)]).filter (fun e => decide (e.1 = key))).length =
      (l.filter (fun e => decide (e.1 = key))).length + 1 ∧
    (l ++ [(key, handle)]).filter (fun e => decide (e.1 ≠ key)) =
      l.filter (fun e => decide (e.1 ≠ key)) := by
  refine ⟨?_, ?_⟩
  · simp [List.filter_append, List.filter_cons]
  · simp [List.filter_append, List.filter_cons]

/-- What `takeFromObjectCache` does, by cases on the pool of the key: with no
entry under the key it returns the null handle and changes nothing; with
only instances under the key it returns one of them and removes that one
entry. -/
theorem take_cases {α : Type} (c : MultiObjectCache α) (key : String) :
    ((∀ e ∈ c.entries, e.1 ≠ key) → c.takeFromObjectCache key = (none, c)) ∧
    ((∃ e ∈ c.entries, e.1 = key) →
      ∃ handle a b, c.entries = a ++ (key, handle) :: b ∧
        c.takeFromObjectCache key = (handle, { entries := a ++ b })) := by
  refine ⟨?_, ?_⟩
  · intro h
    simp [MultiObjectCache.takeFromObjectCache, takeFirst_none h]
  · intro h
    obtain ⟨handle, rest, hr⟩ := takeFirst_some h
    obtain ⟨a, b, hl, hrest⟩ := takeFirst_split hr
    refine ⟨handle, a, b, hl, ?_⟩
    simp [MultiObjectCache.takeFromObjectCache, hr, hrest]

theorem getTemplate_pool (env : Env) (name : String) (s : SceneManager) :
    (s.getTemplate env name).2.mInstanceCache = s.mInstanceCache := by
  rcases getTemplate_cases env name s with ⟨obj, _, hg⟩ | ⟨_, e, h, hg, _⟩ |
    ⟨_, key, node, h, l, hg, _⟩ <;> rw [hg]

theorem createInstance_pool (env : Env) (name : String) (s : SceneManager) :
    (s.createInstance env name).2.mInstanceCache = s.mInstanceCache := by
  have hp := getTemplate_pool env name s
  unfold SceneManager.createInstance
  cases hg : s.getTemplate env name with
  | mk r s1 =>
    rw [hg] at hp
    cases r with
    | error e => exact hp
    | ok scene => exact hp

theorem take_sublist {α : Type} (c : MultiObjectCache α) (key : String) :
    (c.takeFromObjectCache key).2.entries.Sublist c.entries := by
  by_cases h : ∃ e ∈ c.entries, e.1 = key
  · obtain ⟨handle, a, b, hl, ht⟩ := (take_cases c key).2 h
    rw [ht, hl]
    exact List.Sublist.append (List.Sublist.refl _) (List.sublist_cons_self _ _)
  · have h2 : ∀ e ∈ c.entries, e.1 ≠ key := fun e he hk => h ⟨e, he, hk⟩
    rw [(take_cases c key).1 h2]

theorem getInstance_pool_sublist (env : Env) (name : String) (s : SceneManager) :
    (s.getInstance env name).2.mInstanceCache.entries.Sublist s.mInstanceCache.entries := by
  have hsub := take_sublist s.mInstanceCache (env.normalizeFilename name)
  unfold SceneManager.getInstance
  simp only
  cases ht : s.mInstanceCache.takeFromObjectCache (env.normalizeFilename name) with
  | mk o pool =>
    rw [ht] at hsub
    cases o with
    | some obj => exact hsub
    | none =>
      simp only
      rw [createInstance_pool]
      exact hsub

theorem cacheInstance_pool (env : Env) (name : String) (s : SceneManager) :
    (s.cacheInstance env name).1 = (s.createInstance env (env.normalizeFilename name)).1 ∧
    (∀ e, (s.cacheInstance env name).1 = Except.error e →
      (s.cacheInstance env name).2 = (s.createInstance env (env.normalizeFilename name)).2) ∧
    (∀ inst, (s.cacheInstance env name).1 = Except.ok inst →
      (s.cacheInstance env name).2 =
        { (s.createInstance env (env.normalizeFilename name)).2 with
          mInstanceCache :=
            { entries := s.mInstanceCache.entries ++
                [(env.normalizeFilename name, some inst)] } }) := by
  have hp := createInstance_pool env (env.normalizeFilename name) s
  unfold SceneManager.cacheInstance
  simp only
  cases hg : s.createInstance env (env.normalizeFilename name) with
  | mk r s1 =>
    rw [hg] at hp
    simp only at hp
    cases r with
    | error e => exact ⟨rfl, fun _ _ => rfl, fun inst hi => by simp at hi⟩
    | ok node =>
      refine ⟨rfl, fun e he => by simp at he, ?_⟩
      intro inst hi
      simp only [Except.ok.injEq] at hi
      subst hi
      simp [MultiObjectCache.addEntryToObjectCache, hp]

/-- No null handle is ever stored in the instance pool of a scene manager. -/
theorem pool_without_null (env : Env) (calls : List Call) (t : Session)
    (h : ∀ e ∈ t.manager.mInstanceCache.entries, e.2 ≠ none) :
    ∀ e ∈ (t.run env calls).manager.mInstanceCache.entries, e.2 ≠ none := by
  induction calls generalizing t with
  | nil => exact h
  | cons c cs ih =>
    apply ih
    cases c with
    | getTemplate name =>
      show ∀ e ∈ (t.manager.getTemplate env name).2.mInstanceCache.entries, e.2 ≠ none
      rw [getTemplate_pool]; exact h
    | createInstance name =>
      show ∀ e ∈ (t.manager.createInstance env name).2.mInstanceCache.entries, e.2 ≠ none
      rw [createInstance_pool]; exact h
    | cacheInstance name =>
      show ∀ e ∈ (t.manager.cacheInstance env name).2.mInstanceCache.entries, e.2 ≠ none
      obtain ⟨_, herr, hok⟩ := cacheInstance_pool env name t.manager
      cases hr : (t.manager.cacheInstance env name).1 with
      | error e =>
        rw [herr e hr, createInstance_pool]; exact h
      | ok inst =>
        rw [hok inst hr]
        intro e he
        rcases List.mem_append.mp he with he | he
        · exact h e he
        · simp only [List.mem_singleton] at he
          rw [he]
          simp
    | getInstance name =>
      intro e he
      exact h e ((getInstance_pool_sublist env name t.manager).subset he)
    | setFilterSettings magfilter minfilter mipmap maxAnisotropy viewer => exact h
    | updateCache held =>
      intro e he
      have hsub : (t.manager.updateCache held).mInstanceCache.entries.Sublist
          t.manager.mInstanceCache.entries := List.filter_sublist _
      exact h e (hsub.subset he)

/-- What `getShape` returns does not depend on the instance pool, which it
hands on as it is. -/
theorem getShape_with_pool (env : Env) (name : String) (m : BulletShapeManager)
    (p : MultiObjectCache BulletShapeInstance) :
    BulletShapeManager.getShape env name { m with mInstanceCache := p } =
      ((m.getShape env name).1, { (m.getShape env name).2 with mInstanceCache := p }) := by
  unfold BulletShapeManager.getShape
  simp only
  cases hc : m.mCache.getRefFromObjectCache (env.normalizeFilename name) with
  | some obj => rfl
  | none =>
    simp only
    by_cases hext : getShapeExtension (env.normalizeFilename name) = "nif"
    · simp only [hext, if_true]
      cases hn : env.nifFileGet (env.normalizeFilename name) with
      | error e => rfl
      | ok nif =>
        simp only
        cases hl : env.bulletNifLoad nif with
        | error e => rfl
        | ok mesh => rfl
    · simp only [hext, if_false]
      cases hg : m.mSceneManager.getTemplate env (env.normalizeFilename name) with
      | mk r sm =>
        cases r with
        | error e => rfl
        | ok node =>
          simp only
          cases hv : ((NodeToShapeVisitor.accept node.graph NodeToShapeVisitor.new).getShape
              m.nextAddress).1 with
          | none => rfl
          | some shape => rfl

theorem shape_createInstance_with_pool (env : Env) (name : String) (m : BulletShapeManager)
    (p : MultiObjectCache BulletShapeInstance) :
    (BulletShapeManager.createInstance env name { m with mInstanceCache := p }).1 =
      (m.createInstance env name).1 := by
  unfold BulletShapeManager.createInstance
  rw [getShape_with_pool]
  cases hg : m.getShape env name with
  | mk r m1 =>
    cases r with
    | error e => rfl
    | ok o =>
      cases o with
      | none => rfl
      | some shape => rfl

end Resource

namespace Resource

/-! ## Loading does not depend on the heap -/

/-- Whether `load` returns a node, and the scene graph of the node, do not
depend on the heap. -/
theorem load_any_heap {env : Env} {file : IStream} {n : String} {h h1 : Heap} {a : Node}
    (ha : load env file n h = (Except.ok a, h1)) (h2 : Heap) :
    ∃ b h3, load env file n h2 = (Except.ok b, h3) ∧ b.graph = a.graph := by
  by_cases hext : getFileExtension n = "nif"
  · cases hn : env.nifFileGet n with
    | error e => simp [load, hext, hn] at ha
    | ok nif =>
      cases hl : env.nifLoad nif with
      | error e => simp [load, hext, hn, hl] at ha
      | ok graph =>
        simp only [load, hext, hn, hl, if_true, Prod.mk.injEq, Except.ok.injEq] at ha
        refine ⟨_, _, by simp only [load, hext, hn, hl, if_true]; rfl, ?_⟩
        rw [← ha.1]
        rfl
  · cases hr : env.getReaderWriterForExtension (getFileExtension n) with
    | none => simp [load, hext, hr] at ha
    | some reader =>
      cases hf : reader file with
      | failed message status => simp [load, hext, hr, hf] at ha
      | loaded graph =>
        simp only [load, hext, hr, hf, if_false, Prod.mk.injEq, Except.ok.injEq] at ha
        refine ⟨_, _, by simp only [load, hext, hr, hf, if_false]; rfl, ?_⟩
        rw [← ha.1]
        rfl

theorem load_error_any_heap {env : Env} {file : IStream} {n : String} {h h1 : Heap}
    {e : String} (ha : load env file n h = (Except.error e, h1)) (h2 : Heap) :
    ∃ h3, load env file n h2 = (Except.error e, h3) := by
  by_cases hext : getFileExtension n = "nif"
  · cases hn : env.nifFileGet n with
    | error e1 =>
      simp only [load, hext, hn, if_true, Prod.mk.injEq, Except.error.injEq] at ha
      exact ⟨_, by simp only [load, hext, hn, if_true, ha.1]; rfl⟩
    | ok nif =>
      cases hl : env.nifLoad nif with
      | error e1 =>
        simp only [load, hext, hn, hl, if_true, Prod.mk.injEq, Except.error.injEq] at ha
        exact ⟨_, by simp only [load, hext, hn, hl, if_true, ha.1]; rfl⟩
      | ok graph => simp [load, hext, hn, hl] at ha
  · cases hr : env.getReaderWriterForExtension (getFileExtension n) with
    | none =>
      simp only [load, hext, hr, if_false, Prod.mk.injEq, Except.error.injEq] at ha
      exact ⟨_, by simp only [load, hext, hr, if_false, ha.1]; rfl⟩
    | some reader =>
      cases hf : reader file with
      | failed message status =>
        simp only [load, hext, hr, hf, if_false, Prod.mk.injEq, Except.error.injEq] at ha
        exact ⟨_, by simp only [load, hext, hr, hf, if_false, ha.1]; rfl⟩
      | loaded graph => simp [load, hext, hr, hf] at ha

theorem tryLoad_any_heap {env : Env} {n : String} {h h1 : Heap} {a : Node}
    (ha : tryLoad env n h = (Except.ok a, h1)) (h2 : Heap) :
    ∃ b h3, tryLoad env n h2 = (Except.ok b, h3) ∧ b.graph = a.graph := by
  unfold tryLoad at ha ⊢
  cases hv : env.vfsGet n with
  | error e => simp [hv] at ha
  | ok file =>
    rw [hv] at ha
    exact load_any_heap ha h2

theorem tryLoad_error_any_heap {env : Env} {n : String} {h h1 : Heap} {e : String}
    (ha : tryLoad env n h = (Except.error e, h1)) (h2 : Heap) :
    ∃ h3, tryLoad env n h2 = (Except.error e, h3) := by
  unfold tryLoad at ha ⊢
  cases hv : env.vfsGet n with
  | error e1 =>
    rw [hv] at ha
    simp only [Prod.mk.injEq, Except.error.injEq] at ha
    exact ⟨h2, by rw [ha.1]⟩
  | ok file =>
    rw [hv] at ha
    exact load_error_any_heap ha h2

/-- The marker the loop of the catch block loads is a file that loads under
its own name, on whatever heap. -/
theorem markerLoop_any_heap {env : Env} (types : List String) (normalized : String)
    {h h1 : Heap} {key : String} {a : Node}
    (ha : markerLoop env types normalized h = (Except.ok (key, some a), h1)) (h2 : Heap) :
    (∃ b h3, markerLoop env types normalized h2 = (Except.ok (key, some b), h3) ∧
      b.graph = a.graph) ∧
    ∃ b h3, tryLoad env key h2 = (Except.ok b, h3) ∧ b.graph = a.graph := by
  induction types generalizing normalized with
  | nil => simp [markerLoop] at ha
  | cons x xs ih =>
    by_cases hx : env.vfsExists ("meshes/marker_error." ++ x) = true
    · rw [markerLoop_cons_exists hx] at ha
      rw [markerLoop_cons_exists hx]
      cases ht : tryLoad env ("meshes/marker_error." ++ x) h with
      | mk r h3 =>
        rw [ht] at ha
        cases r with
        | error e => simp at ha
        | ok loaded =>
          simp only [Prod.mk.injEq, Except.ok.injEq, Option.some.injEq] at ha
          obtain ⟨⟨hk, hl⟩, _⟩ := ha
          subst hk; subst hl
          obtain ⟨b, h4, hb, hg⟩ := tryLoad_any_heap ht h2
          exact ⟨⟨b, h4, by rw [hb], hg⟩, b, h4, hb, hg⟩
    · have hx2 : env.vfsExists ("meshes/marker_error." ++ x) = false := by simpa using hx
      rw [markerLoop_cons_missing hx2] at ha
      rw [markerLoop_cons_missing hx2]
      exact ih _ ha

/-- When the `try`/`catch` statement of `getTemplate` leaves with a node, it
does so on whatever heap, with the same name and the same scene graph, and
the name is one that loads directly as that scene graph. -/
theorem loadOrMarker_any_heap {env : Env} {n : String} {h h1 : Heap} {key : String} {a : Node}
    (ha : loadOrMarker env n h = (Except.ok (key, a), h1)) (h2 : Heap) :
    (∃ b h3, loadOrMarker env n h2 = (Except.ok (key, b), h3) ∧ b.graph = a.graph) ∧
    ∃ b h3, tryLoad env key h2 = (Except.ok b, h3) ∧ b.graph = a.graph := by
  unfold loadOrMarker at ha
  cases ht : tryLoad env n h with
  | mk r h3 =>
    rw [ht] at ha
    cases r with
    | ok loaded =>
      simp only [Prod.mk.injEq, Except.ok.injEq] at ha
      obtain ⟨⟨hk, hl⟩, _⟩ := ha
      subst hk; subst hl
      obtain ⟨b, h4, hb, hg⟩ := tryLoad_any_heap ht h2
      exact ⟨⟨b, h4, by simp [loadOrMarker, hb], hg⟩, b, h4, hb, hg⟩
    | error e =>
      simp only at ha
      obtain ⟨h4, he⟩ := tryLoad_error_any_heap ht h2
      cases hm : markerLoop env sMeshTypes n h3 with
      | mk r2 h5 =>
        rw [hm] at ha
        cases r2 with
        | error e2 => simp at ha
        | ok pr =>
          obtain ⟨k2, o⟩ := pr
          cases o with
          | none => simp at ha
          | some loaded =>
            simp only [Prod.mk.injEq, Except.ok.injEq] at ha
            obtain ⟨⟨hk, hl⟩, _⟩ := ha
            subst hk; subst hl
            obtain ⟨⟨b, h6, hb, hg⟩, hdirect⟩ := markerLoop_any_heap sMeshTypes n hm h4
            refine ⟨⟨b, h6, ?_, hg⟩, ?_⟩
            · simp [loadOrMarker, he, hb]
            · exact (markerLoop_any_heap sMeshTypes n hm h2).2

end Resource

namespace Resource

/-! ## `createInstance`, `getTemplate` and `load` -/

/-- The object `getTemplate` returns is in the cache after the call. -/
theorem getTemplate_result_cached (env : Env) (name : String) (s : SceneManager) (scene : Node)
    (h : (s.getTemplate env name).1 = Except.ok scene) :
    ∃ key, (key, some scene) ∈ (s.getTemplate env name).2.mCache.entries := by
  rcases getTemplate_cases env name s with ⟨obj, hc, hg⟩ | ⟨_, e, hp, hg, _⟩ |
    ⟨_, key, node, hp, l, hg, _⟩
  · rw [hg] at h ⊢
    simp only [Except.ok.injEq] at h
    subst h
    exact ⟨_, getRef_mem hc⟩
  · rw [hg] at h
    simp at h
  · rw [hg] at h ⊢
    simp only [Except.ok.injEq] at h
    subst h
    exact ⟨key, by simp [ObjectCache.addEntryToObjectCache]⟩

/-- Claim C16: for a well-formed manager and a name for which `getTemplate`
returns a template, `createInstance` returns a clone that is another object
than the template (and than every object of the cache and of the pool),
has the template's content, and has the template's user objects followed by
the template itself.  The template cache is left as `getTemplate` leaves it
and the template is in it, unchanged. -/
theorem C16_createInstance_clones_template (env : Env) (name : String) (s : SceneManager)
    (scene : Node) (hwf : s.WellFormed)
    (hscene : (s.getTemplate env name).1 = Except.ok scene) :
    ∃ clone, (s.createInstance env name).1 = Except.ok clone ∧
      clone.id ≠ scene.id ∧
      clone.graph = scene.graph ∧ clone.passes = scene.passes ∧
      clone.userData = scene.userData ++ [scene.id] ∧
      (s.createInstance env name).2.mCache = (s.getTemplate env name).2.mCache ∧
      (∃ key, (key, some scene) ∈ (s.createInstance env name).2.mCache.entries) ∧
      ∀ n ∈ objectsOf (s.createInstance env name).2.mCache.entries ++
          objectsOf (s.createInstance env name).2.mInstanceCache.entries,
        n.id ≠ clone.id := by
  obtain ⟨hwf1, _, _, hlt⟩ := wf_getTemplate env name hwf
  obtain ⟨key, hkey⟩ := getTemplate_result_cached env name s scene hscene
  have hsc := hlt scene hscene
  unfold SceneManager.createInstance
  cases hg : s.getTemplate env name with
  | mk r s1 =>
    rw [hg] at hwf1 hscene hkey hsc
    simp only at hwf1 hscene hkey hsc
    subst hscene
    refine ⟨_, rfl, ?_, rfl, rfl, rfl, rfl, ⟨key, hkey⟩, ?_⟩
    · show s1.heap.nextAddress ≠ scene.id
      omega
    · intro n hn
      have := hwf1.1 n hn
      show n.id ≠ s1.heap.nextAddress
      omega

/-- Claim C16 in the example world, on a new manager: the template of
`meshes/a.nif` is the object at address 0, the clone is `exampleInstance`,
the object at address 1 with user objects `[0]`. -/
theorem C16_createInstance_clones_template_witness :
    (SceneManager.new.WellFormed ∧
      (SceneManager.new.getTemplate exampleEnv "meshes/a.nif").1 =
        Except.ok exampleTemplate) ∧
    ∃ clone, (SceneManager.new.createInstance exampleEnv "meshes/a.nif").1 = Except.ok clone ∧
      clone.id ≠ exampleTemplate.id ∧
      clone.graph = exampleTemplate.graph ∧ clone.passes = exampleTemplate.passes ∧
      clone.userData = exampleTemplate.userData ++ [exampleTemplate.id] ∧
      (SceneManager.new.createInstance exampleEnv "meshes/a.nif").2.mCache =
        (SceneManager.new.getTemplate exampleEnv "meshes/a.nif").2.mCache ∧
      (∃ key, (key, some exampleTemplate) ∈
        (SceneManager.new.createInstance exampleEnv "meshes/a.nif").2.mCache.entries) ∧
      ∀ n ∈ objectsOf
            (SceneManager.new.createInstance exampleEnv "meshes/a.nif").2.mCache.entries ++
          objectsOf
            (SceneManager.new.createInstance exampleEnv "meshes/a.nif").2.mInstanceCache.entries,
        n.id ≠ clone.id :=
  ⟨by decide,
    C16_createInstance_clones_template exampleEnv "meshes/a.nif" SceneManager.new
      exampleTemplate (by decide) (by decide)⟩

theorem passedOnce_getTemplate (env : Env) (name : String) {s : SceneManager}
    (h : PassedOnce s.mCache) :
    PassedOnce (s.getTemplate env name).2.mCache ∧
    ∀ template, (s.getTemplate env name).1 = Except.ok template →
      ∃ minFilter magFilter maxAnisotropy,
        template.passes = postLoadPasses minFilter magFilter maxAnisotropy := by
  rcases getTemplate_cases env name s with ⟨obj, hc, hg⟩ | ⟨_, e, hp, hg, _⟩ |
    ⟨_, key, node, hp, l, hg, _, _, hpass, _⟩
  · rw [hg]
    refine ⟨h, ?_⟩
    intro template ht
    simp only [Except.ok.injEq] at ht
    subst ht
    exact h _ (getRef_mem hc) _ rfl
  · rw [hg]
    exact ⟨h, fun template ht => by simp at ht⟩
  · rw [hg]
    refine ⟨?_, ?_⟩
    · intro e he n hn
      simp only [ObjectCache.addEntryToObjectCache, List.mem_cons] at he
      rcases he with he | he
      · subst he
        simp only [Option.some.injEq] at hn
        subst hn
        exact ⟨_, _, _, hpass⟩
      · exact h e (List.mem_filter.mp he).1 n hn
    · intro template ht
      simp only [Except.ok.injEq] at ht
      subst ht
      exact ⟨_, _, _, hpass⟩

theorem createInstance_mCache (env : Env) (name : String) (s : SceneManager) :
    (s.createInstance env name).2.mCache = (s.getTemplate env name).2.mCache := by
  unfold SceneManager.createInstance
  cases hg : s.getTemplate env name with
  | mk r s1 =>
    cases r with
    | error e => rfl
    | ok scene => rfl

theorem cacheInstance_mCache (env : Env) (name : String) (s : SceneManager) :
    (s.cacheInstance env name).2.mCache =
      (s.getTemplate env (env.normalizeFilename name)).2.mCache := by
  rw [← createInstance_mCache]
  unfold SceneManager.cacheInstance
  simp only
  cases hg : s.createInstance env (env.normalizeFilename name) with
  | mk r s1 =>
    cases r with
    | error e => rfl
    | ok node => rfl

theorem passedOnce_getInstance (env : Env) (name : String) {s : SceneManager}
    (h : PassedOnce s.mCache) : PassedOnce (s.getInstance env name).2.mCache := by
  unfold SceneManager.getInstance
  simp only
  cases ht : s.mInstanceCache.takeFromObjectCache (env.normalizeFilename name) with
  | mk o pool =>
    cases o with
    | some obj => exact h
    | none =>
      simp only
      rw [createInstance_mCache]
      exact (passedOnce_getTemplate env _ (s := { s with mInstanceCache := pool }) h).1

/-- Every template in the cache of a manager has had the post-load passes
exactly once, whatever calls were made. -/
theorem passedOnce_run (env : Env) (calls : List Call) (t : Session)
    (h : PassedOnce t.manager.mCache) : PassedOnce (t.run env calls).manager.mCache := by
  induction calls generalizing t with
  | nil => exact h
  | cons c cs ih =>
    apply ih
    cases c with
    | getTemplate name => exact (passedOnce_getTemplate env name h).1
    | createInstance name =>
      show PassedOnce (t.manager.createInstance env name).2.mCache
      rw [createInstance_mCache]
      exact (passedOnce_getTemplate env name h).1
    | cacheInstance name =>
      show PassedOnce (t.manager.cacheInstance env name).2.mCache
      rw [cacheInstance_mCache]
      exact (passedOnce_getTemplate env _ h).1
    | getInstance name => exact passedOnce_getInstance env name h
    | setFilterSettings magfilter minfilter mipmap maxAnisotropy viewer =>
      intro e he
      cases he
    | updateCache held =>
      intro e he n hn
      have hsub : (t.manager.updateCache held).mCache.entries.Sublist
          t.manager.mCache.entries := List.filter_sublist _
      exact h e (hsub.subset he) n hn

/-- Claim C17: the post-load passes of `getTemplate`.  On a hit the cached
object is returned as it is and nothing changes: no pass is applied.  On
a miss for which a node is loaded, the node comes from the loader without
any pass, the template returned and stored in the cache is that node with
the two filter-settings visitors and the sharing pass applied once each,
with the manager's current settings.  Hence, whatever calls were made on a
new manager, every template in the cache and every template `getTemplate`
returns has had each of the three passes exactly once. -/
theorem C17_postLoad_once_per_load (env : Env) (name : String) (s : SceneManager)
    (calls : List Call) :
    (∀ obj, s.mCache.getRefFromObjectCache (env.normalizeFilename name) = some obj →
      s.getTemplate env name = (Except.ok obj, s)) ∧
    (∀ key loaded h,
      s.mCache.getRefFromObjectCache (env.normalizeFilename name) = none →
      loadOrMarker env (env.normalizeFilename name) s.heap = (Except.ok (key, loaded), h) →
      loaded.passes = [] ∧
      (s.getTemplate env name).1 = Except.ok (s.postLoad loaded) ∧
      (s.postLoad loaded).passes =
        postLoadPasses s.mMinFilter s.mMagFilter s.mMaxAnisotropy ∧
      (s.postLoad loaded).id = loaded.id ∧
      (s.postLoad loaded).graph = loaded.graph ∧
      (s.getTemplate env name).2.mCache =
        s.mCache.addEntryToObjectCache key (some (s.postLoad loaded))) ∧
    PassedOnce (Session.new.run env calls).manager.mCache ∧
    (∀ template,
      ((Session.new.run env calls).manager.getTemplate env name).1 = Except.ok template →
      ∃ minFilter magFilter maxAnisotropy,
        template.passes = postLoadPasses minFilter magFilter maxAnisotropy) := by
  have hnew : PassedOnce Session.new.manager.mCache := fun e he => by cases he
  have hrun := passedOnce_run env calls Session.new hnew
  refine ⟨fun obj hc => getTemplate_hit hc, ?_, hrun, (passedOnce_getTemplate env name hrun).2⟩
  intro key loaded h hmiss hload
  have hp := (loadOrMarker_ok hload).2.1
  refine ⟨hp, ?_, ?_, rfl, rfl, ?_⟩
  · rw [getTemplate_miss hmiss, hload]
  · rw [postLoad_passes, hp]; rfl
  · rw [getTemplate_miss hmiss, hload]

/-- Claim C17 in the example world: on a new manager `meshes/a.nif` is a miss
and `exampleTemplate`, with the three passes, is returned; on the manager
that has it cached the same object is returned and nothing changes. -/
theorem C17_postLoad_once_per_load_witness :
    (SceneManager.new.mCache.getRefFromObjectCache
        (exampleEnv.normalizeFilename "meshes/a.nif") = none ∧
      loadOrMarker exampleEnv (exampleEnv.normalizeFilename "meshes/a.nif")
          SceneManager.new.heap =
        (Except.ok ("meshes/a.nif", { exampleTemplate with passes := [] }),
          { nextAddress := 1, loadLog := ["meshes/a.nif"] })) ∧
    (SceneManager.new.getTemplate exampleEnv "meshes/a.nif").1 =
      Except.ok (SceneManager.new.postLoad { exampleTemplate with passes := [] }) ∧
    (SceneManager.new.postLoad { exampleTemplate with passes := [] }).passes =
      postLoadPasses SceneManager.new.mMinFilter SceneManager.new.mMagFilter
        SceneManager.new.mMaxAnisotropy ∧
    (examplePooled.mCache.getRefFromObjectCache
        (exampleEnv.normalizeFilename "meshes/a.nif") = some exampleTemplate ∧
      examplePooled.getTemplate exampleEnv "meshes/a.nif" =
        (Except.ok exampleTemplate, examplePooled)) :=
  ⟨by decide,
    ((C17_postLoad_once_per_load exampleEnv "meshes/a.nif" SceneManager.new []).2.1
      "meshes/a.nif" { exampleTemplate with passes := [] }
      { nextAddress := 1, loadLog := ["meshes/a.nif"] } (by decide) (by decide)).2.1,
    ((C17_postLoad_once_per_load exampleEnv "meshes/a.nif" SceneManager.new []).2.1
      "meshes/a.nif" { exampleTemplate with passes := [] }
      { nextAddress := 1, loadLog := ["meshes/a.nif"] } (by decide) (by decide)).2.2.1,
    by decide,
    (C17_postLoad_once_per_load exampleEnv "meshes/a.nif" examplePooled []).1
      exampleTemplate (by decide)⟩

/-- Claim C18: `load` dispatches on the extension of the normalized file
name.  With extension `nif` the result is that of the NIF loader on the file
the NIF file manager gives, whatever readers are registered: an exception of
either is the exception of `load`, a scene graph loaded is returned as a new
node.  With any other extension `load` throws exactly when no reader is
registered for the extension or the registered reader reports a result
that is not a success, and otherwise returns as a new node what the reader
has read. -/
theorem C18_load_dispatches_on_extension (env : Env) (file : IStream) (n : String)
    (h : Heap) :
    (getFileExtension n = "nif" →
      (∀ e, env.nifFileGet n = Except.error e → (load env file n h).1 = Except.error e) ∧
      (∀ nif e, env.nifFileGet n = Except.ok nif → env.nifLoad nif = Except.error e →
        (load env file n h).1 = Except.error e) ∧
      (∀ nif graph, env.nifFileGet n = Except.ok nif → env.nifLoad nif = Except.ok graph →
        (load env file n h).1 =
          Except.ok { id := h.nextAddress, graph := graph, passes := [], userData := [] })) ∧
    (getFileExtension n ≠ "nif" →
      ((∃ e, (load env file n h).1 = Except.error e) ↔
        (env.getReaderWriterForExtension (getFileExtension n) = none ∨
          ∃ reader message status,
            env.getReaderWriterForExtension (getFileExtension n) = some reader ∧
            reader file = ReadResult.failed message status)) ∧
      (∀ reader graph,
        env.getReaderWriterForExtension (getFileExtension n) = some reader →
        reader file = ReadResult.loaded graph →
        (load env file n h).1 =
          Except.ok { id := h.nextAddress, graph := graph, passes := [], userData := [] })) := by
  refine ⟨?_, ?_⟩
  · intro hext
    refine ⟨?_, ?_, ?_⟩
    · intro e he
      simp [load, hext, he]
    · intro nif e hn he
      simp [load, hext, hn, he]
    · intro nif graph hn hg
      simp [load, hext, hn, hg, Heap.newNode]
  · intro hext
    refine ⟨?_, ?_⟩
    · cases hr : env.getReaderWriterForExtension (getFileExtension n) with
      | none =>
        simp [load, hext, hr]
      | some reader =>
        cases hf : reader file with
        | loaded graph =>
          simp [load, hext, hr, hf]
        | failed message status =>
          simp [load, hext, hr, hf]
    · intro reader graph hr hf
      simp [load, hext, hr, hf, Heap.newNode]

/-- Claim C18 in the example world: `meshes/a.nif` goes to the NIF loader;
`meshes/empty.osg` goes to the registered reader, which reads a node; for
`textures/a.dds` no reader is registered and `load` throws. -/
theorem C18_load_dispatches_on_extension_witness :
    (load exampleEnv [12] "meshes/a.nif" { nextAddress := 0, loadLog := [] }).1 =
      Except.ok
        { id := 0
          graph := SceneGraph.group [SceneGraph.geode [{ triangles := [1, 2] }]]
          passes := []
          userData := [] } ∧
    (∃ e, (load exampleEnv [14] "textures/a.dds" { nextAddress := 0, loadLog := [] }).1 =
      Except.error e) ∧
    (load exampleEnv [16] "meshes/empty.osg" { nextAddress := 0, loadLog := [] }).1 =
      Except.ok
        { id := 0
          graph := SceneGraph.group [SceneGraph.group []]
          passes := []
          userData := [] } :=
  ⟨((C18_load_dispatches_on_extension exampleEnv [12] "meshes/a.nif"
      { nextAddress := 0, loadLog := [] }).1 (by decide)).2.2 [12]
      (SceneGraph.group [SceneGraph.geode [{ triangles := [1, 2] }]]) (by decide) (by decide),
    (((C18_load_dispatches_on_extension exampleEnv [14] "textures/a.dds"
      { nextAddress := 0, loadLog := [] }).2 (by decide)).1).2 (Or.inl (by simp [exampleEnv, getFileExtension, find_last_of])),
    (((C18_load_dispatches_on_extension exampleEnv [16] "meshes/empty.osg"
      { nextAddress := 0, loadLog := [] }).2 (by decide)).2)
      (fun _ => ReadResult.loaded (SceneGraph.group [SceneGraph.group []]))
      (SceneGraph.group [SceneGraph.group []])
      (by simp [exampleEnv, getFileExtension, find_last_of]) rfl⟩

end Resource

namespace Resource

/-! ## Several threads inside `getTemplate` -/

/-- A thread that is alone inside `getTemplate` leaves, after its three moves,
the manager that `SceneManager.getTemplate` leaves and ends with the result
`SceneManager.getTemplate` gives. -/
theorem concurrent_alone (env : Env) (name : String) (s : SceneManager) :
    ((Concurrent.new s 1).run env name [0, 0, 0]).manager = (s.getTemplate env name).2 ∧
    ((Concurrent.new s 1).run env name [0, 0, 0]).calls.map TemplateCall.result =
      [some (s.getTemplate env name).1] := by
  cases hc : s.mCache.getRefFromObjectCache (env.normalizeFilename name) with
  | some obj =>
    rw [getTemplate_hit hc]
    simp [Concurrent.run, Concurrent.new, Concurrent.step, hc, TemplateCall.result]
  | none =>
    rw [getTemplate_miss hc]
    cases hl : loadOrMarker env (env.normalizeFilename name) s.heap with
    | mk r h =>
      cases r with
      | error e =>
        simp [Concurrent.run, Concurrent.new, Concurrent.step, hc, hl, TemplateCall.result]
      | ok pr =>
        obtain ⟨key, loaded⟩ := pr
        simp [Concurrent.run, Concurrent.new, Concurrent.step, hc, hl, TemplateCall.result]

theorem lookup_filter {α : Type} (key : String) (l : List (String × α)) :
    l.lookup key = ((l.filter (fun e => decide (e.1 = key))).head?).map (fun e => e.2) := by
  induction l with
  | nil => rfl
  | cons x l ih =>
    obtain ⟨k, v⟩ := x
    by_cases hk : k = key
    · subst hk
      simp [List.lookup_cons, List.filter_cons]
    · have hk2 : (key == k) = false := by
        simp only [beq_eq_false_iff_ne, ne_eq]
        exact fun e => hk e.symm
      simp [List.lookup_cons, List.filter_cons, hk, hk2, ih]

theorem getRef_filter_nil {α : Type} {c : ObjectCache α} {key : String}
    (h : c.entries.filter (fun e => decide (e.1 = key)) = []) :
    c.getRefFromObjectCache key = none := by
  simp [ObjectCache.getRefFromObjectCache, lookup_filter, h]

theorem getRef_filter_single {α : Type} {c : ObjectCache α} {key : String} {o : Option α}
    (h : c.entries.filter (fun e => decide (e.1 = key)) = [(key, o)]) :
    c.getRefFromObjectCache key = o := by
  simp [ObjectCache.getRefFromObjectCache, lookup_filter, h]

theorem add_filter_same {α : Type} (c : ObjectCache α) (key : String) (o : Option α) :
    (c.addEntryToObjectCache key o).entries.filter (fun e => decide (e.1 = key)) =
      [(key, o)] := by
  simp [ObjectCache.addEntryToObjectCache, List.filter_cons, List.filter_filter]

theorem add_filter_other {α : Type} (c : ObjectCache α) (key : String) (o : Option α) :
    (c.addEntryToObjectCache key o).entries.filter (fun e => decide (e.1 ≠ key)) =
      c.entries.filter (fun e => decide (e.1 ≠ key)) := by
  simp only [ObjectCache.addEntryToObjectCache, List.filter_cons, List.filter_filter]
  simp only [ne_eq, not_true_eq_false, decide_False, Bool.false_eq_true, if_false]
  apply List.filter_congr
  intro e _
  by_cases hk : e.1 = key <;> simp [hk]

theorem returned_set_iff {calls : List TemplateCall} {t : Nat} {x old : TemplateCall}
    (hget : calls[t]? = some old) (hold : ∀ n, old ≠ TemplateCall.RETURNED n)
    (hx : ∀ n, x ≠ TemplateCall.RETURNED n) (u : Nat) (n : Node) :
    (calls.set t x)[u]? = some (TemplateCall.RETURNED n) ↔
      calls[u]? = some (TemplateCall.RETURNED n) := by
  by_cases hu : u = t
  · subst hu
    rw [SceneUtil.list_set_same hget, hget]
    constructor
    · intro h
      exact absurd (Option.some.inj h) (hx n)
    · intro h
      exact absurd (Option.some.inj h) (hold n)
  · rw [SceneUtil.list_set_other hu]

theorem raceInv_new (key : String) (s : SceneManager) (graph : SceneGraph) (n : Nat)
    (hmiss : ∀ e ∈ s.mCache.entries, e.1 ≠ key) :
    RaceInv key s graph (Concurrent.new s n) := by
  have hall : ∀ (t : Nat) (x : TemplateCall),
      (List.replicate n TemplateCall.LOOKUP)[t]? = some x → x = TemplateCall.LOOKUP := by
    intro t x hx
    exact List.eq_of_mem_replicate (List.getElem?_mem hx)
  refine ⟨?_, ?_, rfl, ⟨rfl, rfl, rfl⟩, ?_⟩
  · intro t x hx
    exact Or.inl (hall t x hx)
  · left
    refine ⟨?_, ?_⟩
    · rw [List.filter_eq_nil_iff]
      intro e he
      simpa using hmiss e he
    · intro t m hm
      cases hall t _ hm
  · intro t m hm
    rcases hm with hm | hm <;> cases hall t _ hm

theorem raceInv_set {key : String} {s : SceneManager} {graph : SceneGraph} {c : Concurrent}
    (hinv : RaceInv key s graph c) {t : Nat} {x old : TemplateCall}
    (hget : c.calls[t]? = some old) (hold : ∀ n, old ≠ TemplateCall.RETURNED n)
    (hx : x = TemplateCall.LOAD ∨ ∃ n, x = TemplateCall.INSERT key n ∧ n.graph = graph ∧
      n.passes = postLoadPasses s.mMinFilter s.mMagFilter s.mMaxAnisotropy)
    (m : SceneManager) (hcache : m.mCache = c.manager.mCache)
    (hset : m.mMinFilter = c.manager.mMinFilter ∧ m.mMagFilter = c.manager.mMagFilter ∧
      m.mMaxAnisotropy = c.manager.mMaxAnisotropy) :
    RaceInv key s graph { manager := m, calls := c.calls.set t x } := by
  have hxr : ∀ n, x ≠ TemplateCall.RETURNED n := by
    intro n hn
    rcases hx with hx | ⟨k, hx, _⟩ <;> rw [hx] at hn <;> cases hn
  refine ⟨?_, ?_, ?_, ?_, ?_⟩
  · intro u y hy
    rcases SceneUtil.list_set_cases hy with ⟨_, hy2⟩ | ⟨_, hy2⟩
    · rcases hx with hx | ⟨k, hx, _⟩
      · exact Or.inr (Or.inl (hy2.trans hx))
      · exact Or.inr (Or.inr (Or.inl ⟨k, hy2.trans hx⟩))
    · exact hinv.calls u y hy2
  · show (m.mCache.entries.filter (fun e => decide (e.1 = key)) = [] ∧
        ∀ (u : Nat) (n : Node), (c.calls.set t x)[u]? ≠ some (TemplateCall.RETURNED n)) ∨
      (∃ n, m.mCache.entries.filter (fun e => decide (e.1 = key)) = [(key, some n)] ∧
        ∃ u : Nat, (c.calls.set t x)[u]? = some (TemplateCall.RETURNED n))
    rw [hcache]
    rcases hinv.entry with ⟨hf, hno⟩ | ⟨n, hf, u, hu⟩
    · left
      refine ⟨hf, ?_⟩
      intro u n hu
      exact hno u n ((returned_set_iff hget hold hxr u n).mp hu)
    · right
      exact ⟨n, hf, u, (returned_set_iff hget hold hxr u n).mpr hu⟩
  · show m.mCache.entries.filter (fun e => decide (e.1 ≠ key)) = _
    rw [hcache]
    exact hinv.others
  · show m.mMinFilter = s.mMinFilter ∧ m.mMagFilter = s.mMagFilter ∧
      m.mMaxAnisotropy = s.mMaxAnisotropy
    rw [hset.1, hset.2.1, hset.2.2]
    exact hinv.settings
  · intro u n hn
    show n.graph = graph ∧ n.passes = postLoadPasses s.mMinFilter s.mMagFilter s.mMaxAnisotropy
    have hn2 : (c.calls.set t x)[u]? = some (TemplateCall.INSERT key n) ∨
        (c.calls.set t x)[u]? = some (TemplateCall.RETURNED n) := hn
    rcases hn2 with hn2 | hn2
    · rcases SceneUtil.list_set_cases hn2 with ⟨_, hy⟩ | ⟨_, hy⟩
      · rcases hx with hx | ⟨k, hx, hk⟩
        · rw [hx] at hy; cases hy
        · rw [hx] at hy
          cases hy
          exact hk
      · exact hinv.content u n (Or.inl hy)
    · exact hinv.content u n (Or.inr ((returned_set_iff hget hold hxr u n).mp hn2))

theorem raceInv_return {key : String} {s : SceneManager} {graph : SceneGraph} {c : Concurrent}
    (hinv : RaceInv key s graph c) {t : Nat} {old : TemplateCall} {n : Node}
    (hget : c.calls[t]? = some old)
    (hn : n.graph = graph ∧
      n.passes = postLoadPasses s.mMinFilter s.mMagFilter s.mMaxAnisotropy)
    (m : SceneManager)
    (hkey : m.mCache.entries.filter (fun e => decide (e.1 = key)) = [(key, some n)])
    (hothers : m.mCache.entries.filter (fun e => decide (e.1 ≠ key)) =
      c.manager.mCache.entries.filter (fun e => decide (e.1 ≠ key)))
    (hset : m.mMinFilter = c.manager.mMinFilter ∧ m.mMagFilter = c.manager.mMagFilter ∧
      m.mMaxAnisotropy = c.manager.mMaxAnisotropy) :
    RaceInv key s graph
      { manager := m, calls := c.calls.set t (TemplateCall.RETURNED n) } := by
  refine ⟨?_, ?_, ?_, ?_, ?_⟩
  · intro u y hy
    rcases SceneUtil.list_set_cases hy with ⟨_, hy2⟩ | ⟨_, hy2⟩
    · exact Or.inr (Or.inr (Or.inr ⟨n, hy2⟩))
    · exact hinv.calls u y hy2
  · right
    exact ⟨n, hkey, t, SceneUtil.list_set_same hget⟩
  · show m.mCache.entries.filter (fun e => decide (e.1 ≠ key)) = _
    rw [hothers]
    exact hinv.others
  · show m.mMinFilter = s.mMinFilter ∧ m.mMagFilter = s.mMagFilter ∧
      m.mMaxAnisotropy = s.mMaxAnisotropy
    rw [hset.1, hset.2.1, hset.2.2]
    exact hinv.settings
  · intro u k hk
    show k.graph = graph ∧ k.passes = postLoadPasses s.mMinFilter s.mMagFilter s.mMaxAnisotropy
    have hk2 : (c.calls.set t (TemplateCall.RETURNED n))[u]? =
          some (TemplateCall.INSERT key k) ∨
        (c.calls.set t (TemplateCall.RETURNED n))[u]? = some (TemplateCall.RETURNED k) := hk
    rcases hk2 with hk2 | hk2
    · rcases SceneUtil.list_set_cases hk2 with ⟨_, hy⟩ | ⟨_, hy⟩
      · cases hy
      · exact hinv.content u k (Or.inl hy)
    · rcases SceneUtil.list_set_cases hk2 with ⟨_, hy⟩ | ⟨_, hy⟩
      · cases hy
        exact hn
      · exact hinv.content u k (Or.inr hy)

theorem raceInv_step (env : Env) (name : String) {s : SceneManager} {loaded : Node}
    {h0 : Heap} {c : Concurrent}
    (hload : tryLoad env (env.normalizeFilename name) s.heap = (Except.ok loaded, h0))
    (hinv : RaceInv (env.normalizeFilename name) s loaded.graph c) (t : Nat) :
    RaceInv (env.normalizeFilename name) s loaded.graph (c.step env name t) := by
  cases hget : c.calls[t]? with
  | none =>
    have : c.step env name t = c := by simp [Concurrent.step, hget]
    rw [this]; exact hinv
  | some x =>
    cases x with
    | LOOKUP =>
      cases hc : c.manager.mCache.getRefFromObjectCache (env.normalizeFilename name) with
      | none =>
        have : c.step env name t =
            { manager := c.manager, calls := c.calls.set t TemplateCall.LOAD } := by
          simp [Concurrent.step, hget, hc]
        rw [this]
        exact raceInv_set hinv hget (fun n hn => by cases hn) (Or.inl rfl) c.manager rfl
          ⟨rfl, rfl, rfl⟩
      | some obj =>
        have : c.step env name t =
            { manager := c.manager, calls := c.calls.set t (TemplateCall.RETURNED obj) } := by
          simp [Concurrent.step, hget, hc]
        rw [this]
        rcases hinv.entry with ⟨hf, _⟩ | ⟨n, hf, u, hu⟩
        · rw [getRef_filter_nil hf] at hc
          cases hc
        · rw [getRef_filter_single hf] at hc
          have hno : n = obj := Option.some.inj hc
          rw [hno] at hf hu
          exact raceInv_return hinv hget (hinv.content u obj (Or.inr hu)) c.manager hf rfl
            ⟨rfl, rfl, rfl⟩
    | LOAD =>
      obtain ⟨b, h3, hb, hgraph⟩ := tryLoad_any_heap hload c.manager.heap
      have hlm : loadOrMarker env (env.normalizeFilename name) c.manager.heap =
          (Except.ok (env.normalizeFilename name, b), h3) := by
        simp [loadOrMarker, hb]
      have : c.step env name t =
          { manager :=
              { c.manager with
                heap := h3
                mIncrementalCompileOperation :=
                  c.manager.mIncrementalCompileOperation.map (fun q => q ++ [b.id]) }
            calls := c.calls.set t
              (TemplateCall.INSERT (env.normalizeFilename name) (c.manager.postLoad b)) } := by
        simp [Concurrent.step, hget, hlm]
      rw [this]
      refine raceInv_set hinv hget (fun n hn => by cases hn)
        (Or.inr ⟨c.manager.postLoad b, rfl, hgraph, ?_⟩) _ rfl ⟨rfl, rfl, rfl⟩
      rw [postLoad_passes, (tryLoad_ok hb).2.1, hinv.settings.1, hinv.settings.2.1,
        hinv.settings.2.2]
      rfl
    | INSERT normalized node =>
      have hk : normalized = env.normalizeFilename name := by
        rcases hinv.calls t _ hget with h | h | ⟨n, h⟩ | ⟨n, h⟩ <;> cases h
        rfl
      subst hk
      have : c.step env name t =
          { manager :=
              { c.manager with
                mCache := c.manager.mCache.addEntryToObjectCache
                  (env.normalizeFilename name) (some node) }
            calls := c.calls.set t (TemplateCall.RETURNED node) } := by
        simp [Concurrent.step, hget]
      rw [this]
      exact raceInv_return hinv hget (hinv.content t node (Or.inl hget)) _
        (add_filter_same _ _ _) (add_filter_other _ _ _) ⟨rfl, rfl, rfl⟩
    | THROWN e =>
      have : c.step env name t = c := by simp [Concurrent.step, hget]
      rw [this]; exact hinv
    | RETURNED node =>
      have : c.step env name t = c := by simp [Concurrent.step, hget]
      rw [this]; exact hinv

theorem raceInv_run (env : Env) (name : String) {s : SceneManager} {loaded : Node}
    {h0 : Heap} (hload : tryLoad env (env.normalizeFilename name) s.heap = (Except.ok loaded, h0))
    (schedule : List Nat) {c : Concurrent}
    (hinv : RaceInv (env.normalizeFilename name) s loaded.graph c) :
    RaceInv (env.normalizeFilename name) s loaded.graph (c.run env name schedule) := by
  induction schedule generalizing c with
  | nil => exact hinv
  | cons t ts ih => exact ih (raceInv_step env name hload hinv t)

theorem step_other (env : Env) (name : String) (c : Concurrent) {t u : Nat} (hu : u ≠ t) :
    (c.step env name t).calls[u]? = c.calls[u]? := by
  unfold Concurrent.step
  cases hget : c.calls[t]? with
  | none => rfl
  | some x =>
    cases x with
    | LOOKUP =>
      cases hc : c.manager.mCache.getRefFromObjectCache (env.normalizeFilename name) <;>
        simp only [hc] <;> exact SceneUtil.list_set_other hu
    | LOAD =>
      cases hl : loadOrMarker env (env.normalizeFilename name) c.manager.heap with
      | mk r h =>
        cases r with
        | error e => exact SceneUtil.list_set_other hu
        | ok pr => exact SceneUtil.list_set_other hu
    | INSERT normalized node => exact SceneUtil.list_set_other hu
    | THROWN e => rfl
    | RETURNED node => rfl

/-- A move of a thread takes its call one point further, unless the call has
ended. -/
theorem step_self_rank (env : Env) (name : String) (c : Concurrent) {t : Nat}
    {x : TemplateCall} (hget : c.calls[t]? = some x) :
    ∃ y, (c.step env name t).calls[t]? = some y ∧ min 3 (x.rank + 1) ≤ y.rank := by
  unfold Concurrent.step
  rw [hget]
  cases x with
  | LOOKUP =>
    cases hc : c.manager.mCache.getRefFromObjectCache (env.normalizeFilename name) with
    | none => exact ⟨_, SceneUtil.list_set_same hget, by simp [TemplateCall.rank]⟩
    | some obj => exact ⟨_, SceneUtil.list_set_same hget, by simp [TemplateCall.rank]⟩
  | LOAD =>
    cases hl : loadOrMarker env (env.normalizeFilename name) c.manager.heap with
    | mk r h =>
      cases r with
      | error e => exact ⟨_, SceneUtil.list_set_same hget, by simp [TemplateCall.rank]⟩
      | ok pr => exact ⟨_, SceneUtil.list_set_same hget, by simp [TemplateCall.rank]⟩
  | INSERT normalized node =>
    exact ⟨_, SceneUtil.list_set_same hget, by simp [TemplateCall.rank]⟩
  | THROWN e => exact ⟨_, hget, by simp [TemplateCall.rank]⟩
  | RETURNED node => exact ⟨_, hget, by simp [TemplateCall.rank]⟩

/-- A call is at least as many points on as its thread has moved, up to the
three points after which it has ended. -/
theorem run_rank (env : Env) (name : String) (schedule : List Nat) (c : Concurrent) {t : Nat}
    {x : TemplateCall} (hget : c.calls[t]? = some x) :
    ∃ y, (c.run env name schedule).calls[t]? = some y ∧
      min 3 (x.rank + schedule.count t) ≤ y.rank := by
  induction schedule generalizing c x with
  | nil => exact ⟨x, hget, by simp⟩
  | cons u us ih =>
    by_cases hu : u = t
    · subst hu
      obtain ⟨y1, hy1, hr1⟩ := step_self_rank env name c hget
      obtain ⟨y, hy, hr⟩ := ih (c.step env name u) hy1
      refine ⟨y, hy, ?_⟩
      rw [List.count_cons_self]
      omega
    · have hstep : (c.step env name u).calls[t]? = some x := by
        rw [step_other env name c (fun e => hu e.symm)]
        exact hget
      obtain ⟨y, hy, hr⟩ := ih (c.step env name u) hstep
      refine ⟨y, hy, ?_⟩
      rw [List.count_cons_of_ne (fun e => hu e.symm)]
      exact hr

/-- Claim C19, evaluated where it fails.  Two threads call
`getTemplate("meshes/a.nif")` on a new manager of the example world and move
in turn.  Both look the name up before either has inserted, so both miss,
both load the file, and they return different objects, the one at address
0 and the one at address 1.  The cache ends with one entry for the name,
the object inserted last. -/
theorem C19_concurrent_misses_return_different_objects :
    ((Concurrent.new SceneManager.new 2).run exampleEnv "meshes/a.nif"
        [0, 1, 0, 1, 0, 1]).calls =
      [TemplateCall.RETURNED exampleTemplate,
        TemplateCall.RETURNED { exampleTemplate with id := 1 }] ∧
    exampleTemplate.id ≠ ({ exampleTemplate with id := 1 } : Node).id ∧
    ((Concurrent.new SceneManager.new 2).run exampleEnv "meshes/a.nif"
        [0, 1, 0, 1, 0, 1]).manager.mCache.entries =
      [("meshes/a.nif", some { exampleTemplate with id := 1 })] ∧
    ((Concurrent.new SceneManager.new 2).run exampleEnv "meshes/a.nif"
        [0, 1, 0, 1, 0, 1]).manager.heap.loadLog = ["meshes/a.nif", "meshes/a.nif"] := by
  decide

/-- Claim C19 (amended).  Threads call `getTemplate` concurrently for a name
whose normalized form has no entry in the cache and whose file loads
without the error marker.  Then, at every moment of every interleaving:
the cache holds at most one entry for the key; no call has thrown; every
node a call has returned has the scene graph of the file and has had the
post-load passes once, and once a call has returned the cache holds exactly
one entry for the key, whose node is one that a call has returned; the
entries under other keys are untouched.  Every thread that has moved three
times has returned.  The nodes returned need not be one object. -/
theorem C19_concurrent_getTemplate_converges (env : Env) (name : String) (s : SceneManager)
    (loaded : Node) (h0 : Heap) (n : Nat) (schedule : List Nat)
    (hmiss : ∀ e ∈ s.mCache.entries, e.1 ≠ env.normalizeFilename name)
    (hload : tryLoad env (env.normalizeFilename name) s.heap = (Except.ok loaded, h0)) :
    (((Concurrent.new s n).run env name schedule).manager.mCache.entries.filter
      (fun e => decide (e.1 = env.normalizeFilename name))).length ≤ 1 ∧
    (∀ (t : Nat) (e : String),
      ((Concurrent.new s n).run env name schedule).calls[t]? ≠
        some (TemplateCall.THROWN e)) ∧
    (∀ (t : Nat) (node : Node),
      ((Concurrent.new s n).run env name schedule).calls[t]? =
        some (TemplateCall.RETURNED node) →
      node.graph = loaded.graph ∧
      node.passes = postLoadPasses s.mMinFilter s.mMagFilter s.mMaxAnisotropy ∧
      ∃ kept,
        ((Concurrent.new s n).run env name schedule).manager.mCache.entries.filter
            (fun e => decide (e.1 = env.normalizeFilename name)) =
          [(env.normalizeFilename name, some kept)] ∧
        ∃ u : Nat, ((Concurrent.new s n).run env name schedule).calls[u]? =
          some (TemplateCall.RETURNED kept)) ∧
    ((Concurrent.new s n).run env name schedule).manager.mCache.entries.filter
        (fun e => decide (e.1 ≠ env.normalizeFilename name)) =
      s.mCache.entries.filter (fun e => decide (e.1 ≠ env.normalizeFilename name)) ∧
    (∀ t : Nat, t < n → 3 ≤ schedule.count t →
      ∃ node, ((Concurrent.new s n).run env name schedule).calls[t]? =
        some (TemplateCall.RETURNED node)) := by
  have hinv := raceInv_run env name hload schedule
    (raceInv_new (env.normalizeFilename name) s loaded.graph n hmiss)
  refine ⟨?_, ?_, ?_, hinv.others, ?_⟩
  · rcases hinv.entry with ⟨hf, _⟩ | ⟨k, hf, _⟩ <;> rw [hf] <;> simp
  · intro t e ht
    rcases hinv.calls t _ ht with h | h | ⟨k, h⟩ | ⟨k, h⟩ <;> cases h
  · intro t node ht
    obtain ⟨hg, hp⟩ := hinv.content t node (Or.inr ht)
    refine ⟨hg, hp, ?_⟩
    rcases hinv.entry with ⟨_, hno⟩ | ⟨k, hf, u, hu⟩
    · exact absurd ht (hno t node)
    · exact ⟨k, hf, u, hu⟩
  · intro t ht hcount
    have hget : (Concurrent.new s n).calls[t]? = some TemplateCall.LOOKUP := by
      simp [Concurrent.new, List.getElem?_replicate, ht]
    obtain ⟨y, hy, hr⟩ := run_rank env name schedule (Concurrent.new s n) hget
    have hr3 : 3 ≤ y.rank := by
      have h0 : TemplateCall.LOOKUP.rank = 0 := rfl
      rw [h0] at hr
      omega
    rcases hinv.calls t y hy with h | h | ⟨k, h⟩ | ⟨k, h⟩
    · rw [h] at hr3; simp [TemplateCall.rank] at hr3
    · rw [h] at hr3; simp [TemplateCall.rank] at hr3
    · rw [h] at hr3; simp [TemplateCall.rank] at hr3
    · exact ⟨k, by rw [hy, h]⟩

/-- Claim C19 (amended) in the example world: two threads, moving in turn, on
a new manager and `meshes/a.nif`.  Both have returned, and the cache holds
one entry for the name. -/
theorem C19_concurrent_getTemplate_converges_witness :
    ((∀ e ∈ SceneManager.new.mCache.entries,
        e.1 ≠ exampleEnv.normalizeFilename "meshes/a.nif") ∧
      tryLoad exampleEnv (exampleEnv.normalizeFilename "meshes/a.nif") SceneManager.new.heap =
        (Except.ok { exampleTemplate with passes := [] },
          { nextAddress := 1, loadLog := ["meshes/a.nif"] })) ∧
    (((Concurrent.new SceneManager.new 2).run exampleEnv "meshes/a.nif"
        [0, 1, 0, 1, 0, 1]).manager.mCache.entries.filter
      (fun e => decide (e.1 = exampleEnv.normalizeFilename "meshes/a.nif"))).length ≤ 1 ∧
    (∀ t : Nat, t < 2 → 3 ≤ [0, 1, 0, 1, 0, 1].count t →
      ∃ node, ((Concurrent.new SceneManager.new 2).run exampleEnv "meshes/a.nif"
        [0, 1, 0, 1, 0, 1]).calls[t]? = some (TemplateCall.RETURNED node)) :=
  ⟨by decide,
    (C19_concurrent_getTemplate_converges exampleEnv "meshes/a.nif" SceneManager.new
      { exampleTemplate with passes := [] } { nextAddress := 1, loadLog := ["meshes/a.nif"] }
      2 [0, 1, 0, 1, 0, 1] (by decide) (by decide)).1,
    (C19_concurrent_getTemplate_converges exampleEnv "meshes/a.nif" SceneManager.new
      { exampleTemplate with passes := [] } { nextAddress := 1, loadLog := ["meshes/a.nif"] }
      2 [0, 1, 0, 1, 0, 1] (by decide) (by decide)).2.2.2.2⟩

end Resource

namespace Resource

/-! ## The pool of a shape manager: instances and null handles -/

/-- `getTemplate` keeps the cache faithful to the files, and the template it
returns has the scene graph that the `try`/`catch` statement gives for the
name on whatever heap. -/
theorem faithful_getTemplate (env : Env) (name : String) {s : SceneManager}
    (hf : s.Faithful env) :
    (s.getTemplate env name).2.Faithful env ∧
    ∀ node, (s.getTemplate env name).1 = Except.ok node →
      ∀ h, ∃ key b h2,
        loadOrMarker env (env.normalizeFilename name) h = (Except.ok (key, b), h2) ∧
        b.graph = node.graph := by
  cases hc : s.mCache.getRefFromObjectCache (env.normalizeFilename name) with
  | some obj =>
    rw [getTemplate_hit hc]
    refine ⟨hf, ?_⟩
    intro node hn h
    simp only [Except.ok.injEq] at hn
    subst hn
    obtain ⟨b, h2, hb, hg⟩ := hf _ (getRef_mem hc) obj rfl h
    have hb2 : tryLoad env (env.normalizeFilename name) h = (Except.ok b, h2) := hb
    exact ⟨env.normalizeFilename name, b, h2, by simp [loadOrMarker, hb2], hg⟩
  | none =>
    rw [getTemplate_miss hc]
    cases hl : loadOrMarker env (env.normalizeFilename name) s.heap with
    | mk r h1 =>
      cases r with
      | error e => exact ⟨hf, fun node hn => by simp at hn⟩
      | ok pr =>
        obtain ⟨key, loaded⟩ := pr
        refine ⟨?_, ?_⟩
        · intro e he n hn h
          simp only [ObjectCache.addEntryToObjectCache, List.mem_cons] at he
          rcases he with he | he
          · subst he
            simp only [Option.some.injEq] at hn
            subst hn
            exact (loadOrMarker_any_heap hl h).2
          · exact hf e (List.mem_filter.mp he).1 n hn h
        · intro node hn h
          simp only [Except.ok.injEq] at hn
          subst hn
          obtain ⟨b, h2, hb, hg⟩ := (loadOrMarker_any_heap hl h).1
          exact ⟨key, b, h2, hb, hg⟩

theorem getShape_congr (env : Env) (m : BulletShapeManager) {a b : String}
    (h : env.normalizeFilename a = env.normalizeFilename b) :
    m.getShape env a = m.getShape env b := by
  unfold BulletShapeManager.getShape
  simp only [h]

/-- A name has a shape or has none, not both. -/
theorem shaped_not_shapeless {env : Env} {key : String} (h1 : Shaped env key)
    (h2 : Shapeless env key) : False := by
  obtain ⟨a, shape, ha, hs⟩ := h1
  obtain ⟨b, hb, hn⟩ := h2
  rw [getShape_congr env _ (ha.trans hb.symm)] at hs
  rw [hs] at hn
  cases hn

/-- What `getShape` of a new manager returns for a NIF file. -/
theorem getShape_new_nif (env : Env) (name : String) (nif : NifFile) (mesh : List Nat)
    (hext : getShapeExtension (env.normalizeFilename name) = "nif")
    (hn : env.nifFileGet (env.normalizeFilename name) = Except.ok nif)
    (hl : env.bulletNifLoad nif = Except.ok mesh) :
    ((BulletShapeManager.new SceneManager.new).getShape env name).1 =
      Except.ok (some { id := 0, mCollisionShape := mesh }) := by
  simp [BulletShapeManager.getShape, BulletShapeManager.new,
    ObjectCache.getRefFromObjectCache, hext, hn, hl]

/-- What `getShape` of a new manager returns for a file that is not a NIF
file and for which the scene manager has a template. -/
theorem getShape_new_template (env : Env) (name : String) (key : String) (b : Node) (h2 : Heap)
    (hext : getShapeExtension (env.normalizeFilename name) ≠ "nif")
    (hl : loadOrMarker env (env.normalizeFilename (env.normalizeFilename name))
      SceneManager.new.heap = (Except.ok (key, b), h2)) :
    ((BulletShapeManager.new SceneManager.new).getShape env name).1 =
      match (NodeToShapeVisitor.accept b.graph NodeToShapeVisitor.new).mTriangleMesh with
      | none => Except.ok none
      | some mesh => Except.ok (some { id := 0, mCollisionShape := mesh }) := by
  have hmiss : SceneManager.new.mCache.getRefFromObjectCache
      (env.normalizeFilename (env.normalizeFilename name)) = none := rfl
  have hg := @getTemplate_miss env (env.normalizeFilename name) SceneManager.new hmiss
  rw [hl] at hg
  simp only at hg
  have hgraph : (SceneManager.new.postLoad b).graph = b.graph := rfl
  unfold BulletShapeManager.getShape
  simp only [BulletShapeManager.new, ObjectCache.getRefFromObjectCache, List.lookup, hext,
    if_false, hg, hgraph, NodeToShapeVisitor.getShape]
  cases (NodeToShapeVisitor.accept b.graph NodeToShapeVisitor.new).mTriangleMesh with
  | none => rfl
  | some mesh => rfl

theorem shapeKinds_of {env : Env} {m m2 : BulletShapeManager} (hk : ShapeKinds env m)
    (ht : m2.mSceneManager.Faithful env)
    (hs : ∀ e ∈ m2.mCache.entries,
      e ∈ m.mCache.entries ∨ ∀ shape, e.2 = some shape → Shaped env e.1)
    (hp : m2.mInstanceCache.entries.Sublist m.mInstanceCache.entries) :
    ShapeKinds env m2 := by
  refine ⟨ht, ?_, ?_, ?_⟩
  · intro e he shape hsh
    rcases hs e he with h | h
    · exact hk.shapes e h shape hsh
    · exact h shape hsh
  · intro e he i hi
    exact hk.instances e (hp.subset he) i hi
  · intro e he hn
    exact hk.nulls e (hp.subset he) hn

theorem mem_add_entry {α : Type} {c : ObjectCache α} {key : String} {o : Option α}
    {e : String × Option α} (he : e ∈ (c.addEntryToObjectCache key o).entries) :
    e ∈ c.entries ∨ e = (key, o) := by
  simp only [ObjectCache.addEntryToObjectCache, List.mem_cons] at he
  rcases he with he | he
  · exact Or.inr he
  · exact Or.inl (List.mem_filter.mp he).1

/-- Whether `getShape` returns a shape or the null handle is decided by the
files alone, and `getShape` keeps the caches in agreement with the files. -/
theorem getShape_kinds (env : Env) (name : String) {m : BulletShapeManager}
    (hk : ShapeKinds env m) :
    ShapeKinds env (m.getShape env name).2 ∧
    (∀ shape, (m.getShape env name).1 = Except.ok (some shape) →
      Shaped env (env.normalizeFilename name)) ∧
    ((m.getShape env name).1 = Except.ok none →
      Shapeless env (env.normalizeFilename name)) := by
  unfold BulletShapeManager.getShape
  simp only
  cases hc : m.mCache.getRefFromObjectCache (env.normalizeFilename name) with
  | some obj =>
    refine ⟨hk, ?_, ?_⟩
    · intro shape _
      exact hk.shapes _ (getRef_mem hc) obj rfl
    · intro hn
      simp at hn
  | none =>
    simp only
    by_cases hext : getShapeExtension (env.normalizeFilename name) = "nif"
    · simp only [hext, if_true]
      cases hn : env.nifFileGet (env.normalizeFilename name) with
      | error e => exact ⟨hk, fun shape h => by simp at h, fun h => by simp at h⟩
      | ok nif =>
        simp only
        cases hl : env.bulletNifLoad nif with
        | error e => exact ⟨hk, fun shape h => by simp at h, fun h => by simp at h⟩
        | ok mesh =>
          have hsh : Shaped env (env.normalizeFilename name) :=
            ⟨name, _, rfl, getShape_new_nif env name nif mesh hext hn hl⟩
          refine ⟨?_, fun shape _ => hsh, fun h => by simp at h⟩
          refine shapeKinds_of hk hk.templates ?_ (List.Sublist.refl _)
          intro e he
          rcases mem_add_entry he with h | h
          · exact Or.inl h
          · right
            intro shape _
            rw [h]
            exact hsh
    · simp only [hext, if_false]
      obtain ⟨hfaith, hgraph⟩ :=
        faithful_getTemplate env (env.normalizeFilename name) hk.templates
      cases hg : m.mSceneManager.getTemplate env (env.normalizeFilename name) with
      | mk r sm =>
        rw [hg] at hfaith hgraph
        simp only at hfaith hgraph
        cases r with
        | error e =>
          refine ⟨?_, fun shape h => by simp at h, fun h => by simp at h⟩
          exact shapeKinds_of hk hfaith (fun e he => Or.inl he) (List.Sublist.refl _)
        | ok node =>
          simp only
          obtain ⟨key, b, h2, hb, hbg⟩ := hgraph node rfl SceneManager.new.heap
          have hnew := getShape_new_template env name key b h2 hext hb
          rw [hbg] at hnew
          cases hm : (NodeToShapeVisitor.accept node.graph NodeToShapeVisitor.new).mTriangleMesh with
          | none =>
            rw [hm] at hnew
            have hless : Shapeless env (env.normalizeFilename name) := ⟨name, rfl, hnew⟩
            simp only [NodeToShapeVisitor.getShape, hm]
            refine ⟨?_, fun shape h => by simp at h, fun _ => hless⟩
            refine shapeKinds_of hk hfaith ?_ (List.Sublist.refl _)
            intro e he
            rcases mem_add_entry he with h | h
            · exact Or.inl h
            · right
              intro shape hsome
              rw [h] at hsome
              cases hsome
          | some mesh =>
            rw [hm] at hnew
            have hsh : Shaped env (env.normalizeFilename name) := ⟨name, _, rfl, hnew⟩
            simp only [NodeToShapeVisitor.getShape, hm]
            refine ⟨?_, fun shape _ => hsh, fun h => by simp at h⟩
            refine shapeKinds_of hk hfaith ?_ (List.Sublist.refl _)
            intro e he
            rcases mem_add_entry he with h | h
            · exact Or.inl h
            · right
              intro shape _
              rw [h]
              exact hsh

theorem shape_createInstance_kinds (env : Env) (name : String) {m : BulletShapeManager}
    (hk : ShapeKinds env m) :
    ShapeKinds env (m.createInstance env name).2 ∧
    (∀ inst, (m.createInstance env name).1 = Except.ok (some inst) →
      Shaped env (env.normalizeFilename name)) ∧
    ((m.createInstance env name).1 = Except.ok none →
      Shapeless env (env.normalizeFilename name)) := by
  obtain ⟨hk1, hsome, hnone⟩ := getShape_kinds env name hk
  unfold BulletShapeManager.createInstance
  cases hg : m.getShape env name with
  | mk r m1 =>
    rw [hg] at hk1 hsome hnone
    simp only at hk1 hsome hnone
    cases r with
    | error e => exact ⟨hk1, fun inst h => by simp at h, fun h => by simp at h⟩
    | ok o =>
      cases o with
      | none => exact ⟨hk1, fun inst h => by simp at h, fun _ => hnone rfl⟩
      | some shape =>
        exact ⟨⟨hk1.templates, hk1.shapes, hk1.instances, hk1.nulls⟩,
          fun inst _ => hsome shape rfl, fun h => by simp at h⟩

theorem shape_cacheInstance_kinds (env : Env) (name : String) {m : BulletShapeManager}
    (hk : ShapeKinds env m) : ShapeKinds env (m.cacheInstance env name).2 := by
  obtain ⟨hk1, hsome, hnone⟩ := shape_createInstance_kinds env (env.normalizeFilename name) hk
  unfold BulletShapeManager.cacheInstance
  simp only
  cases hg : m.createInstance env (env.normalizeFilename name) with
  | mk r m1 =>
    rw [hg] at hk1 hsome hnone
    simp only at hk1 hsome hnone
    cases r with
    | error e => exact hk1
    | ok o =>
      refine ⟨hk1.templates, hk1.shapes, ?_, ?_⟩
      · intro e he i hi
        simp only [MultiObjectCache.addEntryToObjectCache, List.mem_append,
          List.mem_singleton] at he
        rcases he with he | he
        · exact hk1.instances e he i hi
        · rw [he] at hi ⊢
          simp only at hi
          rw [hi] at hsome
          exact hsome i rfl
      · intro e he hn
        simp only [MultiObjectCache.addEntryToObjectCache, List.mem_append,
          List.mem_singleton] at he
        rcases he with he | he
        · exact hk1.nulls e he hn
        · rw [he] at hn ⊢
          simp only at hn
          rw [hn] at hnone
          exact hnone rfl

theorem shapeKinds_pool {env : Env} {m : BulletShapeManager} (hk : ShapeKinds env m)
    (pool : MultiObjectCache BulletShapeInstance)
    (hp : pool.entries.Sublist m.mInstanceCache.entries) :
    ShapeKinds env { m with mInstanceCache := pool } :=
  ⟨hk.templates, hk.shapes, fun e he i hi => hk.instances e (hp.subset he) i hi,
    fun e he hn => hk.nulls e (hp.subset he) hn⟩

theorem shape_getInstance_kinds (env : Env) (name : String) {m : BulletShapeManager}
    (hk : ShapeKinds env m) : ShapeKinds env (m.getInstance env name).2 := by
  have hsub := take_sublist m.mInstanceCache (env.normalizeFilename name)
  unfold BulletShapeManager.getInstance
  simp only
  cases ht : m.mInstanceCache.takeFromObjectCache (env.normalizeFilename name) with
  | mk o pool =>
    rw [ht] at hsub
    cases o with
    | some obj => exact shapeKinds_pool hk pool hsub
    | none =>
      exact (shape_createInstance_kinds env _ (shapeKinds_pool hk pool hsub)).1

theorem shape_updateCache_kinds {env : Env} (heldShapes : List BulletShape)
    (heldInstances : List BulletShapeInstance) {m : BulletShapeManager}
    (hk : ShapeKinds env m) : ShapeKinds env (m.updateCache heldShapes heldInstances) := by
  have hc : (m.updateCache heldShapes heldInstances).mCache.entries.Sublist m.mCache.entries :=
    List.filter_sublist _
  have hp : (m.updateCache heldShapes heldInstances).mInstanceCache.entries.Sublist
      m.mInstanceCache.entries := List.filter_sublist _
  exact shapeKinds_of hk hk.templates (fun e he => Or.inl (hc.subset he)) hp

/-- After any calls on a new shape manager, the caches and the pool agree
with the files. -/
theorem shapeKinds_run (env : Env) (calls : List ShapeCall) (t : ShapeSession)
    (hk : ShapeKinds env t.manager) : ShapeKinds env (t.run env calls).manager := by
  induction calls generalizing t with
  | nil => exact hk
  | cons c cs ih =>
    apply ih
    cases c with
    | getShape name => exact (getShape_kinds env name hk).1
    | createInstance name => exact (shape_createInstance_kinds env name hk).1
    | cacheInstance name => exact shape_cacheInstance_kinds env name hk
    | getInstance name => exact shape_getInstance_kinds env name hk
    | updateCache heldShapes heldInstances =>
      exact shape_updateCache_kinds heldShapes heldInstances hk

theorem shapeKinds_new (env : Env) : ShapeKinds env ShapeSession.new.manager := by
  refine ⟨?_, ?_, ?_, ?_⟩ <;> intro e he <;> cases he

/-- After any calls on a new shape manager, the pool never holds an instance
and a null handle under one name. -/
theorem shape_pool_unmixed (env : Env) (calls : List ShapeCall) (key : String)
    (inst : BulletShapeInstance)
    (h : (key, some inst) ∈ (ShapeSession.new.run env calls).manager.mInstanceCache.entries) :
    (key, none) ∉ (ShapeSession.new.run env calls).manager.mInstanceCache.entries := by
  have hk := shapeKinds_run env calls ShapeSession.new (shapeKinds_new env)
  intro hn
  exact shaped_not_shapeless (hk.instances (key, some inst) h inst rfl)
    (hk.nulls (key, none) hn rfl)

end Resource

namespace Resource

/-! ## `getInstance` and `cacheInstance` -/

/-- Claim C14: `getInstance(name)`, for the scene manager and for the shape
manager.  When the pool holds entries under the normalized name and they are
instances, the call returns one of them, removes exactly that entry (the
pool of the key is one smaller, the entries of the other keys are as
before) and changes nothing else in the manager, so that no template is
looked up or loaded.  When the pool holds no entry under the normalized
name, the call is `createInstance` of the normalized name.  The pool of a
scene manager never holds a null handle, whatever calls were made.  The
pool of a shape manager may; when it holds no instance under the normalized
name, what the call returns is what `createInstance` of the normalized name
returns, and whatever calls were made it never holds both an instance and a
null handle under one name. -/
theorem C14_getInstance_takes_or_creates (env : Env) (name : String) (s : SceneManager)
    (m : BulletShapeManager) (calls : List Call) (shapeCalls : List ShapeCall) :
    (((∃ e ∈ s.mInstanceCache.entries, e.1 = env.normalizeFilename name) ∧
      (∀ e ∈ s.mInstanceCache.entries, e.1 = env.normalizeFilename name → e.2 ≠ none)) →
      ∃ inst a b,
        s.mInstanceCache.entries = a ++ (env.normalizeFilename name, some inst) :: b ∧
        s.getInstance env name =
          (Except.ok inst, { s with mInstanceCache := { entries := a ++ b } }) ∧
        ((a ++ b).filter (fun e => decide (e.1 = env.normalizeFilename name))).length + 1 =
          (s.mInstanceCache.entries.filter
            (fun e => decide (e.1 = env.normalizeFilename name))).length ∧
        (a ++ b).filter (fun e => decide (e.1 ≠ env.normalizeFilename name)) =
          s.mInstanceCache.entries.filter
            (fun e => decide (e.1 ≠ env.normalizeFilename name))) ∧
    ((∀ e ∈ s.mInstanceCache.entries, e.1 ≠ env.normalizeFilename name) →
      s.getInstance env name = s.createInstance env (env.normalizeFilename name)) ∧
    (∀ e ∈ (Session.new.run env calls).manager.mInstanceCache.entries, e.2 ≠ none) ∧
    (((∃ e ∈ m.mInstanceCache.entries, e.1 = env.normalizeFilename name) ∧
      (∀ e ∈ m.mInstanceCache.entries, e.1 = env.normalizeFilename name → e.2 ≠ none)) →
      ∃ inst a b,
        m.mInstanceCache.entries = a ++ (env.normalizeFilename name, some inst) :: b ∧
        m.getInstance env name =
          (Except.ok (some inst), { m with mInstanceCache := { entries := a ++ b } }) ∧
        ((a ++ b).filter (fun e => decide (e.1 = env.normalizeFilename name))).length + 1 =
          (m.mInstanceCache.entries.filter
            (fun e => decide (e.1 = env.normalizeFilename name))).length ∧
        (a ++ b).filter (fun e => decide (e.1 ≠ env.normalizeFilename name)) =
          m.mInstanceCache.entries.filter
            (fun e => decide (e.1 ≠ env.normalizeFilename name))) ∧
    ((∀ e ∈ m.mInstanceCache.entries, e.1 ≠ env.normalizeFilename name) →
      m.getInstance env name = m.createInstance env (env.normalizeFilename name)) ∧
    ((∀ inst, (env.normalizeFilename name, some inst) ∉ m.mInstanceCache.entries) →
      (m.getInstance env name).1 =
        (m.createInstance env (env.normalizeFilename name)).1) ∧
    (∀ key inst,
      (key, some inst) ∈
        (ShapeSession.new.run env shapeCalls).manager.mInstanceCache.entries →
      (key, none) ∉ (ShapeSession.new.run env shapeCalls).manager.mInstanceCache.entries) := by
  refine ⟨?_, ?_, ?_, ?_, ?_, ?_, shape_pool_unmixed env shapeCalls⟩
  · rintro ⟨hex, hnn⟩
    obtain ⟨handle, a, b, hl, ht⟩ :=
      (take_cases s.mInstanceCache (env.normalizeFilename name)).2 hex
    have hmem : (env.normalizeFilename name, handle) ∈ s.mInstanceCache.entries := by
      rw [hl]; simp
    have hne := hnn _ hmem rfl
    cases handle with
    | none => exact absurd rfl hne
    | some inst =>
      refine ⟨inst, a, b, hl, ?_, ?_, ?_⟩
      · simp only [SceneManager.getInstance, ht]
      · rw [hl]; exact (removed_counts _ _ a b).1
      · rw [hl]; exact (removed_counts _ _ a b).2
  · intro h
    have ht := (take_cases s.mInstanceCache (env.normalizeFilename name)).1 h
    simp only [SceneManager.getInstance, ht]
  · exact pool_without_null env calls Session.new (fun e he => by cases he)
  · rintro ⟨hex, hnn⟩
    obtain ⟨handle, a, b, hl, ht⟩ :=
      (take_cases m.mInstanceCache (env.normalizeFilename name)).2 hex
    have hmem : (env.normalizeFilename name, handle) ∈ m.mInstanceCache.entries := by
      rw [hl]; simp
    have hne := hnn _ hmem rfl
    cases handle with
    | none => exact absurd rfl hne
    | some inst =>
      refine ⟨inst, a, b, hl, ?_, ?_, ?_⟩
      · simp only [BulletShapeManager.getInstance, ht]
      · rw [hl]; exact (removed_counts _ _ a b).1
      · rw [hl]; exact (removed_counts _ _ a b).2
  · intro h
    have ht := (take_cases m.mInstanceCache (env.normalizeFilename name)).1 h
    simp only [BulletShapeManager.getInstance, ht]
  · intro h
    by_cases hex : ∃ e ∈ m.mInstanceCache.entries, e.1 = env.normalizeFilename name
    · obtain ⟨handle, a, b, hl, ht⟩ :=
        (take_cases m.mInstanceCache (env.normalizeFilename name)).2 hex
      have hmem : (env.normalizeFilename name, handle) ∈ m.mInstanceCache.entries := by
        rw [hl]; simp
      cases handle with
      | some inst => exact absurd hmem (h inst)
      | none =>
        simp only [BulletShapeManager.getInstance, ht]
        exact shape_createInstance_with_pool env _ m _
    · have hno : ∀ e ∈ m.mInstanceCache.entries, e.1 ≠ env.normalizeFilename name :=
        fun e he hk => hex ⟨e, he, hk⟩
      have ht := (take_cases m.mInstanceCache (env.normalizeFilename name)).1 hno
      simp only [BulletShapeManager.getInstance, ht]

/-- Claim C14 in the example world: the pools of `examplePooled` and of
`examplePooledShapes` hold one instance under `meshes/a.nif`, and
`getInstance("Meshes/A.nif")` takes it; under `meshes/empty.osg` they hold
nothing, and `getInstance` is `createInstance`. -/
theorem C14_getInstance_takes_or_creates_witness :
    ((∃ e ∈ examplePooled.mInstanceCache.entries,
        e.1 = exampleEnv.normalizeFilename "Meshes/A.nif") ∧
      (∀ e ∈ examplePooled.mInstanceCache.entries,
        e.1 = exampleEnv.normalizeFilename "Meshes/A.nif" → e.2 ≠ none)) ∧
    (∃ inst a b,
      examplePooled.mInstanceCache.entries =
        a ++ (exampleEnv.normalizeFilename "Meshes/A.nif", some inst) :: b ∧
      examplePooled.getInstance exampleEnv "Meshes/A.nif" =
        (Except.ok inst, { examplePooled with mInstanceCache := { entries := a ++ b } }) ∧
      ((a ++ b).filter
          (fun e => decide (e.1 = exampleEnv.normalizeFilename "Meshes/A.nif"))).length + 1 =
        (examplePooled.mInstanceCache.entries.filter
          (fun e => decide (e.1 = exampleEnv.normalizeFilename "Meshes/A.nif"))).length ∧
      (a ++ b).filter
          (fun e => decide (e.1 ≠ exampleEnv.normalizeFilename "Meshes/A.nif")) =
        examplePooled.mInstanceCache.entries.filter
          (fun e => decide (e.1 ≠ exampleEnv.normalizeFilename "Meshes/A.nif"))) ∧
    ((∃ e ∈ examplePooledShapes.mInstanceCache.entries,
        e.1 = exampleEnv.normalizeFilename "Meshes/A.nif") ∧
      (∀ e ∈ examplePooledShapes.mInstanceCache.entries,
        e.1 = exampleEnv.normalizeFilename "Meshes/A.nif" → e.2 ≠ none)) ∧
    (∀ e ∈ examplePooled.mInstanceCache.entries,
      e.1 ≠ exampleEnv.normalizeFilename "meshes/empty.osg") ∧
    examplePooled.getInstance exampleEnv "meshes/empty.osg" =
      examplePooled.createInstance exampleEnv
        (exampleEnv.normalizeFilename "meshes/empty.osg") :=
  ⟨by decide,
    (C14_getInstance_takes_or_creates exampleEnv "Meshes/A.nif" examplePooled
      examplePooledShapes [] []).1 (by decide),
    by decide, by decide,
    (C14_getInstance_takes_or_creates exampleEnv "meshes/empty.osg" examplePooled
      examplePooledShapes [] []).2.1 (by decide)⟩

theorem shape_cacheInstance_pool (env : Env) (name : String) (m : BulletShapeManager) :
    (m.cacheInstance env name).1 = (m.createInstance env (env.normalizeFilename name)).1 ∧
    (∀ e, (m.cacheInstance env name).1 = Except.error e →
      (m.cacheInstance env name).2 = (m.createInstance env (env.normalizeFilename name)).2) ∧
    (∀ r, (m.cacheInstance env name).1 = Except.ok r →
      (m.cacheInstance env name).2 =
        { (m.createInstance env (env.normalizeFilename name)).2 with
          mInstanceCache :=
            { entries := m.mInstanceCache.entries ++ [(env.normalizeFilename name, r)] } }) := by
  have hp := (shape_createInstance_facts env (env.normalizeFilename name) m).1
  unfold BulletShapeManager.cacheInstance
  simp only
  cases hg : m.createInstance env (env.normalizeFilename name) with
  | mk r m1 =>
    rw [hg] at hp
    simp only at hp
    cases r with
    | error e => exact ⟨rfl, fun _ _ => rfl, fun r hi => by simp at hi⟩
    | ok o =>
      refine ⟨rfl, fun e he => by simp at he, ?_⟩
      intro r hi
      simp only [Except.ok.injEq] at hi
      subst hi
      simp [MultiObjectCache.addEntryToObjectCache, hp]

/-- Claim C15: `cacheInstance(name)`, for the scene manager and for the shape
manager.  It returns what `createInstance` of the normalized name returns.
When that is an instance, the manager is left as `createInstance` leaves it
but for the pool, which is the pool of before with one entry appended, the
returned instance under the normalized name: the pool of that key is one
larger and the entries of the other keys are as before.  The instance is
a new object: no object of the cache or of the pool has its address.  When
`createInstance` throws, so does `cacheInstance`, and nothing is appended.
For the shape manager the handle returned and appended may be the null
handle. -/
theorem C15_cacheInstance_appends_what_it_returns (env : Env) (name : String)
    (s : SceneManager) (m : BulletShapeManager) (hs : s.WellFormed) (hm : m.WellFormed) :
    (s.cacheInstance env name).1 = (s.createInstance env (env.normalizeFilename name)).1 ∧
    (∀ inst, (s.cacheInstance env name).1 = Except.ok inst →
      (s.cacheInstance env name).2 =
        { (s.createInstance env (env.normalizeFilename name)).2 with
          mInstanceCache :=
            { entries := s.mInstanceCache.entries ++
                [(env.normalizeFilename name, some inst)] } } ∧
      ((s.cacheInstance env name).2.mInstanceCache.entries.filter
          (fun e => decide (e.1 = env.normalizeFilename name))).length =
        (s.mInstanceCache.entries.filter
          (fun e => decide (e.1 = env.normalizeFilename name))).length + 1 ∧
      (s.cacheInstance env name).2.mInstanceCache.entries.filter
          (fun e => decide (e.1 ≠ env.normalizeFilename name)) =
        s.mInstanceCache.entries.filter
          (fun e => decide (e.1 ≠ env.normalizeFilename name)) ∧
      ∀ n ∈ objectsOf s.mCache.entries ++ objectsOf s.mInstanceCache.entries,
        n.id ≠ inst.id) ∧
    (∀ e, (s.cacheInstance env name).1 = Except.error e →
      (s.cacheInstance env name).2 = (s.createInstance env (env.normalizeFilename name)).2 ∧
      (s.cacheInstance env name).2.mInstanceCache = s.mInstanceCache) ∧
    (m.cacheInstance env name).1 = (m.createInstance env (env.normalizeFilename name)).1 ∧
    (∀ r, (m.cacheInstance env name).1 = Except.ok r →
      (m.cacheInstance env name).2 =
        { (m.createInstance env (env.normalizeFilename name)).2 with
          mInstanceCache :=
            { entries := m.mInstanceCache.entries ++ [(env.normalizeFilename name, r)] } } ∧
      ((m.cacheInstance env name).2.mInstanceCache.entries.filter
          (fun e => decide (e.1 = env.normalizeFilename name))).length =
        (m.mInstanceCache.entries.filter
          (fun e => decide (e.1 = env.normalizeFilename name))).length + 1 ∧
      (m.cacheInstance env name).2.mInstanceCache.entries.filter
          (fun e => decide (e.1 ≠ env.normalizeFilename name)) =
        m.mInstanceCache.entries.filter
          (fun e => decide (e.1 ≠ env.normalizeFilename name)) ∧
      ∀ inst, r = some inst →
        ∀ i ∈ objectsOf m.mInstanceCache.entries, i.id ≠ inst.id) ∧
    (∀ e, (m.cacheInstance env name).1 = Except.error e →
      (m.cacheInstance env name).2 = (m.createInstance env (env.normalizeFilename name)).2 ∧
      (m.cacheInstance env name).2.mInstanceCache = m.mInstanceCache) := by
  obtain ⟨hval, herr, hok⟩ := cacheInstance_pool env name s
  obtain ⟨hval2, herr2, hok2⟩ := shape_cacheInstance_pool env name m
  refine ⟨hval, ?_, ?_, hval2, ?_, ?_⟩
  · intro inst hi
    have hst := hok inst hi
    refine ⟨hst, ?_, ?_, ?_⟩
    · rw [hst]; exact (appended_counts _ _ _).1
    · rw [hst]; exact (appended_counts _ _ _).2
    · intro n hn heq
      have hlt := hs.1 n hn
      have hge := ((wf_cacheInstance env name hs).2.2.2 inst hi).1
      omega
  · intro e he
    refine ⟨herr e he, ?_⟩
    rw [herr e he, createInstance_pool]
  · intro r hi
    have hst := hok2 r hi
    refine ⟨hst, ?_, ?_, ?_⟩
    · rw [hst]; exact (appended_counts _ _ _).1
    · rw [hst]; exact (appended_counts _ _ _).2
    · intro inst hr i hin heq
      subst hr
      have hlt := hm.1 i hin
      have hge := ((shape_cacheInstance_facts env name hm).2.2.2.2 inst hi).1
      omega
  · intro e he
    refine ⟨herr2 e he, ?_⟩
    rw [herr2 e he, (shape_createInstance_facts env _ m).1]

/-- Claim C15 in the example world, on new managers: `cacheInstance` of
`Meshes/A.nif` returns an instance and leaves it in the pool under
`meshes/a.nif`. -/
theorem C15_cacheInstance_appends_what_it_returns_witness :
    (SceneManager.new.WellFormed ∧ (BulletShapeManager.new SceneManager.new).WellFormed) ∧
    (SceneManager.new.cacheInstance exampleEnv "Meshes/A.nif").1 = Except.ok exampleInstance ∧
    (SceneManager.new.cacheInstance exampleEnv "Meshes/A.nif").2.mInstanceCache.entries =
      [("meshes/a.nif", some exampleInstance)] ∧
    ((SceneManager.new.cacheInstance exampleEnv "Meshes/A.nif").2 =
        { (SceneManager.new.createInstance exampleEnv
            (exampleEnv.normalizeFilename "Meshes/A.nif")).2 with
          mInstanceCache :=
            { entries := SceneManager.new.mInstanceCache.entries ++
                [(exampleEnv.normalizeFilename "Meshes/A.nif", some exampleInstance)] } } ∧
      ((SceneManager.new.cacheInstance exampleEnv "Meshes/A.nif").2.mInstanceCache.entries.filter
          (fun e => decide (e.1 = exampleEnv.normalizeFilename "Meshes/A.nif"))).length =
        (SceneManager.new.mInstanceCache.entries.filter
          (fun e => decide (e.1 = exampleEnv.normalizeFilename "Meshes/A.nif"))).length + 1 ∧
      (SceneManager.new.cacheInstance exampleEnv "Meshes/A.nif").2.mInstanceCache.entries.filter
          (fun e => decide (e.1 ≠ exampleEnv.normalizeFilename "Meshes/A.nif")) =
        SceneManager.new.mInstanceCache.entries.filter
          (fun e => decide (e.1 ≠ exampleEnv.normalizeFilename "Meshes/A.nif")) ∧
      ∀ n ∈ objectsOf SceneManager.new.mCache.entries ++
          objectsOf SceneManager.new.mInstanceCache.entries,
        n.id ≠ exampleInstance.id) :=
  ⟨by decide, by decide, by decide,
    (C15_cacheInstance_appends_what_it_returns exampleEnv "Meshes/A.nif" SceneManager.new
      (BulletShapeManager.new SceneManager.new) (by decide) (by decide)).2.1
      exampleInstance (by decide)⟩

end Resource

namespace ESMS

/-! ## Record lists -/

theorem find_indexElements_same {K X : Type} [DecidableEq K] (key : K) (new : X) (f : X → X)
    (l : List (K × X)) :
    (Map.indexElements key new f l).lookup key = some (f ((l.lookup key).getD new)) := by
  induction l with
  | nil => simp [Map.indexElements, List.lookup_cons]
  | cons e rest ih =>
    obtain ⟨k, v⟩ := e
    by_cases hk : k = key
    · subst hk
      simp [Map.indexElements, List.lookup_cons]
    · have hk2 : (key == k) = false := by
        simp only [beq_eq_false_iff_ne, ne_eq]
        exact fun h => hk h.symm
      simp [Map.indexElements, List.lookup_cons, hk, hk2, ih]

theorem find_indexElements_other {K X : Type} [DecidableEq K] (key : K) (new : X) (f : X → X)
    (l : List (K × X)) {k2 : K} (h : k2 ≠ key) :
    (Map.indexElements key new f l).lookup k2 = l.lookup k2 := by
  induction l with
  | nil =>
    have hk2 : (k2 == key) = false := by simpa using h
    simp [Map.indexElements, List.lookup_cons, hk2]
  | cons e rest ih =>
    obtain ⟨k, v⟩ := e
    by_cases hk : k = key
    · subst hk
      have hk2 : (k2 == k) = false := by simpa using h
      simp [Map.indexElements, List.lookup_cons, hk2]
    · by_cases hkk : k2 = k
      · subst hkk
        simp [Map.indexElements, List.lookup_cons, hk]
      · have hk2 : (k2 == k) = false := by simpa using hkk
        simp [Map.indexElements, List.lookup_cons, hk, hk2, ih]

/-- After `f(m[key])` the map holds under `key` what `f` made of the value
that was there, or of a new one; the other keys are as before. -/
theorem find_index {K X : Type} [DecidableEq K] (m : Map K X) (key : K) (new : X)
    (f : X → X) :
    (m.index key new f).find key = some (f ((m.find key).getD new)) ∧
    ∀ k2, k2 ≠ key → (m.index key new f).find k2 = m.find k2 :=
  ⟨find_indexElements_same key new f m.elements,
    fun _ h => find_indexElements_other key new f m.elements h⟩

/-! ## Case variants -/

theorem toLower_of_upper (c : Char) (h : c.toNat ≥ 65 ∧ c.toNat ≤ 90) :
    c.toLower = Char.ofNat (c.toNat + 32) ∧ (Char.ofNat (c.toNat + 32)).toNat = c.toNat + 32 := by
  constructor
  · simp only [Char.toLower]
    rw [if_pos h]
  · obtain ⟨h1, h2⟩ := h
    generalize c.toNat = n at h1 h2
    interval_cases n <;> rfl

theorem toLower_of_not_upper (c : Char) (h : ¬ (c.toNat ≥ 65 ∧ c.toNat ≤ 90)) :
    c.toLower = c := by
  simp only [Char.toLower]
  rw [if_neg h]

theorem char_eq_of_toNat_eq {a b : Char} (h : a.toNat = b.toNat) : a = b := by
  rw [← Char.ofNat_toNat a, ← Char.ofNat_toNat b, h]

/-- `std::tolower` makes two characters equal exactly when they are the same
letter up to case. -/
theorem sameLetter_iff (a b : Char) : sameLetter a b = true ↔ a.toLower = b.toLower := by
  unfold sameLetter
  simp only [decide_eq_true_eq]
  by_cases ha : a.toNat ≥ 65 ∧ a.toNat ≤ 90
  · obtain ⟨ha1, ha2⟩ := toLower_of_upper a ha
    by_cases hb : b.toNat ≥ 65 ∧ b.toNat ≤ 90
    · obtain ⟨hb1, hb2⟩ := toLower_of_upper b hb
      rw [ha1, hb1]
      constructor
      · rintro (h | h | h)
        · rw [h]
        · omega
        · omega
      · intro h
        left
        apply char_eq_of_toNat_eq
        have := congrArg Char.toNat h
        rw [ha2, hb2] at this
        omega
    · rw [ha1, toLower_of_not_upper b hb]
      constructor
      · rintro (h | h | h)
        · rw [h] at ha
          exact absurd ha hb
        · apply char_eq_of_toNat_eq
          rw [ha2]
          exact h.2.2.symm
        · exact absurd ⟨h.1, h.2.1⟩ hb
      · intro h
        right
        left
        refine ⟨ha.1, ha.2, ?_⟩
        rw [← h, ha2]
  · rw [toLower_of_not_upper a ha]
    by_cases hb : b.toNat ≥ 65 ∧ b.toNat ≤ 90
    · obtain ⟨hb1, hb2⟩ := toLower_of_upper b hb
      rw [hb1]
      constructor
      · rintro (h | h | h)
        · rw [h] at ha
          exact absurd hb ha
        · exact absurd ⟨h.1, h.2.1⟩ ha
        · apply char_eq_of_toNat_eq
          rw [hb2]
          exact h.2.2
      · intro h
        right
        right
        refine ⟨hb.1, hb.2, ?_⟩
        rw [h, hb2]
    · rw [toLower_of_not_upper b hb]
      constructor
      · rintro (h | h | h)
        · exact h
        · exact absurd ⟨h.1, h.2.1⟩ ha
        · exact absurd ⟨h.1, h.2.1⟩ hb
      · intro h
        exact Or.inl h

theorem sameLetters_iff (a b : List Char) :
    sameLetters a b = true ↔ a.map Char.toLower = b.map Char.toLower := by
  induction a generalizing b with
  | nil =>
    cases b with
    | nil => simp [sameLetters]
    | cons y bs => simp [sameLetters]
  | cons x as ih =>
    cases b with
    | nil => simp [sameLetters]
    | cons y bs =>
      simp only [sameLetters, Bool.and_eq_true, List.map_cons, List.cons.injEq]
      rw [sameLetter_iff, ih]

/-- `toLower` makes two names equal exactly when they are case variants of
each other. -/
theorem caseVariant_iff (a b : String) : CaseVariant a b ↔ toLower a = toLower b := by
  unfold CaseVariant toLower
  rw [sameLetters_iff]
  constructor
  · intro h
    rw [h]
  · intro h
    exact congrArg String.data h

/-! ## Record lists: `search` and `find` -/

theorem searchesByLowerCase_of {X : Type} (list : MapType X) (search : String → Option X)
    (find : String → Except String X)
    (hs : ∀ id, search id = list.find (toLower id))
    (hf : ∀ id, find id =
      match search id with
      | none => Except.error ("object " ++ id ++ " not found")
      | some object => Except.ok object) :
    SearchesByLowerCase list search find := by
  intro id
  refine ⟨hs id, ?_, ?_, ?_⟩
  · intro id2 h
    rw [hs id, hs id2, (caseVariant_iff id id2).mp h]
  · intro x
    rw [hf id]
    cases search id with
    | none => simp
    | some object => simp
  · intro e
    rw [hf id]
    cases search id with
    | none =>
      simp only [Except.error.injEq, true_and]
      exact ⟨fun h => h.symm, fun h => h.symm⟩
    | some object => simp

theorem search_eq_find {X : Type} (list : MapType X) (id : String) :
    (match list.find (toLower id) with
      | none => none
      | some object => some object) = list.find (toLower id) := by
  cases list.find (toLower id) <;> rfl

/-- The three lists that store a record under the id passed to `load`: the
record loaded under `id2` is found under every `id` with the lower-case
form of `id2`, and a search for any other `id` gives what it gave
before. -/
theorem load_search {E X : Type} (r : Record E X) (a : RecListT X) (b : RecListWithIDT X)
    (c : RecIDListT X) (esm : E) (id id2 : String) :
    (toLower id = toLower id2 →
      (a.load r esm id2).search id = some (r.load esm ((a.search id2).getD r.new)) ∧
      (b.load r esm id2).search id =
        some (r.loadWithId esm (toLower id2) ((b.search id2).getD r.new)) ∧
      (c.load r esm id2).search id =
        some (r.load esm (r.setId id2 ((c.search id2).getD r.new)))) ∧
    (toLower id ≠ toLower id2 →
      (a.load r esm id2).search id = a.search id ∧
      (b.load r esm id2).search id = b.search id ∧
      (c.load r esm id2).search id = c.search id) := by
  refine ⟨?_, ?_⟩
  · intro h
    refine ⟨?_, ?_, ?_⟩
    · show (match (a.list.index (toLower id2) r.new (r.load esm)).find (toLower id) with
        | none => none
        | some object => some object) = _
      rw [search_eq_find, h, (find_index _ _ _ _).1]
      show _ = some (r.load esm ((match a.list.find (toLower id2) with
        | none => none
        | some object => some object).getD r.new))
      rw [search_eq_find]
    · show (match (b.list.index (toLower id2) r.new (r.loadWithId esm (toLower id2))).find
          (toLower id) with
        | none => none
        | some object => some object) = _
      rw [search_eq_find, h, (find_index _ _ _ _).1]
      show _ = some (r.loadWithId esm (toLower id2) ((match b.list.find (toLower id2) with
        | none => none
        | some object => some object).getD r.new))
      rw [search_eq_find]
    · show (match (c.list.index (toLower id2) r.new
          (fun ref => r.load esm (r.setId id2 ref))).find (toLower id) with
        | none => none
        | some object => some object) = _
      rw [search_eq_find, h, (find_index _ _ _ _).1]
      show _ = some (r.load esm (r.setId id2 ((match c.list.find (toLower id2) with
        | none => none
        | some object => some object).getD r.new)))
      rw [search_eq_find]
  · intro h
    refine ⟨?_, ?_, ?_⟩
    · show (match (a.list.index (toLower id2) r.new (r.load esm)).find (toLower id) with
        | none => none
        | some object => some object) = (match a.list.find (toLower id) with
        | none => none
        | some object => some object)
      rw [(find_index _ _ _ _).2 _ h]
    · show (match (b.list.index (toLower id2) r.new (r.loadWithId esm (toLower id2))).find
          (toLower id) with
        | none => none
        | some object => some object) = (match b.list.find (toLower id) with
        | none => none
        | some object => some object)
      rw [(find_index _ _ _ _).2 _ h]
    · show (match (c.list.index (toLower id2) r.new
          (fun ref => r.load esm (r.setId id2 ref))).find (toLower id) with
        | none => none
        | some object => some object) = (match c.list.find (toLower id) with
        | none => none
        | some object => some object)
      rw [(find_index _ _ _ _).2 _ h]

/-- The script list stores a record under the name read from it: the script
is found under every `id` with the lower-case form of that name, and a
search for any other `id` gives what it gave before.  The id passed to
`load` plays no part. -/
theorem script_load_search {E X : Type} (r : Record E X) (d : ScriptListT X) (esm : E)
    (id id2 : String) :
    (toLower id = toLower (r.name (r.load esm r.new)) →
      (d.load r esm id2).search id = some (r.load esm r.new)) ∧
    (toLower id ≠ toLower (r.name (r.load esm r.new)) →
      (d.load r esm id2).search id = d.search id) := by
  refine ⟨?_, ?_⟩
  · intro h
    show (match (d.list.index (toLower (r.name (r.load esm r.new))) r.new
        (fun _ => r.load esm r.new)).find (toLower id) with
      | none => none
      | some object => some object) = _
    rw [search_eq_find, h, (find_index _ _ _ _).1]
  · intro h
    show (match (d.list.index (toLower (r.name (r.load esm r.new))) r.new
        (fun _ => r.load esm r.new)).find (toLower id) with
      | none => none
      | some object => some object) = (match d.list.find (toLower id) with
      | none => none
      | some object => some object)
    rw [(find_index _ _ _ _).2 _ h]

/-- Claim C21, amended.  For each of the four record lists, `search(id)` is
the record stored under `toLower(id)`, `NULL` if there is none, and gives
the same for ids that are case variants of each other; `find(id)` returns
what `search(id)` returns and throws `object <id> not found` exactly when
that is `NULL`.  `toLower` makes two ids equal exactly when they are case
variants.  In `RecListT`, `RecListWithIDT` and `RecIDListT` a record
loaded under `id2` is found under the case variants of `id2`, and a search
for an id that is no case variant of `id2` gives what it gave before the
load.  `ScriptListT::load` does not use the id it is passed, it does the
same for every id: the script is found under the case variants of the name
read from the record, and a search for any other id gives what it gave
before. -/
theorem C21_search_ignores_case {E X : Type} (r : Record E X) (a : RecListT X)
    (b : RecListWithIDT X) (c : RecIDListT X) (d : ScriptListT X) (esm : E)
    (id id2 : String) :
    SearchesByLowerCase a.list a.search a.find ∧
    SearchesByLowerCase b.list b.search b.find ∧
    SearchesByLowerCase c.list c.search c.find ∧
    SearchesByLowerCase d.list d.search d.find ∧
    (CaseVariant id id2 ↔ toLower id = toLower id2) ∧
    (CaseVariant id id2 →
      (a.load r esm id2).search id = some (r.load esm ((a.search id2).getD r.new)) ∧
      (b.load r esm id2).search id =
        some (r.loadWithId esm (toLower id2) ((b.search id2).getD r.new)) ∧
      (c.load r esm id2).search id =
        some (r.load esm (r.setId id2 ((c.search id2).getD r.new)))) ∧
    (¬ CaseVariant id id2 →
      (a.load r esm id2).search id = a.search id ∧
      (b.load r esm id2).search id = b.search id ∧
      (c.load r esm id2).search id = c.search id) ∧
    (CaseVariant id (r.name (r.load esm r.new)) →
      (d.load r esm id2).search id = some (r.load esm r.new)) ∧
    (¬ CaseVariant id (r.name (r.load esm r.new)) →
      (d.load r esm id2).search id = d.search id) ∧
    (∀ id3 : String, d.load r esm id3 = d.load r esm id2) := by
  refine ⟨searchesByLowerCase_of _ _ _ (fun i => search_eq_find a.list i) (fun _ => rfl),
    searchesByLowerCase_of _ _ _ (fun i => search_eq_find b.list i) (fun _ => rfl),
    searchesByLowerCase_of _ _ _ (fun i => search_eq_find c.list i) (fun _ => rfl),
    searchesByLowerCase_of _ _ _ (fun i => search_eq_find d.list i) (fun _ => rfl),
    caseVariant_iff id id2, ?_, ?_, ?_, ?_, fun _ => rfl⟩
  · intro h
    exact (load_search r a b c esm id id2).1 ((caseVariant_iff id id2).mp h)
  · intro h
    exact (load_search r a b c esm id id2).2 (fun h2 => h ((caseVariant_iff id id2).mpr h2))
  · intro h
    exact (script_load_search r d esm id id2).1 ((caseVariant_iff _ _).mp h)
  · intro h
    exact (script_load_search r d esm id id2).2 (fun h2 => h ((caseVariant_iff _ _).mpr h2))

/-- Claim C21 (amended) on concrete lists: `IRON_Sword` is a case variant of
`Iron_sword` and `Iron_Swords` is not; a record loaded as `Iron_sword` into
an empty list is found as `IRON_Sword` and not as `Iron_Swords`; in the
empty list `find("Iron")` throws `object Iron not found`; a script whose
record names it `Main` is found as `MAIN`. -/
theorem C21_search_ignores_case_witness :
    (CaseVariant "IRON_Sword" "Iron_sword" ∧ ¬ CaseVariant "Iron_Swords" "Iron_sword" ∧
      CaseVariant "MAIN" (exampleScript.name (exampleScript.load "Main" exampleScript.new))) ∧
    (RecListT.load exampleRecord { list := { elements := [] } } 7 "Iron_sword").search
        "IRON_Sword" =
      some (exampleRecord.load 7
        ((RecListT.search { list := { elements := [] } } "Iron_sword").getD
          exampleRecord.new)) ∧
    (RecListT.load exampleRecord { list := { elements := [] } } 7 "Iron_sword").search
        "IRON_Sword" = some { id := "", values := [7] } ∧
    (RecListT.load exampleRecord { list := { elements := [] } } 7 "Iron_sword").search
        "Iron_Swords" = RecListT.search { list := { elements := [] } } "Iron_Swords" ∧
    RecListT.search ({ list := { elements := [] } } : RecListT ExampleRecord) "Iron_Swords" =
      none ∧
    RecListT.find ({ list := { elements := [] } } : RecListT ExampleRecord) "Iron" =
      Except.error "object Iron not found" ∧
    (ScriptListT.load exampleScript { list := { elements := [] } } "Main" "").search "MAIN" =
      some (exampleScript.load "Main" exampleScript.new) :=
  ⟨⟨by decide, by decide, by decide⟩,
    ((C21_search_ignores_case exampleRecord { list := { elements := [] } }
      { list := { elements := [] } } { list := { elements := [] } }
      { list := { elements := [] } } 7 "IRON_Sword" "Iron_sword").2.2.2.2.2.1 (by decide)).1,
    by decide,
    ((C21_search_ignores_case exampleRecord { list := { elements := [] } }
      { list := { elements := [] } } { list := { elements := [] } }
      { list := { elements := [] } } 7 "Iron_Swords" "Iron_sword").2.2.2.2.2.2.1
        (by decide)).1,
    by decide,
    (((C21_search_ignores_case exampleRecord { list := { elements := [] } }
      { list := { elements := [] } } { list := { elements := [] } }
      { list := { elements := [] } } 7 "Iron" "Iron").1 "Iron").2.2.2
        "object Iron not found").mpr ⟨by decide, by decide⟩,
    (C21_search_ignores_case exampleScript { list := { elements := [] } }
      { list := { elements := [] } } { list := { elements := [] } }
      { list := { elements := [] } } "Main" "MAIN" "").2.2.2.2.2.2.2.1 (by decide)⟩

/-- Claim C21, evaluated where it fails: `ScriptListT`, which does not store a
script under the id passed to `load`.  A script that the file names `Main`,
loaded under the id `Startup` into an empty list, is not found under
`Startup`: `search` returns `NULL` and `find` throws.  It is found under
`MAIN`, a case variant of its own name. -/
theorem C21_script_not_found_under_load_id :
    (ScriptListT.load exampleScript { list := { elements := [] } } "Main" "Startup").search
        "Startup" = none ∧
    (ScriptListT.load exampleScript { list := { elements := [] } } "Main" "Startup").find
        "Startup" = Except.error "object Startup not found" ∧
    (ScriptListT.load exampleScript { list := { elements := [] } } "Main" "Startup").search
        "MAIN" = some { id := "Main", values := [] } ∧
    (RecListT.load exampleRecord { list := { elements := [] } } 7 "Startup").search
        "Startup" = some { id := "", values := [7] } := by
  refine ⟨by decide, by decide, by decide, by decide⟩

theorem char_toLower_toLower (c : Char) : c.toLower.toLower = c.toLower := by
  by_cases h : c.toNat ≥ 65 ∧ c.toNat ≤ 90
  · have hc : c = Char.ofNat c.toNat := (Char.ofNat_toNat c).symm
    obtain ⟨h1, h2⟩ := h
    generalize c.toNat = n at hc h1 h2
    subst hc
    interval_cases n <;> decide
  · have h1 : c.toLower = c := by
      simp only [Char.toLower]
      rw [if_neg h]
    rw [h1, h1]

/-- Lower-casing a lower-cased name changes nothing. -/
theorem toLower_toLower (name : String) : toLower (toLower name) = toLower name := by
  simp only [toLower, List.map_map]
  congr 1
  apply List.map_congr_left
  intro c _
  exact char_toLower_toLower c

theorem searchColumnByRegion_some {id : String} {l : List (Int × Cell)} {cell : Cell}
    (h : CellList.searchColumnByRegion id l = some cell) : toLower cell.region = id := by
  induction l with
  | nil => simp [CellList.searchColumnByRegion] at h
  | cons e rest ih =>
    by_cases he : toLower e.2.region = id
    · simp only [CellList.searchColumnByRegion, he, if_true, Option.some.injEq] at h
      rw [← h]
      exact he
    · simp only [CellList.searchColumnByRegion, he, if_false] at h
      exact ih h

theorem searchColumnsByRegion_some {id : String} {l : List (Int × ExtCellsCol)} {cell : Cell}
    (h : CellList.searchColumnsByRegion id l = some cell) : toLower cell.region = id := by
  induction l with
  | nil => simp [CellList.searchColumnsByRegion] at h
  | cons column rest ih =>
    simp only [CellList.searchColumnsByRegion] at h
    cases hc : CellList.searchColumnByRegion id column.2.elements with
    | some found =>
      rw [hc] at h
      simp only [Option.some.injEq] at h
      rw [← h]
      exact searchColumnByRegion_some hc
    | none =>
      rw [hc] at h
      exact ih h

/-- Claim C26, evaluated where it fails.  The one exterior cell of
`exampleCells` has the region `Ascadian Isles Region`.  Asked for that very
name, `searchExtByRegion` returns the null pointer; asked for the name in
lower case it returns the cell.  In any cell list, an id that is not
already in lower case finds nothing: the lower-cased region of a cell is
compared with `id` as it was passed, not with its lower-case form. -/
theorem C26_searchExtByRegion_compares_with_id_as_passed :
    exampleCells.searchExtByRegion "Ascadian Isles Region" = none ∧
    exampleCells.searchExtByRegion (toLower "Ascadian Isles Region") =
      some { name := "", region := "Ascadian Isles Region",
             data := { flags := 0, gridX := 2, gridY := -3 } } ∧
    (∀ (c : CellList) (id : String), toLower id ≠ id → c.searchExtByRegion id = none) := by
  refine ⟨by decide, by decide, ?_⟩
  intro c id hid
  cases h : c.searchExtByRegion id with
  | none => rfl
  | some cell =>
    exfalso
    apply hid
    have hr : toLower cell.region = id := searchColumnsByRegion_some h
    rw [← hr, toLower_toLower]

end ESMS

namespace Resource

/-! ## The file extension -/

theorem find_last_of_none {l : List Char} {c : Char} :
    find_last_of l c = none ↔ c ∉ l := by
  induction l with
  | nil => simp [find_last_of]
  | cons x xs ih =>
    simp only [find_last_of, List.mem_cons, not_or]
    cases h : find_last_of xs c with
    | some i =>
      have hmem : ¬ c ∉ xs := fun hn => by
        rw [ih.mpr hn] at h
        cases h
      simp [hmem]
    | none =>
      have hn := ih.mp h
      by_cases hx : x = c
      · simp [hx]
      · have hx2 : ¬ c = x := fun e => hx e.symm
        simp [hx, hn, hx2]

/-- The position `find_last_of` returns is that of an occurrence of the
character after which it does not occur again. -/
theorem find_last_of_some {l : List Char} {c : Char} {i : Nat}
    (h : find_last_of l c = some i) :
    ∃ pre suf, l = pre ++ c :: suf ∧ pre.length = i ∧ c ∉ suf := by
  induction l generalizing i with
  | nil => simp [find_last_of] at h
  | cons x xs ih =>
    simp only [find_last_of] at h
    cases hx : find_last_of xs c with
    | some j =>
      rw [hx] at h
      simp only [Option.some.injEq] at h
      obtain ⟨pre, suf, hl, hlen, hsuf⟩ := ih hx
      exact ⟨x :: pre, suf, by rw [hl]; rfl, by simp [hlen, h], hsuf⟩
    | none =>
      rw [hx] at h
      by_cases hxc : x = c
      · simp only [hxc, if_true, Option.some.injEq] at h
        exact ⟨[], xs, by simp [hxc], by simp [h], find_last_of_none.mp hx⟩
      · simp [hxc] at h

theorem find_last_of_split (pre suf : List Char) (c : Char) (h : c ∉ suf) :
    find_last_of (pre ++ c :: suf) c = some pre.length := by
  induction pre with
  | nil => simp [find_last_of, find_last_of_none.mpr h]
  | cons x pre ih => simp [find_last_of, ih]

/-- Claim C27: `getFileExtension(file)` is the text after the last `.` of
`file` when there is a `.` and it is not the last character, and the empty
string otherwise; the result contains no `.`; and it is the extension that
`BulletShapeManager::getShape` computes inline for the same string. -/
theorem C27_getFileExtension_after_last_dot (file : String) :
    (∀ pre ext : List Char, file.data = pre ++ '.' :: ext → '.' ∉ ext → ext ≠ [] →
      getFileExtension file = String.mk ext) ∧
    (∀ pre : List Char, file.data = pre ++ ['.'] → getFileExtension file = "") ∧
    ('.' ∉ file.data → getFileExtension file = "") ∧
    '.' ∉ (getFileExtension file).data ∧
    getFileExtension file = getShapeExtension file := by
  refine ⟨?_, ?_, ?_, ?_, rfl⟩
  · intro pre ext hd hext hne
    have hlen : pre.length + 1 < (pre ++ '.' :: ext).length := by
      cases ext with
      | nil => exact absurd rfl hne
      | cons e es => simp
    simp [getFileExtension, hd, find_last_of_split pre ext '.' hext, hlen, hne]
  · intro pre hd
    simp [getFileExtension, hd, find_last_of_split pre [] '.' (by simp)]
  · intro h
    simp [getFileExtension, find_last_of_none.mpr h]
  · unfold getFileExtension
    cases h : find_last_of file.data '.' with
    | none => simp
    | some i =>
      obtain ⟨pre, suf, hl, hlen, hsuf⟩ := find_last_of_some h
      simp only
      split
      · rw [hl, ← hlen]
        simpa using hsuf
      · simp

/-- Claim C27 on concrete names. -/
theorem C27_getFileExtension_after_last_dot_witness :
    getFileExtension "meshes/x.y/a.nif" = "nif" ∧
    getFileExtension "meshes/a." = "" ∧
    getFileExtension "meshes/a" = "" ∧
    getShapeExtension "meshes/x.y/a.nif" = "nif" :=
  ⟨(C27_getFileExtension_after_last_dot "meshes/x.y/a.nif").1 "meshes/x.y/a".data "nif".data
      (by decide) (by decide) (by decide),
    (C27_getFileExtension_after_last_dot "meshes/a.").2.1 "meshes/a".data (by decide),
    (C27_getFileExtension_after_last_dot "meshes/a").2.2.1 (by decide),
    by decide⟩

end Resource

namespace Resource

/-! ## `setFilterSettings` against its reference -/

/-- Claim C25: the settings `setFilterSettings` stores are those of the
reference functions of its arguments, whatever the manager was and whether
a viewer is passed or not; the maximum anisotropy stored is at least 1. -/
theorem C25_setFilterSettings_matches_reference (magfilter minfilter mipmap : String)
    (maxAnisotropy : Int) (viewer : Option Viewer) (s : SceneManager) :
    (s.setFilterSettings magfilter minfilter mipmap maxAnisotropy viewer).1.mMagFilter =
      referenceMagFilter magfilter ∧
    (s.setFilterSettings magfilter minfilter mipmap maxAnisotropy viewer).1.mMinFilter =
      referenceMinFilter minfilter mipmap ∧
    (s.setFilterSettings magfilter minfilter mipmap maxAnisotropy viewer).1.mMaxAnisotropy =
      referenceMaxAnisotropy maxAnisotropy ∧
    1 ≤ (s.setFilterSettings magfilter minfilter mipmap maxAnisotropy viewer).1.mMaxAnisotropy := by
  refine ⟨rfl, ?_, rfl, ?_⟩
  · show (filterModes magfilter minfilter mipmap).1 = referenceMinFilter minfilter mipmap
    unfold filterModes referenceMinFilter
    by_cases h1 : minfilter = "nearest" <;> by_cases h2 : mipmap = "nearest" <;>
      by_cases h3 : mipmap = "none" <;> simp_all
  · show 1 ≤ max 1 maxAnisotropy
    exact le_max_left _ _

/-- Claim C25 on concrete arguments, an unrecognised `mipmap` string and a
negative anisotropy among them. -/
theorem C25_setFilterSettings_matches_reference_witness :
    (SceneManager.new.setFilterSettings "nearest" "linear" "bogus" (-4) none).1.mMagFilter =
      FilterMode.NEAREST ∧
    (SceneManager.new.setFilterSettings "nearest" "linear" "bogus" (-4) none).1.mMinFilter =
      referenceMinFilter "linear" "bogus" ∧
    referenceMinFilter "linear" "bogus" = FilterMode.LINEAR_MIPMAP_LINEAR ∧
    (SceneManager.new.setFilterSettings "nearest" "linear" "bogus" (-4) none).1.mMaxAnisotropy =
      1 :=
  ⟨by decide,
    (C25_setFilterSettings_matches_reference "nearest" "linear" "bogus" (-4) none
      SceneManager.new).2.1,
    by decide, by decide⟩

end Resource

namespace Resource

/-! ## A template held by a pooled instance alone -/

theorem objectsOf_mem {α : Type} {x : α} {l : List (String × Option α)}
    (h : x ∈ objectsOf l) : ∃ k, (k, some x) ∈ l := by
  simp only [objectsOf, List.mem_filterMap] at h
  obtain ⟨e, he, hx⟩ := h
  obtain ⟨k, o⟩ := e
  simp only at hx
  subst hx
  exact ⟨k, he⟩

theorem eq_of_id_eq {l : List Node} (hn : (addresses l).Nodup) {a b : Node} (ha : a ∈ l)
    (hb : b ∈ l) (h : a.id = b.id) : a = b := by
  induction l with
  | nil => cases ha
  | cons x l ih =>
    simp only [addresses, List.map_cons, List.nodup_cons] at hn
    obtain ⟨hx, hl⟩ := hn
    rcases List.mem_cons.mp ha with ha | ha <;> rcases List.mem_cons.mp hb with hb | hb
    · rw [ha, hb]
    · exact absurd (List.mem_map.mpr ⟨b, hb, by rw [← h, ha]⟩) hx
    · exact absurd (List.mem_map.mpr ⟨a, ha, by rw [h, hb]⟩) hx
    · exact ih hl ha hb

/-- The count of a cached template that no pooled node is or refers to, with
nothing held outside, is 1. -/
theorem referenceCount_cached_alone {s : SceneManager} {t : Node}
    (hc : t ∈ objectsOf s.mCache.entries)
    (hcn : (addresses (objectsOf s.mCache.entries)).Nodup)
    (hp : ∀ n ∈ objectsOf s.mInstanceCache.entries, n.id ≠ t.id ∧ t.id ∉ n.userData) :
    s.referenceCount [] t = 1 := by
  unfold SceneManager.referenceCount
  rw [filter_length_one hc hcn, filter_length_zero (fun n hn => (hp n hn).1),
    userObject_count_zero _ t (fun n hn => by
      rw [List.append_nil] at hn
      exact (hp n hn).2)]
  rfl

/-- The count of a pooled instance that no cached node is and no pooled node
refers to, with nothing held outside, is 1. -/
theorem referenceCount_pooled_alone {s : SceneManager} {i : Node}
    (hp : i ∈ objectsOf s.mInstanceCache.entries)
    (hpn : (addresses (objectsOf s.mInstanceCache.entries)).Nodup)
    (hc : ∀ n ∈ objectsOf s.mCache.entries, n.id ≠ i.id)
    (hu : ∀ n ∈ objectsOf s.mInstanceCache.entries, i.id ∉ n.userData) :
    s.referenceCount [] i = 1 := by
  unfold SceneManager.referenceCount
  rw [filter_length_zero hc, filter_length_one hp hpn,
    userObject_count_zero _ i (fun n hn => by
      rw [List.append_nil] at hn
      exact hu n hn)]
  rfl

theorem mem_pool_sweep_iff (held : List Node) (s : SceneManager) (key : String) (inst : Node) :
    (key, some inst) ∈ (s.updateCache held).mInstanceCache.entries ↔
      (key, some inst) ∈ s.mInstanceCache.entries ∧
        (s.resourceManagerUpdateCache held).referenceCount held inst ≠ 1 := by
  simp [SceneManager.updateCache, SceneManager.resourceManagerUpdateCache,
    MultiObjectCache.removeUnreferencedObjectsInCache, List.mem_filter]

/-- Claim C28: a well-formed manager holds `template` in its cache and `inst`
in its pool; `inst` refers back to `template`, no other pooled node is or
refers to `template`, and `inst` is held by the pool alone; nothing is
held outside.  Then the template sweep of `updateCache` counts the pooled
instance as a holder of the template (its count is not 1), so the first
call keeps the template and removes the instance from the pool; after it
the count of the template is 1 and the second call removes the template.
Had the instance sweep run first, the count of the template would have been
1 at the template sweep of the first call. -/
theorem C28_pooled_instance_delays_template_sweep (s : SceneManager) (key poolKey : String)
    (template inst : Node) (hwf : s.WellFormed)
    (hc : (key, some template) ∈ s.mCache.entries)
    (hp : (poolKey, some inst) ∈ s.mInstanceCache.entries)
    (hu : template.id ∈ inst.userData)
    (honly : ∀ n ∈ objectsOf s.mInstanceCache.entries,
      n.id ≠ template.id ∧ (n ≠ inst → template.id ∉ n.userData))
    (hinst : (∀ n ∈ objectsOf s.mCache.entries, n.id ≠ inst.id) ∧
      ∀ n ∈ objectsOf s.mInstanceCache.entries, inst.id ∉ n.userData) :
    s.referenceCount [] template ≠ 1 ∧
    (key, some template) ∈ (s.updateCache []).mCache.entries ∧
    (∀ k, (k, some inst) ∉ (s.updateCache []).mInstanceCache.entries) ∧
    (s.updateCache []).referenceCount [] template = 1 ∧
    (key, some template) ∉ ((s.updateCache []).updateCache []).mCache.entries ∧
    SceneManager.referenceCount []
      { s with
        mInstanceCache :=
          s.mInstanceCache.removeUnreferencedObjectsInCache (s.referenceCount []) }
      template = 1 := by
  have hkeep : (key, some template) ∈ (s.updateCache []).mCache.entries :=
    sweep_keeps [] s key template hc
      (Or.inr ⟨inst, List.mem_append_left _ (mem_objectsOf hp), hu⟩)
  have hcsub : (objectsOf (s.updateCache []).mCache.entries).Sublist
      (objectsOf s.mCache.entries) := objectsOf_filter_sublist _ _
  have hpsub : (s.updateCache []).mInstanceCache.entries.Sublist s.mInstanceCache.entries :=
    List.filter_sublist _
  have hgone : ∀ k, (k, some inst) ∉ (s.updateCache []).mInstanceCache.entries := by
    intro k hk
    apply ((mem_pool_sweep_iff [] s k inst).mp hk).2
    exact referenceCount_pooled_alone (s := s.resourceManagerUpdateCache [])
      (mem_objectsOf hp) hwf.2.2 (fun n hn => hinst.1 n (hcsub.subset hn)) hinst.2
  have halone : ∀ s2 : SceneManager, template ∈ objectsOf s2.mCache.entries →
      (objectsOf s2.mCache.entries).Sublist (objectsOf s.mCache.entries) →
      s2.mInstanceCache.entries.Sublist s.mInstanceCache.entries →
      (∀ k, (k, some inst) ∉ s2.mInstanceCache.entries) →
      s2.referenceCount [] template = 1 := by
    intro s2 ht hcs hps hno
    refine referenceCount_cached_alone ht ((addresses_sublist hcs).nodup hwf.2.1) ?_
    intro n hn
    obtain ⟨k, hk⟩ := objectsOf_mem hn
    have hn2 : n ∈ objectsOf s.mInstanceCache.entries := mem_objectsOf (hps.subset hk)
    refine ⟨(honly n hn2).1, (honly n hn2).2 ?_⟩
    intro he
    rw [he] at hk
    exact hno k hk
  have hone := halone (s.updateCache []) (mem_objectsOf hkeep) hcsub hpsub hgone
  refine ⟨?_, hkeep, hgone, hone, ?_, ?_⟩
  · exact ((mem_sweep_iff [] s key template).mp hkeep).2
  · intro h
    exact ((mem_sweep_iff [] _ key template).mp h).2 hone
  · refine halone _ (mem_objectsOf hc) (List.Sublist.refl _) (List.filter_sublist _) ?_
    intro k hk
    simp only [MultiObjectCache.removeUnreferencedObjectsInCache, List.mem_filter] at hk
    have h1 := referenceCount_pooled_alone (s := s) (mem_objectsOf hp) hwf.2.2 hinst.1 hinst.2
    simp [h1] at hk

/-- Claim C28 in the example world: `examplePooled` is a new manager after
`cacheInstance("meshes/a.nif")` whose result was dropped.  The first
`updateCache` empties the pool and keeps the template, the second removes
the template. -/
theorem C28_pooled_instance_delays_template_sweep_witness :
    (examplePooled.WellFormed ∧
      ("meshes/a.nif", some exampleTemplate) ∈ examplePooled.mCache.entries ∧
      ("meshes/a.nif", some exampleInstance) ∈ examplePooled.mInstanceCache.entries ∧
      exampleTemplate.id ∈ exampleInstance.userData) ∧
    (examplePooled.updateCache []).mCache.entries =
      [("meshes/a.nif", some exampleTemplate)] ∧
    (examplePooled.updateCache []).mInstanceCache.entries = [] ∧
    ((examplePooled.updateCache []).updateCache []).mCache.entries = [] ∧
    (examplePooled.referenceCount [] exampleTemplate ≠ 1 ∧
      ("meshes/a.nif", some exampleTemplate) ∈ (examplePooled.updateCache []).mCache.entries ∧
      (∀ k, (k, some exampleInstance) ∉ (examplePooled.updateCache []).mInstanceCache.entries) ∧
      (examplePooled.updateCache []).referenceCount [] exampleTemplate = 1 ∧
      ("meshes/a.nif", some exampleTemplate) ∉
        ((examplePooled.updateCache []).updateCache []).mCache.entries ∧
      SceneManager.referenceCount []
        { examplePooled with
          mInstanceCache :=
            examplePooled.mInstanceCache.removeUnreferencedObjectsInCache
              (examplePooled.referenceCount []) }
        exampleTemplate = 1) :=
  ⟨by decide, by decide, by decide, by decide,
    C28_pooled_instance_delays_template_sweep examplePooled "meshes/a.nif" "meshes/a.nif"
      exampleTemplate exampleInstance (by decide) (by decide) (by decide) (by decide)
      (by decide) (by decide)⟩

end Resource

namespace MWMechanics

/-! ## Rounding to binary32 -/

theorem log2Fuel_spec (fuel n : Nat) (hf : n ≤ fuel) (hn : 0 < n) :
    2 ^ log2Fuel fuel n ≤ n ∧ n < 2 ^ (log2Fuel fuel n + 1) := by
  induction fuel generalizing n with
  | zero => omega
  | succ fuel ih =>
    unfold log2Fuel
    by_cases h2 : n < 2
    · rw [if_pos h2]
      constructor
      · simpa using hn
      · simpa using h2
    · rw [if_neg h2]
      obtain ⟨h3, h4⟩ := ih (n / 2) (by omega) (by omega)
      rw [pow_succ] at h4
      constructor
      · rw [pow_succ]
        omega
      · rw [pow_succ, pow_succ]
        omega

/-- The leading binary digit of a positive number. -/
theorem log2_spec (n : Nat) (hn : 0 < n) : 2 ^ log2 n ≤ n ∧ n < 2 ^ (log2 n + 1) :=
  log2Fuel_spec n n (le_refl n) hn

theorem pow2_eq (e : Int) : pow2 e = (2 : ℚ) ^ e := by
  unfold pow2
  by_cases h : 0 ≤ e
  · rw [if_pos h]
    obtain ⟨n, rfl⟩ := Int.eq_ofNat_of_zero_le h
    simp
  · rw [if_neg h]
    obtain ⟨n, rfl⟩ := Int.exists_eq_neg_ofNat (le_of_lt (not_le.mp h))
    simp

theorem pow2_pos (e : Int) : 0 < pow2 e := by
  rw [pow2_eq]
  positivity

theorem pow2_add (a b : Int) : pow2 (a + b) = pow2 a * pow2 b := by
  rw [pow2_eq, pow2_eq, pow2_eq, zpow_add₀ (by norm_num)]

theorem pow2_le {a b : Int} (h : a ≤ b) : pow2 a ≤ pow2 b := by
  rw [pow2_eq, pow2_eq]
  exact zpow_le_zpow_right₀ (by norm_num) h

theorem pow2_lt {a b : Int} (h : a < b) : pow2 a < pow2 b := by
  rw [pow2_eq, pow2_eq]
  exact zpow_lt_zpow_right₀ (by norm_num) h

theorem pow2_lt_iff {a b : Int} : pow2 a < pow2 b ↔ a < b := by
  constructor
  · intro h
    by_contra hn
    exact absurd (pow2_le (not_lt.mp hn)) (not_le.mpr h)
  · exact pow2_lt


theorem abs_eq_natAbs_div (x : ℚ) : |x| = (x.num.natAbs : ℚ) / (x.den : ℚ) := by
  have h1 : x = (x.num : ℚ) / (x.den : ℚ) := (Rat.num_div_den x).symm
  have h2 : (0 : ℚ) < (x.den : ℚ) := by exact_mod_cast x.den_pos
  conv_lhs => rw [h1]
  rw [abs_div, abs_of_pos h2, Nat.cast_natAbs, Int.cast_abs]

/-- The binary exponent of a number that is not zero. -/
theorem ilog2_spec (x : ℚ) (hx : x ≠ 0) :
    pow2 (ilog2 x) ≤ |x| ∧ |x| < pow2 (ilog2 x + 1) := by
  have hnum : 0 < x.num.natAbs := Int.natAbs_pos.mpr (Rat.num_ne_zero.mpr hx)
  obtain ⟨ha1, ha2⟩ := log2_spec x.num.natAbs hnum
  obtain ⟨hb1, hb2⟩ := log2_spec x.den x.den_pos
  have hd : (0 : ℚ) < (x.den : ℚ) := by exact_mod_cast x.den_pos
  have ha1q : (2 : ℚ) ^ (log2 x.num.natAbs : Int) ≤ (x.num.natAbs : ℚ) := by
    rw [zpow_natCast]
    exact_mod_cast ha1
  have ha2q : (x.num.natAbs : ℚ) < (2 : ℚ) ^ ((log2 x.num.natAbs : Int) + 1) := by
    have : (x.num.natAbs : ℚ) < (2 : ℚ) ^ (log2 x.num.natAbs + 1) := by exact_mod_cast ha2
    rw [← zpow_natCast] at this
    simpa using this
  have hb1q : (2 : ℚ) ^ (log2 x.den : Int) ≤ (x.den : ℚ) := by
    rw [zpow_natCast]
    exact_mod_cast hb1
  have hb2q : (x.den : ℚ) < (2 : ℚ) ^ ((log2 x.den : Int) + 1) := by
    have : (x.den : ℚ) < (2 : ℚ) ^ (log2 x.den + 1) := by exact_mod_cast hb2
    rw [← zpow_natCast] at this
    simpa using this
  have habs := abs_eq_natAbs_div x
  unfold ilog2
  generalize (log2 x.num.natAbs : Int) = a at *
  generalize (log2 x.den : Int) = b at *
  have hupper : |x| < pow2 (a - b + 1) := by
    rw [habs, pow2_eq, div_lt_iff₀ hd]
    have h1 : (2 : ℚ) ^ (a - b + 1) * (2 : ℚ) ^ b = (2 : ℚ) ^ (a + 1) := by
      rw [← zpow_add₀ (by norm_num)]
      congr 1
      ring
    calc (x.num.natAbs : ℚ) < (2 : ℚ) ^ (a + 1) := ha2q
      _ = (2 : ℚ) ^ (a - b + 1) * (2 : ℚ) ^ b := h1.symm
      _ ≤ (2 : ℚ) ^ (a - b + 1) * (x.den : ℚ) :=
        mul_le_mul_of_nonneg_left hb1q (by positivity)
  have hlower : pow2 (a - b - 1) ≤ |x| := by
    rw [habs, pow2_eq, le_div_iff₀ hd]
    have h1 : (2 : ℚ) ^ (a - b - 1) * (2 : ℚ) ^ (b + 1) = (2 : ℚ) ^ a := by
      rw [← zpow_add₀ (by norm_num)]
      congr 1
      ring
    calc (2 : ℚ) ^ (a - b - 1) * (x.den : ℚ)
        ≤ (2 : ℚ) ^ (a - b - 1) * (2 : ℚ) ^ (b + 1) :=
          mul_le_mul_of_nonneg_left (le_of_lt hb2q) (by positivity)
      _ = (2 : ℚ) ^ a := h1
      _ ≤ (x.num.natAbs : ℚ) := ha1q
  by_cases hc : pow2 (a - b) ≤ |x|
  · rw [if_pos hc]
    exact ⟨hc, hupper⟩
  · rw [if_neg hc]
    refine ⟨hlower, ?_⟩
    have : a - b - 1 + 1 = a - b := by ring
    rw [this]
    exact not_le.mp hc

/-- The binary exponent is the only `e` with `2 ^ e ≤ |x| < 2 ^ (e + 1)`. -/
theorem ilog2_unique (x : ℚ) (e : Int) (h1 : pow2 e ≤ |x|) (h2 : |x| < pow2 (e + 1)) :
    ilog2 x = e := by
  have hx : x ≠ 0 := by
    intro h0
    rw [h0, abs_zero] at h1
    exact absurd h1 (not_le.mpr (pow2_pos e))
  obtain ⟨h3, h4⟩ := ilog2_spec x hx
  have h5 : e < ilog2 x + 1 := pow2_lt_iff.mp (lt_of_le_of_lt h1 h4)
  have h6 : ilog2 x < e + 1 := pow2_lt_iff.mp (lt_of_le_of_lt h3 h2)
  omega

theorem ilog2_neg (x : ℚ) : ilog2 (-x) = ilog2 x := by
  unfold ilog2
  simp

theorem ilog2_lt_of_lt (x : ℚ) (e : Int) (hx : x ≠ 0) (h : |x| < pow2 e) : ilog2 x < e :=
  pow2_lt_iff.mp (lt_of_le_of_lt (ilog2_spec x hx).1 h)

theorem ilog2_ge_of_le (x : ℚ) (e : Int) (h : pow2 e ≤ |x|) : e ≤ ilog2 x := by
  have hx : x ≠ 0 := by
    intro h0
    rw [h0, abs_zero] at h
    exact absurd h (not_le.mpr (pow2_pos e))
  have := pow2_lt_iff.mp (lt_of_le_of_lt h (ilog2_spec x hx).2)
  omega


theorem roundHalfEven_cases (y : ℚ) : roundHalfEven y = ⌊y⌋ ∨ roundHalfEven y = ⌊y⌋ + 1 := by
  unfold roundHalfEven
  split
  · exact Or.inl rfl
  · split
    · exact Or.inr rfl
    · split
      · exact Or.inl rfl
      · exact Or.inr rfl

/-- An integer is its own nearest integer. -/
theorem roundHalfEven_intCast (n : Int) : roundHalfEven (n : ℚ) = n := by
  unfold roundHalfEven
  rw [Int.floor_intCast, sub_self, if_pos (by norm_num)]

theorem le_roundHalfEven (k : Int) (y : ℚ) (h : (k : ℚ) ≤ y) : k ≤ roundHalfEven y := by
  have h1 : k ≤ ⌊y⌋ := Int.le_floor.mpr h
  rcases roundHalfEven_cases y with h2 | h2 <;> omega

theorem roundHalfEven_le (k : Int) (y : ℚ) (h : y ≤ (k : ℚ)) : roundHalfEven y ≤ k := by
  by_cases hy : y = (⌊y⌋ : ℚ)
  · have h1 : roundHalfEven y = ⌊y⌋ := by
      conv_lhs => rw [hy]
      exact roundHalfEven_intCast _
    have h2 : ⌊y⌋ ≤ k := by
      have : (⌊y⌋ : ℚ) ≤ (k : ℚ) := le_trans (Int.floor_le y) h
      exact_mod_cast this
    omega
  · have h1 : (⌊y⌋ : ℚ) < y := lt_of_le_of_ne (Int.floor_le y) (Ne.symm hy)
    have h2 : (⌊y⌋ : ℚ) < (k : ℚ) := lt_of_lt_of_le h1 h
    have h3 : ⌊y⌋ < k := by exact_mod_cast h2
    rcases roundHalfEven_cases y with h4 | h4 <;> omega

theorem roundHalfEven_neg (y : ℚ) : roundHalfEven (-y) = -roundHalfEven y := by
  by_cases hy : y = (⌊y⌋ : ℚ)
  · have h1 : roundHalfEven y = ⌊y⌋ := by
      conv_lhs => rw [hy]
      exact roundHalfEven_intCast _
    have h2 : -y = ((-⌊y⌋ : Int) : ℚ) := by
      push_cast
      rw [← hy]
    rw [h2, roundHalfEven_intCast, h1]
  · have h1 : (⌊y⌋ : ℚ) < y := lt_of_le_of_ne (Int.floor_le y) (Ne.symm hy)
    have h2 : y < (⌊y⌋ : ℚ) + 1 := Int.lt_floor_add_one y
    have hf : ⌊-y⌋ = -⌊y⌋ - 1 := by
      rw [Int.floor_eq_iff]
      push_cast
      constructor <;> linarith
    unfold roundHalfEven
    rw [hf]
    push_cast
    by_cases ha : y - (⌊y⌋ : ℚ) < 1 / 2
    · have hb : ¬ (-y - (-(⌊y⌋ : ℚ) - 1) < 1 / 2) := by linarith
      have hc : 1 / 2 < -y - (-(⌊y⌋ : ℚ) - 1) := by linarith
      rw [if_pos ha, if_neg hb, if_pos hc]
      ring
    · by_cases hb : 1 / 2 < y - (⌊y⌋ : ℚ)
      · have hc : -y - (-(⌊y⌋ : ℚ) - 1) < 1 / 2 := by linarith
        rw [if_neg ha, if_pos hb, if_pos hc]
        ring
      · have hc : ¬ (-y - (-(⌊y⌋ : ℚ) - 1) < 1 / 2) := by linarith
        have hd : ¬ (1 / 2 < -y - (-(⌊y⌋ : ℚ) - 1)) := by linarith
        rw [if_neg ha, if_neg hb, if_neg hc, if_neg hd]
        by_cases he : ⌊y⌋ % 2 = 0
        · have hg : ¬ ((-⌊y⌋ - 1) % 2 = 0) := by omega
          rw [if_pos he, if_neg hg]
          ring
        · have hg : (-⌊y⌋ - 1) % 2 = 0 := by omega
          rw [if_neg he, if_pos hg]
          ring


theorem ulp_pos (x : ℚ) : 0 < ulp x :=
  pow2_pos _

theorem ulp_neg (x : ℚ) : ulp (-x) = ulp x := by
  unfold ulp
  rw [ilog2_neg]

theorem round32_zero : round32 0 = 0 := by
  unfold round32
  rw [zero_div]
  have : roundHalfEven 0 = 0 := by
    have := roundHalfEven_intCast 0
    simpa using this
  rw [this]
  simp

/-- Rounding to binary32 is symmetric about zero. -/
theorem round32_neg (x : ℚ) : round32 (-x) = -round32 x := by
  unfold round32
  rw [ulp_neg, neg_div, roundHalfEven_neg]
  push_cast
  ring

/-- A number with at most 24 significant binary digits and an exponent of the
format is a number of the format: rounding leaves it as it is. -/
theorem round32_fixed (k j : Int) (hk : |k| < 2 ^ 24) (hj : -149 ≤ j) :
    round32 ((k : ℚ) * pow2 j) = (k : ℚ) * pow2 j := by
  by_cases hk0 : k = 0
  · rw [hk0]
    simp [round32_zero]
  · have hx : (k : ℚ) * pow2 j ≠ 0 :=
      mul_ne_zero (by exact_mod_cast hk0) (ne_of_gt (pow2_pos j))
    have habs : |(k : ℚ) * pow2 j| < pow2 (j + 24) := by
      rw [abs_mul, abs_of_pos (pow2_pos j), pow2_add, mul_comm]
      apply mul_lt_mul_of_pos_left _ (pow2_pos j)
      have : |(k : ℚ)| < 2 ^ 24 := by exact_mod_cast hk
      rw [pow2_eq]
      have h24 : (2 : ℚ) ^ (24 : Int) = 2 ^ 24 := by norm_num
      rw [h24]
      exact this
    have h1 : ilog2 ((k : ℚ) * pow2 j) < j + 24 := ilog2_lt_of_lt _ _ hx habs
    have h2 : max (ilog2 ((k : ℚ) * pow2 j)) (-126) - 23 ≤ j := by
      have : max (ilog2 ((k : ℚ) * pow2 j)) (-126) ≤ j + 23 := max_le (by omega) (by omega)
      omega
    unfold round32
    unfold ulp
    generalize max (ilog2 ((k : ℚ) * pow2 j)) (-126) - 23 = u at h2
    obtain ⟨n, hn⟩ := Int.eq_ofNat_of_zero_le (sub_nonneg.mpr h2)
    have hj2 : j = u + n := by omega
    have hdiv : (k : ℚ) * pow2 j / pow2 u = ((k * 2 ^ n : Int) : ℚ) := by
      rw [hj2, pow2_add, div_eq_iff (ne_of_gt (pow2_pos u))]
      push_cast
      rw [pow2_eq (n : Int), zpow_natCast]
      ring
    rw [hdiv, roundHalfEven_intCast, ← hdiv]
    field_simp [ne_of_gt (pow2_pos u)]


theorem round32_nonneg (x : ℚ) (h : 0 ≤ x) : 0 ≤ round32 x := by
  unfold round32
  have h1 : (0 : ℚ) ≤ x / ulp x := div_nonneg h (le_of_lt (ulp_pos x))
  have h2 : (0 : Int) ≤ roundHalfEven (x / ulp x) :=
    le_roundHalfEven 0 _ (by simpa using h1)
  have h3 : (0 : ℚ) ≤ (roundHalfEven (x / ulp x) : ℚ) := by exact_mod_cast h2
  exact mul_nonneg h3 (le_of_lt (ulp_pos x))

/-- A number of the format, as a multiple of the spacing around it. -/
theorem fixed_div_ulp (m : ℚ) (hm : round32 m = m) :
    m / ulp m = (roundHalfEven (m / ulp m) : ℚ) := by
  have hu := ulp_pos m
  rw [div_eq_iff (ne_of_gt hu)]
  exact hm.symm

/-- A positive number is rounded to at most the next power of two above it. -/
theorem round32_le_pow2 (x : ℚ) (e : Int) (h0 : 0 < x) (h : x ≤ pow2 e) (he : -126 ≤ e) :
    round32 x ≤ pow2 e := by
  have hx : x ≠ 0 := ne_of_gt h0
  have habs : |x| < pow2 (e + 1) := by
    rw [abs_of_pos h0]
    exact lt_of_le_of_lt h (pow2_lt (by omega))
  have h1 : ilog2 x < e + 1 := ilog2_lt_of_lt x (e + 1) hx habs
  have h2 : max (ilog2 x) (-126) - 23 ≤ e := by
    have : max (ilog2 x) (-126) ≤ e := max_le (by omega) he
    omega
  unfold round32
  unfold ulp
  generalize max (ilog2 x) (-126) - 23 = u at h2
  obtain ⟨n, hn⟩ := Int.eq_ofNat_of_zero_le (sub_nonneg.mpr h2)
  have he2 : e = u + n := by omega
  have hpow : pow2 e = ((2 ^ n : Int) : ℚ) * pow2 u := by
    rw [he2, pow2_add]
    push_cast
    rw [pow2_eq (n : Int), zpow_natCast]
    ring
  have hdiv : x / pow2 u ≤ ((2 ^ n : Int) : ℚ) := by
    rw [div_le_iff₀ (pow2_pos u), ← hpow]
    exact h
  have hr : roundHalfEven (x / pow2 u) ≤ 2 ^ n := roundHalfEven_le _ _ hdiv
  have hr2 : (roundHalfEven (x / pow2 u) : ℚ) ≤ ((2 ^ n : Int) : ℚ) := by exact_mod_cast hr
  rw [hpow]
  exact mul_le_mul_of_nonneg_right hr2 (le_of_lt (pow2_pos u))

/-- A normal positive number is rounded to at least the power of two below it. -/
theorem pow2_le_round32 (x : ℚ) (h0 : 0 < x) (he : -126 ≤ ilog2 x) :
    pow2 (ilog2 x) ≤ round32 x := by
  have hx : x ≠ 0 := ne_of_gt h0
  have h1 : pow2 (ilog2 x) ≤ x := by
    have := (ilog2_spec x hx).1
    rwa [abs_of_pos h0] at this
  unfold round32
  unfold ulp
  rw [max_eq_left he]
  have hpow : pow2 (ilog2 x) = ((2 ^ 23 : Int) : ℚ) * pow2 (ilog2 x - 23) := by
    have : ilog2 x = 23 + (ilog2 x - 23) := by ring
    conv_lhs => rw [this, pow2_add]
    congr 1
  have hdiv : ((2 ^ 23 : Int) : ℚ) ≤ x / pow2 (ilog2 x - 23) := by
    rw [le_div_iff₀ (pow2_pos _), ← hpow]
    exact h1
  have hr : 2 ^ 23 ≤ roundHalfEven (x / pow2 (ilog2 x - 23)) := le_roundHalfEven _ _ hdiv
  have hr2 : ((2 ^ 23 : Int) : ℚ) ≤ (roundHalfEven (x / pow2 (ilog2 x - 23)) : ℚ) := by
    exact_mod_cast hr
  rw [hpow]
  exact mul_le_mul_of_nonneg_right hr2 (le_of_lt (pow2_pos _))

theorem ilog2_le_of_le (x m : ℚ) (h0 : 0 < x) (h : x ≤ m) : ilog2 x ≤ ilog2 m := by
  have hm0 : 0 < m := lt_of_lt_of_le h0 h
  have h1 := (ilog2_spec x (ne_of_gt h0)).1
  have h2 := (ilog2_spec m (ne_of_gt hm0)).2
  rw [abs_of_pos h0] at h1
  rw [abs_of_pos hm0] at h2
  have := pow2_lt_iff.mp (lt_of_le_of_lt (le_trans h1 h) h2)
  omega

/-- Rounding does not carry a positive number above a number of the format
that it is not above. -/
theorem round32_le_fixed_pos (m x : ℚ) (hm : round32 m = m) (h0 : 0 < x) (h : x ≤ m) :
    round32 x ≤ m := by
  have hm0 : 0 < m := lt_of_lt_of_le h0 h
  have hle := ilog2_le_of_le x m h0 h
  by_cases heq : max (ilog2 x) (-126) = max (ilog2 m) (-126)
  · have hu : ulp x = ulp m := by
      unfold ulp
      rw [heq]
    have hdiv := fixed_div_ulp m hm
    have h1 : x / ulp x ≤ (roundHalfEven (m / ulp m) : ℚ) := by
      rw [← hdiv, hu]
      exact div_le_div_of_nonneg_right h (le_of_lt (ulp_pos m))
    have h2 : roundHalfEven (x / ulp x) ≤ roundHalfEven (m / ulp m) :=
      roundHalfEven_le _ _ h1
    have h3 : (roundHalfEven (x / ulp x) : ℚ) ≤ (roundHalfEven (m / ulp m) : ℚ) := by
      exact_mod_cast h2
    calc round32 x = (roundHalfEven (x / ulp x) : ℚ) * ulp x := rfl
      _ ≤ (roundHalfEven (m / ulp m) : ℚ) * ulp x :=
        mul_le_mul_of_nonneg_right h3 (le_of_lt (ulp_pos x))
      _ = round32 m := by rw [hu]; rfl
      _ = m := hm
  · have hlt : max (ilog2 x) (-126) < max (ilog2 m) (-126) := by
      have : max (ilog2 x) (-126) ≤ max (ilog2 m) (-126) := max_le_max hle (le_refl _)
      omega
    have hem : max (ilog2 m) (-126) = ilog2 m := by
      have : -126 ≤ max (ilog2 x) (-126) := le_max_right _ _
      apply max_eq_left
      have h1 : ilog2 m ≤ max (ilog2 m) (-126) := le_max_left _ _
      by_contra hc
      have : max (ilog2 m) (-126) = -126 := max_eq_right (by omega)
      omega
    have hx1 : x ≤ pow2 (max (ilog2 x) (-126) + 1) := by
      have := (ilog2_spec x (ne_of_gt h0)).2
      rw [abs_of_pos h0] at this
      exact le_trans (le_of_lt this) (pow2_le (by have := le_max_left (ilog2 x) (-126); omega))
    have h1 := round32_le_pow2 x (max (ilog2 x) (-126) + 1) h0 hx1
      (by have := le_max_right (ilog2 x) (-126); omega)
    have h2 : pow2 (max (ilog2 x) (-126) + 1) ≤ pow2 (ilog2 m) := pow2_le (by omega)
    have h3 := (ilog2_spec m (ne_of_gt hm0)).1
    rw [abs_of_pos hm0] at h3
    linarith

/-- Rounding does not carry a number below a positive number of the format
that it is not below. -/
theorem fixed_le_round32_pos (m x : ℚ) (hm : round32 m = m) (h0 : 0 < m) (h : m ≤ x) :
    m ≤ round32 x := by
  have hx0 : 0 < x := lt_of_lt_of_le h0 h
  have hle := ilog2_le_of_le m x h0 h
  by_cases heq : max (ilog2 m) (-126) = max (ilog2 x) (-126)
  · have hu : ulp m = ulp x := by
      unfold ulp
      rw [heq]
    have hdiv := fixed_div_ulp m hm
    have h1 : (roundHalfEven (m / ulp m) : ℚ) ≤ x / ulp x := by
      rw [← hdiv, hu]
      exact div_le_div_of_nonneg_right h (le_of_lt (ulp_pos x))
    have h2 : roundHalfEven (m / ulp m) ≤ roundHalfEven (x / ulp x) :=
      le_roundHalfEven _ _ h1
    have h3 : (roundHalfEven (m / ulp m) : ℚ) ≤ (roundHalfEven (x / ulp x) : ℚ) := by
      exact_mod_cast h2
    calc m = round32 m := hm.symm
      _ = (roundHalfEven (m / ulp m) : ℚ) * ulp x := by rw [← hu]; rfl
      _ ≤ (roundHalfEven (x / ulp x) : ℚ) * ulp x :=
        mul_le_mul_of_nonneg_right h3 (le_of_lt (ulp_pos x))
      _ = round32 x := rfl
  · have hlt : max (ilog2 m) (-126) < max (ilog2 x) (-126) := by
      have : max (ilog2 m) (-126) ≤ max (ilog2 x) (-126) := max_le_max hle (le_refl _)
      omega
    have hex : max (ilog2 x) (-126) = ilog2 x := by
      apply max_eq_left
      by_contra hc
      have h1 : max (ilog2 x) (-126) = -126 := max_eq_right (by omega)
      have h2 : -126 ≤ max (ilog2 m) (-126) := le_max_right _ _
      omega
    have hnormal : -126 ≤ ilog2 x := by
      have := le_max_right (ilog2 x) (-126)
      omega
    have h1 := pow2_le_round32 x hx0 hnormal
    have h2 := (ilog2_spec m (ne_of_gt h0)).2
    rw [abs_of_pos h0] at h2
    have h3 : pow2 (ilog2 m + 1) ≤ pow2 (ilog2 x) :=
      pow2_le (by have := le_max_left (ilog2 m) (-126); omega)
    linarith

/-- Rounding does not cross a number of the format, from above. -/
theorem fixed_le_round32 (m x : ℚ) (hm : round32 m = m) (h : m ≤ x) : m ≤ round32 x := by
  rcases lt_trichotomy m 0 with hneg | hzero | hpos
  · by_cases hx : 0 ≤ x
    · exact le_trans (le_of_lt hneg) (round32_nonneg x hx)
    · have hx2 : 0 < -x := by linarith
      have hm2 : round32 (-m) = -m := by rw [round32_neg, hm]
      have := round32_le_fixed_pos (-m) (-x) hm2 hx2 (by linarith)
      rw [round32_neg] at this
      linarith
  · rw [hzero] at h ⊢
    exact round32_nonneg x h
  · exact fixed_le_round32_pos m x hm hpos h

/-- Rounding does not cross a number of the format, from below. -/
theorem round32_le_fixed (m x : ℚ) (hm : round32 m = m) (h : x ≤ m) : round32 x ≤ m := by
  have hm2 : round32 (-m) = -m := by rw [round32_neg, hm]
  have := fixed_le_round32 (-m) (-x) hm2 (by linarith)
  rw [round32_neg] at this
  linarith


/-- The multiplier of the spacing that a number is rounded to has at most 24
binary digits, or is `2 ^ 24`. -/
theorem roundHalfEven_div_ulp_le (x : ℚ) : |roundHalfEven (x / ulp x)| ≤ 2 ^ 24 := by
  by_cases hx : x = 0
  · rw [hx, zero_div]
    have : roundHalfEven 0 = 0 := by
      have := roundHalfEven_intCast 0
      simpa using this
    rw [this]
    norm_num
  · have h1 := (ilog2_spec x hx).2
    have h2 : pow2 (ilog2 x + 1) ≤ ((2 ^ 24 : Int) : ℚ) * ulp x := by
      unfold ulp
      have h3 : ((2 ^ 24 : Int) : ℚ) = pow2 24 := by
        rw [pow2_eq]
        norm_num
      rw [h3, ← pow2_add]
      apply pow2_le
      have := le_max_left (ilog2 x) (-126)
      omega
    have hu := ulp_pos x
    have h4 : |x / ulp x| ≤ ((2 ^ 24 : Int) : ℚ) := by
      rw [abs_div, abs_of_pos hu, div_le_iff₀ hu]
      linarith
    rw [abs_le] at h4 ⊢
    constructor
    · apply le_roundHalfEven
      have := h4.1
      push_cast at this ⊢
      exact this
    · exact roundHalfEven_le _ _ h4.2

/-- Rounding twice is rounding once: a rounded number is a number of the
format. -/
theorem round32_idem (x : ℚ) : round32 (round32 x) = round32 x := by
  have h1 := roundHalfEven_div_ulp_le x
  have hj : -149 ≤ max (ilog2 x) (-126) - 23 := by
    have := le_max_right (ilog2 x) (-126)
    omega
  have hform : round32 x = (roundHalfEven (x / ulp x) : ℚ) * pow2 (max (ilog2 x) (-126) - 23) :=
    rfl
  by_cases h2 : |roundHalfEven (x / ulp x)| < 2 ^ 24
  · rw [hform]
    exact round32_fixed _ _ h2 hj
  · have h3 : |roundHalfEven (x / ulp x)| = 2 ^ 24 := by omega
    have h4 : round32 x =
        ((roundHalfEven (x / ulp x) / 2 : Int) : ℚ) *
          pow2 (max (ilog2 x) (-126) - 23 + 1) := by
      rw [hform, pow2_add]
      have h5 : roundHalfEven (x / ulp x) = 2 * (roundHalfEven (x / ulp x) / 2) := by
        rcases abs_cases (roundHalfEven (x / ulp x)) with ⟨h6, _⟩ | ⟨h6, _⟩ <;> omega
      have h6 : pow2 1 = 2 := by
        rw [pow2_eq]
        norm_num
      conv_lhs => rw [h5]
      push_cast
      rw [h6]
      ring
    rw [h4]
    apply round32_fixed
    · rcases abs_cases (roundHalfEven (x / ulp x)) with ⟨h6, _⟩ | ⟨h6, _⟩ <;>
        rw [abs_lt] <;> omega
    · omega

/-- An integer of at most 24 binary digits is a number of the format. -/
theorem round32_intCast (n : Int) (h : |n| ≤ 2 ^ 24) : round32 (n : ℚ) = (n : ℚ) := by
  have h1 : pow2 0 = 1 := by
    rw [pow2_eq]
    norm_num
  have h2 : pow2 1 = 2 := by
    rw [pow2_eq]
    norm_num
  by_cases h3 : |n| < 2 ^ 24
  · have := round32_fixed n 0 h3 (by norm_num)
    rwa [h1, mul_one] at this
  · have h4 : |n| = 2 ^ 24 := by omega
    have h5 : n = 2 * (n / 2) := by
      rcases abs_cases n with ⟨h6, _⟩ | ⟨h6, _⟩ <;> omega
    have h6 : |n / 2| < 2 ^ 24 := by
      rcases abs_cases n with ⟨h6, _⟩ | ⟨h6, _⟩ <;> rw [abs_lt] <;> omega
    have := round32_fixed (n / 2) 1 h6 (by norm_num)
    have h7 : ((n / 2 : Int) : ℚ) * pow2 1 = (n : ℚ) := by
      rw [h2]
      conv_rhs => rw [h5]
      push_cast
      ring
    rwa [h7] at this

/-- A power of two with an exponent of the format is a number of the format. -/
theorem round32_pow2 (e : Int) (he : -149 ≤ e) : round32 (pow2 e) = pow2 e := by
  have := round32_fixed 1 e (by norm_num) he
  simpa using this

/-- The difference of a number of the format below `2 ^ 24` and a natural
number that is not above it is a number of the format: the subtraction
is exact. -/
theorem round32_sub_intCast (m : ℚ) (c : Int) (hm : round32 m = m) (hc : 0 ≤ c)
    (hcm : (c : ℚ) ≤ m) (h24 : m < 16777216) : round32 (m - c) = m - c := by
  have hm0 : 0 ≤ m := le_trans (by exact_mod_cast hc) hcm
  by_cases hz : m = 0
  · have hc0 : c = 0 := by
      have : (c : ℚ) ≤ 0 := by rw [← hz]; exact hcm
      have : c ≤ 0 := by exact_mod_cast this
      omega
    rw [hz, hc0]
    simp [round32_zero]
  · have hmpos : 0 < m := lt_of_le_of_ne hm0 (Ne.symm hz)
    have hlog : ilog2 m < 24 := by
      apply ilog2_lt_of_lt m 24 hz
      rw [abs_of_pos hmpos, pow2_eq]
      norm_num
      exact h24
    have hu1 : max (ilog2 m) (-126) - 23 ≤ 0 := by
      have : max (ilog2 m) (-126) ≤ 23 := max_le (by omega) (by norm_num)
      omega
    have hu2 : -149 ≤ max (ilog2 m) (-126) - 23 := by
      have := le_max_right (ilog2 m) (-126)
      omega
    have hmform : m = (roundHalfEven (m / ulp m) : ℚ) * pow2 (max (ilog2 m) (-126) - 23) :=
      hm.symm
    have hmlt : m < ((2 ^ 24 : Int) : ℚ) * pow2 (max (ilog2 m) (-126) - 23) := by
      have h1 := (ilog2_spec m hz).2
      rw [abs_of_pos hmpos] at h1
      have h3 : ((2 ^ 24 : Int) : ℚ) = pow2 24 := by
        rw [pow2_eq]
        norm_num
      rw [h3, ← pow2_add]
      apply lt_of_lt_of_le h1
      apply pow2_le
      have := le_max_left (ilog2 m) (-126)
      omega
    generalize roundHalfEven (m / ulp m) = n at hmform
    generalize max (ilog2 m) (-126) - 23 = u at hmform hu1 hu2 hmlt
    obtain ⟨w, hw⟩ := Int.eq_ofNat_of_zero_le (neg_nonneg.mpr hu1)
    have hpw : pow2 u * ((2 ^ w : Int) : ℚ) = 1 := by
      have h1 : ((2 ^ w : Int) : ℚ) = pow2 (w : Int) := by
        rw [pow2_eq, zpow_natCast]
        push_cast
        rfl
      rw [h1, ← pow2_add]
      have : u + (w : Int) = 0 := by omega
      rw [this, pow2_eq]
      norm_num
    have hform : m - (c : ℚ) = ((n - c * 2 ^ w : Int) : ℚ) * pow2 u := by
      push_cast
      rw [sub_mul, ← hmform]
      congr 1
      have : (c : ℚ) * 2 ^ w * pow2 u = (c : ℚ) * (pow2 u * ((2 ^ w : Int) : ℚ)) := by
        push_cast
        ring
      rw [this, hpw, mul_one]
    have hup := pow2_pos u
    have hk0 : (0 : ℚ) ≤ ((n - c * 2 ^ w : Int) : ℚ) := by
      have h1 : 0 ≤ m - (c : ℚ) := by linarith
      rw [hform] at h1
      by_contra hneg
      have := mul_neg_of_neg_of_pos (not_le.mp hneg) hup
      linarith
    have hk1 : ((n - c * 2 ^ w : Int) : ℚ) ≤ (n : ℚ) := by
      have h1 : m - (c : ℚ) ≤ m := by
        have : (0 : ℚ) ≤ (c : ℚ) := by exact_mod_cast hc
        linarith
      rw [hform] at h1
      conv_rhs at h1 => rw [hmform]
      exact le_of_mul_le_mul_right h1 hup
    have hn24 : n < 2 ^ 24 := by
      have h4 : (n : ℚ) * pow2 u < ((2 ^ 24 : Int) : ℚ) * pow2 u := by
        rw [← hmform]
        exact hmlt
      have : (n : ℚ) < ((2 ^ 24 : Int) : ℚ) := lt_of_mul_lt_mul_right h4 (le_of_lt hup)
      exact_mod_cast this
    rw [hform]
    apply round32_fixed _ _ _ hu2
    have h1 : (0 : Int) ≤ n - c * 2 ^ w := by exact_mod_cast hk0
    have h2 : n - c * 2 ^ w ≤ n := by exact_mod_cast hk1
    rw [abs_lt]
    omega


/-! ## Operations on floats -/

theorem float_round_of_lt (x : ℚ) (h : |round32 x| < pow2 128) :
    float.round x = float.finite (round32 x) := by
  unfold float.round
  rw [if_neg (not_le.mpr h)]

/-- Rounding keeps a number within a bound that is a number of the format. -/
theorem round32_abs_le (m x : ℚ) (hm : round32 m = m) (h : |x| ≤ m) : |round32 x| ≤ m := by
  rw [abs_le] at h ⊢
  have hm2 : round32 (-m) = -m := by rw [round32_neg, hm]
  exact ⟨fixed_le_round32 (-m) x hm2 h.1, round32_le_fixed m x hm h.2⟩

theorem float_round_of_le (x : ℚ) (e : Int) (h : |x| ≤ pow2 e) (he1 : -149 ≤ e)
    (he2 : e < 128) : float.round x = float.finite (round32 x) ∧ |round32 x| ≤ pow2 e := by
  have h1 := round32_abs_le (pow2 e) x (round32_pow2 e he1) h
  exact ⟨float_round_of_lt x (lt_of_le_of_lt h1 (pow2_lt he2)), h1⟩

/-- An `int` of at most 24 binary digits is converted to `float` exactly. -/
theorem ofInt_of_abs_le (n : Int) (h : |n| ≤ 2 ^ 24) : ofInt n = float.finite (n : ℚ) := by
  have h1 := round32_intCast n h
  have h2 : |(n : ℚ)| ≤ pow2 24 := by
    rw [pow2_eq]
    have : |(n : ℚ)| ≤ 2 ^ 24 := by exact_mod_cast h
    norm_num
    norm_num at this
    exact this
  have h3 := (float_round_of_le (n : ℚ) 24 h2 (by norm_num) (by norm_num)).1
  unfold ofInt
  rw [h3, h1]

/-- An `int` is converted to a finite `float`. -/
theorem ofInt_of_int (n : Int) (h1 : -2147483648 ≤ n) (h2 : n ≤ 2147483647) :
    ofInt n = float.finite (round32 (n : ℚ)) ∧ |round32 (n : ℚ)| ≤ 2147483648 := by
  have h3 : |(n : ℚ)| ≤ pow2 31 := by
    rw [pow2_eq, abs_le]
    norm_num
    constructor
    · exact_mod_cast h1
    · have : (n : ℚ) ≤ 2147483647 := by exact_mod_cast h2
      linarith
  have h4 := float_round_of_le (n : ℚ) 31 h3 (by norm_num) (by norm_num)
  have h5 : pow2 31 = 2147483648 := by
    rw [pow2_eq]
    norm_num
  rw [h5] at h4
  exact h4

/-- The conversion of an `int` to `float` gives a number of the format. -/
theorem ofInt_isBinary32 (n : Int) : (ofInt n).isBinary32 := by
  unfold ofInt float.round
  split
  · trivial
  · rename_i h
    exact ⟨round32_idem _, not_le.mp h⟩

/-- The result of an arithmetic operation is a number of the format. -/
theorem float_round_isBinary32 (x : ℚ) : (float.round x).isBinary32 := by
  unfold float.round
  split
  · trivial
  · rename_i h
    exact ⟨round32_idem _, not_le.mp h⟩

theorem trunc_intCast (n : Int) : trunc (n : ℚ) = n := by
  unfold trunc
  split <;> simp

theorem le_trunc (n : Int) (x : ℚ) (h : (n : ℚ) ≤ x) : n ≤ trunc x := by
  unfold trunc
  split
  · exact Int.le_floor.mpr h
  · have : (n : ℚ) ≤ (⌈x⌉ : ℚ) := le_trans h (Int.le_ceil x)
    exact_mod_cast this

theorem toInt_some {x : float} {n : Int} (h : toInt x = some n) :
    ∃ m, x = float.finite m ∧ n = trunc m ∧ -2147483648 ≤ n ∧ n ≤ 2147483647 := by
  cases x with
  | finite m =>
    simp only [toInt] at h
    split at h
    · rename_i hr
      have := Option.some.inj h
      exact ⟨m, rfl, this.symm, by omega, by omega⟩
    · cases h
  | inf negative => simp [toInt] at h
  | nan => simp [toInt] at h

end MWMechanics

namespace MWMechanics

/-! ## `getProjectileInfo` -/

theorem loop_skip (find : Int → Except String MagicEffect) (pre rest : List ENAMstruct)
    (model sound : String) (speed : float)
    (h : ∀ x ∈ pre, x.mRange ≠ RangeType.RT_Target) :
    getProjectileInfoLoop find (pre ++ rest) model sound speed =
      getProjectileInfoLoop find rest model sound speed := by
  induction pre with
  | nil => rfl
  | cons x pre ih =>
    have hx := h x (List.mem_cons_self _ _)
    simp only [List.cons_append, getProjectileInfoLoop, hx, ne_eq, not_false_eq_true, if_true]
    exact ih (fun y hy => h y (List.mem_cons_of_mem _ hy))

theorem loop_value (find : Int → Except String MagicEffect) (l : List ENAMstruct)
    (model sound : String) (speed : float) (model2 sound2 : String) (speed2 : float)
    (h : getProjectileInfoLoop find l model sound speed =
      Result.value (model2, sound2, speed2)) :
    model2 ≠ "" ↔ (model ≠ "" ∨ ∃ e ∈ l, e.mRange = RangeType.RT_Target) := by
  induction l with
  | nil =>
    simp only [getProjectileInfoLoop, Result.value.injEq, Prod.mk.injEq] at h
    rw [← h.1]
    simp
  | cons x rest ih =>
    by_cases hx : x.mRange = RangeType.RT_Target
    · have hex : ∃ e ∈ x :: rest, e.mRange = RangeType.RT_Target :=
        ⟨x, List.mem_cons_self _ _, hx⟩
      simp only [getProjectileInfoLoop, hx, ne_eq, not_true_eq_false, if_false] at h
      have hne : model2 ≠ "" := by
        cases hf : find x.mEffectID with
        | error what => rw [hf] at h; simp at h
        | ok magicEffect =>
          rw [hf] at h
          simp only at h
          have hm : (if magicEffect.mBolt = "" then "VFX_DefaultBolt" else magicEffect.mBolt)
              ≠ "" := by
            by_cases hb : magicEffect.mBolt = ""
            · rw [if_pos hb]; decide
            · rw [if_neg hb]; exact hb
          by_cases hs : magicEffect.mBoltSound = ""
          · simp only [hs, ne_eq, not_true_eq_false, if_false] at h
            cases hsc : schoolsAt magicEffect.mData.mSchool with
            | none => rw [hsc] at h; simp at h
            | some school =>
              rw [hsc] at h
              simp only [Result.value.injEq, Prod.mk.injEq] at h
              rw [← h.1]
              exact hm
          · simp only [hs, ne_eq, not_false_eq_true, if_true, Result.value.injEq,
              Prod.mk.injEq] at h
            rw [← h.1]
            exact hm
      exact ⟨fun _ => Or.inr hex, fun _ => hne⟩
    · simp only [getProjectileInfoLoop, hx, ne_eq, not_false_eq_true, if_true] at h
      rw [ih h]
      constructor
      · rintro (hm | ⟨e, he, hr⟩)
        · exact Or.inl hm
        · exact Or.inr ⟨e, List.mem_cons_of_mem _ he, hr⟩
      · rintro (hm | ⟨e, he, hr⟩)
        · exact Or.inl hm
        · rcases List.mem_cons.mp he with he | he
          · rw [he] at hr
            exact absurd hr hx
          · exact Or.inr ⟨e, he, hr⟩

/-- Claim C22: `getProjectileInfo` called with an empty `model`.  With no
effect of range `RT_Target` in the list it returns and changes nothing.
With such an effect, and the first of them in list order known to the
store, model, sound and speed are taken from the magic effect of that
first one: the model is its bolt model, or `VFX_DefaultBolt` when it has
none, the sound is its bolt sound, or the name of its school followed by
` bolt` when it has none, the speed is its speed; the model is then not
empty.  Hence whenever the call returns, the model is non-empty afterwards
if and only if the list contains an effect of range `RT_Target`. -/
theorem C22_getProjectileInfo_first_target_effect (find : Int → Except String MagicEffect)
    (effects : EffectList) (sound : String) (speed : float) :
    ((∀ e ∈ effects.mList, e.mRange ≠ RangeType.RT_Target) →
      getProjectileInfo find effects "" sound speed = Result.value ("", sound, speed)) ∧
    (∀ (pre post : List ENAMstruct) (e : ENAMstruct) (m : MagicEffect),
      effects.mList = pre ++ e :: post →
      (∀ x ∈ pre, x.mRange ≠ RangeType.RT_Target) →
      e.mRange = RangeType.RT_Target →
      find e.mEffectID = Except.ok m →
      (m.mBoltSound ≠ "" →
        getProjectileInfo find effects "" sound speed =
          Result.value (if m.mBolt = "" then "VFX_DefaultBolt" else m.mBolt, m.mBoltSound,
            m.mData.mSpeed)) ∧
      (m.mBoltSound = "" → ∀ school, schoolsAt m.mData.mSchool = some school →
        getProjectileInfo find effects "" sound speed =
          Result.value (if m.mBolt = "" then "VFX_DefaultBolt" else m.mBolt,
            school ++ " bolt", m.mData.mSpeed)) ∧
      (if m.mBolt = "" then "VFX_DefaultBolt" else m.mBolt) ≠ "") ∧
    (∀ (model2 sound2 : String) (speed2 : float),
      getProjectileInfo find effects "" sound speed = Result.value (model2, sound2, speed2) →
      (model2 ≠ "" ↔ ∃ e ∈ effects.mList, e.mRange = RangeType.RT_Target)) := by
  refine ⟨?_, ?_, ?_⟩
  · intro h
    have := loop_skip find effects.mList [] "" sound speed h
    rw [List.append_nil] at this
    exact this
  · intro pre post e m hl hpre he hf
    have hstep : getProjectileInfo find effects "" sound speed =
        getProjectileInfoLoop find (e :: post) "" sound speed := by
      unfold getProjectileInfo
      rw [hl]
      exact loop_skip find pre (e :: post) "" sound speed hpre
    refine ⟨?_, ?_, ?_⟩
    · intro hs
      rw [hstep]
      simp [getProjectileInfoLoop, he, hf, hs]
    · intro hs school hsc
      rw [hstep]
      simp [getProjectileInfoLoop, he, hf, hs, hsc]
    · by_cases hb : m.mBolt = ""
      · rw [if_pos hb]; decide
      · rw [if_neg hb]; exact hb
  · intro model2 sound2 speed2 h
    have := loop_value find effects.mList "" sound speed model2 sound2 speed2 h
    rw [this]
    simp

/-- Claim C22 on the effects of `exampleEnchantment`: the first effect has
range `RT_Self`, the second, effect 14, has range `RT_Target` and gives the
model, the sound and the speed. -/
theorem C22_getProjectileInfo_first_target_effect_witness :
    getProjectileInfo exampleMagicEffects exampleEnchantment.mEffects "" "" (float.finite 0) =
      Result.value
        (if ("VFX_FireBolt" : String) = "" then "VFX_DefaultBolt" else "VFX_FireBolt",
          "fire bolt sound", float.finite (3 / 2)) ∧
    getProjectileInfo exampleMagicEffects
        { mList := [{ mEffectID := 23, mRange := RangeType.RT_Target }] } "" ""
        (float.finite 0) =
      Result.value
        (if ("" : String) = "" then "VFX_DefaultBolt" else "", "destruction" ++ " bolt",
          float.finite 1) ∧
    getProjectileInfo exampleMagicEffects
        { mList := [{ mEffectID := 23, mRange := RangeType.RT_Touch }] } "" ""
        (float.finite 0) =
      Result.value ("", "", float.finite 0) :=
  ⟨((C22_getProjectileInfo_first_target_effect exampleMagicEffects
      exampleEnchantment.mEffects "" (float.finite 0)).2.1
      [{ mEffectID := 23, mRange := RangeType.RT_Self }] []
      { mEffectID := 14, mRange := RangeType.RT_Target }
      { mData := { mSchool := 2, mSpeed := float.finite (3 / 2) }, mBolt := "VFX_FireBolt",
        mBoltSound := "fire bolt sound" }
      rfl (by decide) rfl rfl).1 (by decide),
    ((C22_getProjectileInfo_first_target_effect exampleMagicEffects
      { mList := [{ mEffectID := 23, mRange := RangeType.RT_Target }] } ""
      (float.finite 0)).2.1
      [] [] { mEffectID := 23, mRange := RangeType.RT_Target }
      { mData := { mSchool := 2, mSpeed := float.finite 1 }, mBolt := "", mBoltSound := "" }
      rfl (by decide) rfl rfl).2.1 rfl "destruction" (by decide),
    (C22_getProjectileInfo_first_target_effect exampleMagicEffects
      { mList := [{ mEffectID := 23, mRange := RangeType.RT_Touch }] } ""
      (float.finite 0)).1 (by decide)⟩

/-! ## The Lock effect -/

theorem ofInt_one : ofInt 1 = float.finite 1 := by
  have := ofInt_of_abs_le 1 (by norm_num)
  simpa using this

/-- What `getEffectiveEnchantmentCastCost` converts to `int` at its end. -/
theorem toInt_at_least_one (result : float) (cost : Int)
    (h : toInt (if result.lt (ofInt 1) then ofInt 1 else result) = some cost) :
    1 ≤ cost ∧ cost ≤ 2147483647 := by
  obtain ⟨m, hm, hc, _, hmax⟩ := toInt_some h
  refine ⟨?_, hmax⟩
  by_cases hlt : result.lt (ofInt 1) = true
  · rw [if_pos hlt, ofInt_one] at hm
    have : m = 1 := (float.finite.inj hm).symm
    rw [hc, this]
    have h1 : trunc 1 = 1 := by
      have := trunc_intCast 1
      simpa using this
    rw [h1]
  · rw [if_neg hlt] at hm
    rw [hm, ofInt_one] at hlt
    simp only [float.lt, decide_eq_true_eq, not_lt] at hlt
    rw [hc]
    exact le_trunc 1 m (by simpa using hlt)

/-- The effective cast cost, when the call returns, is an `int` not below 1;
the call does not throw. -/
theorem getEffectiveEnchantmentCastCost_facts (w : World) (castCost : float) (actor : Ptr) :
    (∀ cost, getEffectiveEnchantmentCastCost w castCost actor = Result.value cost →
      1 ≤ cost ∧ cost ≤ 2147483647) ∧
    (∀ what, getEffectiveEnchantmentCastCost w castCost actor ≠ Result.thrown what) := by
  unfold getEffectiveEnchantmentCastCost
  simp only
  split
  · exact ⟨fun cost h => (by cases h), fun what h => (by cases h)⟩
  · split
    · exact ⟨fun cost h => (by cases h), fun what h => (by cases h)⟩
    · rename_i cost0 hcost
      refine ⟨fun cost h => ?_, fun what h => (by cases h)⟩
      have : cost0 = cost := Result.value.inj h
      rw [← this]
      exact toInt_at_least_one _ _ hcost

/-- The charge that `cast` checks is a number of the binary32 format when the
charge of the item is. -/
theorem initialCharge_isBinary32 (enchantment : Enchantment) (item : Ptr)
    (h : item.enchantmentCharge.isBinary32) : (initialCharge enchantment item).isBinary32 := by
  unfold initialCharge
  split
  · exact ofInt_isBinary32 _
  · exact h

/-- The comparison of a finite charge with the cast cost and the subtraction
of the cast cost from it, in numbers. -/
theorem charge_numbers (q : ℚ) (castCost : Int) (hq : round32 q = q) (hb : |q| < pow2 128)
    (h1 : 1 ≤ castCost) (h2 : castCost ≤ 2147483647) :
    ((float.finite q).lt (ofInt castCost) = true ↔ q < round32 (castCost : ℚ)) ∧
    (¬ q < round32 (castCost : ℚ) →
      (float.finite q).sub (ofInt castCost) =
        float.finite (round32 (q - round32 (castCost : ℚ))) ∧
      0 ≤ round32 (q - round32 (castCost : ℚ)) ∧
      round32 (q - round32 (castCost : ℚ)) ≤ q) ∧
    (q < 16777216 →
      ((float.finite q).lt (ofInt castCost) = true ↔ q < (castCost : ℚ)) ∧
      (¬ q < (castCost : ℚ) →
        (float.finite q).sub (ofInt castCost) = float.finite (q - (castCost : ℚ)) ∧
        0 ≤ q - (castCost : ℚ))) := by
  obtain ⟨hof, _⟩ := ofInt_of_int castCost (by omega) h2
  have hone : round32 1 = 1 := by
    have := round32_intCast 1 (by norm_num)
    simpa using this
  have hfc : 1 ≤ round32 (castCost : ℚ) :=
    fixed_le_round32 1 _ hone (by exact_mod_cast h1)
  have hsub : ∀ x : ℚ, 0 ≤ x → x ≤ q → float.round x = float.finite (round32 x) ∧
      0 ≤ round32 x ∧ round32 x ≤ q := by
    intro x hx0 hxq
    have h3 : |round32 x| ≤ q := round32_abs_le q x hq (by rw [abs_of_nonneg hx0]; exact hxq)
    have hq0 : 0 ≤ q := le_trans hx0 hxq
    rw [abs_of_nonneg hq0] at hb
    exact ⟨float_round_of_lt x (lt_of_le_of_lt h3 hb), round32_nonneg x hx0,
      (abs_le.mp h3).2⟩
  refine ⟨?_, ?_, ?_⟩
  · rw [hof]
    simp [float.lt]
  · intro hge
    rw [hof]
    simp only [float.sub]
    exact hsub _ (by linarith [not_lt.mp hge]) (by linarith)
  · intro h24
    by_cases hc : castCost ≤ 16777216
    · have hex : ofInt castCost = float.finite (castCost : ℚ) :=
        ofInt_of_abs_le castCost (by rw [abs_le]; omega)
      refine ⟨by rw [hex]; simp [float.lt], ?_⟩
      intro hge
      have hcq : (castCost : ℚ) ≤ q := not_lt.mp hge
      have hex2 := round32_sub_intCast q castCost hq (by omega) hcq h24
      have hc0 : (0 : ℚ) ≤ (castCost : ℚ) := by exact_mod_cast (by omega : (0 : Int) ≤ castCost)
      have := (hsub (q - (castCost : ℚ)) (by linarith) (by linarith)).1
      rw [hex]
      simp only [float.sub]
      rw [this, hex2]
      exact ⟨rfl, by linarith⟩
    · have hbig : (16777216 : ℚ) ≤ round32 (castCost : ℚ) := by
        have h224 : round32 (16777216 : ℚ) = 16777216 := by
          have := round32_intCast 16777216 (by norm_num)
          simpa using this
        apply fixed_le_round32 _ _ h224
        have : (16777216 : Int) ≤ castCost := by omega
        exact_mod_cast this
      have hq1 : q < round32 (castCost : ℚ) := lt_of_lt_of_le h24 hbig
      have hq2 : q < (castCost : ℚ) := by
        have : (16777216 : ℚ) ≤ (castCost : ℚ) := by
          have : (16777216 : Int) ≤ castCost := by omega
          exact_mod_cast this
        linarith
      refine ⟨?_, fun hge => absurd hq2 hge⟩
      rw [hof]
      simp [float.lt, hq1, hq2]

/-- The failure branch of `cast` makes no call that brings an effect about and
does not return true. -/
theorem failureSound_facts (w : World) (c : CastSpell) (enchantment : Enchantment)
    (calls : List Call) :
    (∃ new, (c.failureSound w enchantment calls).2 = calls ++ new ∧
      ∀ x ∈ new, x.isEffect = false) ∧
    (c.failureSound w enchantment calls).1 ≠ Result.value true ∧
    (FailureSoundPlayable w enchantment →
      (c.failureSound w enchantment calls).1 = Result.value false) := by
  unfold CastSpell.failureSound
  cases hl : enchantment.mEffects.mList with
  | nil =>
    refine ⟨⟨[Call.playSound3D c.mCaster.object ("Spell Failure " ++ "alteration")], rfl, ?_⟩,
      by simp [schoolsAt, schools], fun _ => rfl⟩
    intro x hx
    rw [List.mem_singleton.mp hx]
    rfl
  | cons front rest =>
    cases hf : w.findMagicEffect front.mEffectID with
    | error what =>
      refine ⟨⟨[], by simp [hf], fun x hx => by cases hx⟩, by simp [hf], ?_⟩
      rintro (h | ⟨f2, r2, m, name, h1, h2, _⟩)
      · rw [hl] at h; cases h
      · rw [hl] at h1
        cases h1
        rw [hf] at h2
        cases h2
    | ok magicEffect =>
      cases hs : schoolsAt magicEffect.mData.mSchool with
      | none =>
        refine ⟨⟨[], by simp [hf, hs], fun x hx => by cases hx⟩, by simp [hf, hs], ?_⟩
        rintro (h | ⟨f2, r2, m, name, h1, h2, h3⟩)
        · rw [hl] at h; cases h
        · rw [hl] at h1
          cases h1
          rw [hf] at h2
          cases h2
          rw [hs] at h3
          cases h3
      | some name =>
        refine ⟨⟨[Call.playSound3D c.mCaster.object ("Spell Failure " ++ name)],
          by simp [hf, hs], ?_⟩, by simp [hf, hs], fun _ => by simp [hf, hs]⟩
        intro x hx
        rw [List.mem_singleton.mp hx]
        rfl

/-- After the check of the charge `cast` inflicts the effects on the caster,
and returns true unless `getProjectileInfo` throws or has no defined
behaviour. -/
theorem castEffects_facts (w : World) (c : CastSpell) (enchantment : Enchantment) (item : Ptr)
    (calls : List Call) :
    (c.castEffects w enchantment item calls).1 ≠ Result.value false ∧
    Call.inflict c.mCaster.object c.mCaster.object enchantment.mEffects RangeType.RT_Self ∈
      (c.castEffects w enchantment item calls).2 ∧
    (∀ r,
      getProjectileInfo w.findMagicEffect enchantment.mEffects "" "" (float.finite 0) =
        Result.value r →
      (c.castEffects w enchantment item calls).1 = Result.value true) := by
  unfold CastSpell.castEffects
  simp only
  cases hg : getProjectileInfo w.findMagicEffect enchantment.mEffects "" "" (float.finite 0) with
  | thrown what =>
    refine ⟨by simp, ?_, fun r hr => by cases hr⟩
    simp only
    split <;> simp
  | undefined =>
    refine ⟨by simp, ?_, fun r hr => by cases hr⟩
    simp only
    split <;> simp
  | value r =>
    obtain ⟨projectileModel, sound, speed⟩ := r
    simp only
    by_cases hm : projectileModel = ""
    · simp only [hm, ne_eq, not_true_eq_false, if_false]
      refine ⟨by simp, ?_, fun _ _ => trivial⟩
      split <;> simp
    · simp only [hm, ne_eq, not_false_eq_true, if_true]
      refine ⟨by simp, ?_, fun _ _ => trivial⟩
      split <;> simp

/-- The check of the charge, for an enchantment cast when used or when
striking.  Without a defined cast cost the call has no defined behaviour.
With the cast cost `castCost`: when the charge is below it, the call ends
in the failure branch with the item at its initial charge; otherwise it
goes on with the charge reduced by the cost, in floats. -/
theorem checkCharge_eq (w : World) (c : CastSpell) (enchantment : Enchantment) (item : Ptr)
    (calls : List Call)
    (htype : enchantment.mData.mType = EnchantmentType.WhenUsed ∨
      enchantment.mData.mType = EnchantmentType.WhenStrikes) :
    (effectiveCastCost w c enchantment = Result.undefined →
      c.checkCharge w enchantment item calls = (some Result.undefined, item, calls)) ∧
    (∀ castCost, effectiveCastCost w c enchantment = Result.value castCost →
      ((initialCharge enchantment item).lt (ofInt castCost) = true →
        ∃ calls1, (∃ new, calls1 = calls ++ new ∧ ∀ x ∈ new, x.isEffect = false) ∧
          c.checkCharge w enchantment item calls =
            (some (c.failureSound w enchantment calls1).1,
              { item with enchantmentCharge := initialCharge enchantment item },
              (c.failureSound w enchantment calls1).2)) ∧
      ((initialCharge enchantment item).lt (ofInt castCost) = false →
        c.checkCharge w enchantment item calls =
          (none,
            { item with
              enchantmentCharge := (initialCharge enchantment item).sub (ofInt castCost) },
            calls))) := by
  unfold effectiveCastCost
  have hitem : (if item.enchantmentCharge.eq (ofInt (-1)) = true then
        { item with enchantmentCharge := ofInt enchantment.mData.mCharge }
      else item) = { item with enchantmentCharge := initialCharge enchantment item } := by
    unfold initialCharge
    by_cases h : item.enchantmentCharge.eq (ofInt (-1)) = true
    · simp only [h, if_true]
    · rw [if_neg h, if_neg h]
  refine ⟨?_, ?_⟩
  · intro hcost
    unfold CastSpell.checkCharge
    simp only [htype, if_true, hcost]
  · intro castCost hcost
    refine ⟨?_, ?_⟩
    · intro hlt
      by_cases hp : c.mCaster.object = w.getPlayer.object
      · refine ⟨calls ++ [Call.messageBox "#{sMagicInsufficientCharge}"],
          ⟨_, rfl, fun x hx => by rw [List.mem_singleton.mp hx]; rfl⟩, ?_⟩
        unfold CastSpell.checkCharge
        simp only [htype, if_true, hcost, hitem]
        rw [if_pos hlt, if_pos hp]
      · refine ⟨calls, ⟨[], by simp, fun x hx => by cases hx⟩, ?_⟩
        unfold CastSpell.checkCharge
        simp only [htype, if_true, hcost, hitem]
        rw [if_pos hlt, if_neg hp]
    · intro hge
      unfold CastSpell.checkCharge
      simp only [htype, if_true, hcost, hitem]
      rw [if_neg (by simp [hge])]

/-- What `cast` does once the enchantment is found: the check of the charge,
and the effects when the check lets it go on. -/
theorem cast_eq (w : World) (c : CastSpell) (item : Ptr) (calls : List Call)
    (enchantment : Enchantment) (hname : item.enchantment ≠ "")
    (hfind : w.findEnchantment item.enchantment = Except.ok enchantment) :
    c.cast w item calls =
      match CastSpell.checkCharge w
        { c with
          mSourceName := item.name
          mId := item.refId
          mStack := decide (enchantment.mData.mType = EnchantmentType.CastOnce) }
        enchantment item calls with
      | (some result, item1, calls1) =>
        (result,
          { c with
            mSourceName := item.name
            mId := item.refId
            mStack := decide (enchantment.mData.mType = EnchantmentType.CastOnce) },
          item1, calls1)
      | (none, item1, calls1) =>
        ((CastSpell.castEffects w
            { c with
              mSourceName := item.name
              mId := item.refId
              mStack := decide (enchantment.mData.mType = EnchantmentType.CastOnce) }
            enchantment item1 calls1).1,
          { c with
            mSourceName := item.name
            mId := item.refId
            mStack := decide (enchantment.mData.mType = EnchantmentType.CastOnce) },
          item1,
          (CastSpell.castEffects w
            { c with
              mSourceName := item.name
              mId := item.refId
              mStack := decide (enchantment.mData.mType = EnchantmentType.CastOnce) }
            enchantment item1 calls1).2) := by
  simp [CastSpell.cast, hname, hfind]

/-- Claim C23, amended: `CastSpell::cast(item)` for an item whose
enchantment is cast when used or when striking and whose charge is a number
of the binary32 format.  The charge it checks is the full charge of the
enchantment, converted to `float`, when the charge of the item was unset
(-1), the charge of the item otherwise.  The effective cast cost is at
least 1.  When the charge is below the cast cost, compared as floats, the
item is left with it, no call that brings an effect about is made, the cast
does not return true, and it returns false whenever the failure sound can
be played.  Otherwise the charge becomes the difference of the charge and
the cast cost in floats, the effects are inflicted on the caster, and the
cast returns true whenever `getProjectileInfo` returns.  In numbers, for a
finite charge `q`: the new charge is `q` less the cast cost, rounded to
binary32, and lies between 0 and `q`; for `q` below `2 ^ 24` the
comparison is that of `q` with the cast cost itself, and the new charge is
`q` less the cast cost exactly.  (Where the effective cast cost has no
defined value, neither has the cast.) -/
theorem C23_cast_checks_charge (w : World) (c : CastSpell) (item : Ptr) (calls : List Call)
    (enchantment : Enchantment) (hname : item.enchantment ≠ "")
    (hfind : w.findEnchantment item.enchantment = Except.ok enchantment)
    (htype : enchantment.mData.mType = EnchantmentType.WhenUsed ∨
      enchantment.mData.mType = EnchantmentType.WhenStrikes)
    (hcharge : item.enchantmentCharge.isBinary32) :
    (effectiveCastCost w c enchantment = Result.undefined →
      (c.cast w item calls).1 = Result.undefined) ∧
    (∀ castCost, effectiveCastCost w c enchantment = Result.value castCost →
      1 ≤ castCost ∧
      ((initialCharge enchantment item).lt (ofInt castCost) = true →
        (c.cast w item calls).2.2.1.enchantmentCharge = initialCharge enchantment item ∧
        (∃ new, (c.cast w item calls).2.2.2 = calls ++ new ∧
          ∀ x ∈ new, x.isEffect = false) ∧
        (c.cast w item calls).1 ≠ Result.value true ∧
        (FailureSoundPlayable w enchantment →
          (c.cast w item calls).1 = Result.value false)) ∧
      ((initialCharge enchantment item).lt (ofInt castCost) = false →
        (c.cast w item calls).2.2.1.enchantmentCharge =
          (initialCharge enchantment item).sub (ofInt castCost) ∧
        (c.cast w item calls).1 ≠ Result.value false ∧
        Call.inflict c.mCaster.object c.mCaster.object enchantment.mEffects RangeType.RT_Self ∈
          (c.cast w item calls).2.2.2 ∧
        (∀ r, getProjectileInfo w.findMagicEffect enchantment.mEffects "" "" (float.finite 0) =
            Result.value r →
          (c.cast w item calls).1 = Result.value true)) ∧
      (∀ q, initialCharge enchantment item = float.finite q →
        ((initialCharge enchantment item).lt (ofInt castCost) = true ↔
          q < round32 (castCost : ℚ)) ∧
        (¬ q < round32 (castCost : ℚ) →
          (c.cast w item calls).2.2.1.enchantmentCharge =
            float.finite (round32 (q - round32 (castCost : ℚ))) ∧
          0 ≤ round32 (q - round32 (castCost : ℚ)) ∧
          round32 (q - round32 (castCost : ℚ)) ≤ q) ∧
        (q < 16777216 →
          ((initialCharge enchantment item).lt (ofInt castCost) = true ↔
            q < (castCost : ℚ)) ∧
          (¬ q < (castCost : ℚ) →
            (c.cast w item calls).2.2.1.enchantmentCharge =
              float.finite (q - (castCost : ℚ)) ∧
            0 ≤ q - (castCost : ℚ))))) := by
  have hcast := cast_eq w c item calls enchantment hname hfind
  obtain ⟨hundef, hvalue⟩ := checkCharge_eq w
    { c with
      mSourceName := item.name
      mId := item.refId
      mStack := decide (enchantment.mData.mType = EnchantmentType.CastOnce) }
    enchantment item calls htype
  have hsame : effectiveCastCost w
      { c with
        mSourceName := item.name
        mId := item.refId
        mStack := decide (enchantment.mData.mType = EnchantmentType.CastOnce) }
      enchantment = effectiveCastCost w c enchantment := rfl
  rw [hsame] at hundef hvalue
  refine ⟨?_, ?_⟩
  · intro hcost
    rw [hcast, hundef hcost]
  · intro castCost hcost
    obtain ⟨hlow, hhigh⟩ := hvalue castCost hcost
    obtain ⟨hone, hmax⟩ :=
      (getEffectiveEnchantmentCastCost_facts w _ c.mCaster).1 castCost hcost
    have hafter : (initialCharge enchantment item).lt (ofInt castCost) = false →
        (c.cast w item calls).2.2.1.enchantmentCharge =
          (initialCharge enchantment item).sub (ofInt castCost) := by
      intro hge
      rw [hcast, hhigh hge]
    refine ⟨hone, ?_, ?_, ?_⟩
    · intro hlt
      obtain ⟨calls1, ⟨new, hnew, hnoeff⟩, heq⟩ := hlow hlt
      obtain ⟨⟨new2, hnew2, hnoeff2⟩, hnt, hfalse⟩ := failureSound_facts w
        { c with
          mSourceName := item.name
          mId := item.refId
          mStack := decide (enchantment.mData.mType = EnchantmentType.CastOnce) }
        enchantment calls1
      rw [hcast, heq]
      refine ⟨rfl, ⟨new ++ new2, ?_, ?_⟩, hnt, hfalse⟩
      · show (CastSpell.failureSound w _ enchantment calls1).2 = _
        rw [hnew2, hnew, List.append_assoc]
      · intro x hx
        rcases List.mem_append.mp hx with hx | hx
        · exact hnoeff x hx
        · exact hnoeff2 x hx
    · intro hge
      obtain ⟨h1, h2, h3⟩ := castEffects_facts w
        { c with
          mSourceName := item.name
          mId := item.refId
          mStack := decide (enchantment.mData.mType = EnchantmentType.CastOnce) }
        enchantment
        { item with
          enchantmentCharge := (initialCharge enchantment item).sub (ofInt castCost) }
        calls
      refine ⟨hafter hge, ?_, ?_, ?_⟩
      · rw [hcast, hhigh hge]
        exact h1
      · rw [hcast, hhigh hge]
        exact h2
      · rw [hcast, hhigh hge]
        exact h3
    · intro q hq
      have hvalid := initialCharge_isBinary32 enchantment item hcharge
      rw [hq] at hvalid
      obtain ⟨n1, n2, n3⟩ := charge_numbers q castCost hvalid.1 hvalid.2 hone hmax
      rw [hq] at hafter
      rw [hq]
      refine ⟨n1, ?_, ?_⟩
      · intro hge
        have hlt : (float.finite q).lt (ofInt castCost) = false := by
          rw [Bool.eq_false_iff]
          exact fun h => hge (n1.mp h)
        rw [hafter hlt]
        exact n2 hge
      · intro h24
        refine ⟨(n3 h24).1, ?_⟩
        intro hge
        have hlt : (float.finite q).lt (ofInt castCost) = false := by
          rw [Bool.eq_false_iff]
          exact fun h => hge ((n3 h24).1.mp h)
        rw [hafter hlt]
        exact (n3 h24).2 hge

/-- Claim C23 (amended) in the example world, where the cast cost of the ring
is 5.  With charge 3 the cast returns false, the ring keeps its charge and
only the message and the failure sound are recorded.  With the charge
unset the full charge 20 is taken, the cast returns true and the ring is
left with charge 15. -/
theorem C23_cast_checks_charge_witness :
    ((exampleRing (float.finite 3)).enchantment ≠ "" ∧
      exampleWorld.findEnchantment (exampleRing (float.finite 3)).enchantment =
        Except.ok exampleEnchantment ∧
      (exampleEnchantment.mData.mType = EnchantmentType.WhenUsed ∨
        exampleEnchantment.mData.mType = EnchantmentType.WhenStrikes) ∧
      (exampleRing (float.finite 3)).enchantmentCharge.isBinary32 ∧
      (exampleRing (float.finite (-1))).enchantmentCharge.isBinary32 ∧
      effectiveCastCost exampleWorld exampleCast exampleEnchantment = Result.value 5 ∧
      initialCharge exampleEnchantment (exampleRing (float.finite 3)) = float.finite 3 ∧
      initialCharge exampleEnchantment (exampleRing (float.finite (-1))) = float.finite 20 ∧
      FailureSoundPlayable exampleWorld exampleEnchantment) ∧
    ((exampleCast.cast exampleWorld (exampleRing (float.finite 3)) []).2.2.1.enchantmentCharge =
        initialCharge exampleEnchantment (exampleRing (float.finite 3)) ∧
      (exampleCast.cast exampleWorld (exampleRing (float.finite 3)) []).1 =
        Result.value false ∧
      (exampleCast.cast exampleWorld (exampleRing (float.finite 3)) []).2.2.2 =
        [Call.messageBox "#{sMagicInsufficientCharge}",
          Call.playSound3D (some 1) "Spell Failure destruction"]) ∧
    ((exampleCast.cast exampleWorld (exampleRing (float.finite (-1))) []).2.2.1.enchantmentCharge
        = float.finite (20 - ((5 : Int) : ℚ)) ∧
      (0 : ℚ) ≤ 20 - ((5 : Int) : ℚ) ∧
      (exampleCast.cast exampleWorld (exampleRing (float.finite (-1))) []).1 =
        Result.value true) :=
  ⟨⟨by decide!, rfl, Or.inl rfl, ⟨by decide!, by decide!⟩, ⟨by decide!, by decide!⟩,
      by decide!, by decide!, by decide!,
      Or.inr ⟨_, _, _, "destruction", rfl, rfl, by decide!⟩⟩,
    ⟨((((C23_cast_checks_charge exampleWorld exampleCast (exampleRing (float.finite 3)) []
        exampleEnchantment (by decide!) rfl (Or.inl rfl) ⟨by decide!, by decide!⟩).2 5
        (by decide!)).2.1) (by decide!)).1,
      ((((C23_cast_checks_charge exampleWorld exampleCast (exampleRing (float.finite 3)) []
        exampleEnchantment (by decide!) rfl (Or.inl rfl) ⟨by decide!, by decide!⟩).2 5
        (by decide!)).2.1) (by decide!)).2.2.2
        (Or.inr ⟨_, _, _, "destruction", rfl, rfl, by decide!⟩),
      by decide!⟩,
    ⟨(((((C23_cast_checks_charge exampleWorld exampleCast (exampleRing (float.finite (-1))) []
        exampleEnchantment (by decide!) rfl (Or.inl rfl) ⟨by decide!, by decide!⟩).2 5
        (by decide!)).2.2.2 20 (by decide!)).2.2 (by decide!)).2 (by decide!)).1,
      (((((C23_cast_checks_charge exampleWorld exampleCast (exampleRing (float.finite (-1))) []
        exampleEnchantment (by decide!) rfl (Or.inl rfl) ⟨by decide!, by decide!⟩).2 5
        (by decide!)).2.2.2 20 (by decide!)).2.2 (by decide!)).2 (by decide!)).2,
      ((((C23_cast_checks_charge exampleWorld exampleCast (exampleRing (float.finite (-1))) []
        exampleEnchantment (by decide!) rfl (Or.inl rfl) ⟨by decide!, by decide!⟩).2 5
        (by decide!)).2.2.1) (by decide!)).2.2.2
        ("VFX_FireBolt", "fire bolt sound", float.finite (3 / 2)) (by decide!)⟩⟩

/-- Claim C23, evaluated where it fails: a charge that a `float` does not hold
to the unit.  The staff has the full charge `2 ^ 27 = 134217728` and the
cast cost 5; the charge is not below the cost, the cast returns true, and
the new charge is 134217720, the float nearest to 134217723: the charge is
reduced by 8, not by the cast cost 5. -/
theorem C23_large_charge_not_reduced_by_cost :
    exampleStaff.enchantment ≠ "" ∧
    exampleWorld.findEnchantment exampleStaff.enchantment = Except.ok exampleLargeEnchantment ∧
    exampleLargeEnchantment.mData.mType = EnchantmentType.WhenUsed ∧
    exampleStaff.enchantmentCharge.isBinary32 ∧
    initialCharge exampleLargeEnchantment exampleStaff = float.finite 134217728 ∧
    effectiveCastCost exampleWorld exampleCast exampleLargeEnchantment = Result.value 5 ∧
    (exampleCast.cast exampleWorld exampleStaff []).1 = Result.value true ∧
    (exampleCast.cast exampleWorld exampleStaff []).2.2.1.enchantmentCharge =
      float.finite 134217720 ∧
    (134217728 : ℚ) - 5 ≠ 134217720 :=
  ⟨by decide!, rfl, rfl, ⟨by decide!, by decide!⟩, by decide!, by decide!, by decide!,
    by decide!, by decide!⟩

end MWMechanics
